import Mathlib

/-!
# Four-in-a-row: board engine, move arbitration and move oracle

A shallow embedding of `backend/game.go`, `backend/bot.go` and the move
handling of `backend/server.go`, followed by the properties proved about them.

Conventions of the embedding
* A Go `int` is an `Int`; no computation of the program comes near the 64-bit
  range except `MoveCount++`, which is wrapped explicitly.
* The board `[Rows][Cols]int` is a vector of 6 vectors of 7 cells; an index
  expression `g.Board[r][c]` with unchecked `int` indices is `cellAt`, which is
  `none` exactly where Go would fault.
* A method that mutates its receiver returns the receiver's new value
  together with its results.
* `time.Now()` is an argument: one reading for each call the method makes.
-/

namespace FourInRow

/-! ## Constants and data model (`game.go`) -/

def Rows : Int := 6
def Cols : Int := 7
def Empty : Int := 0
def Player1 : Int := 1
def Player2 : Int := 2

abbrev Time := Int

/-- The grid `[Rows][Cols]int`, an array of 6 rows of 7 cells: row 0 is the
top row, row 5 the bottom row. -/
structure Board where
  cells : Mathlib.Vector (Mathlib.Vector Int 7) 6
  deriving DecidableEq

/-- The read `Board[r][c]` with indices known to be in range. -/
def Board.get (b : Board) (r : Fin 6) (c : Fin 7) : Int :=
  (b.cells.get r).get c

/-- The assignment `Board[r][c] = v`. -/
def Board.set (b : Board) (r : Fin 6) (c : Fin 7) (v : Int) : Board :=
  ⟨b.cells.set r ((b.cells.get r).set c v)⟩

/-- The zero value `[Rows][Cols]int{}`. -/
def Board.empty : Board :=
  ⟨Mathlib.Vector.replicate 6 (Mathlib.Vector.replicate 7 Empty)⟩

/-- A board written row by row, top row first; missing cells are `Empty`. -/
def Board.ofRows (rows : List (List Int)) : Board :=
  ⟨Mathlib.Vector.ofFn fun i => Mathlib.Vector.ofFn fun j =>
    (rows.getD i.val []).getD j.val Empty⟩

/-- The read `Board[r][c]` for unchecked `int` indices: `none` where the index
is out of range. -/
def cellAt (b : Board) (r c : Int) : Option Int :=
  if h : 0 ≤ r ∧ r < Rows ∧ 0 ≤ c ∧ c < Cols then
    some (b.get ⟨r.toNat, by simp only [Rows] at h; omega⟩
      ⟨c.toNat, by simp only [Cols] at h; omega⟩)
  else none

structure Player where
  Username : String
  PlayerNum : Int
  /-- The connection handle; `none` is the nil pointer. -/
  Conn : Option Nat
  IsBot : Bool
  Connected : Bool
  LastSeen : Time
  deriving DecidableEq

structure Game where
  ID : String
  Board : Board
  /-- The seat pointers; `none` is the nil pointer. -/
  Player1 : Option Player
  Player2 : Option Player
  CurrentTurn : Int
  Status : String
  Winner : Int
  StartTime : Time
  EndTime : Time
  MoveCount : Int
  LastActivityTime : Time
  deriving DecidableEq

/-- The constructor `NewGame`: both readings of the clock are arguments, the
fields it does not mention have their zero value. -/
def NewGame (gameID : String) (tStart tActivity : Time) : Game :=
  { ID := gameID
    Board := Board.empty
    Player1 := none
    Player2 := none
    CurrentTurn := Player1
    Status := "waiting"
    Winner := 0
    StartTime := tStart
    EndTime := 0
    MoveCount := 0
    LastActivityTime := tActivity }

/-- The value of a 64-bit signed `int` after an arithmetic step. -/
def wrapInt64 (x : Int) : Int := (x + 2 ^ 63) % 2 ^ 64 - 2 ^ 63

/-! ## Win detection -/

/-- One of the two `for` loops of `checkDirection`: starting at `(r, c)` and
stepping by `(dRow, dCol)`, the number of iterations made while the cell is in
the grid and holds `player`. The loop has no counter of its own; `fuel` bounds
the iterations of the model (`scanRun_fuel_irrelevant` shows seven are never
exhausted for the directions `CheckWin` uses). -/
def scanRun (b : Board) (player dRow dCol : Int) : Nat → Int → Int → Int
  | 0, _, _ => 0
  | fuel + 1, r, c =>
    if cellAt b r c = some player then
      1 + scanRun b player dRow dCol fuel (r + dRow) (c + dCol)
    else 0

/-- The method `checkDirection`. -/
def checkDirection (b : Board) (row col player dRow dCol : Int) : Bool :=
  let count := 1 + scanRun b player dRow dCol 7 (row + dRow) (col + dCol)
  let count := count + scanRun b player (-dRow) (-dCol) 7 (row - dRow) (col - dCol)
  decide (count ≥ 4)

/-- The method `CheckWin`. -/
def CheckWin (b : Board) (row col player : Int) : Bool :=
  if row < 0 ∨ row ≥ Rows ∨ col < 0 ∨ col ≥ Cols then false
  else if player ≠ Player1 ∧ player ≠ Player2 then false
  else if checkDirection b row col player 0 1 then true
  else if checkDirection b row col player 1 0 then true
  else if checkDirection b row col player 1 1 then true
  else if checkDirection b row col player 1 (-1) then true
  else false

/-! ## Drops, full board, legal moves, simulation -/

/-- The rows in the order of the loop `for r := Rows - 1; r >= 0; r--`. -/
def rowsBottomUp : List (Fin 6) := [5, 4, 3, 2, 1, 0]

/-- The columns in the order of the loop `for c := 0; c < Cols; c++`. -/
def allCols : List (Fin 7) := [0, 1, 2, 3, 4, 5, 6]

/-- The rows in the order of the loop `for row := 0; row < Rows; row++`. -/
def allRows : List (Fin 6) := [0, 1, 2, 3, 4, 5]

/-- The loop "find lowest available row" of `MakeMove`, `SimulateMove` and
`getLowestRow`: the first row from the bottom whose cell in column `c` is
`Empty`; `none` is the sentinel `-1`. -/
def lowestEmptyRow (b : Board) (c : Fin 7) : Option (Fin 6) :=
  rowsBottomUp.find? (fun r => b.get r c = Empty)

/-- The column index of an `int` that passed the check `0 <= col < Cols`. -/
def toCol (col : Int) (h : ¬(col < 0 ∨ col ≥ Cols)) : Fin 7 :=
  ⟨col.toNat, by simp only [Cols] at h; omega⟩

/-- The method `IsBoardFull`. -/
def IsBoardFull (b : Board) : Bool :=
  allCols.all (fun c => b.get 0 c ≠ Empty)

/-- The method `GetValidMoves`. -/
def GetValidMoves (b : Board) : List (Fin 7) :=
  allCols.filter (fun c => b.get 0 c = Empty)

/-- The errors `MakeMove` returns, one for each `fmt.Errorf`. -/
inductive MoveError where
  | gameNil
  | notPlaying
  | notYourTurn
  | invalidColumn
  | invalidPlayer
  | columnFull
  deriving DecidableEq, Repr

/-- The method `MakeMove` on a non-nil receiver: the game after the call and
the error returned (`none` is `nil`). `tActivity` and `tEnd` are the readings
of `time.Now()` for `LastActivityTime` and `EndTime`. -/
def MakeMove (g : Game) (col playerNum : Int) (tActivity tEnd : Time) :
    Game × Option MoveError :=
  if g.Status ≠ "playing" then (g, some .notPlaying)
  else if g.CurrentTurn ≠ playerNum then (g, some .notYourTurn)
  else if h : col < 0 ∨ col ≥ Cols then (g, some .invalidColumn)
  else if playerNum ≠ Player1 ∧ playerNum ≠ Player2 then (g, some .invalidPlayer)
  else
    match lowestEmptyRow g.Board (toCol col h) with
    | none => (g, some .columnFull)
    | some row =>
      let g := { g with Board := g.Board.set row (toCol col h) playerNum }
      let g := { g with MoveCount := wrapInt64 (g.MoveCount + 1) }
      let g := { g with LastActivityTime := tActivity }
      if CheckWin g.Board row col playerNum then
        ({ g with Status := "finished", Winner := playerNum, EndTime := tEnd }, none)
      else if IsBoardFull g.Board then
        ({ g with Status := "finished", Winner := 0, EndTime := tEnd }, none)
      else if g.CurrentTurn = Player1 then
        ({ g with CurrentTurn := Player2 }, none)
      else
        ({ g with CurrentTurn := Player1 }, none)

/-- The method `SimulateMove`: the game after the call and the three results. -/
def SimulateMove (g : Game) (col player : Int) : Game × Int × Int × Bool :=
  if h : col < 0 ∨ col ≥ Cols then (g, -1, -1, false)
  else if player ≠ Player1 ∧ player ≠ Player2 then (g, -1, -1, false)
  else
    match lowestEmptyRow g.Board (toCol col h) with
    | none => (g, -1, -1, false)
    | some row =>
      let g := { g with Board := g.Board.set row (toCol col h) player }
      let wins := CheckWin g.Board row col player
      let g := { g with Board := g.Board.set row (toCol col h) Empty }
      (g, row, col, wins)

/-! ## The move oracle (`bot.go`) -/

structure Bot where
  PlayerNum : Int

def NewBot (playerNum : Int) : Bot := { PlayerNum := playerNum }

def max (a b : Int) : Int := if a > b then a else b

def min (a b : Int) : Int := if a < b then a else b

def MinInt32 : Int := -2147483648

def MaxInt32 : Int := 2147483647

/-- The write `game.Board[row][col] = v` of the bot's search. -/
def Game.setCell (g : Game) (row : Fin 6) (col : Fin 7) (v : Int) : Game :=
  { g with Board := g.Board.set row col v }

/-- The method `getLowestRow`; `none` is the result `-1`. -/
def getLowestRow (game : Game) (col : Fin 7) : Option (Fin 6) :=
  lowestEmptyRow game.Board col

/-- The direction table of `evaluatePosition`. -/
def directions : List (Int × Int) := [(0, 1), (1, 0), (1, 1), (1, -1)]

/-- One of the two loops `for i := 0; i < 3; i++` of `evaluatePosition`, with
`n` iterations left: the values of `count` and `openEnds` when it ends. A cell
outside the grid is skipped without leaving the loop. -/
def evalScan (b : Board) (player dRow dCol : Int) : Nat → Int → Int → Int → Int → Int × Int
  | 0, _, _, count, openEnds => (count, openEnds)
  | n + 1, r, c, count, openEnds =>
    match cellAt b r c with
    | some v =>
      if v = player then evalScan b player dRow dCol n (r + dRow) (c + dCol) (count + 1) openEnds
      else if v = Empty then (count, openEnds + 1)
      else (count, openEnds)
    | none => evalScan b player dRow dCol n (r + dRow) (c + dCol) count openEnds

/-- The method `evaluatePosition`. -/
def evaluatePosition (b : Board) (row col player : Int) : Int :=
  directions.foldl (fun score dir =>
    let (count, openEnds) := evalScan b player dir.1 dir.2 3 (row + dir.1) (col + dir.2) 1 0
    let (count, openEnds) :=
      evalScan b player (-dir.1) (-dir.2) 3 (row - dir.1) (col - dir.2) count openEnds
    if count ≥ 4 then score + 1000
    else if count = 3 ∧ openEnds > 0 then score + 100
    else if count = 2 ∧ openEnds > 0 then score + 10
    else if count = 1 ∧ openEnds > 1 then score + 1
    else score) 0

/-- The method `evaluateBoard`. -/
def evaluateBoard (bot : Bot) (b : Board) : Int :=
  let opponent := if bot.PlayerNum = Player1 then Player2 else Player1
  let score := allRows.foldl (fun score row =>
    allCols.foldl (fun score col =>
      if b.get row col = bot.PlayerNum then score + evaluatePosition b row col bot.PlayerNum
      else if b.get row col = opponent then score - evaluatePosition b row col opponent
      else score) score) 0
  let centerCol : Fin 7 := 3
  allRows.foldl (fun score row =>
    if b.get row centerCol = bot.PlayerNum then score + 3 else score) score

/-- The loop over `validMoves` in the maximizing branch of `minimax`; `rec` is
the recursive call at `depth - 1`. -/
def maxLoop (bot : Bot) (depth : Nat) (rec : Game → Int → Int → Game × Int) :
    List (Fin 7) → Game → Int → Int → Int → Game × Int
  | [], game, maxScore, _, _ => (game, maxScore)
  | col :: rest, game, maxScore, alpha, beta =>
    match getLowestRow game col with
    | none => maxLoop bot depth rec rest game maxScore alpha beta
    | some row =>
      let game := game.setCell row col bot.PlayerNum
      if CheckWin game.Board row col bot.PlayerNum then
        (game.setCell row col Empty, 10000 - (5 - (depth : Int)))
      else
        let (game, score) := rec game alpha beta
        let game := game.setCell row col Empty
        let maxScore := max maxScore score
        let alpha := max alpha score
        if beta ≤ alpha then (game, maxScore)
        else maxLoop bot depth rec rest game maxScore alpha beta

/-- The loop over `validMoves` in the minimizing branch of `minimax`. -/
def minLoop (opponent : Int) (depth : Nat) (rec : Game → Int → Int → Game × Int) :
    List (Fin 7) → Game → Int → Int → Int → Game × Int
  | [], game, minScore, _, _ => (game, minScore)
  | col :: rest, game, minScore, alpha, beta =>
    match getLowestRow game col with
    | none => minLoop opponent depth rec rest game minScore alpha beta
    | some row =>
      let game := game.setCell row col opponent
      if CheckWin game.Board row col opponent then
        (game.setCell row col Empty, -10000 + (5 - (depth : Int)))
      else
        let (game, score) := rec game alpha beta
        let game := game.setCell row col Empty
        let minScore := min minScore score
        let beta := min beta score
        if beta ≤ alpha then (game, minScore)
        else minLoop opponent depth rec rest game minScore alpha beta

/-- The method `minimax`, by recursion on `depth` (a natural number: it is 5
at the only outside call and decreases by one down to the test `depth == 0`).
The result is the game after the call and the score. -/
def minimax (bot : Bot) (opponent : Int) :
    Nat → Game → Bool → Int → Int → Game × Int
  | 0, game, _, _, _ => (game, evaluateBoard bot game.Board)
  | depth + 1, game, isMaximizing, alpha, beta =>
    if IsBoardFull game.Board then (game, 0)
    else
      let validMoves := GetValidMoves game.Board
      if validMoves.length = 0 then (game, 0)
      else if isMaximizing then
        maxLoop bot (depth + 1) (fun g a b => minimax bot opponent depth g false a b)
          validMoves game MinInt32 alpha beta
      else
        minLoop opponent (depth + 1) (fun g a b => minimax bot opponent depth g true a b)
          validMoves game MaxInt32 alpha beta

/-- The loops 1 and 2 of `GetBestMove`: the first column of `validMoves` at
which `SimulateMove` reports a win for `player`. -/
def firstWinning (player : Int) : List (Fin 7) → Game → Game × Option (Fin 7)
  | [], game => (game, none)
  | col :: rest, game =>
    match SimulateMove game col player with
    | (game, _, _, wins) => if wins then (game, some col) else firstWinning player rest game

/-- The flag `wins` that `SimulateMove(col, player)` returns. -/
def simWins (game : Game) (player : Int) (col : Fin 7) : Bool :=
  (SimulateMove game col player).2.2.2

/-- The loop 3 of `GetBestMove`; `beta` stays `math.MaxInt32`. -/
def searchLoop (bot : Bot) (opponent : Int) :
    List (Fin 7) → Game → Int → Fin 7 → Int → Int → Game × Fin 7
  | [], game, _, bestMove, _, _ => (game, bestMove)
  | col :: rest, game, bestScore, bestMove, alpha, beta =>
    match getLowestRow game col with
    | none => searchLoop bot opponent rest game bestScore bestMove alpha beta
    | some row =>
      let game := game.setCell row col bot.PlayerNum
      let (game, score) := minimax bot opponent 5 game false alpha beta
      let game := game.setCell row col Empty
      let best : Int × Fin 7 := if score > bestScore then (score, col) else (bestScore, bestMove)
      let alpha := max alpha best.1
      searchLoop bot opponent rest game best.1 best.2 alpha beta

/-- The method `GetBestMove`: the game after the call and the column chosen
(`-1` when there is no legal move). -/
def GetBestMove (bot : Bot) (game : Game) : Game × Int :=
  let opponent := if bot.PlayerNum = Player1 then Player2 else Player1
  let validMoves := GetValidMoves game.Board
  if h : validMoves.length = 0 then (game, -1)
  else
    match firstWinning bot.PlayerNum validMoves game with
    | (game, some col) => (game, col)
    | (game, none) =>
      match firstWinning opponent validMoves game with
      | (game, some col) => (game, col)
      | (game, none) =>
        let bestMove := validMoves.get ⟨validMoves.length / 2, Nat.div_lt_self (by omega) (by omega)⟩
        match searchLoop bot opponent validMoves game MinInt32 bestMove MinInt32 MaxInt32 with
        | (game, col) => (game, col)

/-! ## Move handling of the session registry (`server.go`, `kafka.go`) -/

/-- The map built by `getGameState`. -/
structure GameState where
  board : Board
  currentTurn : Int
  status : String
  winner : Int
  moveCount : Int
  deriving DecidableEq

/-- The outbound `Message` values, by their `Type`; `winnerName` is the key
that `handleMove` adds to the game state of a finished game. -/
inductive Message where
  | error (message : String)
  | waiting (message : String)
  | gameStart (gameId : String) (playerNum : Int) (opponent : String)
      (opponentIsBot : Bool) (gameState : GameState)
  | gameUpdate (gameState : GameState) (winnerName : Option String)
  | reconnected (gameId : String) (playerNum : Int) (gameState : GameState)
  deriving DecidableEq

structure MoveData where
  PlayerNum : Int
  Column : Int
  MoveNum : Int
  deriving DecidableEq

structure GameResult where
  Winner : Int
  TotalMoves : Int
  DurationSecs : Int
  deriving DecidableEq

structure GameEvent where
  EventType : String
  GameID : String
  Timestamp : Time
  Player1 : String
  Player2 : String
  Player2IsBot : Bool
  Move : Option MoveData
  Result : Option GameResult
  deriving DecidableEq

/-- A pointer `*Game`: the index of the object among the allocated games. -/
abbrev GamePtr := Nat

/-- What a handler does to the world outside the registry, in order. -/
inductive Effect where
  /-- A call `conn.WriteJSON(msg)`. -/
  | write (conn : Nat) (msg : Message)
  /-- A call `gs.kafka.SendEvent(event)`. -/
  | sendEvent (event : GameEvent)
  /-- A call `gs.database.SaveGame(game)`. -/
  | saveGame (game : Game)
  /-- A call `gs.database.UpdatePlayerStats(username, won, drawn)`. -/
  | updatePlayerStats (username : String) (won drawn : Bool)
  /-- The statement `go bot.MakeMoveWithDelay(game, gs)` for `NewBot(Player2)`. -/
  | spawnBot (game : GamePtr)
  deriving DecidableEq

/-- The struct `GameServer` without its lock. The `Game` objects live in
`objects`; the map `games` holds pointers to them. `database` and `kafka` tell
whether the collaborator pointer is non-nil. -/
structure GameServer where
  objects : List Game
  games : List (String × GamePtr)
  waitingPlayers : List Player
  playerGames : List (String × String)
  database : Bool
  kafka : Bool
  deriving DecidableEq

/-- The statement `delete(m, key)` on a map kept as an association list. -/
def mapDelete {α : Type} (m : List (String × α)) (key : String) : List (String × α) :=
  m.filter (fun kv => kv.1 ≠ key)

/-- What `handleMove` takes from outside: the four readings of `time.Now()`
(two in `MakeMove`, one for each event) and whether the write to each seat
succeeds. -/
structure MoveEnv where
  tActivity : Time
  tEnd : Time
  tMoveEvent : Time
  tEndEvent : Time
  write1Ok : Bool
  write2Ok : Bool

/-- The method `getGameState`. -/
def getGameState (game : Game) : GameState :=
  { board := game.Board
    currentTurn := game.CurrentTurn
    status := game.Status
    winner := game.Winner
    moveCount := game.MoveCount }

/-- The method `handleGameEnd` on the game object `game`; `none` is the fault
of dereferencing a nil seat. Time is in nanoseconds, and the duration in
seconds is the integer quotient of the nanoseconds. Go makes the conversion
`int(d.Seconds())` through `float64`, which gives the same number for every
duration below 2^24 seconds; from there on the rounding of `float64` can add
one second to a duration that ends in .999999999. The field `DurationSecs` of
the event is the only place where the duration is used. -/
def handleGameEnd (gs : GameServer) (game : Game) (tEndEvent : Time) :
    Option (GameServer × List Effect) := do
  let p1 ← game.Player1
  let p2 ← game.Player2
  let stats : List Effect :=
    if game.Winner = 0 then
      (if !p1.IsBot then [Effect.updatePlayerStats p1.Username false true] else []) ++
      (if !p2.IsBot then [Effect.updatePlayerStats p2.Username false true] else [])
    else
      let winner := if game.Winner = Player2 then p2 else p1
      let loser := if game.Winner = Player2 then p1 else p2
      (if !winner.IsBot then [Effect.updatePlayerStats winner.Username true false] else []) ++
      (if !loser.IsBot then [Effect.updatePlayerStats loser.Username false false] else [])
  let db : List Effect := if gs.database then Effect.saveGame game :: stats else []
  let ev : List Effect :=
    if gs.kafka then
      [Effect.sendEvent
        { EventType := "game_end"
          GameID := game.ID
          Timestamp := tEndEvent
          Player1 := p1.Username
          Player2 := p2.Username
          Player2IsBot := p2.IsBot
          Move := none
          Result := some
            { Winner := game.Winner
              TotalMoves := game.MoveCount
              DurationSecs := Int.tdiv (game.EndTime - game.StartTime) 1000000000 } }]
    else []
  let playerGames := mapDelete gs.playerGames p1.Username
  let playerGames := if !p2.IsBot then mapDelete playerGames p2.Username else playerGames
  pure ({ gs with playerGames := playerGames }, db ++ ev)

/-- The method `handleMove`: the registry after the call and what was sent,
or `none` for a fault (a nil seat dereferenced, or a pointer to no object). -/
def handleMove (gs : GameServer) (game : Option GamePtr) (col playerNum : Int)
    (env : MoveEnv) : Option (GameServer × List Effect) :=
  match game with
  | none => some (gs, [])
  | some ptr =>
    match gs.objects.get? ptr with
    | none => none
    | some g =>
      if g.Status ≠ "playing" then some (gs, [])
      else if col < 0 ∨ col ≥ Cols then some (gs, [])
      else
        match MakeMove g col playerNum env.tActivity env.tEnd with
        | (g, some _) => some ({ gs with objects := gs.objects.set ptr g }, [])
        | (g, none) => do
          let p1 ← g.Player1
          let p2 ← g.Player2
          let ev : List Effect :=
            if gs.kafka then
              [Effect.sendEvent
                { EventType := "move"
                  GameID := g.ID
                  Timestamp := env.tMoveEvent
                  Player1 := p1.Username
                  Player2 := p2.Username
                  Player2IsBot := p2.IsBot
                  Move := some { PlayerNum := playerNum, Column := col, MoveNum := g.MoveCount }
                  Result := none }]
            else []
          let winnerName : Option String :=
            if g.Status = "finished" then
              if g.Winner = Player1 then some p1.Username
              else if g.Winner = Player2 then some p2.Username
              else some ""
            else none
          let msg := Message.gameUpdate (getGameState g) winnerName
          let (p1, w1) : Player × List Effect :=
            match p1.Conn with
            | some conn =>
              if p1.Connected then
                (if env.write1Ok then p1 else { p1 with Connected := false }, [Effect.write conn msg])
              else (p1, [])
            | none => (p1, [])
          let (p2, w2) : Player × List Effect :=
            match p2.Conn with
            | some conn =>
              if p2.Connected ∧ !p2.IsBot then
                (if env.write2Ok then p2 else { p2 with Connected := false }, [Effect.write conn msg])
              else (p2, [])
            | none => (p2, [])
          let g := { g with Player1 := some p1, Player2 := some p2 }
          let gs := { gs with objects := gs.objects.set ptr g }
          if g.Status = "finished" then
            let (gs, fin) ← handleGameEnd gs g env.tEndEvent
            pure (gs, ev ++ w1 ++ w2 ++ fin)
          else if p2.IsBot ∧ g.CurrentTurn = Player2 then
            if g.Status = "playing" then pure (gs, ev ++ w1 ++ w2 ++ [Effect.spawnBot ptr])
            else pure (gs, ev ++ w1 ++ w2)
          else pure (gs, ev ++ w1 ++ w2)

/-! ## Joining, matchmaking and cleanup (`server.go`) -/

/-- The duration `time.Second`, in the nanoseconds of `Time`. -/
def Second : Int := 1000000000

/-- The constructor `NewGameServer`: an empty registry. The two loops it starts
are `matchmakingSweep` and `cleanupSweep`, run by their tickers. -/
def NewGameServer (database kafka : Bool) : GameServer :=
  { objects := []
    games := []
    waitingPlayers := []
    playerGames := []
    database := database
    kafka := kafka }

/-- The read `m[key]` of a map kept as an association list; `none` when the
key is absent. -/
def mapGet {α : Type} (m : List (String × α)) (key : String) : Option α :=
  (m.find? (fun kv => kv.1 = key)).map (fun kv => kv.2)

/-- The statement `m[key] = v`. -/
def mapInsert {α : Type} (m : List (String × α)) (key : String) (v : α) : List (String × α) :=
  mapDelete m key ++ [(key, v)]

/-- The function `isValidUsername`; `len(username)` is the length in bytes and
the loop ranges over the characters. -/
def isValidUsername (username : String) : Bool :=
  if username.utf8ByteSize = 0 ∨ username.utf8ByteSize > 50 then false
  else
    username.data.all fun char =>
      ('a' ≤ char ∧ char ≤ 'z') ∨ ('A' ≤ char ∧ char ≤ 'Z') ∨ ('0' ≤ char ∧ char ≤ '9') ∨
        char = '_' ∨ char = '-' ∨ char = ' '

/-- The method `reconnectPlayer` on the game object at `game`. -/
def reconnectPlayer (gs : GameServer) (game : GamePtr) (username : String) (conn : Nat)
    (now : Time) : Option (GameServer × List Effect) := do
  let g ← gs.objects.get? game
  let p1 ← g.Player1
  if p1.Username = username then
    let g := { g with Player1 := some { p1 with Conn := some conn, Connected := true, LastSeen := now } }
    pure ({ gs with objects := gs.objects.set game g },
      [Effect.write conn (Message.reconnected g.ID p1.PlayerNum (getGameState g))])
  else
    let p2 ← g.Player2
    if p2.Username = username then
      let g := { g with Player2 := some { p2 with Conn := some conn, Connected := true, LastSeen := now } }
      pure ({ gs with objects := gs.objects.set game g },
        [Effect.write conn (Message.reconnected g.ID p2.PlayerNum (getGameState g))])
    else pure (gs, [])

/-- The end of `handleJoin`, from the check "already waiting" on. -/
def handleJoinWaiting (gs : GameServer) (conn : Nat) (username : String) (now : Time) :
    GameServer × List Effect :=
  if gs.waitingPlayers.any (fun wp => wp.Username = username) then (gs, [])
  else
    let player : Player :=
      { Username := username, PlayerNum := 0, Conn := some conn, IsBot := false,
        Connected := true, LastSeen := now }
    ({ gs with waitingPlayers := gs.waitingPlayers ++ [player] },
      [Effect.write conn (Message.waiting "Waiting for opponent...")])

/-- The method `handleJoin`. -/
def handleJoin (gs : GameServer) (conn : Nat) (username : String) (now : Time) :
    Option (GameServer × List Effect) :=
  if username = "" ∨ username.utf8ByteSize > 50 then
    some (gs, [Effect.write conn (Message.error "Invalid username. Must be 1-50 characters.")])
  else if isValidUsername username = false then
    some (gs, [Effect.write conn
      (Message.error "Invalid username. Only alphanumeric and basic characters allowed.")])
  else
    match mapGet gs.playerGames username with
    | some gameID =>
      match mapGet gs.games gameID with
      | some game =>
        match gs.objects.get? game with
        | none => none
        | some g =>
          if g.Status = "playing" then reconnectPlayer gs game username conn now
          else
            some (handleJoinWaiting { gs with playerGames := mapDelete gs.playerGames username }
              conn username now)
      | none =>
        some (handleJoinWaiting { gs with playerGames := mapDelete gs.playerGames username }
          conn username now)
    | none => some (handleJoinWaiting gs conn username now)

/-- What `createGame` takes from outside: the identifier `uuid.New()` gives and
the four readings of `time.Now()` (two in `NewGame`, the start time, the event). -/
structure CreateEnv where
  gameID : String
  tNewStart : Time
  tNewActivity : Time
  tStart : Time
  tEvent : Time

/-- The method `createGame`; the new game object is allocated at the end of
`objects`. -/
def createGame (gs : GameServer) (p1 p2 : Player) (withBot : Bool) (env : CreateEnv) :
    GameServer × List Effect :=
  let game := NewGame env.gameID env.tNewStart env.tNewActivity
  let p1 := { p1 with PlayerNum := Player1 }
  let p2 := { p2 with PlayerNum := Player2 }
  let game := { game with Player1 := some p1, Player2 := some p2, Status := "playing",
                          StartTime := env.tStart }
  let ptr : GamePtr := gs.objects.length
  let playerGames := mapInsert gs.playerGames p1.Username env.gameID
  let playerGames := if !withBot then mapInsert playerGames p2.Username env.gameID else playerGames
  let gs := { gs with objects := gs.objects ++ [game]
                      games := mapInsert gs.games env.gameID ptr
                      playerGames := playerGames }
  let gameState := getGameState game
  let w1 : List Effect :=
    match p1.Conn with
    | some conn =>
      [Effect.write conn (Message.gameStart env.gameID Player1 p2.Username withBot gameState)]
    | none => []
  let w2 : List Effect :=
    match p2.Conn with
    | some conn =>
      if !withBot then
        [Effect.write conn (Message.gameStart env.gameID Player2 p1.Username false gameState)]
      else []
    | none => []
  let ev : List Effect :=
    if gs.kafka then
      [Effect.sendEvent
        { EventType := "game_start"
          GameID := env.gameID
          Timestamp := env.tEvent
          Player1 := p1.Username
          Player2 := p2.Username
          Player2IsBot := withBot
          Move := none
          Result := none }]
    else []
  let bot : List Effect :=
    if withBot ∧ game.CurrentTurn = Player2 then [Effect.spawnBot ptr] else []
  (gs, w1 ++ w2 ++ ev ++ bot)

/-- One round of the ticker loop of `matchmakingLoop`; `now` is the reading
`time.Since` makes. -/
def matchmakingSweep (gs : GameServer) (now : Time) (env : CreateEnv) :
    GameServer × List Effect :=
  match gs.waitingPlayers with
  | p1 :: p2 :: rest => createGame { gs with waitingPlayers := rest } p1 p2 false env
  | [player] =>
    if now - player.LastSeen > 10 * Second then
      let botPlayer : Player :=
        { Username := "BOT", PlayerNum := 0, Conn := none, IsBot := true, Connected := true,
          LastSeen := 0 }
      createGame { gs with waitingPlayers := [] } player botPlayer true env
    else (gs, [])
  | [] => (gs, [])

/-- The body of the loop `for gameID, game := range gs.games` of `cleanupLoop`
for one entry; `now` is its reading of `time.Now()`. -/
def cleanupGame (gs : GameServer) (gameID : String) (game : GamePtr) (now tEndEvent : Time) :
    Option (GameServer × List Effect) := do
  let g ← gs.objects.get? game
  if g.Status ≠ "playing" then pure (gs, [])
  else
    let p1 ← g.Player1
    if !p1.Connected ∧ now - p1.LastSeen > 30 * Second then
      let g := { g with Status := "finished", Winner := Player2, EndTime := now }
      let gs := { gs with objects := gs.objects.set game g }
      let (gs, fin) ← handleGameEnd gs g tEndEvent
      pure ({ gs with games := mapDelete gs.games gameID }, fin)
    else
      let p2 ← g.Player2
      if !p2.Connected ∧ now - p2.LastSeen > 30 * Second then
        let g := { g with Status := "finished", Winner := Player1, EndTime := now }
        let gs := { gs with objects := gs.objects.set game g }
        let (gs, fin) ← handleGameEnd gs g tEndEvent
        pure ({ gs with games := mapDelete gs.games gameID }, fin)
      else pure (gs, [])

/-- The loop of `cleanupLoop` over the entries of the games map, in the order
of the list; each entry has its own clock readings. -/
def cleanupEntries (now tEndEvent : String → Time) :
    List (String × GamePtr) → GameServer → Option (GameServer × List Effect)
  | [], gs => some (gs, [])
  | (gameID, game) :: rest, gs => do
    let (gs, e1) ← cleanupGame gs gameID game (now gameID) (tEndEvent gameID)
    let (gs, e2) ← cleanupEntries now tEndEvent rest gs
    pure (gs, e1 ++ e2)

/-- One round of the ticker loop of `cleanupLoop`. -/
def cleanupSweep (gs : GameServer) (now tEndEvent : String → Time) :
    Option (GameServer × List Effect) :=
  cleanupEntries now tEndEvent gs.games gs

/-- The method `handleDisconnect`; `now` is its reading of `time.Now()`. It
writes to no connection. -/
def handleDisconnect (gs : GameServer) (username : String) (now : Time) :
    Option (GameServer × List Effect) :=
  match mapGet gs.playerGames username with
  | none => some (gs, [])
  | some gameID =>
    match mapGet gs.games gameID with
    | none => some (gs, [])
    | some game => do
      let g ← gs.objects.get? game
      let p1 ← g.Player1
      if p1.Username = username then
        let g := { g with Player1 := some { p1 with Connected := false, LastSeen := now } }
        pure ({ gs with objects := gs.objects.set game g }, [])
      else
        let p2 ← g.Player2
        if p2.Username = username then
          let g := { g with Player2 := some { p2 with Connected := false, LastSeen := now } }
          pure ({ gs with objects := gs.objects.set game g }, [])
        else pure (gs, [])

/-- The method `handleReconnect`; `now` is the reading of `time.Now()` in
`reconnectPlayer`. -/
def handleReconnect (gs : GameServer) (conn : Nat) (username : String) (now : Time) :
    Option (GameServer × List Effect) :=
  match mapGet gs.playerGames username with
  | none => some (gs, [Effect.write conn (Message.error "No active game found")])
  | some gameID =>
    match mapGet gs.games gameID with
    | none => some (gs, [Effect.write conn (Message.error "Game not found")])
    | some game => reconnectPlayer gs game username conn now

/-! ## Properties stated in the specification, as predicates on the model -/

/-- The gravity invariant: no piece floats above an empty cell. -/
def Gravity (b : Board) : Prop :=
  ∀ (c : Fin 7) (r r' : Fin 6), b.get r c ≠ Empty → r < r' → b.get r' c ≠ Empty

instance (b : Board) : Decidable (Gravity b) := by
  unfold Gravity; infer_instance

/-- On the axis `(dRow, dCol)` through `(row, col)`, the cells at the offsets
`-lo, ..., hi` are all in the grid and hold `p`: a contiguous run of
`lo + hi + 1` cells of `p` that contains `(row, col)`. -/
def RunThrough (b : Board) (row col p dRow dCol : Int) (lo hi : Nat) : Prop :=
  ∀ k : Int, -(lo : Int) ≤ k → k ≤ hi → cellAt b (row + k * dRow) (col + k * dCol) = some p

/-- Along one of the four axes (horizontal, vertical, the two diagonals) a
contiguous run of at least 4 cells holding `p` contains `(row, col)`. -/
def HasFourThrough (b : Board) (row col p : Int) : Prop :=
  ∃ d ∈ directions, ∃ lo hi : Nat, lo + hi + 1 ≥ 4 ∧ RunThrough b row col p d.1 d.2 lo hi

/-- A drop by seat `x` in column `c` gives `x` a four-in-a-row: the piece lands
on the lowest empty row `r` of the column, and on the board with the piece a
run of at least four cells of `x` passes through `(r, c)`. -/
def DropWins (b : Board) (c : Fin 7) (x : Int) : Prop :=
  ∃ r : Fin 6, lowestEmptyRow b c = some r ∧ HasFourThrough (b.set r c x) r c x

/-- The name has between 1 and 50 characters and each is an ASCII letter, an
ASCII digit, a space, a hyphen or an underscore. -/
def ValidName (u : String) : Prop :=
  1 ≤ u.length ∧ u.length ≤ 50 ∧
    ∀ c ∈ u.data, c.isAlpha = true ∨ c.isDigit = true ∨ c = ' ' ∨ c = '-' ∨ c = '_'

/-- The username index has a stale entry for `u`: it maps `u` to an identifier
that the games map does not hold or whose game is not playing. -/
def StaleEntry (gs : GameServer) (u : String) : Prop :=
  ∃ gameID, mapGet gs.playerGames u = some gameID ∧
    (mapGet gs.games gameID = none ∨
      ∃ ptr g, mapGet gs.games gameID = some ptr ∧ gs.objects.get? ptr = some g ∧
        g.Status ≠ "playing")

/-- The registry states reached from an empty registry through joins and
matchmaking sweeps. -/
inductive JoinSweepReachable : GameServer → Prop where
  | init (database kafka : Bool) : JoinSweepReachable (NewGameServer database kafka)
  | join (gs gs' : GameServer) (conn : Nat) (u : String) (now : Time) (eff : List Effect) :
      JoinSweepReachable gs → handleJoin gs conn u now = some (gs', eff) →
      JoinSweepReachable gs'
  | sweep (gs gs' : GameServer) (now : Time) (env : CreateEnv) (eff : List Effect) :
      JoinSweepReachable gs → matchmakingSweep gs now env = (gs', eff) →
      JoinSweepReachable gs'

/-- The registry states reached from an empty registry through the handlers
and the two ticker loops: joins, matchmaking sweeps, moves (of a player or of
the bot), cleanup sweeps, disconnects and reconnects. A step is a call that
returns; the clock readings, the write results and the identifier of a new
game are arbitrary. -/
inductive RegistryReachable : GameServer → Prop where
  | init (database kafka : Bool) : RegistryReachable (NewGameServer database kafka)
  | join (gs gs' : GameServer) (conn : Nat) (u : String) (now : Time) (eff : List Effect) :
      RegistryReachable gs → handleJoin gs conn u now = some (gs', eff) →
      RegistryReachable gs'
  | sweep (gs gs' : GameServer) (now : Time) (env : CreateEnv) (eff : List Effect) :
      RegistryReachable gs → matchmakingSweep gs now env = (gs', eff) →
      RegistryReachable gs'
  | move (gs gs' : GameServer) (game : Option GamePtr) (col playerNum : Int) (env : MoveEnv)
      (eff : List Effect) :
      RegistryReachable gs → handleMove gs game col playerNum env = some (gs', eff) →
      RegistryReachable gs'
  | cleanup (gs gs' : GameServer) (now tEndEvent : String → Time) (eff : List Effect) :
      RegistryReachable gs → cleanupSweep gs now tEndEvent = some (gs', eff) →
      RegistryReachable gs'
  | disconnect (gs gs' : GameServer) (u : String) (now : Time) (eff : List Effect) :
      RegistryReachable gs → handleDisconnect gs u now = some (gs', eff) →
      RegistryReachable gs'
  | reconnect (gs gs' : GameServer) (conn : Nat) (u : String) (now : Time)
      (eff : List Effect) :
      RegistryReachable gs → handleReconnect gs conn u now = some (gs', eff) →
      RegistryReachable gs'

/-- No name is twice in the waiting queue, and no name of the waiting queue
has an entry in the username index. -/
def QueueSound (gs : GameServer) : Prop :=
  (gs.waitingPlayers.map fun wp => wp.Username).Nodup ∧
    ∀ wp ∈ gs.waitingPlayers, mapGet gs.playerGames wp.Username = none

/-- The seat is marked disconnected and was last seen more than 30 seconds
before `now`. -/
def SeatExpired (p : Player) (now : Time) : Prop :=
  p.Connected = false ∧ now - p.LastSeen > 30 * Second

/-- The game `g` once forfeited at `now` in favour of `winner`. -/
def forfeitedGame (g : Game) (winner : Int) (now : Time) : Game :=
  { g with Status := "finished", Winner := winner, EndTime := now }

/-- The cleanup sweep leaves the game alone at `now`: it is not playing, or
neither seat has expired. -/
def NoForfeit (g : Game) (p1 p2 : Player) (now : Time) : Prop :=
  g.Status ≠ "playing" ∨ (¬SeatExpired p1 now ∧ ¬SeatExpired p2 now)

/-- The cleanup sweep forfeits the playing game at `now` in favour of `winner`,
the seat other than the expired one (SeatB when SeatA has expired). -/
def Forfeit (g : Game) (p1 p2 : Player) (now : Time) (winner : Int) : Prop :=
  g.Status = "playing" ∧
    ((SeatExpired p1 now ∧ winner = Player2) ∨
      (¬SeatExpired p1 now ∧ SeatExpired p2 now ∧ winner = Player1))

/-- The username index without the human seats `p1`, `p2` of a finished game. -/
def withoutSeats (playerGames : List (String × String)) (p1 p2 : Player) :
    List (String × String) :=
  if !p2.IsBot then mapDelete (mapDelete playerGames p1.Username) p2.Username
  else mapDelete playerGames p1.Username

/-- Whether `handleMove` writes the update to the seat `p`: the seat has a
connection and is marked connected, and SeatB is no bot. -/
def served (p : Player) (seatB : Bool) : Bool :=
  p.Conn.isSome && p.Connected && !(seatB && p.IsBot)

/-- The seat `p` after the broadcast of `handleMove`: marked disconnected when
the write to it was made and failed (`ok = false`), else as it was. -/
def afterWrite (p : Player) (seatB ok : Bool) : Player :=
  if served p seatB && !ok then { p with Connected := false } else p

/-- The write `handleMove` makes to the seat `p`, if it makes one. -/
def writeTo (p : Player) (seatB : Bool) (msg : Message) : List Effect :=
  match p.Conn with
  | some conn => if served p seatB then [Effect.write conn msg] else []
  | none => []

/-- What the end of a game with the seats `p1`, `p2` does to the username
index, from the registry `gs` before to the registry `gs'` after: the entries
of the human seats are gone, every other entry is as it was, and a join by the
name of a human seat is no reconnect but the join of a new player, who is
queued unless the name waits already. -/
def PlayersFreed (gs gs' : GameServer) (p1 p2 : Player) : Prop :=
  mapGet gs'.playerGames p1.Username = none ∧
  (p2.IsBot = false → mapGet gs'.playerGames p2.Username = none) ∧
  (∀ k, k ≠ p1.Username → (p2.IsBot = false → k ≠ p2.Username) →
    mapGet gs'.playerGames k = mapGet gs.playerGames k) ∧
  gs'.waitingPlayers = gs.waitingPlayers ∧
  ∀ (u : String) (conn : Nat) (now : Time),
    u = p1.Username ∨ (u = p2.Username ∧ p2.IsBot = false) → isValidUsername u = true →
    handleJoin gs' conn u now = some (handleJoinWaiting gs' conn u now) ∧
    ((∀ wp ∈ gs.waitingPlayers, wp.Username ≠ u) →
      handleJoin gs' conn u now =
        some ({ gs' with
            waitingPlayers := gs.waitingPlayers ++
              [{ Username := u, PlayerNum := 0, Conn := some conn, IsBot := false,
                 Connected := true, LastSeen := now }] },
          [Effect.write conn (Message.waiting "Waiting for opponent...")]))

/-- A game object as `createGame` has just allocated it. -/
def NewlyStarted (g : Game) : Prop :=
  ∃ (gs : GameServer) (p1 p2 : Player) (withBot : Bool) (env : CreateEnv),
    (createGame gs p1 p2 withBot env).1.objects.get? gs.objects.length = some g

/-- The game states reached from a newly started game by accepted moves, by
forfeiture in the cleanup sweep and by changes of the two seat records
(disconnects, reconnects, failed writes). The second component is the clock
reading of the step that finished the game, when one has. -/
inductive GameReachable : Game → Option Time → Prop where
  | start (g : Game) : NewlyStarted g → GameReachable g none
  | move (g : Game) (ended : Option Time) (col playerNum : Int) (tActivity tEnd : Time) :
      GameReachable g ended → (MakeMove g col playerNum tActivity tEnd).2 = none →
      GameReachable (MakeMove g col playerNum tActivity tEnd).1
        (if (MakeMove g col playerNum tActivity tEnd).1.Status = "finished" then some tEnd
          else ended)
  | forfeit (g : Game) (ended : Option Time) (p1 p2 : Player) (now : Time) (winner : Int) :
      GameReachable g ended → g.Player1 = some p1 → g.Player2 = some p2 →
      Forfeit g p1 p2 now winner → GameReachable (forfeitedGame g winner now) (some now)
  | seats (g : Game) (ended : Option Time) (p1 p2 : Player) :
      GameReachable g ended →
      GameReachable { g with Player1 := some p1, Player2 := some p2 } ended

/-- The cells of the grid, row by row. -/
def allCells : List (Fin 6 × Fin 7) :=
  allRows.flatMap fun r => allCols.map fun c => (r, c)

/-- The number of cells of the board that hold the value `v`. -/
def pieceCount (b : Board) (v : Int) : Nat :=
  allCells.countP fun rc => decide (b.get rc.1 rc.2 = v)

/-- The number of non-empty cells of the board. -/
def nonEmptyCount (b : Board) : Nat :=
  allCells.countP fun rc => decide (b.get rc.1 rc.2 ≠ Empty)

/-- A call of `MakeMove`: its arguments and the clock readings it sees. -/
structure MoveCall where
  col : Int
  playerNum : Int
  tActivity : Time
  tEnd : Time

/-- The game after a sequence of `MakeMove` calls made one after the other. -/
def runMoves (g : Game) : List MoveCall → Game
  | [] => g
  | m :: rest => runMoves (MakeMove g m.col m.playerNum m.tActivity m.tEnd).1 rest

/-- Whether every call of the sequence is accepted (returns `nil`). -/
def allAccepted (g : Game) : List MoveCall → Bool
  | [] => true
  | m :: rest =>
    match MakeMove g m.col m.playerNum m.tActivity m.tEnd with
    | (g, none) => allAccepted g rest
    | (_, some _) => false

/-- The two games show the same position: board, status, current turn and
winner are equal; identifier, seats, clock readings and move counter may
differ. -/
def SamePosition (g g' : Game) : Prop :=
  g.Board = g'.Board ∧ g.Status = g'.Status ∧ g.CurrentTurn = g'.CurrentTurn ∧
    g.Winner = g'.Winner

/-- The column and the seat of a call of `MakeMove`, without its clock
readings. -/
def columnAndSeat (m : MoveCall) : Int × Int := (m.col, m.playerNum)

/-! ## Lines of the board, plain minimax and the search score -/

/-- The cell of the line `L` at position `k`; `none` outside the line. -/
def lineCell (L : List Int) (k : Int) : Option Int :=
  if 0 ≤ k then L.get? k.toNat else none

/-- The loop of `evalScan` on a line given as the list of its cells, walked in
steps of `step` (1 or -1) from position `k`. -/
def lineScan (L : List Int) (player step : Int) : Nat → Int → Int → Int → Int × Int
  | 0, _, count, openEnds => (count, openEnds)
  | n + 1, k, count, openEnds =>
    match lineCell L k with
    | some v =>
      if v = player then lineScan L player step n (k + step) (count + 1) openEnds
      else if v = Empty then (count, openEnds + 1)
      else (count, openEnds)
    | none => lineScan L player step n (k + step) count openEnds

/-- The amount `evaluatePosition` adds for one direction, from the values of
`count` and `openEnds` after the two loops. -/
def scoreOf (count openEnds : Int) : Int :=
  if count ≥ 4 then 1000
  else if count = 3 ∧ openEnds > 0 then 100
  else if count = 2 ∧ openEnds > 0 then 10
  else if count = 1 ∧ openEnds > 1 then 1
  else 0

/-- The amount `evaluatePosition` adds for the direction `(dRow, dCol)`. -/
def dirScore (b : Board) (row col player dRow dCol : Int) : Int :=
  let (count, openEnds) := evalScan b player dRow dCol 3 (row + dRow) (col + dCol) 1 0
  let (count, openEnds) :=
    evalScan b player (-dRow) (-dCol) 3 (row - dRow) (col - dCol) count openEnds
  scoreOf count openEnds

/-- The same amount for the cell at position `k` of the line `L`. -/
def lineScore (L : List Int) (player : Int) (k : Int) : Int :=
  let (count, openEnds) := lineScan L player 1 3 (k + 1) 1 0
  let (count, openEnds) := lineScan L player (-1) 3 (k - 1) count openEnds
  scoreOf count openEnds

/-- The sum of the amounts of the cells of `L` that hold `player`, over the
positions below `n`. -/
def lineSum (L : List Int) (player : Int) : Nat → Int
  | 0 => 0
  | n + 1 =>
    lineSum L player n + (if lineCell L n = some player then lineScore L player n else 0)

/-- Whether four cells in a row of `L`, starting at a position below `n`, hold `player`. -/
def lineHasFour (L : List Int) (player : Int) : Nat → Bool
  | 0 => false
  | n + 1 =>
    lineHasFour L player n ||
      (lineCell L n == some player && lineCell L (n + 1) == some player &&
        lineCell L (n + 2) == some player && lineCell L (n + 3) == some player)

/-- The lists of length `n` over the cell values 0, 1, 2. -/
def allLines : Nat → List (List Int)
  | 0 => [[]]
  | n + 1 => (allLines n).flatMap fun L => [0 :: L, 1 :: L, 2 :: L]

/-- The largest sum of amounts a line of `n` cells without four in a row
reaches (for `n = 3`, 5 and 6 no line is longer in its direction). -/
def lineBound : Nat → Int
  | 0 => 0
  | 1 => 0
  | 2 => 0
  | 3 => 20
  | 4 => 300
  | 5 => 300
  | 6 => 320
  | _ => 600

/-- Whether every line of `allLines n` without four in a row of `player` stays
within `lineBound n`. -/
def linesWithinBound (n : Nat) (player : Int) : Bool :=
  (allLines n).all fun L => lineHasFour L player n || decide (lineSum L player n ≤ lineBound n)

/-- The class of a cell value for the player `p`: 1 for a cell of `p`, 0 for
an empty cell, 2 for any other value. -/
def cls (p v : Int) : Int := if v = p then 1 else if v = Empty then 0 else 2

/-- The cells of the board on the line that starts at `(r0, c0)` and makes
`n` steps of `(dRow, dCol)`. -/
def lineOf (b : Board) (r0 c0 dRow dCol : Int) (n : Nat) : List Int :=
  (List.range n).map fun (k : Nat) =>
    (cellAt b (r0 + (k : Int) * dRow) (c0 + (k : Int) * dCol)).getD 0

/-- The board holds no four in a row: no cell with a piece of a seat starts a
run of four cells of that seat to the right, downwards or along a diagonal. -/
def NoFour (b : Board) : Prop :=
  ∀ (r : Fin 6) (c : Fin 7), b.get r c = Player1 ∨ b.get r c = Player2 → ∀ d ∈ directions,
    ¬(cellAt b (r + d.1) (c + d.2) = some (b.get r c) ∧
      cellAt b (r + 2 * d.1) (c + 2 * d.2) = some (b.get r c) ∧
      cellAt b (r + 3 * d.1) (c + 3 * d.2) = some (b.get r c))

instance (b : Board) : Decidable (NoFour b) := by
  unfold NoFour; infer_instance

/-- The amount that the cell `(r, c)` adds to the score of `p` for the
direction `(dRow, dCol)`: its `dirScore` when it holds `p`, else nothing. -/
def cellTerm (b : Board) (p dRow dCol r c : Int) : Int :=
  if cellAt b r c = some p then dirScore b r c p dRow dCol else 0

/-- The sum of `cellTerm` over the 42 cells: what the cells of `p` add to the
score of `p` for the direction `(dRow, dCol)`. -/
def dirTotal (b : Board) (p dRow dCol : Int) : Int :=
  (allRows.map fun r =>
    (allCols.map fun c => cellTerm b p dRow dCol (r : Int) (c : Int)).sum).sum

/-- The sum of `evaluatePosition` over the cells that hold `p`. -/
def seatScore (b : Board) (p : Int) : Int :=
  (allRows.map fun r =>
    (allCols.map fun c => if b.get r c = p then evaluatePosition b r c p else 0).sum).sum

/-- The loop `maxLoop` with its cutoff `if beta <= alpha { break }` removed. -/
def maxLoopNoCut (bot : Bot) (depth : Nat) (rec : Game → Int → Int → Game × Int) :
    List (Fin 7) → Game → Int → Int → Int → Game × Int
  | [], game, maxScore, _, _ => (game, maxScore)
  | col :: rest, game, maxScore, alpha, beta =>
    match getLowestRow game col with
    | none => maxLoopNoCut bot depth rec rest game maxScore alpha beta
    | some row =>
      let game := game.setCell row col bot.PlayerNum
      if CheckWin game.Board row col bot.PlayerNum then
        (game.setCell row col Empty, 10000 - (5 - (depth : Int)))
      else
        let (game, score) := rec game alpha beta
        let game := game.setCell row col Empty
        let maxScore := max maxScore score
        let alpha := max alpha score
        maxLoopNoCut bot depth rec rest game maxScore alpha beta

/-- The loop `minLoop` with its cutoff `if beta <= alpha { break }` removed. -/
def minLoopNoCut (opponent : Int) (depth : Nat) (rec : Game → Int → Int → Game × Int) :
    List (Fin 7) → Game → Int → Int → Int → Game × Int
  | [], game, minScore, _, _ => (game, minScore)
  | col :: rest, game, minScore, alpha, beta =>
    match getLowestRow game col with
    | none => minLoopNoCut opponent depth rec rest game minScore alpha beta
    | some row =>
      let game := game.setCell row col opponent
      if CheckWin game.Board row col opponent then
        (game.setCell row col Empty, -10000 + (5 - (depth : Int)))
      else
        let (game, score) := rec game alpha beta
        let game := game.setCell row col Empty
        let minScore := min minScore score
        let beta := min beta score
        minLoopNoCut opponent depth rec rest game minScore alpha beta

/-- Plain minimax: the recursion of `minimax` with the two cutoff breaks
removed and the same terminal and heuristic scores. The window is still
passed along and updated, and is read nowhere. -/
def minimaxNoCut (bot : Bot) (opponent : Int) :
    Nat → Game → Bool → Int → Int → Game × Int
  | 0, game, _, _, _ => (game, evaluateBoard bot game.Board)
  | depth + 1, game, isMaximizing, alpha, beta =>
    if IsBoardFull game.Board then (game, 0)
    else
      let validMoves := GetValidMoves game.Board
      if validMoves.length = 0 then (game, 0)
      else if isMaximizing then
        maxLoopNoCut bot (depth + 1)
          (fun g a b => minimaxNoCut bot opponent depth g false a b)
          validMoves game MinInt32 alpha beta
      else
        minLoopNoCut opponent (depth + 1)
          (fun g a b => minimaxNoCut bot opponent depth g true a b)
          validMoves game MaxInt32 alpha beta

/-- The result `r` of a search in the window `(alpha, beta)` tells as much
about the value `v` as the window asks: `v` itself when `v` lies inside the
window, and else a bound on the same side of the window as `v`. -/
def WindowFits (alpha beta v r : Int) : Prop :=
  (v ≤ alpha → r ≤ alpha) ∧ (alpha < v → v < beta → r = v) ∧ (beta ≤ v → beta ≤ r)

/-- The search score of the legal column `col` for the bot: the value of
plain minimax at depth 5 on the position after the bot has dropped there, the
opponent to move. -/
def searchScore (bot : Bot) (game : Game) (col : Fin 7) : Int :=
  match getLowestRow game col with
  | some row =>
    (minimaxNoCut bot (if bot.PlayerNum = Player1 then Player2 else Player1) 5
      (game.setCell row col bot.PlayerNum) false MinInt32 MaxInt32).2
  | none => MinInt32

/-! ## Concrete games used to instantiate the theorems -/

/-- A human seat with an open connection. -/
def samplePlayer (name : String) (num : Int) (conn : Nat) : Player :=
  { Username := name, PlayerNum := num, Conn := some conn, IsBot := false,
    Connected := true, LastSeen := 0 }

/-- A game as `createGame` starts it: `NewGame`, two seats, status playing. -/
def startedGame : Game :=
  { NewGame "g1" 0 0 with
    Player1 := some (samplePlayer "alice" Player1 1)
    Player2 := some (samplePlayer "bob" Player2 2)
    Status := "playing"
    StartTime := 0 }

/-- The started game with another board. -/
def gameWithBoard (rows : List (List Int)) : Game :=
  { startedGame with Board := Board.ofRows rows }

/-- The board whose bottom row is `cells` and whose other rows are empty. -/
def bottomRow (cells : List Int) : Board :=
  Board.ofRows [[], [], [], [], [], cells]

/-- A playing game, SeatA to move, whose column 0 is full. -/
def fullColumnGame : Game :=
  gameWithBoard [[2], [1], [2], [1], [2], [1]]

/-- A registry that holds the started game, with both collaborators present. -/
def sampleServer : GameServer :=
  { objects := [startedGame]
    games := [("g1", 0)]
    waitingPlayers := []
    playerGames := [("alice", "g1"), ("bob", "g1")]
    database := true
    kafka := true }

/-- Clock readings and write results for one call of `handleMove`. -/
def sampleEnv : MoveEnv :=
  { tActivity := 10, tEnd := 11, tMoveEvent := 12, tEndEvent := 13,
    write1Ok := true, write2Ok := true }

/-- A playing game after 41 moves with no four in a row, SeatB to move: the
only empty cell is the top of column 6, and a SeatB piece there completes the
row `2 2 2 2` at the right end of the top row. -/
def lastCellGame : Game :=
  { gameWithBoard
      [[1, 2, 1, 2, 2, 2, 0],
       [2, 1, 1, 1, 2, 1, 2],
       [1, 1, 2, 2, 1, 2, 2],
       [1, 2, 1, 2, 1, 2, 1],
       [1, 1, 1, 2, 2, 1, 1],
       [2, 2, 2, 1, 1, 1, 2]] with
    CurrentTurn := Player2
    MoveCount := 41 }

/-- SeatB has three in a row on the bottom row, columns 1 to 3, with column 0
open; SeatA has four pieces and no winning drop; SeatB is to move. -/
def threatRows : List (List Int) :=
  [[], [], [], [], [0, 0, 0, 0, 1, 0, 0], [0, 2, 2, 2, 1, 1, 1]]

/-- SeatA has three in a row on the bottom row, columns 0 to 2, with column 3
open; SeatB has two pieces and no winning drop; SeatB is to move. -/
def blockRows : List (List Int) :=
  [[], [], [], [], [], [1, 1, 1, 0, 2, 2, 0]]

/-- A game finished as a draw: 21 pieces of each seat and no four in a row. -/
def fullBoardGame : Game :=
  { gameWithBoard
      [[2, 1, 1, 2, 2, 2, 1],
       [1, 2, 2, 2, 1, 2, 2],
       [2, 1, 1, 2, 1, 2, 1],
       [1, 2, 2, 1, 2, 1, 1],
       [1, 1, 2, 1, 2, 1, 2],
       [2, 1, 2, 1, 2, 1, 1]] with
    Status := "finished"
    MoveCount := 42 }

/-- Three accepted drops: SeatA in column 3, SeatB in column 3, SeatA in column 0. -/
def threeDrops : List MoveCall :=
  [⟨3, Player1, 10, 11⟩, ⟨3, Player2, 20, 21⟩, ⟨0, Player1, 30, 31⟩]

/-- The seven calls of the vertical-four scenario: SeatA drops in column 0 on
each of its turns, SeatB answers in the columns `b1`, `b2`, `b3`. -/
def verticalFour (b1 b2 b3 : Fin 7) : List MoveCall :=
  [⟨0, Player1, 1, 1⟩, ⟨b1, Player2, 2, 2⟩, ⟨0, Player1, 3, 3⟩, ⟨b2, Player2, 4, 4⟩,
   ⟨0, Player1, 5, 5⟩, ⟨b3, Player2, 6, 6⟩, ⟨0, Player1, 7, 7⟩]

/-- The readings and write results of the 7th call of the scenario. -/
def seventhEnv : MoveEnv :=
  { tActivity := 7, tEnd := 7, tMoveEvent := 12, tEndEvent := 13,
    write1Ok := true, write2Ok := true }

/-- The sample registry when six calls of the scenario have been made. -/
def sixMovesServer : GameServer :=
  { sampleServer with objects := [runMoves startedGame ((verticalFour 1 2 1).take 6)] }

/-- A playing game after 41 moves with no four in a row, SeatB to move: the
only empty cell is the top of column 0, and a SeatB piece there completes no
four, so the last drop ends the game as a draw. -/
def drawCellGame : Game :=
  { fullBoardGame with
    Board := fullBoardGame.Board.set 0 0 Empty
    Status := "playing"
    CurrentTurn := Player2
    MoveCount := 41 }

/-- The sample registry with `carol` waiting as well. -/
def waitingServer : GameServer :=
  { sampleServer with waitingPlayers := [samplePlayer "carol" 0 3] }

/-- The identifier and clock readings of one call of `createGame`. -/
def sampleCreateEnv : CreateEnv :=
  { gameID := "g2", tNewStart := 100, tNewActivity := 101, tStart := 102, tEvent := 103 }

/-- The sample registry with `carol` and `dave`, then `erin`, waiting. -/
def queueServer : GameServer :=
  { sampleServer with
    waitingPlayers := [samplePlayer "carol" 0 3, samplePlayer "dave" 0 4, samplePlayer "erin" 0 5] }

/-- The started game with `alice` marked disconnected, last seen at time 0. -/
def droppedGame : Game :=
  { startedGame with
    Player1 := some { samplePlayer "alice" Player1 1 with Connected := false } }

/-- A second playing game, `carol` against `dave`, both connected. -/
def otherGame : Game :=
  { startedGame with
    ID := "g2"
    Player1 := some (samplePlayer "carol" Player1 3)
    Player2 := some (samplePlayer "dave" Player2 4) }

/-- A registry with the dropped game, the other game and the finished draw. -/
def cleanupServer : GameServer :=
  { objects := [droppedGame, otherGame, { fullBoardGame with ID := "g3" }]
    games := [("g1", 0), ("g2", 1), ("g3", 2)]
    waitingPlayers := []
    playerGames := [("alice", "g1"), ("bob", "g1"), ("carol", "g2"), ("dave", "g2")]
    database := true
    kafka := true }

/-- The columns of 42 drops, SeatA first, that fill the board of
`fullBoardGame` without a four in a row on the way. -/
def drawColumns : List Int :=
  [1, 0, 0, 2, 0, 0, 0, 2, 1, 1, 1, 1, 1, 2, 2, 2, 2, 4, 3, 4, 3, 4, 3, 3, 5, 3, 5, 3, 5, 5,
   4, 5, 4, 4, 6, 6, 6, 5, 6, 6, 6, 0]

/-- The 42 calls of a drawn game: the seats alternate, and call `k` reads the
clock at `k + 1`. -/
def drawMoves : List MoveCall :=
  drawColumns.enum.map fun kc =>
    ⟨kc.2, if kc.1 % 2 = 0 then Player1 else Player2, (kc.1 : Int) + 1, (kc.1 : Int) + 1⟩

/-- The readings and write results of a call of `handleMove` 100 seconds
after the seats joined, in which the write to SeatB fails. -/
def failedWriteEnv : MoveEnv :=
  { tActivity := 100 * Second, tEnd := 100 * Second, tMoveEvent := 100 * Second,
    tEndEvent := 100 * Second, write1Ok := true, write2Ok := false }

/-- The three accepted drops of `threeDrops` and then a call by SeatB for
column 7, which is rejected. -/
def dropsThenInvalid : List MoveCall :=
  threeDrops ++ [⟨7, Player2, 40, 41⟩]

/-- Six drops in column 0, SeatA first: they fill the column without a four
in a row. -/
def columnZeroDrops : List MoveCall :=
  [⟨0, Player1, 10, 11⟩, ⟨0, Player2, 20, 21⟩, ⟨0, Player1, 30, 31⟩, ⟨0, Player2, 40, 41⟩,
   ⟨0, Player1, 50, 51⟩, ⟨0, Player2, 60, 61⟩]

/-! ## Basic facts about the board -/

theorem Board.get_set (b : Board) (r i : Fin 6) (c j : Fin 7) (v : Int) :
    (b.set r c v).get i j = if i = r ∧ j = c then v else b.get i j := by
  unfold Board.get Board.set
  by_cases hi : i = r
  · subst hi
    by_cases hj : j = c
    · subst hj; simp [Mathlib.Vector.get_set_same]
    · simp [Mathlib.Vector.get_set_same, hj, Mathlib.Vector.get_set_of_ne (Ne.symm hj)]
  · simp [hi, Mathlib.Vector.get_set_of_ne (Ne.symm hi)]

theorem Board.ext_get {b b' : Board} (h : ∀ i j, b.get i j = b'.get i j) : b = b' := by
  cases b with
  | mk cs =>
    cases b' with
    | mk cs' =>
      congr 1
      apply Mathlib.Vector.ext
      intro i
      apply Mathlib.Vector.ext
      intro j
      exact h i j

theorem Board.get_empty (i : Fin 6) (j : Fin 7) : Board.empty.get i j = Empty := by
  simp only [Board.empty, Board.get, Mathlib.Vector.get_replicate]

theorem Board.set_set_restore (b : Board) (r : Fin 6) (c : Fin 7) (v : Int)
    (h : b.get r c = Empty) : (b.set r c v).set r c Empty = b := by
  apply Board.ext_get
  intro i j
  rw [Board.get_set, Board.get_set]
  by_cases hij : i = r ∧ j = c
  · obtain ⟨rfl, rfl⟩ := hij
    simp [h]
  · simp [hij]

theorem cellAt_cast (b : Board) (r : Fin 6) (c : Fin 7) :
    cellAt b (r : Int) (c : Int) = some (b.get r c) := by
  have hr := r.isLt
  have hc := c.isLt
  unfold cellAt
  rw [dif_pos (by simp only [Rows, Cols]; omega)]
  simp

theorem cellAt_eq_some_iff (b : Board) (r c v : Int) :
    cellAt b r c = some v ↔
      ∃ (i : Fin 6) (j : Fin 7), r = (i : Int) ∧ c = (j : Int) ∧ b.get i j = v := by
  constructor
  · intro h
    unfold cellAt at h
    split at h
    · rename_i hin
      simp only [Rows, Cols] at hin
      refine ⟨⟨r.toNat, by omega⟩, ⟨c.toNat, by omega⟩, ?_, ?_, ?_⟩
      · simp; omega
      · simp; omega
      · simpa using h
    · simp at h
  · rintro ⟨i, j, rfl, rfl, hv⟩
    rw [cellAt_cast, hv]

/-! ## The drop row -/

theorem find?_descending {p : Fin 6 → Bool} :
    ∀ {l : List (Fin 6)} {r : Fin 6}, l.Pairwise (fun x y => y < x) → l.find? p = some r →
      ∀ r' ∈ l, r < r' → p r' = false
  | [], _, _, h => by simp at h
  | a :: l, r, hs, h => by
    intro r' hr' hlt
    rw [List.pairwise_cons] at hs
    rw [List.find?_cons] at h
    cases hpa : p a with
    | true =>
      rw [hpa] at h
      simp only [Option.some.injEq] at h
      subst h
      rcases List.mem_cons.1 hr' with rfl | hmem
      · exact absurd hlt (lt_irrefl _)
      · exact absurd hlt (not_lt.2 (le_of_lt (hs.1 r' hmem)))
    | false =>
      rw [hpa] at h
      rcases List.mem_cons.1 hr' with rfl | hmem
      · exact hpa
      · exact find?_descending hs.2 h r' hmem hlt

theorem rowsBottomUp_descending : rowsBottomUp.Pairwise (fun x y => y < x) := by
  unfold rowsBottomUp; decide

theorem mem_rowsBottomUp (r : Fin 6) : r ∈ rowsBottomUp := by
  unfold rowsBottomUp; fin_cases r <;> decide

theorem mem_allCols (c : Fin 7) : c ∈ allCols := by
  unfold allCols; fin_cases c <;> decide

theorem lowestEmptyRow_some_spec {b : Board} {c : Fin 7} {r : Fin 6}
    (h : lowestEmptyRow b c = some r) :
    b.get r c = Empty ∧ ∀ r' : Fin 6, r < r' → b.get r' c ≠ Empty := by
  unfold lowestEmptyRow at h
  refine ⟨by simpa using List.find?_some h, ?_⟩
  intro r' hlt
  simpa using find?_descending rowsBottomUp_descending h r' (mem_rowsBottomUp r') hlt

theorem lowestEmptyRow_eq_none (b : Board) (c : Fin 7) :
    lowestEmptyRow b c = none ↔ ∀ r : Fin 6, b.get r c ≠ Empty := by
  unfold lowestEmptyRow
  rw [List.find?_eq_none]
  constructor
  · intro h r
    simpa using h r (mem_rowsBottomUp r)
  · intro h r _
    simpa using h r

theorem lowestEmptyRow_eq_some (b : Board) (c : Fin 7) (r : Fin 6) :
    lowestEmptyRow b c = some r ↔
      b.get r c = Empty ∧ ∀ r' : Fin 6, r < r' → b.get r' c ≠ Empty := by
  constructor
  · exact lowestEmptyRow_some_spec
  · rintro ⟨hr, hab⟩
    cases hres : lowestEmptyRow b c with
    | none => exact absurd hr ((lowestEmptyRow_eq_none b c).1 hres r)
    | some r0 =>
      obtain ⟨h0, hab0⟩ := lowestEmptyRow_some_spec hres
      rcases lt_trichotomy r0 r with hlt | heq | hgt
      · exact absurd hr (hab0 r hlt)
      · rw [heq]
      · exact absurd h0 (hab r0 hgt)

/-! ## The shape of `MakeMove` -/

theorem toCol_cast (col : Int) (h : ¬(col < 0 ∨ col ≥ Cols)) : ((toCol col h : Fin 7) : Int) = col := by
  simp only [Cols] at h
  simp only [toCol]
  omega

/-- The game `MakeMove` leaves behind when it places a piece at `(row, c)`. -/
theorem MakeMove_of_drop (g : Game) (col playerNum : Int) (tActivity tEnd : Time)
    (hst : g.Status = "playing") (hturn : g.CurrentTurn = playerNum)
    (hcol : ¬(col < 0 ∨ col ≥ Cols)) (hp : playerNum = Player1 ∨ playerNum = Player2)
    (row : Fin 6) (hrow : lowestEmptyRow g.Board (toCol col hcol) = some row) :
    MakeMove g col playerNum tActivity tEnd =
      (if CheckWin (g.Board.set row (toCol col hcol) playerNum) row col playerNum then
        { g with Board := g.Board.set row (toCol col hcol) playerNum
                 MoveCount := wrapInt64 (g.MoveCount + 1)
                 LastActivityTime := tActivity
                 Status := "finished", Winner := playerNum, EndTime := tEnd }
      else if IsBoardFull (g.Board.set row (toCol col hcol) playerNum) then
        { g with Board := g.Board.set row (toCol col hcol) playerNum
                 MoveCount := wrapInt64 (g.MoveCount + 1)
                 LastActivityTime := tActivity
                 Status := "finished", Winner := 0, EndTime := tEnd }
      else
        { g with Board := g.Board.set row (toCol col hcol) playerNum
                 MoveCount := wrapInt64 (g.MoveCount + 1)
                 LastActivityTime := tActivity
                 CurrentTurn := if g.CurrentTurn = Player1 then Player2 else Player1 }, none) := by
  have hp' : ¬(playerNum ≠ Player1 ∧ playerNum ≠ Player2) := by
    rcases hp with h | h <;> simp [h]
  unfold MakeMove
  rw [if_neg (by simp [hst]), if_neg (by simp [hturn]), dif_neg hcol, if_neg hp']
  simp only [hrow]
  split
  · rfl
  · split
    · rfl
    · split <;> rfl

/-- When `MakeMove` returns an error, and which. -/
theorem MakeMove_error_cases (g : Game) (col playerNum : Int) (tActivity tEnd : Time) :
    (g.Status ≠ "playing" ∧ MakeMove g col playerNum tActivity tEnd = (g, some .notPlaying)) ∨
    (g.Status = "playing" ∧ g.CurrentTurn ≠ playerNum ∧
      MakeMove g col playerNum tActivity tEnd = (g, some .notYourTurn)) ∨
    (g.Status = "playing" ∧ g.CurrentTurn = playerNum ∧ (col < 0 ∨ col ≥ Cols) ∧
      MakeMove g col playerNum tActivity tEnd = (g, some .invalidColumn)) ∨
    (g.Status = "playing" ∧ g.CurrentTurn = playerNum ∧ ¬(col < 0 ∨ col ≥ Cols) ∧
      (playerNum ≠ Player1 ∧ playerNum ≠ Player2) ∧
      MakeMove g col playerNum tActivity tEnd = (g, some .invalidPlayer)) ∨
    (∃ hcol : ¬(col < 0 ∨ col ≥ Cols), g.Status = "playing" ∧ g.CurrentTurn = playerNum ∧
      (playerNum = Player1 ∨ playerNum = Player2) ∧
      lowestEmptyRow g.Board (toCol col hcol) = none ∧
      MakeMove g col playerNum tActivity tEnd = (g, some .columnFull)) ∨
    (∃ (hcol : ¬(col < 0 ∨ col ≥ Cols)) (row : Fin 6), g.Status = "playing" ∧
      g.CurrentTurn = playerNum ∧ (playerNum = Player1 ∨ playerNum = Player2) ∧
      lowestEmptyRow g.Board (toCol col hcol) = some row ∧
      (MakeMove g col playerNum tActivity tEnd).2 = none) := by
  by_cases hst : g.Status = "playing"
  swap
  · left; exact ⟨hst, by unfold MakeMove; rw [if_pos hst]⟩
  by_cases hturn : g.CurrentTurn = playerNum
  swap
  · right; left
    exact ⟨hst, hturn, by unfold MakeMove; rw [if_neg (by simp [hst]), if_pos hturn]⟩
  by_cases hcol : col < 0 ∨ col ≥ Cols
  · right; right; left
    exact ⟨hst, hturn, hcol, by
      unfold MakeMove; rw [if_neg (by simp [hst]), if_neg (by simp [hturn]), dif_pos hcol]⟩
  by_cases hp : playerNum ≠ Player1 ∧ playerNum ≠ Player2
  · right; right; right; left
    exact ⟨hst, hturn, hcol, hp, by
      unfold MakeMove
      rw [if_neg (by simp [hst]), if_neg (by simp [hturn]), dif_neg hcol, if_pos hp]⟩
  have hp' : playerNum = Player1 ∨ playerNum = Player2 := by
    by_cases h1 : playerNum = Player1
    · exact Or.inl h1
    · right
      by_contra h2
      exact hp ⟨h1, h2⟩
  right; right; right; right
  cases hrow : lowestEmptyRow g.Board (toCol col hcol) with
  | none =>
    left
    refine ⟨hcol, hst, hturn, hp', hrow, ?_⟩
    unfold MakeMove
    rw [if_neg (by simp [hst]), if_neg (by simp [hturn]), dif_neg hcol, if_neg hp]
    simp only [hrow]
  | some row =>
    right
    refine ⟨hcol, row, hst, hturn, hp', hrow, ?_⟩
    rw [MakeMove_of_drop g col playerNum tActivity tEnd hst hturn hcol hp' row hrow]

/-- Every field of the game after a drop at `(row, c)`, in terms of the two
tests made on the new board. -/
theorem MakeMove_fields (g : Game) (col playerNum : Int) (tActivity tEnd : Time)
    (hst : g.Status = "playing") (hturn : g.CurrentTurn = playerNum)
    (hcol : ¬(col < 0 ∨ col ≥ Cols)) (hp : playerNum = Player1 ∨ playerNum = Player2)
    (row : Fin 6) (hrow : lowestEmptyRow g.Board (toCol col hcol) = some row)
    (win full : Bool)
    (hwin : CheckWin (g.Board.set row (toCol col hcol) playerNum) row col playerNum = win)
    (hfull : IsBoardFull (g.Board.set row (toCol col hcol) playerNum) = full) :
    (MakeMove g col playerNum tActivity tEnd).2 = none ∧
    (MakeMove g col playerNum tActivity tEnd).1.Board =
      g.Board.set row (toCol col hcol) playerNum ∧
    (MakeMove g col playerNum tActivity tEnd).1.Status =
      (if win || full then "finished" else "playing") ∧
    (MakeMove g col playerNum tActivity tEnd).1.Winner =
      (if win then playerNum else if full then 0 else g.Winner) ∧
    (MakeMove g col playerNum tActivity tEnd).1.CurrentTurn =
      (if win || full then playerNum
        else if playerNum = Player1 then Player2 else Player1) ∧
    (MakeMove g col playerNum tActivity tEnd).1.EndTime =
      (if win || full then tEnd else g.EndTime) ∧
    (MakeMove g col playerNum tActivity tEnd).1.MoveCount = wrapInt64 (g.MoveCount + 1) ∧
    (MakeMove g col playerNum tActivity tEnd).1.LastActivityTime = tActivity ∧
    (MakeMove g col playerNum tActivity tEnd).1.ID = g.ID ∧
    (MakeMove g col playerNum tActivity tEnd).1.Player1 = g.Player1 ∧
    (MakeMove g col playerNum tActivity tEnd).1.Player2 = g.Player2 ∧
    (MakeMove g col playerNum tActivity tEnd).1.StartTime = g.StartTime := by
  rw [MakeMove_of_drop g col playerNum tActivity tEnd hst hturn hcol hp row hrow, hwin, hfull]
  cases win with
  | true => simp [hturn]
  | false =>
    cases full with
    | true => simp [hturn]
    | false => simp [hturn, hst]

/-! ## Gravity -/

theorem Gravity_empty : Gravity Board.empty := by
  intro c r r' h _
  exact absurd (Board.get_empty r c) h

theorem Gravity_set {b : Board} {c : Fin 7} {row : Fin 6} {v : Int} (hg : Gravity b)
    (hrow : lowestEmptyRow b c = some row) (hv : v ≠ Empty) : Gravity (b.set row c v) := by
  obtain ⟨_, habove⟩ := lowestEmptyRow_some_spec hrow
  intro c' r r' hne hlt
  rw [Board.get_set] at hne ⊢
  by_cases h' : r' = row ∧ c' = c
  · rw [if_pos h']; exact hv
  · rw [if_neg h']
    by_cases h : r = row ∧ c' = c
    · obtain ⟨rfl, rfl⟩ := h
      exact habove r' hlt
    · rw [if_neg h] at hne
      exact hg c' r r' hne hlt

theorem MakeMove_board_cases (g : Game) (col playerNum : Int) (tActivity tEnd : Time) :
    (MakeMove g col playerNum tActivity tEnd).1 = g ∨
    ∃ (hcol : ¬(col < 0 ∨ col ≥ Cols)) (row : Fin 6),
      lowestEmptyRow g.Board (toCol col hcol) = some row ∧
      (playerNum = Player1 ∨ playerNum = Player2) ∧
      (MakeMove g col playerNum tActivity tEnd).2 = none ∧
      (MakeMove g col playerNum tActivity tEnd).1.Board =
        g.Board.set row (toCol col hcol) playerNum := by
  rcases MakeMove_error_cases g col playerNum tActivity tEnd with
    ⟨_, h⟩ | ⟨_, _, h⟩ | ⟨_, _, _, h⟩ | ⟨_, _, _, _, h⟩ | ⟨_, _, _, _, _, h⟩ |
    ⟨hcol, row, hst, hturn, hp, hrow, hacc⟩
  · left; rw [h]
  · left; rw [h]
  · left; rw [h]
  · left; rw [h]
  · left; rw [h]
  · right
    refine ⟨hcol, row, hrow, hp, hacc, ?_⟩
    rw [MakeMove_of_drop g col playerNum tActivity tEnd hst hturn hcol hp row hrow]
    dsimp only
    split
    · rfl
    · split <;> rfl

theorem Gravity_MakeMove (g : Game) (col playerNum : Int) (tActivity tEnd : Time)
    (hg : Gravity g.Board) : Gravity (MakeMove g col playerNum tActivity tEnd).1.Board := by
  rcases MakeMove_board_cases g col playerNum tActivity tEnd with h | ⟨hcol, row, hrow, hp, _, hb⟩
  · rw [h]; exact hg
  · rw [hb]
    refine Gravity_set hg hrow ?_
    rcases hp with h | h <;> rw [h] <;> decide

/-- C1. Gravity invariant: starting from a game whose board is the empty board
of a new game, after every sequence of `MakeMove` calls (each call accepted, or
rejected and then without effect) the board has no floating piece: whenever
cell `(r, c)` is non-empty, every cell `(r', c)` with `r' > r` is non-empty. -/
theorem gravity_invariant (g : Game) (calls : List MoveCall) (h0 : g.Board = Board.empty) :
    ∀ (c : Fin 7) (r r' : Fin 6),
      (runMoves g calls).Board.get r c ≠ Empty → r < r' →
        (runMoves g calls).Board.get r' c ≠ Empty := by
  have key : ∀ (calls : List MoveCall) (g : Game), Gravity g.Board →
      Gravity (runMoves g calls).Board := by
    intro calls
    induction calls with
    | nil => intro g hg; exact hg
    | cons m rest ih =>
      intro g hg
      exact ih _ (Gravity_MakeMove g m.col m.playerNum m.tActivity m.tEnd hg)
  exact key calls g (h0 ▸ Gravity_empty)

theorem gravity_invariant_witness :
    startedGame.Board = Board.empty ∧ allAccepted startedGame threeDrops = true ∧
    (runMoves startedGame threeDrops).Board.get 4 3 = Player2 ∧
    ∀ (c : Fin 7) (r r' : Fin 6),
      (runMoves startedGame threeDrops).Board.get r c ≠ Empty → r < r' →
        (runMoves startedGame threeDrops).Board.get r' c ≠ Empty :=
  ⟨by decide, by decide, by decide, gravity_invariant startedGame threeDrops (by decide)⟩

/-! ## Win detection -/

theorem scanRun_nonneg (b : Board) (p dr dc : Int) :
    ∀ (n : Nat) (r c : Int), 0 ≤ scanRun b p dr dc n r c
  | 0, _, _ => by simp [scanRun]
  | n + 1, r, c => by
    unfold scanRun
    split
    · have := scanRun_nonneg b p dr dc n (r + dr) (c + dc)
      omega
    · exact le_refl _

theorem scanRun_le_fuel (b : Board) (p dr dc : Int) :
    ∀ (n : Nat) (r c : Int), scanRun b p dr dc n r c ≤ n
  | 0, _, _ => by simp [scanRun]
  | n + 1, r, c => by
    unfold scanRun
    split
    · have := scanRun_le_fuel b p dr dc n (r + dr) (c + dc)
      push_cast
      omega
    · push_cast; omega

/-- Every cell the loop counted holds `p`. -/
theorem scanRun_cells (b : Board) (p dr dc : Int) :
    ∀ (n : Nat) (r c : Int) (i : Nat), (i : Int) < scanRun b p dr dc n r c →
      cellAt b (r + i * dr) (c + i * dc) = some p
  | 0, _, _, i => by
    intro h
    simp only [scanRun] at h
    omega
  | n + 1, r, c, i => by
    intro h
    unfold scanRun at h
    split at h
    · rename_i hcell
      cases i with
      | zero => simpa using hcell
      | succ j =>
        have hj : (j : Int) < scanRun b p dr dc n (r + dr) (c + dc) := by
          push_cast at h; omega
        have := scanRun_cells b p dr dc n (r + dr) (c + dc) j hj
        have e1 : r + ((j + 1 : Nat) : Int) * dr = r + dr + (j : Int) * dr := by
          push_cast; ring
        have e2 : c + ((j + 1 : Nat) : Int) * dc = c + dc + (j : Int) * dc := by
          push_cast; ring
        rw [e1, e2]
        exact this
    · omega

/-- The loop counts at least every leading cell that holds `p`, fuel allowing. -/
theorem scanRun_ge (b : Board) (p dr dc : Int) :
    ∀ (n : Nat) (r c : Int) (k : Nat), k ≤ n →
      (∀ i : Nat, i < k → cellAt b (r + i * dr) (c + i * dc) = some p) →
      (k : Int) ≤ scanRun b p dr dc n r c
  | 0, _, _, k => by
    intro hk _
    have : k = 0 := by omega
    subst this
    simp [scanRun]
  | n + 1, r, c, k => by
    intro hk hcells
    cases k with
    | zero => simpa using scanRun_nonneg b p dr dc (n + 1) r c
    | succ j =>
      have h0 : cellAt b r c = some p := by simpa using hcells 0 (by omega)
      unfold scanRun
      rw [if_pos h0]
      have := scanRun_ge b p dr dc n (r + dr) (c + dc) j (by omega) (by
        intro i hi
        have e1 : r + dr + (i : Int) * dr = r + ((i + 1 : Nat) : Int) * dr := by
          push_cast; ring
        have e2 : c + dc + (i : Int) * dc = c + ((i + 1 : Nat) : Int) * dc := by
          push_cast; ring
        rw [e1, e2]
        exact hcells (i + 1) (by omega))
      push_cast
      omega

/-- When the loop stops with fuel left, it stopped at a cell that is outside
the grid or does not hold `p`. -/
theorem scanRun_stop (b : Board) (p dr dc : Int) :
    ∀ (n : Nat) (r c : Int), scanRun b p dr dc n r c < n →
      cellAt b (r + scanRun b p dr dc n r c * dr) (c + scanRun b p dr dc n r c * dc) ≠ some p
  | 0, _, _ => by
    intro h
    simp only [scanRun] at h
    omega
  | n + 1, r, c => by
    intro h
    unfold scanRun at h ⊢
    split
    · rename_i hcell
      rw [if_pos hcell] at h
      have := scanRun_stop b p dr dc n (r + dr) (c + dc) (by push_cast at h; omega)
      have e1 : r + (1 + scanRun b p dr dc n (r + dr) (c + dc)) * dr
          = r + dr + scanRun b p dr dc n (r + dr) (c + dc) * dr := by ring
      have e2 : c + (1 + scanRun b p dr dc n (r + dr) (c + dc)) * dc
          = c + dc + scanRun b p dr dc n (r + dr) (c + dc) * dc := by ring
      rw [e1, e2]
      exact this
    · rename_i hcell
      simpa using hcell

/-- The loop's count is the length of the leading run of `p`, fuel allowing. -/
theorem scanRun_eq (b : Board) (p dr dc : Int) (n : Nat) (r c : Int) (k : Nat) (hk : k ≤ n)
    (hcells : ∀ i : Nat, i < k → cellAt b (r + i * dr) (c + i * dc) = some p)
    (hstop : cellAt b (r + k * dr) (c + k * dc) ≠ some p) :
    scanRun b p dr dc n r c = k := by
  have hge := scanRun_ge b p dr dc n r c k hk hcells
  by_contra hne
  exact hstop (scanRun_cells b p dr dc n r c k (by omega))

theorem cellAt_in_grid {b : Board} {r c v : Int} (h : cellAt b r c = some v) :
    0 ≤ r ∧ r < 6 ∧ 0 ≤ c ∧ c < 7 := by
  unfold cellAt at h
  split at h
  · rename_i hin
    simpa only [Rows, Cols] using hin
  · simp at h

/-- A step of a scan: each component is -1, 0 or 1 and not both are 0. -/
theorem offset_le_six {b : Board} {row col p v dr dc : Int} {k : Nat}
    (hdr : dr = 0 ∨ dr = 1 ∨ dr = -1) (hdc : dc = 0 ∨ dc = 1 ∨ dc = -1) (hne : dr ≠ 0 ∨ dc ≠ 0)
    (h0 : cellAt b row col = some v) (hk : cellAt b (row + k * dr) (col + k * dc) = some p) :
    k ≤ 6 := by
  have g0 := cellAt_in_grid h0
  have gk := cellAt_in_grid hk
  rcases hdr with rfl | rfl | rfl <;> rcases hdc with rfl | rfl | rfl <;>
    simp only [mul_zero, mul_one, mul_neg, add_zero] at gk <;> omega

/-- The scan that starts next to `(row, col)` counts at least `hi` cells when
the `hi` cells after `(row, col)` hold `p`. -/
theorem scan_from_ge {b : Board} {row col p v dr dc : Int} {hi : Nat}
    (hdr : dr = 0 ∨ dr = 1 ∨ dr = -1) (hdc : dc = 0 ∨ dc = 1 ∨ dc = -1) (hne : dr ≠ 0 ∨ dc ≠ 0)
    (h0 : cellAt b row col = some v)
    (hcells : ∀ k : Nat, 1 ≤ k → k ≤ hi → cellAt b (row + k * dr) (col + k * dc) = some p) :
    (hi : Int) ≤ scanRun b p dr dc 7 (row + dr) (col + dc) := by
  have hle : hi ≤ 7 := by
    rcases Nat.eq_zero_or_pos hi with h | h
    · omega
    · have := offset_le_six hdr hdc hne h0 (hcells hi h (le_refl _))
      omega
  apply scanRun_ge b p dr dc 7 (row + dr) (col + dc) hi hle
  intro i hi'
  have e1 : row + dr + (i : Int) * dr = row + ((i + 1 : Nat) : Int) * dr := by push_cast; ring
  have e2 : col + dc + (i : Int) * dc = col + ((i + 1 : Nat) : Int) * dc := by push_cast; ring
  rw [e1, e2]
  exact hcells (i + 1) (by omega) (by omega)

/-- Every cell that the scan next to `(row, col)` counted holds `p`. -/
theorem scan_from_cells {b : Board} {row col p dr dc : Int} {k : Nat} (h1 : 1 ≤ k)
    (hk : (k : Int) ≤ scanRun b p dr dc 7 (row + dr) (col + dc)) :
    cellAt b (row + k * dr) (col + k * dc) = some p := by
  obtain ⟨i, rfl⟩ : ∃ i, k = i + 1 := ⟨k - 1, by omega⟩
  have := scanRun_cells b p dr dc 7 (row + dr) (col + dc) i (by push_cast at hk; omega)
  have e1 : row + ((i + 1 : Nat) : Int) * dr = row + dr + (i : Int) * dr := by push_cast; ring
  have e2 : col + ((i + 1 : Nat) : Int) * dc = col + dc + (i : Int) * dc := by push_cast; ring
  rw [e1, e2]
  exact this

/-- The scan next to `(row, col)` counts exactly the cells up to the first one
that is outside the grid or does not hold `p`. -/
theorem scan_from_eq {b : Board} {row col p v dr dc : Int} {hi : Nat}
    (hdr : dr = 0 ∨ dr = 1 ∨ dr = -1) (hdc : dc = 0 ∨ dc = 1 ∨ dc = -1) (hne : dr ≠ 0 ∨ dc ≠ 0)
    (h0 : cellAt b row col = some v)
    (hcells : ∀ k : Nat, 1 ≤ k → k ≤ hi → cellAt b (row + k * dr) (col + k * dc) = some p)
    (hstop : cellAt b (row + (hi + 1 : Nat) * dr) (col + (hi + 1 : Nat) * dc) ≠ some p) :
    scanRun b p dr dc 7 (row + dr) (col + dc) = hi := by
  have hge := scan_from_ge hdr hdc hne h0 hcells
  by_contra hne'
  have hnn := scanRun_nonneg b p dr dc 7 (row + dr) (col + dc)
  exact hstop (scan_from_cells (by omega) (by push_cast; omega))

/-- The scans of `checkDirection` never run out of fuel: more fuel than seven
gives the same count. -/
theorem scanRun_fuel_irrelevant {b : Board} {row col p v dr dc : Int}
    (hdr : dr = 0 ∨ dr = 1 ∨ dr = -1) (hdc : dc = 0 ∨ dc = 1 ∨ dc = -1) (hne : dr ≠ 0 ∨ dc ≠ 0)
    (h0 : cellAt b row col = some v) (m : Nat) :
    scanRun b p dr dc (7 + m) (row + dr) (col + dc) = scanRun b p dr dc 7 (row + dr) (col + dc) := by
  have hnn := scanRun_nonneg b p dr dc 7 (row + dr) (col + dc)
  have hle := scanRun_le_fuel b p dr dc 7 (row + dr) (col + dc)
  obtain ⟨k, hk⟩ : ∃ k : Nat, scanRun b p dr dc 7 (row + dr) (col + dc) = k :=
    ⟨(scanRun b p dr dc 7 (row + dr) (col + dc)).toNat, by omega⟩
  have hk6 : k ≤ 6 := by
    rcases Nat.eq_zero_or_pos k with h | h
    · omega
    · exact offset_le_six hdr hdc hne h0 (@scan_from_cells b row col p dr dc k h (by omega))
  have hstop := scanRun_stop b p dr dc 7 (row + dr) (col + dc) (by omega)
  rw [hk] at hstop ⊢
  apply scanRun_eq b p dr dc (7 + m) (row + dr) (col + dc) k (by omega)
  · intro i hi
    exact scanRun_cells b p dr dc 7 (row + dr) (col + dc) i (by omega)
  · exact hstop

theorem checkDirection_eq (b : Board) (row col p dr dc : Int) :
    checkDirection b row col p dr dc =
      decide (1 + scanRun b p dr dc 7 (row + dr) (col + dc) +
        scanRun b p (-dr) (-dc) 7 (row + -dr) (col + -dc) ≥ 4) := by
  simp only [checkDirection, sub_eq_add_neg]

theorem neg_step {dr dc : Int} (hdr : dr = 0 ∨ dr = 1 ∨ dr = -1)
    (hdc : dc = 0 ∨ dc = 1 ∨ dc = -1) (hne : dr ≠ 0 ∨ dc ≠ 0) :
    (-dr = 0 ∨ -dr = 1 ∨ -dr = -1) ∧ (-dc = 0 ∨ -dc = 1 ∨ -dc = -1) ∧ (-dr ≠ 0 ∨ -dc ≠ 0) := by
  refine ⟨by omega, by omega, ?_⟩
  rcases hne with h | h
  · left; omega
  · right; omega

/-- On an axis where the run of `p` through `(row, col)` spans exactly the
offsets `-lo, ..., hi`, the two scans count `hi` and `lo`. -/
theorem scans_of_maximal_run {b : Board} {row col p dr dc : Int} {lo hi : Nat}
    (hdr : dr = 0 ∨ dr = 1 ∨ dr = -1) (hdc : dc = 0 ∨ dc = 1 ∨ dc = -1) (hne : dr ≠ 0 ∨ dc ≠ 0)
    (hrun : RunThrough b row col p dr dc lo hi)
    (hbefore : cellAt b (row + (-(lo : Int) - 1) * dr) (col + (-(lo : Int) - 1) * dc) ≠ some p)
    (hafter : cellAt b (row + ((hi : Int) + 1) * dr) (col + ((hi : Int) + 1) * dc) ≠ some p) :
    scanRun b p dr dc 7 (row + dr) (col + dc) = hi ∧
      scanRun b p (-dr) (-dc) 7 (row + -dr) (col + -dc) = lo := by
  have h0 : cellAt b row col = some p := by
    simpa using hrun 0 (by omega) (by omega)
  obtain ⟨ndr, ndc, nne⟩ := neg_step hdr hdc hne
  constructor
  · apply scan_from_eq hdr hdc hne h0
    · intro k _ hk
      exact hrun k (by omega) (by omega)
    · simpa using hafter
  · apply scan_from_eq ndr ndc nne h0
    · intro k _ hk
      have e1 : row + (k : Int) * -dr = row + (-(k : Int)) * dr := by ring
      have e2 : col + (k : Int) * -dc = col + (-(k : Int)) * dc := by ring
      rw [e1, e2]
      exact hrun (-(k : Int)) (by omega) (by omega)
    · have e1 : row + ((lo + 1 : Nat) : Int) * -dr = row + (-(lo : Int) - 1) * dr := by
        push_cast; ring
      have e2 : col + ((lo + 1 : Nat) : Int) * -dc = col + (-(lo : Int) - 1) * dc := by
        push_cast; ring
      rw [e1, e2]
      exact hbefore

/-- On one axis, `checkDirection` holds exactly when some run of at least four
cells of `p` passes through `(row, col)`. -/
theorem checkDirection_iff_run {b : Board} {row col p dr dc : Int}
    (hdr : dr = 0 ∨ dr = 1 ∨ dr = -1) (hdc : dc = 0 ∨ dc = 1 ∨ dc = -1) (hne : dr ≠ 0 ∨ dc ≠ 0)
    (h0 : cellAt b row col = some p) :
    checkDirection b row col p dr dc = true ↔
      ∃ lo hi : Nat, lo + hi + 1 ≥ 4 ∧ RunThrough b row col p dr dc lo hi := by
  obtain ⟨ndr, ndc, nne⟩ := neg_step hdr hdc hne
  rw [checkDirection_eq, decide_eq_true_iff]
  have hpos := scanRun_nonneg b p dr dc 7 (row + dr) (col + dc)
  have hneg := scanRun_nonneg b p (-dr) (-dc) 7 (row + -dr) (col + -dc)
  constructor
  · intro hcount
    refine ⟨(scanRun b p (-dr) (-dc) 7 (row + -dr) (col + -dc)).toNat,
      (scanRun b p dr dc 7 (row + dr) (col + dc)).toNat, by omega, ?_⟩
    intro k hlo hhi
    rcases lt_trichotomy k 0 with hk | hk | hk
    · obtain ⟨j, hj⟩ : ∃ j : Nat, k = -(j : Int) := ⟨(-k).toNat, by omega⟩
      have := @scan_from_cells b row col p (-dr) (-dc) j (by omega) (by omega)
      have e1 : row + k * dr = row + (j : Int) * -dr := by rw [hj]; ring
      have e2 : col + k * dc = col + (j : Int) * -dc := by rw [hj]; ring
      rw [e1, e2]
      exact this
    · subst hk
      simpa using h0
    · obtain ⟨j, hj⟩ : ∃ j : Nat, k = (j : Int) := ⟨k.toNat, by omega⟩
      rw [hj]
      exact scan_from_cells (by omega) (by omega)
  · rintro ⟨lo, hi, hlen, hrun⟩
    have h1 : (hi : Int) ≤ scanRun b p dr dc 7 (row + dr) (col + dc) :=
      scan_from_ge hdr hdc hne h0 (fun k _ hk => hrun k (by omega) (by omega))
    have h2 : (lo : Int) ≤ scanRun b p (-dr) (-dc) 7 (row + -dr) (col + -dc) := by
      apply scan_from_ge ndr ndc nne h0
      intro k _ hk
      have e1 : row + (k : Int) * -dr = row + (-(k : Int)) * dr := by ring
      have e2 : col + (k : Int) * -dc = col + (-(k : Int)) * dc := by ring
      rw [e1, e2]
      exact hrun (-(k : Int)) (by omega) (by omega)
    omega

theorem CheckWin_eq_or {b : Board} {row col p : Int} (h0 : cellAt b row col = some p)
    (hp : p = Player1 ∨ p = Player2) :
    CheckWin b row col p = true ↔
      ∃ d ∈ directions, checkDirection b row col p d.1 d.2 = true := by
  have hg := cellAt_in_grid h0
  have hp' : ¬(p ≠ Player1 ∧ p ≠ Player2) := by
    rcases hp with h | h <;> simp [h]
  unfold CheckWin
  rw [if_neg (by simp only [Rows, Cols]; omega), if_neg hp']
  simp only [directions, List.mem_cons, List.mem_singleton, List.not_mem_nil, or_false,
    exists_eq_or_imp, exists_eq_left]
  by_cases h1 : checkDirection b row col p 0 1 = true
  · simp [h1]
  by_cases h2 : checkDirection b row col p 1 0 = true
  · simp [h2]
  by_cases h3 : checkDirection b row col p 1 1 = true
  · simp [h3]
  by_cases h4 : checkDirection b row col p 1 (-1) = true
  · simp [h4]
  simp [h1, h2, h3, h4]

theorem directions_step {d : Int × Int} (hd : d ∈ directions) :
    (d.1 = 0 ∨ d.1 = 1 ∨ d.1 = -1) ∧ (d.2 = 0 ∨ d.2 = 1 ∨ d.2 = -1) ∧ (d.1 ≠ 0 ∨ d.2 ≠ 0) := by
  simp only [directions, List.mem_cons, List.mem_singleton, List.not_mem_nil, or_false] at hd
  rcases hd with rfl | rfl | rfl | rfl <;> simp

theorem CheckWin_iff_hasFour {b : Board} {row col p : Int} (hcell : cellAt b row col = some p)
    (hp : p = Player1 ∨ p = Player2) :
    CheckWin b row col p = true ↔ HasFourThrough b row col p := by
  rw [CheckWin_eq_or hcell hp]
  unfold HasFourThrough
  constructor
  · rintro ⟨d, hd, hc⟩
    obtain ⟨h1, h2, h3⟩ := directions_step hd
    exact ⟨d, hd, (checkDirection_iff_run h1 h2 h3 hcell).1 hc⟩
  · rintro ⟨d, hd, hrun⟩
    obtain ⟨h1, h2, h3⟩ := directions_step hd
    exact ⟨d, hd, (checkDirection_iff_run h1 h2 h3 hcell).2 hrun⟩

/-- C2. For every board and every in-grid cell `(row, col)` that holds seat `p`
(SeatA or SeatB), `CheckWin(row, col, p)` is true if and only if on one of the
four axes some contiguous run of at least 4 cells holding `p` contains
`(row, col)`. Moreover on each axis, when the run through `(row, col)` spans
exactly `lo + hi + 1` cells (the cells next to both ends are outside the grid,
empty or the opponent's), `checkDirection` is true exactly when that length is
at least 4: true for 4, 5, 6 and 7, false for 3 and for four cells separated by
another cell. -/
theorem CheckWin_iff_run (b : Board) (row col p : Int) (hp : p = Player1 ∨ p = Player2)
    (hcell : cellAt b row col = some p) :
    (CheckWin b row col p = true ↔ HasFourThrough b row col p) ∧
    (∀ d ∈ directions, ∀ lo hi : Nat, RunThrough b row col p d.1 d.2 lo hi →
      cellAt b (row + (-(lo : Int) - 1) * d.1) (col + (-(lo : Int) - 1) * d.2) ≠ some p →
      cellAt b (row + ((hi : Int) + 1) * d.1) (col + ((hi : Int) + 1) * d.2) ≠ some p →
      (checkDirection b row col p d.1 d.2 = true ↔ lo + hi + 1 ≥ 4)) := by
  constructor
  · exact CheckWin_iff_hasFour hcell hp
  · intro d hd lo hi hrun hbefore hafter
    obtain ⟨h1, h2, h3⟩ := directions_step hd
    obtain ⟨e1, e2⟩ := scans_of_maximal_run h1 h2 h3 hrun hbefore hafter
    rw [checkDirection_eq, decide_eq_true_iff, e1, e2]
    omega

theorem CheckWin_iff_run_witness :
    (Player1 = Player1 ∨ Player1 = Player2) ∧
    cellAt (bottomRow [1, 1, 1, 1, 1, 2, 0]) 5 2 = some Player1 ∧
    ((CheckWin (bottomRow [1, 1, 1, 1, 1, 2, 0]) 5 2 Player1 = true ↔
        HasFourThrough (bottomRow [1, 1, 1, 1, 1, 2, 0]) 5 2 Player1) ∧
      (∀ d ∈ directions, ∀ lo hi : Nat,
        RunThrough (bottomRow [1, 1, 1, 1, 1, 2, 0]) 5 2 Player1 d.1 d.2 lo hi →
        cellAt (bottomRow [1, 1, 1, 1, 1, 2, 0]) (5 + (-(lo : Int) - 1) * d.1)
          (2 + (-(lo : Int) - 1) * d.2) ≠ some Player1 →
        cellAt (bottomRow [1, 1, 1, 1, 1, 2, 0]) (5 + ((hi : Int) + 1) * d.1)
          (2 + ((hi : Int) + 1) * d.2) ≠ some Player1 →
        (checkDirection (bottomRow [1, 1, 1, 1, 1, 2, 0]) 5 2 Player1 d.1 d.2 = true ↔
          lo + hi + 1 ≥ 4))) ∧
    CheckWin (bottomRow [1, 1, 1, 1, 1, 2, 0]) 5 2 Player1 = true ∧
    CheckWin (bottomRow [1, 1, 1, 1, 1, 1, 1]) 5 6 Player1 = true ∧
    CheckWin (bottomRow [2, 1, 1, 1, 2, 0, 0]) 5 2 Player1 = false ∧
    CheckWin (bottomRow [1, 1, 0, 1, 1, 0, 0]) 5 1 Player1 = false ∧
    CheckWin (bottomRow [1, 1, 2, 1, 1, 0, 0]) 5 1 Player1 = false :=
  ⟨by decide, by decide,
    CheckWin_iff_run (bottomRow [1, 1, 1, 1, 1, 2, 0]) 5 2 Player1 (by decide) (by decide),
    by decide, by decide, by decide, by decide, by decide⟩

/-! ## `SimulateMove` -/

theorem toCol_of_cast (c : Fin 7) (h : ¬(((c : Nat) : Int) < 0 ∨ ((c : Nat) : Int) ≥ Cols)) :
    toCol ((c : Nat) : Int) h = c := by
  apply Fin.ext
  simp [toCol]

theorem cast_col_in_range (c : Fin 7) : ¬(((c : Nat) : Int) < 0 ∨ ((c : Nat) : Int) ≥ Cols) := by
  have := c.isLt
  simp only [Cols]
  omega

theorem game_eta_board (g : Game) (b : Board) (h : b = g.Board) : { g with Board := b } = g := by
  subst h
  rfl

theorem SimulateMove_game (g : Game) (col player : Int) : (SimulateMove g col player).1 = g := by
  unfold SimulateMove
  by_cases hcol : col < 0 ∨ col ≥ Cols
  · rw [dif_pos hcol]
  · rw [dif_neg hcol]
    by_cases hp : player ≠ Player1 ∧ player ≠ Player2
    · rw [if_pos hp]
    · rw [if_neg hp]
      cases hrow : lowestEmptyRow g.Board (toCol col hcol) with
      | none => rfl
      | some row =>
        dsimp only
        apply game_eta_board
        exact Board.set_set_restore g.Board row (toCol col hcol) player
          (lowestEmptyRow_some_spec hrow).1

/-- C3. `SimulateMove` never changes the game: for every game, every column
value (in range or not, full or not) and every seat value (valid or not), the
game after `SimulateMove(col, seat)` (the board and every other field) is the
game before the call; this covers the success path and the three early returns,
on which the results are `(-1, -1, false)`. -/
theorem SimulateMove_leaves_game_unchanged (g : Game) (col player : Int) :
    (SimulateMove g col player).1 = g ∧
    (SimulateMove g col player).1.Board = g.Board ∧
    ((col < 0 ∨ col ≥ Cols) → SimulateMove g col player = (g, -1, -1, false)) ∧
    ((player ≠ Player1 ∧ player ≠ Player2) → SimulateMove g col player = (g, -1, -1, false)) ∧
    ((∃ c : Fin 7, (c : Int) = col ∧ ∀ r, g.Board.get r c ≠ Empty) →
      SimulateMove g col player = (g, -1, -1, false)) := by
  refine ⟨SimulateMove_game g col player, by rw [SimulateMove_game], ?_, ?_, ?_⟩
  · intro h
    unfold SimulateMove
    rw [dif_pos h]
  · intro h
    unfold SimulateMove
    split <;> rfl
  · rintro ⟨c, rfl, hfull⟩
    unfold SimulateMove
    rw [dif_neg (cast_col_in_range c)]
    split
    · rfl
    · rw [toCol_of_cast, (lowestEmptyRow_eq_none g.Board c).2 hfull]

/-! ## Rejected and accepted moves -/

theorem lowestEmptyRow_toCol_none_iff (b : Board) (col : Int) (hcol : ¬(col < 0 ∨ col ≥ Cols)) :
    lowestEmptyRow b (toCol col hcol) = none ↔
      ∃ c : Fin 7, (c : Int) = col ∧ ∀ r : Fin 6, b.get r c ≠ Empty := by
  rw [lowestEmptyRow_eq_none]
  constructor
  · intro h
    exact ⟨toCol col hcol, toCol_cast col hcol, h⟩
  · rintro ⟨c, rfl, h⟩
    rw [toCol_of_cast]
    exact h

/-- Claim C4, amended. On a game whose current-turn marker is SeatA or SeatB,
`MakeMove(col, seat)` returns an error if and only if the status is not
playing, or the seat is not the current-turn seat, or `col` is outside
`[0, 7)`, or column `col` has no empty cell. The checks are made in this order
and the first that fails names the error: when the game is playing and it is
the seat's turn, an out-of-range column gives the invalid-column error and an
in-range column without an empty cell the column-full error; when the game is
not playing the error is not-playing, and when it is playing and the seat is
not the current-turn seat the error is not-your-turn, whatever the column. -/
theorem MakeMove_rejected_iff (g : Game) (col playerNum : Int) (tActivity tEnd : Time)
    (hseat : g.CurrentTurn = Player1 ∨ g.CurrentTurn = Player2) :
    ((MakeMove g col playerNum tActivity tEnd).2 ≠ none ↔
      (g.Status ≠ "playing" ∨ playerNum ≠ g.CurrentTurn ∨ (col < 0 ∨ col ≥ Cols) ∨
        ∃ c : Fin 7, (c : Int) = col ∧ ∀ r : Fin 6, g.Board.get r c ≠ Empty)) ∧
    (g.Status = "playing" → playerNum = g.CurrentTurn → (col < 0 ∨ col ≥ Cols) →
      (MakeMove g col playerNum tActivity tEnd).2 = some MoveError.invalidColumn) ∧
    (g.Status = "playing" → playerNum = g.CurrentTurn →
      (∃ c : Fin 7, (c : Int) = col ∧ ∀ r : Fin 6, g.Board.get r c ≠ Empty) →
      (MakeMove g col playerNum tActivity tEnd).2 = some MoveError.columnFull) ∧
    (g.Status ≠ "playing" →
      (MakeMove g col playerNum tActivity tEnd).2 = some MoveError.notPlaying) ∧
    (g.Status = "playing" → playerNum ≠ g.CurrentTurn →
      (MakeMove g col playerNum tActivity tEnd).2 = some MoveError.notYourTurn) := by
  have hfirst :
      ((MakeMove g col playerNum tActivity tEnd).2 ≠ none ↔
        (g.Status ≠ "playing" ∨ playerNum ≠ g.CurrentTurn ∨ (col < 0 ∨ col ≥ Cols) ∨
          ∃ c : Fin 7, (c : Int) = col ∧ ∀ r : Fin 6, g.Board.get r c ≠ Empty)) ∧
      (g.Status = "playing" → playerNum = g.CurrentTurn → (col < 0 ∨ col ≥ Cols) →
        (MakeMove g col playerNum tActivity tEnd).2 = some MoveError.invalidColumn) ∧
      (g.Status = "playing" → playerNum = g.CurrentTurn →
        (∃ c : Fin 7, (c : Int) = col ∧ ∀ r : Fin 6, g.Board.get r c ≠ Empty) →
        (MakeMove g col playerNum tActivity tEnd).2 = some MoveError.columnFull) := by
    rcases MakeMove_error_cases g col playerNum tActivity tEnd with
      ⟨hst, h⟩ | ⟨hst, hturn, h⟩ | ⟨hst, hturn, hcol, h⟩ | ⟨hst, hturn, hcol, hp, h⟩ |
      ⟨hcol, hst, hturn, hp, hrow, h⟩ | ⟨hcol, row, hst, hturn, hp, hrow, h⟩
    · refine ⟨?_, fun h1 => absurd h1 hst, fun h1 => absurd h1 hst⟩
      rw [h]
      exact ⟨fun _ => Or.inl hst, fun _ => by simp⟩
    · refine ⟨?_, fun _ h2 => absurd h2.symm hturn, fun _ h2 => absurd h2.symm hturn⟩
      rw [h]
      exact ⟨fun _ => Or.inr (Or.inl (fun e => hturn e.symm)), fun _ => by simp⟩
    · refine ⟨?_, fun _ _ _ => by rw [h], ?_⟩
      · rw [h]
        exact ⟨fun _ => Or.inr (Or.inr (Or.inl hcol)), fun _ => by simp⟩
      · rintro _ _ ⟨c, hc, _⟩
        exact absurd hcol (hc ▸ cast_col_in_range c)
    · exfalso
      rw [← hturn] at hp
      rcases hseat with e | e
      · exact hp.1 e
      · exact hp.2 e
    · have hfull := (lowestEmptyRow_toCol_none_iff g.Board col hcol).1 hrow
      refine ⟨?_, fun _ _ h3 => absurd h3 hcol, fun _ _ _ => by rw [h]⟩
      rw [h]
      exact ⟨fun _ => Or.inr (Or.inr (Or.inr hfull)), fun _ => by simp⟩
    · have hnot : ¬∃ c : Fin 7, (c : Int) = col ∧ ∀ r : Fin 6, g.Board.get r c ≠ Empty := by
        intro hfull
        rw [(lowestEmptyRow_toCol_none_iff g.Board col hcol).2 hfull] at hrow
        exact Option.noConfusion hrow
      refine ⟨?_, fun _ _ h3 => absurd h3 hcol, fun _ _ h3 => absurd h3 hnot⟩
      rw [h]
      constructor
      · intro hne
        exact absurd rfl hne
      · rintro (h1 | h1 | h1 | h1)
        · exact absurd hst h1
        · exact absurd hturn.symm h1
        · exact absurd h1 hcol
        · exact absurd h1 hnot
  refine ⟨hfirst.1, hfirst.2.1, hfirst.2.2, ?_, ?_⟩
  · intro hst
    unfold MakeMove
    rw [if_pos hst]
  · intro hst hturn
    unfold MakeMove
    rw [if_neg (by simp [hst]), if_pos (fun e => hturn e.symm)]

theorem MakeMove_rejected_iff_witness :
    (startedGame.CurrentTurn = Player1 ∨ startedGame.CurrentTurn = Player2) ∧
    (MakeMove startedGame 7 Player1 10 11).2 = some MoveError.invalidColumn ∧
    (MakeMove startedGame 3 Player2 10 11).2 = some MoveError.notYourTurn ∧
    (MakeMove startedGame 3 Player1 10 11).2 = none ∧
    (MakeMove fullColumnGame 0 Player1 10 11).2 = some MoveError.columnFull ∧
    (((MakeMove startedGame 7 Player1 10 11).2 ≠ none ↔
      (startedGame.Status ≠ "playing" ∨ Player1 ≠ startedGame.CurrentTurn ∨
        ((7 : Int) < 0 ∨ (7 : Int) ≥ Cols) ∨
        ∃ c : Fin 7, (c : Int) = 7 ∧ ∀ r : Fin 6, startedGame.Board.get r c ≠ Empty)) ∧
    (startedGame.Status = "playing" → Player1 = startedGame.CurrentTurn →
      ((7 : Int) < 0 ∨ (7 : Int) ≥ Cols) →
      (MakeMove startedGame 7 Player1 10 11).2 = some MoveError.invalidColumn) ∧
    (startedGame.Status = "playing" → Player1 = startedGame.CurrentTurn →
      (∃ c : Fin 7, (c : Int) = 7 ∧ ∀ r : Fin 6, startedGame.Board.get r c ≠ Empty) →
      (MakeMove startedGame 7 Player1 10 11).2 = some MoveError.columnFull)) :=
  ⟨by decide, by decide, by decide, by decide, by decide,
    ⟨(MakeMove_rejected_iff startedGame 7 Player1 10 11 (by decide)).1,
      (MakeMove_rejected_iff startedGame 7 Player1 10 11 (by decide)).2.1,
      (MakeMove_rejected_iff startedGame 7 Player1 10 11 (by decide)).2.2.1⟩⟩

theorem MakeMove_error_game (g : Game) (col playerNum : Int) (tActivity tEnd : Time)
    (herr : (MakeMove g col playerNum tActivity tEnd).2 ≠ none) :
    (MakeMove g col playerNum tActivity tEnd).1 = g := by
  rcases MakeMove_error_cases g col playerNum tActivity tEnd with
    ⟨_, h⟩ | ⟨_, _, h⟩ | ⟨_, _, _, h⟩ | ⟨_, _, _, _, h⟩ | ⟨_, _, _, _, _, h⟩ |
    ⟨_, _, _, _, _, _, h⟩
  · rw [h]
  · rw [h]
  · rw [h]
  · rw [h]
  · rw [h]
  · exact absurd h herr

theorem List.set_of_get? {α : Type} :
    ∀ (l : List α) (i : Nat) (a : α), l.get? i = some a → l.set i a = l
  | [], _, _, h => by simp at h
  | x :: l, 0, a, h => by
    simp only [List.get?_cons_zero, Option.some.injEq] at h
    simp [h]
  | x :: l, i + 1, a, h => by
    simp only [List.get?_cons_succ] at h
    simp [List.set_of_get? l i a h]

theorem handleMove_rejected (gs : GameServer) (ptr : GamePtr) (g : Game) (col playerNum : Int)
    (env : MoveEnv) (hobj : gs.objects.get? ptr = some g)
    (herr : (MakeMove g col playerNum env.tActivity env.tEnd).2 ≠ none) :
    handleMove gs (some ptr) col playerNum env = some (gs, []) := by
  have hgame := MakeMove_error_game g col playerNum env.tActivity env.tEnd herr
  unfold handleMove
  dsimp only
  rw [hobj]
  dsimp only
  by_cases hst : g.Status ≠ "playing"
  · rw [if_pos hst]
  rw [if_neg hst]
  by_cases hcol : col < 0 ∨ col ≥ Cols
  · rw [if_pos hcol]
  rw [if_neg hcol]
  cases hres : MakeMove g col playerNum env.tActivity env.tEnd with
  | mk g' e =>
    rw [hres] at herr hgame
    dsimp only at herr hgame
    subst hgame
    cases e with
    | none => exact absurd rfl herr
    | some e =>
      dsimp only
      rw [List.set_of_get? gs.objects ptr g' hobj]

/-- C5. A rejected move mutates nothing. Whenever `MakeMove` returns an error
(game not playing, wrong turn, invalid column, invalid seat or full column) the
game after the call is the game before it: board, move counter, current turn,
status, winner and timestamps. And `handleMove` on such a move, for a game
object `g` of the registry, returns with nothing sent (no move event, no
broadcast, no other effect) and with the registry, its game objects included,
as it was; so does `handleMove` on a nil game. -/
theorem rejected_move_mutates_nothing :
    (∀ (g : Game) (col playerNum : Int) (tActivity tEnd : Time),
      (MakeMove g col playerNum tActivity tEnd).2 ≠ none →
      (MakeMove g col playerNum tActivity tEnd).1 = g) ∧
    (∀ (gs : GameServer) (ptr : GamePtr) (g : Game) (col playerNum : Int) (env : MoveEnv),
      gs.objects.get? ptr = some g →
      (MakeMove g col playerNum env.tActivity env.tEnd).2 ≠ none →
      handleMove gs (some ptr) col playerNum env = some (gs, [])) ∧
    (∀ (gs : GameServer) (col playerNum : Int) (env : MoveEnv),
      handleMove gs none col playerNum env = some (gs, [])) :=
  ⟨MakeMove_error_game, handleMove_rejected, fun _ _ _ _ => rfl⟩

theorem rejected_move_mutates_nothing_witness :
    (MakeMove startedGame 3 Player2 10 11).2 = some MoveError.notYourTurn ∧
    (MakeMove startedGame 3 Player2 10 11).1 = startedGame ∧
    sampleServer.objects.get? 0 = some startedGame ∧
    handleMove sampleServer (some 0) 3 Player2 sampleEnv = some (sampleServer, []) ∧
    (handleMove sampleServer (some 0) 3 Player1 sampleEnv).map (fun r => r.2.length) = some 3 :=
  ⟨by decide,
    rejected_move_mutates_nothing.1 startedGame 3 Player2 10 11 (by decide),
    by decide,
    rejected_move_mutates_nothing.2.1 sampleServer 0 startedGame 3 Player2 sampleEnv
      (by decide) (by decide),
    by decide⟩

/-- C6. An accepted `MakeMove(col, seat)` writes `seat` into exactly one cell:
the cell `(r, col)` where `r` is the largest row index whose cell in column
`col` was empty before the call; every other cell of the board is unchanged. -/
theorem accepted_move_writes_one_cell (g : Game) (col playerNum : Int) (tActivity tEnd : Time)
    (hacc : (MakeMove g col playerNum tActivity tEnd).2 = none) :
    ∃ (r : Fin 6) (c : Fin 7), (c : Int) = col ∧
      g.Board.get r c = Empty ∧
      (∀ r' : Fin 6, g.Board.get r' c = Empty → r' ≤ r) ∧
      (MakeMove g col playerNum tActivity tEnd).1.Board.get r c = playerNum ∧
      ∀ (i : Fin 6) (j : Fin 7), ¬(i = r ∧ j = c) →
        (MakeMove g col playerNum tActivity tEnd).1.Board.get i j = g.Board.get i j := by
  rcases MakeMove_board_cases g col playerNum tActivity tEnd with h | ⟨hcol, row, hrow, _, _, hb⟩
  · rcases MakeMove_error_cases g col playerNum tActivity tEnd with
      ⟨_, e⟩ | ⟨_, _, e⟩ | ⟨_, _, _, e⟩ | ⟨_, _, _, _, e⟩ | ⟨_, _, _, _, _, e⟩ |
      ⟨hcol, row, hst, hturn, hp, hrow, _⟩
    · rw [e] at hacc; exact Option.noConfusion hacc
    · rw [e] at hacc; exact Option.noConfusion hacc
    · rw [e] at hacc; exact Option.noConfusion hacc
    · rw [e] at hacc; exact Option.noConfusion hacc
    · rw [e] at hacc; exact Option.noConfusion hacc
    · exfalso
      have hb : (MakeMove g col playerNum tActivity tEnd).1.Board =
          g.Board.set row (toCol col hcol) playerNum := by
        rw [MakeMove_of_drop g col playerNum tActivity tEnd hst hturn hcol hp row hrow]
        dsimp only
        split
        · rfl
        · split <;> rfl
      rw [h] at hb
      have hcell := congrArg (fun b => b.get row (toCol col hcol)) hb
      simp only [Board.get_set, and_self, if_true] at hcell
      rw [(lowestEmptyRow_some_spec hrow).1] at hcell
      rcases hp with e | e <;> rw [e] at hcell <;> exact absurd hcell (by decide)
  · obtain ⟨hempty, habove⟩ := lowestEmptyRow_some_spec hrow
    refine ⟨row, toCol col hcol, toCol_cast col hcol, hempty, ?_, ?_, ?_⟩
    · intro r' hr'
      by_contra hlt
      exact habove r' (not_le.1 hlt) hr'
    · rw [hb, Board.get_set]
      simp
    · intro i j hij
      rw [hb, Board.get_set, if_neg hij]

theorem accepted_move_writes_one_cell_witness :
    (MakeMove fullColumnGame 1 Player1 10 11).2 = none ∧
    (MakeMove fullColumnGame 1 Player1 10 11).1.Board.get 5 1 = Player1 ∧
    ∃ (r : Fin 6) (c : Fin 7), (c : Int) = 1 ∧
      fullColumnGame.Board.get r c = Empty ∧
      (∀ r' : Fin 6, fullColumnGame.Board.get r' c = Empty → r' ≤ r) ∧
      (MakeMove fullColumnGame 1 Player1 10 11).1.Board.get r c = Player1 ∧
      ∀ (i : Fin 6) (j : Fin 7), ¬(i = r ∧ j = c) →
        (MakeMove fullColumnGame 1 Player1 10 11).1.Board.get i j =
          fullColumnGame.Board.get i j :=
  ⟨by decide, by decide,
    accepted_move_writes_one_cell fullColumnGame 1 Player1 10 11 (by decide)⟩

/-! ## Full board -/

theorem IsBoardFull_iff_top (b : Board) :
    IsBoardFull b = true ↔ ∀ c : Fin 7, b.get 0 c ≠ Empty := by
  unfold IsBoardFull
  rw [List.all_eq_true]
  constructor
  · intro h c
    simpa using h c (mem_allCols c)
  · intro h c _
    simpa using h c

theorem IsBoardFull_iff_all (b : Board) (hg : Gravity b) :
    IsBoardFull b = true ↔ ∀ (r : Fin 6) (c : Fin 7), b.get r c ≠ Empty := by
  rw [IsBoardFull_iff_top]
  constructor
  · intro h r c
    rcases Fin.eq_or_lt_of_le (Fin.zero_le r) with h0 | h0
    · rw [← h0]; exact h c
    · exact hg c 0 r (h c) h0
  · intro h c
    exact h 0 c

/-- C7. After an accepted `MakeMove` by seat `p` landing at `(r, col)`, one of
three outcomes holds, decided in this order. Win: `CheckWin(r, col, p)` holds on
the new board, and then the status is finished and the winner is `p`, whether
or not the board is full. Draw: `CheckWin` fails and `IsBoardFull` holds, and
then the status is finished and the winner is 0. Continue: neither holds, and
then the status is still playing, the winner is what it was and the current
turn is the other seat. When the board before the move has no floating piece,
`IsBoardFull` on the new board says that none of its 42 cells is empty. -/
theorem MakeMove_outcome (g : Game) (col p : Int) (tActivity tEnd : Time)
    (hacc : (MakeMove g col p tActivity tEnd).2 = none) :
    ∃ (r : Fin 6) (c : Fin 7), (c : Int) = col ∧ lowestEmptyRow g.Board c = some r ∧
      (MakeMove g col p tActivity tEnd).1.Board = g.Board.set r c p ∧
      (p = Player1 ∨ p = Player2) ∧ g.CurrentTurn = p ∧
      (CheckWin (MakeMove g col p tActivity tEnd).1.Board r col p = true →
        (MakeMove g col p tActivity tEnd).1.Status = "finished" ∧
        (MakeMove g col p tActivity tEnd).1.Winner = p) ∧
      (CheckWin (MakeMove g col p tActivity tEnd).1.Board r col p = false →
        IsBoardFull (MakeMove g col p tActivity tEnd).1.Board = true →
        (MakeMove g col p tActivity tEnd).1.Status = "finished" ∧
        (MakeMove g col p tActivity tEnd).1.Winner = 0) ∧
      (CheckWin (MakeMove g col p tActivity tEnd).1.Board r col p = false →
        IsBoardFull (MakeMove g col p tActivity tEnd).1.Board = false →
        (MakeMove g col p tActivity tEnd).1.Status = "playing" ∧
        (MakeMove g col p tActivity tEnd).1.Winner = g.Winner ∧
        (MakeMove g col p tActivity tEnd).1.CurrentTurn =
          (if p = Player1 then Player2 else Player1) ∧
        (MakeMove g col p tActivity tEnd).1.CurrentTurn ≠ p) ∧
      (Gravity g.Board →
        (IsBoardFull (MakeMove g col p tActivity tEnd).1.Board = true ↔
          ∀ (i : Fin 6) (j : Fin 7), (MakeMove g col p tActivity tEnd).1.Board.get i j ≠ Empty)) := by
  rcases MakeMove_error_cases g col p tActivity tEnd with
    ⟨_, e⟩ | ⟨_, _, e⟩ | ⟨_, _, _, e⟩ | ⟨_, _, _, _, e⟩ | ⟨_, _, _, _, _, e⟩ |
    ⟨hcol, row, hst, hturn, hp, hrow, _⟩
  · rw [e] at hacc; exact Option.noConfusion hacc
  · rw [e] at hacc; exact Option.noConfusion hacc
  · rw [e] at hacc; exact Option.noConfusion hacc
  · rw [e] at hacc; exact Option.noConfusion hacc
  · rw [e] at hacc; exact Option.noConfusion hacc
  · have hne : (if p = Player1 then Player2 else Player1) ≠ p := by
      rcases hp with e | e <;> rw [e] <;> decide
    have hgrav : Gravity g.Board →
        Gravity (MakeMove g col p tActivity tEnd).1.Board :=
      Gravity_MakeMove g col p tActivity tEnd
    obtain ⟨_, hb, hstatus, hwinner, hcur, _⟩ :=
      MakeMove_fields g col p tActivity tEnd hst hturn hcol hp row hrow _ _ rfl rfl
    refine ⟨row, toCol col hcol, toCol_cast col hcol, hrow, hb, hp, hturn, ?_, ?_, ?_, ?_⟩
    · intro hw
      rw [hb] at hw
      rw [hstatus, hwinner, hw]
      exact ⟨rfl, rfl⟩
    · intro hw hf
      rw [hb] at hw hf
      rw [hstatus, hwinner, hw, hf]
      exact ⟨rfl, rfl⟩
    · intro hw hf
      rw [hb] at hw hf
      rw [hstatus, hwinner, hcur, hw, hf]
      exact ⟨rfl, rfl, rfl, hne⟩
    · intro hg
      exact IsBoardFull_iff_all _ (hgrav hg)

theorem MakeMove_outcome_witness :
    (MakeMove lastCellGame 6 Player2 10 11).2 = none ∧
    IsBoardFull (MakeMove lastCellGame 6 Player2 10 11).1.Board = true ∧
    CheckWin (MakeMove lastCellGame 6 Player2 10 11).1.Board 0 6 Player2 = true ∧
    (MakeMove lastCellGame 6 Player2 10 11).1.Status = "finished" ∧
    (MakeMove lastCellGame 6 Player2 10 11).1.Winner = Player2 ∧
    ∃ (r : Fin 6) (c : Fin 7), (c : Int) = 6 ∧ lowestEmptyRow lastCellGame.Board c = some r ∧
      (MakeMove lastCellGame 6 Player2 10 11).1.Board = lastCellGame.Board.set r c Player2 ∧
      (Player2 = Player1 ∨ Player2 = Player2) ∧ lastCellGame.CurrentTurn = Player2 ∧
      (CheckWin (MakeMove lastCellGame 6 Player2 10 11).1.Board r 6 Player2 = true →
        (MakeMove lastCellGame 6 Player2 10 11).1.Status = "finished" ∧
        (MakeMove lastCellGame 6 Player2 10 11).1.Winner = Player2) ∧
      (CheckWin (MakeMove lastCellGame 6 Player2 10 11).1.Board r 6 Player2 = false →
        IsBoardFull (MakeMove lastCellGame 6 Player2 10 11).1.Board = true →
        (MakeMove lastCellGame 6 Player2 10 11).1.Status = "finished" ∧
        (MakeMove lastCellGame 6 Player2 10 11).1.Winner = 0) ∧
      (CheckWin (MakeMove lastCellGame 6 Player2 10 11).1.Board r 6 Player2 = false →
        IsBoardFull (MakeMove lastCellGame 6 Player2 10 11).1.Board = false →
        (MakeMove lastCellGame 6 Player2 10 11).1.Status = "playing" ∧
        (MakeMove lastCellGame 6 Player2 10 11).1.Winner = lastCellGame.Winner ∧
        (MakeMove lastCellGame 6 Player2 10 11).1.CurrentTurn =
          (if Player2 = Player1 then Player2 else Player1) ∧
        (MakeMove lastCellGame 6 Player2 10 11).1.CurrentTurn ≠ Player2) ∧
      (Gravity lastCellGame.Board →
        (IsBoardFull (MakeMove lastCellGame 6 Player2 10 11).1.Board = true ↔
          ∀ (i : Fin 6) (j : Fin 7),
            (MakeMove lastCellGame 6 Player2 10 11).1.Board.get i j ≠ Empty)) :=
  ⟨by decide, by decide, by decide, by decide, by decide,
    MakeMove_outcome lastCellGame 6 Player2 10 11 (by decide)⟩

/-! ## The move oracle: legal moves and the first two tiers -/

theorem mem_GetValidMoves (b : Board) (c : Fin 7) :
    c ∈ GetValidMoves b ↔ b.get 0 c = Empty := by
  unfold GetValidMoves
  rw [List.mem_filter]
  simp [mem_allCols]

theorem allCols_sorted : allCols.Pairwise (fun x y => x < y) := by
  unfold allCols; decide

theorem GetValidMoves_sorted (b : Board) : (GetValidMoves b).Pairwise (fun x y => x < y) := by
  unfold GetValidMoves
  exact List.Pairwise.filter _ allCols_sorted

theorem find?_ascending {p : Fin 7 → Bool} :
    ∀ {l : List (Fin 7)} {c : Fin 7}, l.Pairwise (fun x y => x < y) → l.find? p = some c →
      c ∈ l ∧ p c = true ∧ ∀ c' ∈ l, p c' = true → c ≤ c'
  | [], _, _, h => by simp at h
  | a :: l, c, hs, h => by
    rw [List.pairwise_cons] at hs
    rw [List.find?_cons] at h
    cases hpa : p a with
    | true =>
      rw [hpa] at h
      simp only [Option.some.injEq] at h
      subst h
      refine ⟨List.mem_cons_self _ _, hpa, ?_⟩
      intro c' hc' _
      rcases List.mem_cons.1 hc' with rfl | hmem
      · exact le_refl _
      · exact le_of_lt (hs.1 c' hmem)
    | false =>
      rw [hpa] at h
      obtain ⟨hmem, hpc, hmin⟩ := find?_ascending hs.2 h
      refine ⟨List.mem_cons_of_mem _ hmem, hpc, ?_⟩
      intro c' hc' hpc'
      rcases List.mem_cons.1 hc' with rfl | hmem'
      · rw [hpa] at hpc'
        exact Bool.noConfusion hpc'
      · exact hmin c' hmem' hpc'

theorem firstWinning_eq (player : Int) :
    ∀ (l : List (Fin 7)) (game : Game),
      firstWinning player l game =
        (game, l.find? (simWins game player))
  | [], game => rfl
  | col :: rest, game => by
    unfold firstWinning
    have hg := SimulateMove_game game col player
    cases hs : SimulateMove game col player with
    | mk g' res =>
      obtain ⟨r, c, wins⟩ := res
      rw [hs] at hg
      dsimp only at hg
      subst hg
      dsimp only
      rw [List.find?_cons]
      have hw : simWins g' player col = wins := by
        unfold simWins; rw [hs]
      rw [hw]
      cases wins with
      | true => simp
      | false =>
        simp only [Bool.false_eq_true, if_false]
        exact firstWinning_eq player rest g'

theorem searchLoop_mem (bot : Bot) (opponent : Int) :
    ∀ (l : List (Fin 7)) (game : Game) (bestScore : Int) (bestMove : Fin 7) (alpha beta : Int),
      (searchLoop bot opponent l game bestScore bestMove alpha beta).2 = bestMove ∨
        (searchLoop bot opponent l game bestScore bestMove alpha beta).2 ∈ l
  | [], _, _, _, _, _ => Or.inl rfl
  | col :: rest, game, bestScore, bestMove, alpha, beta => by
    unfold searchLoop
    cases hrow : getLowestRow game col with
    | none =>
      dsimp only
      rcases searchLoop_mem bot opponent rest game bestScore bestMove alpha beta with h | h
      · exact Or.inl h
      · exact Or.inr (List.mem_cons_of_mem _ h)
    | some row =>
      dsimp only
      generalize minimax bot opponent 5 (game.setCell row col bot.PlayerNum) false alpha beta = res
      obtain ⟨g', score⟩ := res
      dsimp only
      by_cases hs : score > bestScore
      · simp only [hs, if_true]
        rcases searchLoop_mem bot opponent rest (g'.setCell row col Empty) score col
          (max alpha score) beta with h | h
        · rw [h]; exact Or.inr (List.mem_cons_self _ _)
        · exact Or.inr (List.mem_cons_of_mem _ h)
      · simp only [hs, if_false]
        rcases searchLoop_mem bot opponent rest (g'.setCell row col Empty) bestScore bestMove
          (max alpha bestScore) beta with h | h
        · exact Or.inl h
        · exact Or.inr (List.mem_cons_of_mem _ h)

/-- The tier that answers `GetBestMove`. -/
theorem GetBestMove_tiers (bot : Bot) (game : Game) :
    (GetValidMoves game.Board = [] ∧ (GetBestMove bot game).2 = -1) ∨
    (GetValidMoves game.Board ≠ [] ∧
      ∃ c : Fin 7, (GetValidMoves game.Board).find?
          (simWins game bot.PlayerNum) = some c ∧
        (GetBestMove bot game).2 = c) ∨
    (GetValidMoves game.Board ≠ [] ∧
      (GetValidMoves game.Board).find?
        (simWins game bot.PlayerNum) = none ∧
      ∃ c : Fin 7, (GetValidMoves game.Board).find?
          (simWins game (if bot.PlayerNum = Player1 then Player2 else Player1)) = some c ∧
        (GetBestMove bot game).2 = c) ∨
    (GetValidMoves game.Board ≠ [] ∧
      (GetValidMoves game.Board).find?
        (simWins game bot.PlayerNum) = none ∧
      (GetValidMoves game.Board).find?
        (simWins game (if bot.PlayerNum = Player1 then Player2 else Player1)) = none ∧
      ∃ c ∈ GetValidMoves game.Board, (GetBestMove bot game).2 = c) := by
  unfold GetBestMove
  dsimp only
  by_cases hlen : (GetValidMoves game.Board).length = 0
  · left
    rw [dif_pos hlen]
    exact ⟨List.length_eq_zero.1 hlen, rfl⟩
  · right
    have hne : GetValidMoves game.Board ≠ [] := fun h => hlen (List.length_eq_zero.2 h)
    rw [dif_neg hlen, firstWinning_eq]
    cases h1 : (GetValidMoves game.Board).find?
        (simWins game bot.PlayerNum) with
    | some c =>
      left
      exact ⟨hne, c, rfl, rfl⟩
    | none =>
      right
      dsimp only
      rw [firstWinning_eq]
      cases h2 : (GetValidMoves game.Board).find?
          (simWins game (if bot.PlayerNum = Player1 then Player2 else Player1)) with
      | some c =>
        left
        exact ⟨hne, rfl, c, rfl, rfl⟩
      | none =>
        right
        dsimp only
        refine ⟨hne, rfl, rfl, ?_⟩
        rcases searchLoop_mem bot (if bot.PlayerNum = Player1 then Player2 else Player1)
          (GetValidMoves game.Board) game MinInt32
          ((GetValidMoves game.Board).get ⟨(GetValidMoves game.Board).length / 2,
            Nat.div_lt_self (by omega) (by omega)⟩) MinInt32 MaxInt32 with h | h
        · exact ⟨_, List.get_mem _ _ _, by rw [h]⟩
        · exact ⟨_, h, rfl⟩

theorem cellAt_set_self (b : Board) (r : Fin 6) (c : Fin 7) (x : Int) :
    cellAt (b.set r c x) (r : Int) (c : Int) = some x := by
  rw [cellAt_cast, Board.get_set]
  simp

theorem simWins_iff (game : Game) (x : Int) (c : Fin 7) (hx : x = Player1 ∨ x = Player2) :
    simWins game x c = true ↔ DropWins game.Board c x := by
  have hx' : ¬(x ≠ Player1 ∧ x ≠ Player2) := by
    rcases hx with h | h <;> simp [h]
  unfold simWins SimulateMove DropWins
  rw [dif_neg (cast_col_in_range c), if_neg hx', toCol_of_cast]
  cases hrow : lowestEmptyRow game.Board c with
  | none => simp
  | some row =>
    dsimp only
    rw [CheckWin_iff_hasFour (cellAt_set_self game.Board row c x) hx]
    constructor
    · intro h
      exact ⟨row, rfl, h⟩
    · rintro ⟨r, hr, h⟩
      simp only [Option.some.injEq] at hr
      subst hr
      exact h

theorem not_simWins_of_invalid (game : Game) (x : Int) (c : Fin 7)
    (hx : x ≠ Player1 ∧ x ≠ Player2) : simWins game x c = false := by
  unfold simWins SimulateMove
  rw [dif_neg (cast_col_in_range c), if_pos hx]

theorem GetBestMove_ne_neg_one_of_col (c : Fin 7) : ((c : Nat) : Int) ≠ -1 := by
  omega

/-- C8. `GetBestMove` never returns an illegal column: for every game and every
bot seat, if `GetValidMoves` is empty the result is the no-move signal `-1`,
and otherwise the result is a member of `GetValidMoves`, a column in `[0, 7)`
whose top cell is empty; `-1` is returned only when there is no legal move. -/
theorem GetBestMove_legal (bot : Bot) (game : Game) :
    (GetValidMoves game.Board = [] → (GetBestMove bot game).2 = -1) ∧
    (GetValidMoves game.Board ≠ [] →
      ∃ c : Fin 7, c ∈ GetValidMoves game.Board ∧ game.Board.get 0 c = Empty ∧
        0 ≤ (GetBestMove bot game).2 ∧ (GetBestMove bot game).2 < Cols ∧
        (GetBestMove bot game).2 = ((c : Nat) : Int)) ∧
    ((GetBestMove bot game).2 = -1 → GetValidMoves game.Board = []) := by
  have key : GetValidMoves game.Board ≠ [] →
      ∃ c : Fin 7, c ∈ GetValidMoves game.Board ∧ (GetBestMove bot game).2 = ((c : Nat) : Int) := by
    intro hne
    rcases GetBestMove_tiers bot game with ⟨h, _⟩ | ⟨_, c, hf, hres⟩ | ⟨_, _, c, hf, hres⟩ |
      ⟨_, _, _, c, hc, hres⟩
    · exact absurd h hne
    · exact ⟨c, List.mem_of_find?_eq_some hf, hres⟩
    · exact ⟨c, List.mem_of_find?_eq_some hf, hres⟩
    · exact ⟨c, hc, hres⟩
  refine ⟨?_, ?_, ?_⟩
  · intro hempty
    rcases GetBestMove_tiers bot game with ⟨_, h⟩ | ⟨h, _⟩ | ⟨h, _⟩ | ⟨h, _⟩
    · exact h
    · exact absurd hempty h
    · exact absurd hempty h
    · exact absurd hempty h
  · intro hne
    obtain ⟨c, hc, hres⟩ := key hne
    have := c.isLt
    refine ⟨c, hc, (mem_GetValidMoves game.Board c).1 hc, ?_, ?_, hres⟩
    · rw [hres]; omega
    · rw [hres]; simp only [Cols]; omega
  · intro hres
    by_contra hne
    obtain ⟨c, _, hc⟩ := key hne
    rw [hc] at hres
    exact GetBestMove_ne_neg_one_of_col c hres

theorem GetBestMove_legal_witness :
    GetValidMoves (gameWithBoard threatRows).Board ≠ [] ∧
    (GetBestMove (NewBot Player2) (gameWithBoard threatRows)).2 = 0 ∧
    GetValidMoves fullBoardGame.Board = [] ∧
    (GetBestMove (NewBot Player2) fullBoardGame).2 = -1 ∧
    ((GetValidMoves fullBoardGame.Board = [] → (GetBestMove (NewBot Player2) fullBoardGame).2 = -1) ∧
    (GetValidMoves fullBoardGame.Board ≠ [] →
      ∃ c : Fin 7, c ∈ GetValidMoves fullBoardGame.Board ∧ fullBoardGame.Board.get 0 c = Empty ∧
        0 ≤ (GetBestMove (NewBot Player2) fullBoardGame).2 ∧
        (GetBestMove (NewBot Player2) fullBoardGame).2 < Cols ∧
        (GetBestMove (NewBot Player2) fullBoardGame).2 = ((c : Nat) : Int)) ∧
    ((GetBestMove (NewBot Player2) fullBoardGame).2 = -1 →
      GetValidMoves fullBoardGame.Board = [])) :=
  ⟨by decide, by decide, by decide, by decide,
    GetBestMove_legal (NewBot Player2) fullBoardGame⟩

/-- The first column of `GetValidMoves` at which `SimulateMove` reports a win
for a valid seat is the smallest legal column where a drop wins. -/
theorem first_winning_is_least (game : Game) (x : Int) (hx : x = Player1 ∨ x = Player2)
    (c : Fin 7) (hf : (GetValidMoves game.Board).find? (simWins game x) = some c) :
    c ∈ GetValidMoves game.Board ∧ DropWins game.Board c x ∧
      ∀ c' ∈ GetValidMoves game.Board, DropWins game.Board c' x → c ≤ c' := by
  obtain ⟨hmem, hw, hmin⟩ := find?_ascending (GetValidMoves_sorted game.Board) hf
  refine ⟨hmem, (simWins_iff game x c hx).1 hw, ?_⟩
  intro c' hc' hw'
  exact hmin c' hc' ((simWins_iff game x c' hx).2 hw')

/-- C9. Tier 1 (immediate win): for every game and bot seat `X` (SeatA or
SeatB), if at least one legal column gives `X` a four-in-a-row when `X` drops
there, `GetBestMove` returns the smallest-index such column; the answer is fixed
by the drops alone, whatever the search tier would compute. -/
theorem GetBestMove_immediate_win (bot : Bot) (game : Game)
    (hseat : bot.PlayerNum = Player1 ∨ bot.PlayerNum = Player2)
    (c0 : Fin 7) (hlegal : c0 ∈ GetValidMoves game.Board)
    (hwin : DropWins game.Board c0 bot.PlayerNum) :
    ∃ c : Fin 7, (GetBestMove bot game).2 = ((c : Nat) : Int) ∧
      c ∈ GetValidMoves game.Board ∧ DropWins game.Board c bot.PlayerNum ∧
      ∀ c' ∈ GetValidMoves game.Board, DropWins game.Board c' bot.PlayerNum → c ≤ c' := by
  have hsome : ∀ h : (GetValidMoves game.Board).find? (simWins game bot.PlayerNum) = none,
      False := by
    intro h
    rw [List.find?_eq_none] at h
    exact h c0 hlegal ((simWins_iff game bot.PlayerNum c0 hseat).2 hwin)
  rcases GetBestMove_tiers bot game with ⟨h, _⟩ | ⟨_, c, hf, hres⟩ | ⟨_, h, _⟩ | ⟨_, h, _⟩
  · rw [h] at hlegal
    exact absurd hlegal (List.not_mem_nil _)
  · obtain ⟨h1, h2, h3⟩ := first_winning_is_least game bot.PlayerNum hseat c hf
    exact ⟨c, hres, h1, h2, h3⟩
  · exact absurd h hsome
  · exact absurd h hsome

theorem GetBestMove_immediate_win_witness :
    ((NewBot Player2).PlayerNum = Player1 ∨ (NewBot Player2).PlayerNum = Player2) ∧
    (0 : Fin 7) ∈ GetValidMoves (gameWithBoard threatRows).Board ∧
    DropWins (gameWithBoard threatRows).Board 0 (NewBot Player2).PlayerNum ∧
    (GetBestMove (NewBot Player2) (gameWithBoard threatRows)).2 = 0 ∧
    ∃ c : Fin 7, (GetBestMove (NewBot Player2) (gameWithBoard threatRows)).2 = ((c : Nat) : Int) ∧
      c ∈ GetValidMoves (gameWithBoard threatRows).Board ∧
      DropWins (gameWithBoard threatRows).Board c (NewBot Player2).PlayerNum ∧
      ∀ c' ∈ GetValidMoves (gameWithBoard threatRows).Board,
        DropWins (gameWithBoard threatRows).Board c' (NewBot Player2).PlayerNum → c ≤ c' :=
  ⟨by decide, by decide,
    (simWins_iff (gameWithBoard threatRows) Player2 0 (Or.inr rfl)).1 (by decide),
    by decide,
    GetBestMove_immediate_win (NewBot Player2) (gameWithBoard threatRows) (by decide) 0
      (by decide) ((simWins_iff (gameWithBoard threatRows) Player2 0 (Or.inr rfl)).1 (by decide))⟩

/-- C10. Tier 2 (block): for every game and bot seat `X` with opponent `Y`, if
no legal column is an immediate win for `X` but at least one legal column
would give `Y` a four-in-a-row if `Y` dropped there, `GetBestMove` returns the
smallest-index such column. -/
theorem GetBestMove_block (bot : Bot) (game : Game) (y : Int)
    (hseats : (bot.PlayerNum = Player1 ∧ y = Player2) ∨ (bot.PlayerNum = Player2 ∧ y = Player1))
    (hnowin : ∀ c ∈ GetValidMoves game.Board, ¬DropWins game.Board c bot.PlayerNum)
    (c0 : Fin 7) (hlegal : c0 ∈ GetValidMoves game.Board) (hthreat : DropWins game.Board c0 y) :
    ∃ c : Fin 7, (GetBestMove bot game).2 = ((c : Nat) : Int) ∧
      c ∈ GetValidMoves game.Board ∧ DropWins game.Board c y ∧
      ∀ c' ∈ GetValidMoves game.Board, DropWins game.Board c' y → c ≤ c' := by
  have hseat : bot.PlayerNum = Player1 ∨ bot.PlayerNum = Player2 := by
    rcases hseats with ⟨h, _⟩ | ⟨h, _⟩
    · exact Or.inl h
    · exact Or.inr h
  have hy : y = Player1 ∨ y = Player2 := by
    rcases hseats with ⟨_, h⟩ | ⟨_, h⟩
    · exact Or.inr h
    · exact Or.inl h
  have hopp : (if bot.PlayerNum = Player1 then Player2 else Player1) = y := by
    rcases hseats with ⟨h1, h2⟩ | ⟨h1, h2⟩
    · rw [h1, h2]; rfl
    · rw [h1, h2]; rfl
  have hsome : ∀ h : (GetValidMoves game.Board).find? (simWins game y) = none, False := by
    intro h
    rw [List.find?_eq_none] at h
    exact h c0 hlegal ((simWins_iff game y c0 hy).2 hthreat)
  rcases GetBestMove_tiers bot game with ⟨h, _⟩ | ⟨_, c, hf, _⟩ | ⟨_, _, c, hf, hres⟩ |
    ⟨_, _, h, _⟩
  · rw [h] at hlegal
    exact absurd hlegal (List.not_mem_nil _)
  · obtain ⟨h1, h2, _⟩ := first_winning_is_least game bot.PlayerNum hseat c hf
    exact absurd h2 (hnowin c h1)
  · rw [hopp] at hf
    obtain ⟨h1, h2, h3⟩ := first_winning_is_least game y hy c hf
    exact ⟨c, hres, h1, h2, h3⟩
  · rw [hopp] at h
    exact absurd h hsome

theorem GetBestMove_block_witness :
    (((NewBot Player2).PlayerNum = Player1 ∧ Player1 = Player2) ∨
      ((NewBot Player2).PlayerNum = Player2 ∧ Player1 = Player1)) ∧
    (∀ c ∈ GetValidMoves (gameWithBoard blockRows).Board,
      ¬DropWins (gameWithBoard blockRows).Board c (NewBot Player2).PlayerNum) ∧
    (3 : Fin 7) ∈ GetValidMoves (gameWithBoard blockRows).Board ∧
    DropWins (gameWithBoard blockRows).Board 3 Player1 ∧
    (GetBestMove (NewBot Player2) (gameWithBoard blockRows)).2 = 3 ∧
    ∃ c : Fin 7, (GetBestMove (NewBot Player2) (gameWithBoard blockRows)).2 = ((c : Nat) : Int) ∧
      c ∈ GetValidMoves (gameWithBoard blockRows).Board ∧
      DropWins (gameWithBoard blockRows).Board c Player1 ∧
      ∀ c' ∈ GetValidMoves (gameWithBoard blockRows).Board,
        DropWins (gameWithBoard blockRows).Board c' Player1 → c ≤ c' :=
  ⟨by decide,
    fun c _ h => absurd ((simWins_iff (gameWithBoard blockRows) Player2 c (Or.inr rfl)).2 h)
      ((by decide : ∀ c : Fin 7, ¬simWins (gameWithBoard blockRows) Player2 c = true) c),
    by decide,
    (simWins_iff (gameWithBoard blockRows) Player1 3 (Or.inl rfl)).1 (by decide),
    by decide,
    GetBestMove_block (NewBot Player2) (gameWithBoard blockRows) Player1 (by decide)
      (fun c _ h => absurd ((simWins_iff (gameWithBoard blockRows) Player2 c (Or.inr rfl)).2 h)
        ((by decide : ∀ c : Fin 7, ¬simWins (gameWithBoard blockRows) Player2 c = true) c))
      3 (by decide)
      ((simWins_iff (gameWithBoard blockRows) Player1 3 (Or.inl rfl)).1 (by decide))⟩

/-! ## The move oracle leaves the game as it was -/

theorem setCell_restore (game : Game) (row : Fin 6) (col : Fin 7) (v : Int)
    (hrow : getLowestRow game col = some row) :
    (game.setCell row col v).setCell row col Empty = game := by
  unfold Game.setCell
  dsimp only
  apply game_eta_board
  exact Board.set_set_restore game.Board row col v (lowestEmptyRow_some_spec hrow).1

theorem maxLoop_game (bot : Bot) (depth : Nat) (rec : Game → Int → Int → Game × Int)
    (hrec : ∀ g a b, (rec g a b).1 = g) :
    ∀ (l : List (Fin 7)) (game : Game) (maxScore alpha beta : Int),
      (maxLoop bot depth rec l game maxScore alpha beta).1 = game
  | [], _, _, _, _ => rfl
  | col :: rest, game, maxScore, alpha, beta => by
    unfold maxLoop
    cases hrow : getLowestRow game col with
    | none =>
      dsimp only
      exact maxLoop_game bot depth rec hrec rest game maxScore alpha beta
    | some row =>
      dsimp only
      split
      · exact setCell_restore game row col bot.PlayerNum hrow
      · have h1 := hrec (game.setCell row col bot.PlayerNum) alpha beta
        cases hres : rec (game.setCell row col bot.PlayerNum) alpha beta with
        | mk g' score =>
          rw [hres] at h1
          dsimp only at h1
          subst h1
          dsimp only
          rw [setCell_restore game row col bot.PlayerNum hrow]
          split
          · rfl
          · exact maxLoop_game bot depth rec hrec rest game _ _ beta

theorem minLoop_game (opponent : Int) (depth : Nat) (rec : Game → Int → Int → Game × Int)
    (hrec : ∀ g a b, (rec g a b).1 = g) :
    ∀ (l : List (Fin 7)) (game : Game) (minScore alpha beta : Int),
      (minLoop opponent depth rec l game minScore alpha beta).1 = game
  | [], _, _, _, _ => rfl
  | col :: rest, game, minScore, alpha, beta => by
    unfold minLoop
    cases hrow : getLowestRow game col with
    | none =>
      dsimp only
      exact minLoop_game opponent depth rec hrec rest game minScore alpha beta
    | some row =>
      dsimp only
      split
      · exact setCell_restore game row col opponent hrow
      · have h1 := hrec (game.setCell row col opponent) alpha beta
        cases hres : rec (game.setCell row col opponent) alpha beta with
        | mk g' score =>
          rw [hres] at h1
          dsimp only at h1
          subst h1
          dsimp only
          rw [setCell_restore game row col opponent hrow]
          split
          · rfl
          · exact minLoop_game opponent depth rec hrec rest game _ alpha _

theorem minimax_game (bot : Bot) (opponent : Int) :
    ∀ (depth : Nat) (game : Game) (isMaximizing : Bool) (alpha beta : Int),
      (minimax bot opponent depth game isMaximizing alpha beta).1 = game
  | 0, _, _, _, _ => rfl
  | depth + 1, game, isMaximizing, alpha, beta => by
    unfold minimax
    split
    · rfl
    · dsimp only
      split
      · rfl
      · split
        · exact maxLoop_game bot (depth + 1) _
            (fun g a b => minimax_game bot opponent depth g false a b) _ game _ alpha beta
        · exact minLoop_game opponent (depth + 1) _
            (fun g a b => minimax_game bot opponent depth g true a b) _ game _ alpha beta

theorem searchLoop_game (bot : Bot) (opponent : Int) :
    ∀ (l : List (Fin 7)) (game : Game) (bestScore : Int) (bestMove : Fin 7) (alpha beta : Int),
      (searchLoop bot opponent l game bestScore bestMove alpha beta).1 = game
  | [], _, _, _, _, _ => rfl
  | col :: rest, game, bestScore, bestMove, alpha, beta => by
    unfold searchLoop
    cases hrow : getLowestRow game col with
    | none =>
      dsimp only
      exact searchLoop_game bot opponent rest game bestScore bestMove alpha beta
    | some row =>
      dsimp only
      have h1 := minimax_game bot opponent 5 (game.setCell row col bot.PlayerNum) false alpha beta
      cases hres : minimax bot opponent 5 (game.setCell row col bot.PlayerNum) false alpha beta with
      | mk g' score =>
        rw [hres] at h1
        dsimp only at h1
        subst h1
        dsimp only
        rw [setCell_restore game row col bot.PlayerNum hrow]
        exact searchLoop_game bot opponent rest game _ _ _ beta

theorem GetBestMove_game (bot : Bot) (game : Game) : (GetBestMove bot game).1 = game := by
  unfold GetBestMove
  dsimp only
  split
  · rfl
  · rw [firstWinning_eq]
    cases (GetValidMoves game.Board).find? (simWins game bot.PlayerNum) with
    | some c => rfl
    | none =>
      dsimp only
      rw [firstWinning_eq]
      cases (GetValidMoves game.Board).find?
          (simWins game (if bot.PlayerNum = Player1 then Player2 else Player1)) with
      | some c => rfl
      | none =>
        dsimp only
        exact searchLoop_game bot _ _ game _ _ _ _

/-- C11. The move oracle has no observable side effect: for every game and
every bot seat, the game after `GetBestMove` returns (the board and every other
field) is the game before the call, whichever tier gave the answer; and the
game after `minimax` returns is the game it was called on, for every depth,
side to move and window, so on every exit path: the depth-0 evaluation, the
full board, the early returns on a win or a loss, the cutoffs and the end of
the loop. -/
theorem oracle_leaves_game_unchanged (bot : Bot) (game : Game) :
    (GetBestMove bot game).1 = game ∧
    (GetBestMove bot game).1.Board = game.Board ∧
    ∀ (opponent : Int) (depth : Nat) (isMaximizing : Bool) (alpha beta : Int),
      (minimax bot opponent depth game isMaximizing alpha beta).1 = game :=
  ⟨GetBestMove_game bot game, by rw [GetBestMove_game],
    fun opponent depth isMaximizing alpha beta =>
      minimax_game bot opponent depth game isMaximizing alpha beta⟩

/-! ## A vertical four, end to end -/

theorem cellAt_of_get (b : Board) (i : Fin 6) (j : Fin 7) (r c v : Int)
    (hr : r = ((i : Nat) : Int)) (hc : c = ((j : Nat) : Int)) (hv : b.get i j = v) :
    cellAt b r c = some v := by
  rw [hr, hc, cellAt_cast, hv]

/-- A piece of `p` placed on the empty cell right above three cells of `p`
makes `CheckWin` true there. -/
theorem CheckWin_vertical (b : Board) (r : Fin 6) (c : Fin 7) (p : Int)
    (hp : p = Player1 ∨ p = Player2) (hroom : r.val + 3 ≤ 5)
    (hthree : ∀ k : Fin 6, r < k → k.val ≤ r.val + 3 → b.get k c = p) :
    CheckWin (b.set r c p) r c p = true := by
  rw [CheckWin_iff_hasFour (cellAt_set_self b r c p) hp]
  refine ⟨(1, 0), by simp [directions], 0, 3, by omega, ?_⟩
  intro k hlo hhi
  have hk : 0 ≤ k := by simpa using hlo
  have hk3 : k ≤ 3 := by simpa using hhi
  have hlt : r.val + k.toNat < 6 := by omega
  apply cellAt_of_get (b.set r c p) ⟨r.val + k.toNat, hlt⟩ c
  · simp only [mul_one]
    push_cast
    omega
  · simp
  · rw [Board.get_set]
    by_cases h0 : k = 0
    · subst h0
      rw [if_pos ⟨Fin.ext (by simp), rfl⟩]
    · have hne : (⟨r.val + k.toNat, hlt⟩ : Fin 6) ≠ r := by
        intro h
        have := congrArg Fin.val h
        simp only at this
        omega
      rw [if_neg (fun h => hne h.1)]
      apply hthree
      · rw [Fin.lt_def]
        simp only
        omega
      · simp only
        omega

theorem vertical_four_finishes (g : Game) (col p : Int) (tActivity tEnd : Time)
    (hacc : (MakeMove g col p tActivity tEnd).2 = none)
    (c : Fin 7) (hc : ((c : Nat) : Int) = col) (r : Fin 6)
    (hr : lowestEmptyRow g.Board c = some r) (hroom : r.val + 3 ≤ 5)
    (hthree : ∀ k : Fin 6, r < k → k.val ≤ r.val + 3 → g.Board.get k c = p) :
    (MakeMove g col p tActivity tEnd).1.Status = "finished" ∧
      (MakeMove g col p tActivity tEnd).1.Winner = p := by
  rcases MakeMove_error_cases g col p tActivity tEnd with
    ⟨_, e⟩ | ⟨_, _, e⟩ | ⟨_, _, _, e⟩ | ⟨_, _, _, _, e⟩ | ⟨_, _, _, _, _, e⟩ |
    ⟨hcol, row, hst, hturn, hp, hrow, _⟩
  · rw [e] at hacc; exact Option.noConfusion hacc
  · rw [e] at hacc; exact Option.noConfusion hacc
  · rw [e] at hacc; exact Option.noConfusion hacc
  · rw [e] at hacc; exact Option.noConfusion hacc
  · rw [e] at hacc; exact Option.noConfusion hacc
  · have hcc : toCol col hcol = c := by
      subst hc
      exact toCol_of_cast c hcol
    rw [hcc] at hrow
    rw [hr] at hrow
    simp only [Option.some.injEq] at hrow
    subst hrow
    have hwin : CheckWin (g.Board.set r (toCol col hcol) p) r col p = true := by
      rw [hcc, ← hc]
      exact CheckWin_vertical g.Board r c p hp hroom hthree
    obtain ⟨_, _, hstatus, hwinner, _⟩ :=
      MakeMove_fields g col p tActivity tEnd hst hturn hcol hp r (hcc ▸ hr) true _ hwin rfl
    rw [hstatus, hwinner]
    exact ⟨rfl, rfl⟩

set_option maxRecDepth 100000 in
set_option maxHeartbeats 4000000 in
theorem verticalFour_play : ∀ b1 b2 b3 : Fin 7, b1 ≠ 0 → b2 ≠ 0 → b3 ≠ 0 →
    allAccepted startedGame (verticalFour b1 b2 b3) = true ∧
    (getGameState (runMoves startedGame (verticalFour b1 b2 b3))).status = "finished" ∧
    (getGameState (runMoves startedGame (verticalFour b1 b2 b3))).winner = Player1 := by
  decide

/-! ## Full board, legal moves and simulation against a real drop -/

theorem draw_only_when_full (g : Game) (col p : Int) (tActivity tEnd : Time)
    (hg : Gravity g.Board) (hacc : (MakeMove g col p tActivity tEnd).2 = none)
    (hfin : (MakeMove g col p tActivity tEnd).1.Status = "finished")
    (hdraw : (MakeMove g col p tActivity tEnd).1.Winner = 0) :
    ∀ (i : Fin 6) (j : Fin 7), (MakeMove g col p tActivity tEnd).1.Board.get i j ≠ Empty := by
  rcases MakeMove_error_cases g col p tActivity tEnd with
    ⟨_, e⟩ | ⟨_, _, e⟩ | ⟨_, _, _, e⟩ | ⟨_, _, _, _, e⟩ | ⟨_, _, _, _, _, e⟩ |
    ⟨hcol, row, hst, hturn, hp, hrow, _⟩
  · rw [e] at hacc; exact Option.noConfusion hacc
  · rw [e] at hacc; exact Option.noConfusion hacc
  · rw [e] at hacc; exact Option.noConfusion hacc
  · rw [e] at hacc; exact Option.noConfusion hacc
  · rw [e] at hacc; exact Option.noConfusion hacc
  · have hgrav := Gravity_MakeMove g col p tActivity tEnd hg
    obtain ⟨_, hb, hstatus, hwinner, _⟩ :=
      MakeMove_fields g col p tActivity tEnd hst hturn hcol hp row hrow _ _ rfl rfl
    have hp0 : p ≠ 0 := by
      rcases hp with e | e <;> rw [e] <;> decide
    apply (IsBoardFull_iff_all _ hgrav).1
    rw [hb]
    cases hw : CheckWin (g.Board.set row (toCol col hcol) p) row col p with
    | true =>
      rw [hwinner, hw] at hdraw
      exact absurd hdraw hp0
    | false =>
      cases hf : IsBoardFull (g.Board.set row (toCol col hcol) p) with
      | true => rfl
      | false =>
        rw [hstatus, hw, hf] at hfin
        exact absurd hfin (by decide)

/-- C13. `IsBoardFull` is true if and only if no cell of the top row (row 0)
is empty; on every board that satisfies the gravity invariant this says that
no cell of the whole board is empty; so when an accepted move on such a board
ends the game as a draw (finished, winner 0), all 42 cells are occupied. -/
theorem IsBoardFull_spec :
    (∀ b : Board, IsBoardFull b = true ↔ ∀ c : Fin 7, b.get 0 c ≠ Empty) ∧
    (∀ b : Board, Gravity b →
      (IsBoardFull b = true ↔ ∀ (r : Fin 6) (c : Fin 7), b.get r c ≠ Empty)) ∧
    (∀ (g : Game) (col p : Int) (tActivity tEnd : Time), Gravity g.Board →
      (MakeMove g col p tActivity tEnd).2 = none →
      (MakeMove g col p tActivity tEnd).1.Status = "finished" →
      (MakeMove g col p tActivity tEnd).1.Winner = 0 →
      ∀ (i : Fin 6) (j : Fin 7), (MakeMove g col p tActivity tEnd).1.Board.get i j ≠ Empty) :=
  ⟨IsBoardFull_iff_top, IsBoardFull_iff_all, draw_only_when_full⟩

theorem IsBoardFull_spec_witness :
    IsBoardFull fullBoardGame.Board = true ∧ Gravity fullBoardGame.Board ∧
    IsBoardFull lastCellGame.Board = false ∧
    IsBoardFull (Board.ofRows [[1, 2, 1, 2, 1, 2, 1]]) = true ∧
    ¬Gravity (Board.ofRows [[1, 2, 1, 2, 1, 2, 1]]) ∧
    (IsBoardFull fullBoardGame.Board = true ↔
      ∀ (r : Fin 6) (c : Fin 7), fullBoardGame.Board.get r c ≠ Empty) ∧
    (MakeMove drawCellGame 0 Player2 10 11).2 = none ∧
    (MakeMove drawCellGame 0 Player2 10 11).1.Winner = 0 ∧
    ∀ (i : Fin 6) (j : Fin 7), (MakeMove drawCellGame 0 Player2 10 11).1.Board.get i j ≠ Empty :=
  ⟨by decide, by decide, by decide, by decide, by decide,
    IsBoardFull_spec.2.1 fullBoardGame.Board (by decide), by decide, by decide,
    IsBoardFull_spec.2.2 drawCellGame 0 Player2 10 11 (by decide) (by decide) (by decide)
      (by decide)⟩

theorem top_empty_iff_lowest (b : Board) (hg : Gravity b) (c : Fin 7) :
    b.get 0 c = Empty ↔ lowestEmptyRow b c ≠ none := by
  constructor
  · intro h hnone
    exact (lowestEmptyRow_eq_none b c).1 hnone 0 h
  · intro h
    cases hrow : lowestEmptyRow b c with
    | none => exact absurd hrow h
    | some r =>
      have hr := (lowestEmptyRow_some_spec hrow).1
      by_contra htop
      rcases Fin.eq_or_lt_of_le (Fin.zero_le r) with h0 | h0
      · rw [← h0] at hr
        exact htop hr
      · exact hg c 0 r htop h0 hr

theorem columnFull_iff_not_valid (g : Game) (c : Fin 7) (p : Int) (tActivity tEnd : Time)
    (hg : Gravity g.Board) (hst : g.Status = "playing") (hturn : g.CurrentTurn = p)
    (hp : p = Player1 ∨ p = Player2) :
    ((MakeMove g c p tActivity tEnd).2 = some MoveError.columnFull ↔
      c ∉ GetValidMoves g.Board) ∧
    ((MakeMove g c p tActivity tEnd).2 = none ↔ c ∈ GetValidMoves g.Board) := by
  have hcol := cast_col_in_range c
  rw [mem_GetValidMoves, top_empty_iff_lowest g.Board hg c]
  cases hrow : lowestEmptyRow g.Board c with
  | none =>
    have : (MakeMove g c p tActivity tEnd).2 = some MoveError.columnFull := by
      rcases MakeMove_error_cases g c p tActivity tEnd with
        ⟨h, _⟩ | ⟨_, h, _⟩ | ⟨_, _, h, _⟩ | ⟨_, _, _, h, _⟩ | ⟨_, _, _, _, _, e⟩ |
        ⟨hc, row, _, _, _, hr, _⟩
      · exact absurd hst h
      · exact absurd hturn h
      · exact absurd h hcol
      · rcases hp with e | e
        · exact absurd e h.1
        · exact absurd e h.2
      · rw [e]
      · rw [toCol_of_cast, hrow] at hr
        exact Option.noConfusion hr
    rw [this]
    simp
  | some r =>
    have hr : lowestEmptyRow g.Board (toCol c hcol) = some r := by
      rw [toCol_of_cast]; exact hrow
    obtain ⟨hacc, _⟩ :=
      MakeMove_fields g c p tActivity tEnd hst hturn hcol hp r hr _ _ rfl rfl
    rw [hacc]
    simp

/-- C14. `GetValidMoves` returns exactly the columns `c` in `[0, 7)` whose top
cell (row 0) is empty, each once, in strictly increasing order; and on every
board that satisfies the gravity invariant, `c` is in the result if and only if
a drop in column `c` finds an empty cell: a `MakeMove` in column `c` that
passes the status, turn and seat checks fails with column-full exactly when `c`
is not in the result, and is accepted exactly when it is. -/
theorem GetValidMoves_spec :
    (∀ (b : Board) (c : Fin 7), c ∈ GetValidMoves b ↔ b.get 0 c = Empty) ∧
    (∀ b : Board, (GetValidMoves b).Nodup) ∧
    (∀ b : Board, (GetValidMoves b).Pairwise (fun x y => x < y)) ∧
    (∀ (b : Board) (c : Fin 7), Gravity b →
      (c ∈ GetValidMoves b ↔ ∃ r : Fin 6, lowestEmptyRow b c = some r)) ∧
    (∀ (g : Game) (c : Fin 7) (p : Int) (tActivity tEnd : Time), Gravity g.Board →
      g.Status = "playing" → g.CurrentTurn = p → (p = Player1 ∨ p = Player2) →
      ((MakeMove g c p tActivity tEnd).2 = some MoveError.columnFull ↔
        c ∉ GetValidMoves g.Board) ∧
      ((MakeMove g c p tActivity tEnd).2 = none ↔ c ∈ GetValidMoves g.Board)) := by
  refine ⟨mem_GetValidMoves, ?_, GetValidMoves_sorted, ?_, ?_⟩
  · intro b
    exact (GetValidMoves_sorted b).imp (fun h => ne_of_lt h)
  · intro b c hg
    rw [mem_GetValidMoves, top_empty_iff_lowest b hg c, ne_eq, Option.eq_none_iff_forall_not_mem]
    simp
  · intro g c p tActivity tEnd hg hst hturn hp
    exact columnFull_iff_not_valid g c p tActivity tEnd hg hst hturn hp

theorem GetValidMoves_spec_witness :
    GetValidMoves fullColumnGame.Board = [1, 2, 3, 4, 5, 6] ∧
    Gravity fullColumnGame.Board ∧
    (MakeMove fullColumnGame 0 Player1 10 11).2 = some MoveError.columnFull ∧
    (((MakeMove fullColumnGame (0 : Fin 7) Player1 10 11).2 = some MoveError.columnFull ↔
        (0 : Fin 7) ∉ GetValidMoves fullColumnGame.Board) ∧
      ((MakeMove fullColumnGame (0 : Fin 7) Player1 10 11).2 = none ↔
        (0 : Fin 7) ∈ GetValidMoves fullColumnGame.Board)) ∧
    ((1 : Fin 7) ∈ GetValidMoves fullColumnGame.Board ↔
      ∃ r : Fin 6, lowestEmptyRow fullColumnGame.Board 1 = some r) :=
  ⟨by decide, by decide, by decide,
    GetValidMoves_spec.2.2.2.2 fullColumnGame 0 Player1 10 11 (by decide) (by decide)
      (by decide) (by decide),
    GetValidMoves_spec.2.2.2.1 fullColumnGame.Board 1 (by decide)⟩

theorem SimulateMove_of_drop (g : Game) (c : Fin 7) (p : Int) (r : Fin 6)
    (hp : p = Player1 ∨ p = Player2) (hrow : lowestEmptyRow g.Board c = some r) :
    SimulateMove g c p =
      (g, ((r : Nat) : Int), ((c : Nat) : Int), CheckWin (g.Board.set r c p) r c p) := by
  have hp' : ¬(p ≠ Player1 ∧ p ≠ Player2) := by
    rcases hp with h | h <;> simp [h]
  unfold SimulateMove
  rw [dif_neg (cast_col_in_range c), if_neg hp', toCol_of_cast, hrow]
  dsimp only
  rw [game_eta_board g _ (Board.set_set_restore g.Board r c p (lowestEmptyRow_some_spec hrow).1)]

theorem SimulateMove_failure (g : Game) (col p : Int)
    (h : (col < 0 ∨ col ≥ Cols) ∨ (p ≠ Player1 ∧ p ≠ Player2) ∨
      ∃ c : Fin 7, ((c : Nat) : Int) = col ∧ ∀ r : Fin 6, g.Board.get r c ≠ Empty) :
    SimulateMove g col p = (g, -1, -1, false) := by
  unfold SimulateMove
  by_cases hcol : col < 0 ∨ col ≥ Cols
  · rw [dif_pos hcol]
  rw [dif_neg hcol]
  by_cases hp : p ≠ Player1 ∧ p ≠ Player2
  · rw [if_pos hp]
  rw [if_neg hp]
  rcases h with h | h | ⟨c, hc, hfull⟩
  · exact absurd h hcol
  · exact absurd h hp
  · subst hc
    rw [toCol_of_cast, (lowestEmptyRow_eq_none g.Board c).2 hfull]

/-- C15. `SimulateMove` agrees with a real drop followed by `CheckWin`. For an
in-range column `c` with an empty cell and a valid seat `p`, with `r` the
lowest empty row of the column, `SimulateMove(c, p)` returns the row `r`, the
column and a flag equal to `CheckWin(r, c, p)` on the board with `p` placed at
`(r, c)`; and that board is the board an accepted `MakeMove(c, p)` leaves. For
an out-of-range column, an invalid seat or a full column it returns
`(-1, -1, false)`. -/
theorem SimulateMove_agrees_with_drop :
    (∀ (g : Game) (c : Fin 7) (p : Int) (r : Fin 6), (p = Player1 ∨ p = Player2) →
      g.Board.get r c = Empty → (∀ r' : Fin 6, r < r' → g.Board.get r' c ≠ Empty) →
      SimulateMove g c p =
        (g, ((r : Nat) : Int), ((c : Nat) : Int), CheckWin (g.Board.set r c p) r c p) ∧
      ∀ tActivity tEnd : Time, (MakeMove g c p tActivity tEnd).2 = none →
        (MakeMove g c p tActivity tEnd).1.Board = g.Board.set r c p ∧
        (SimulateMove g c p).2.2.2 =
          CheckWin (MakeMove g c p tActivity tEnd).1.Board r c p) ∧
    (∀ (g : Game) (col p : Int),
      ((col < 0 ∨ col ≥ Cols) ∨ (p ≠ Player1 ∧ p ≠ Player2) ∨
        ∃ c : Fin 7, ((c : Nat) : Int) = col ∧ ∀ r : Fin 6, g.Board.get r c ≠ Empty) →
      SimulateMove g col p = (g, -1, -1, false)) := by
  refine ⟨?_, SimulateMove_failure⟩
  intro g c p r hp hr habove
  have hrow : lowestEmptyRow g.Board c = some r := (lowestEmptyRow_eq_some g.Board c r).2 ⟨hr, habove⟩
  have hsim := SimulateMove_of_drop g c p r hp hrow
  refine ⟨hsim, ?_⟩
  intro tActivity tEnd hacc
  rcases MakeMove_board_cases g c p tActivity tEnd with h | ⟨hcol, row, hrow', _, _, hb⟩
  · exfalso
    rcases MakeMove_error_cases g c p tActivity tEnd with
      ⟨_, e⟩ | ⟨_, _, e⟩ | ⟨_, _, _, e⟩ | ⟨_, _, _, _, e⟩ | ⟨_, _, _, _, _, e⟩ |
      ⟨hcol, row, hst, hturn, hp2, hrow', _⟩
    · rw [e] at hacc; exact Option.noConfusion hacc
    · rw [e] at hacc; exact Option.noConfusion hacc
    · rw [e] at hacc; exact Option.noConfusion hacc
    · rw [e] at hacc; exact Option.noConfusion hacc
    · rw [e] at hacc; exact Option.noConfusion hacc
    · obtain ⟨_, hb, _⟩ :=
        MakeMove_fields g c p tActivity tEnd hst hturn hcol hp2 row hrow' _ _ rfl rfl
      rw [h] at hb
      have hcell := congrArg (fun b => b.get row (toCol c hcol)) hb
      simp only [Board.get_set, and_self, if_true] at hcell
      rw [(lowestEmptyRow_some_spec hrow').1] at hcell
      rcases hp with e | e <;> rw [e] at hcell <;> exact absurd hcell (by decide)
  · rw [toCol_of_cast, hrow] at hrow'
    simp only [Option.some.injEq] at hrow'
    subst hrow'
    rw [toCol_of_cast] at hb
    rw [hb, hsim]
    exact ⟨rfl, rfl⟩

theorem SimulateMove_agrees_with_drop_witness :
    SimulateMove (gameWithBoard blockRows) 3 Player1 = (gameWithBoard blockRows, 5, 3, true) ∧
    SimulateMove (gameWithBoard blockRows) 6 Player1 = (gameWithBoard blockRows, 5, 6, false) ∧
    SimulateMove fullColumnGame 0 Player1 = (fullColumnGame, -1, -1, false) ∧
    (MakeMove (gameWithBoard blockRows) 3 Player1 10 11).1.Status = "finished" ∧
    (SimulateMove (gameWithBoard blockRows) (3 : Fin 7) Player1 =
        (gameWithBoard blockRows, (((5 : Fin 6) : Nat) : Int), (((3 : Fin 7) : Nat) : Int),
          CheckWin ((gameWithBoard blockRows).Board.set 5 3 Player1) (5 : Fin 6) (3 : Fin 7)
            Player1) ∧
      ∀ tActivity tEnd : Time,
        (MakeMove (gameWithBoard blockRows) (3 : Fin 7) Player1 tActivity tEnd).2 = none →
        (MakeMove (gameWithBoard blockRows) (3 : Fin 7) Player1 tActivity tEnd).1.Board =
          (gameWithBoard blockRows).Board.set 5 3 Player1 ∧
        (SimulateMove (gameWithBoard blockRows) (3 : Fin 7) Player1).2.2.2 =
          CheckWin (MakeMove (gameWithBoard blockRows) (3 : Fin 7) Player1 tActivity tEnd).1.Board
            (5 : Fin 6) (3 : Fin 7) Player1) ∧
    SimulateMove startedGame 9 Player1 = (startedGame, -1, -1, false) :=
  ⟨by decide, by decide, by decide, by decide,
    SimulateMove_agrees_with_drop.1 (gameWithBoard blockRows) 3 Player1 5 (by decide)
      (by decide) (by decide),
    SimulateMove_agrees_with_drop.2 startedGame 9 Player1 (Or.inl (by decide))⟩

/-! ## Username validation and joins -/

theorem char_allowed_iff (c : Char) :
    (('a' ≤ c ∧ c ≤ 'z') ∨ ('A' ≤ c ∧ c ≤ 'Z') ∨ ('0' ≤ c ∧ c ≤ '9') ∨
        c = '_' ∨ c = '-' ∨ c = ' ') ↔
      (c.isAlpha = true ∨ c.isDigit = true ∨ c = ' ' ∨ c = '-' ∨ c = '_') := by
  have ha : ('a' : Char).val = 97 := rfl
  have hz : ('z' : Char).val = 122 := rfl
  have hA : ('A' : Char).val = 65 := rfl
  have hZ : ('Z' : Char).val = 90 := rfl
  have h0 : ('0' : Char).val = 48 := rfl
  have h9 : ('9' : Char).val = 57 := rfl
  simp only [Char.isAlpha, Char.isUpper, Char.isLower, Char.isDigit, Bool.or_eq_true,
    Bool.and_eq_true, decide_eq_true_eq, Char.le_def, ge_iff_le, ha, hz, hA, hZ, h0, h9]
  tauto

theorem char_allowed_utf8Size (c : Char)
    (h : c.isAlpha = true ∨ c.isDigit = true ∨ c = ' ' ∨ c = '-' ∨ c = '_') :
    c.utf8Size = 1 := by
  have key : ∀ k : UInt32, c.val ≤ k → k.toBitVec.toNat ≤ 127 →
      c.val ≤ UInt32.ofNatCore 127 (by decide) := by
    intro k h1 h2
    rw [UInt32.le_def, BitVec.le_def] at h1 ⊢
    exact Nat.le_trans h1 h2
  have hle : c.val ≤ UInt32.ofNatCore 127 (by decide) := by
    simp only [Char.isAlpha, Char.isUpper, Char.isLower, Char.isDigit, Bool.or_eq_true,
      Bool.and_eq_true, decide_eq_true_eq, ge_iff_le] at h
    rcases h with (⟨_, h⟩ | ⟨_, h⟩) | ⟨_, h⟩ | rfl | rfl | rfl
    · exact key 90 h (by decide)
    · exact key 122 h (by decide)
    · exact key 57 h (by decide)
    · decide
    · decide
    · decide
  unfold Char.utf8Size
  exact if_pos hle

theorem utf8ByteSize_go_eq_length :
    ∀ cs : List Char, (∀ c ∈ cs, c.utf8Size = 1) → String.utf8ByteSize.go cs = cs.length
  | [], _ => rfl
  | c :: cs, h => by
    simp only [String.utf8ByteSize.go, List.length_cons]
    rw [utf8ByteSize_go_eq_length cs (fun x hx => h x (List.mem_cons_of_mem _ hx)),
      h c (List.mem_cons_self _ _)]

theorem utf8ByteSize_eq_length (u : String) (h : ∀ c ∈ u.data, c.utf8Size = 1) :
    u.utf8ByteSize = u.length := by
  cases u with
  | mk cs => exact utf8ByteSize_go_eq_length cs h

theorem isValidUsername_iff (u : String) : isValidUsername u = true ↔ ValidName u := by
  unfold isValidUsername ValidName
  constructor
  · intro h
    split at h
    · exact absurd h (by decide)
    · rename_i hsize
      rw [List.all_eq_true] at h
      have hall : ∀ c ∈ u.data,
          c.isAlpha = true ∨ c.isDigit = true ∨ c = ' ' ∨ c = '-' ∨ c = '_' := by
        intro c hc
        exact (char_allowed_iff c).1 (by simpa using h c hc)
      have hlen := utf8ByteSize_eq_length u (fun c hc => char_allowed_utf8Size c (hall c hc))
      rw [hlen] at hsize
      exact ⟨by omega, by omega, hall⟩
  · rintro ⟨h1, h50, hall⟩
    have hlen := utf8ByteSize_eq_length u (fun c hc => char_allowed_utf8Size c (hall c hc))
    rw [if_neg (by rw [hlen]; omega), List.all_eq_true]
    intro c hc
    simpa using (char_allowed_iff c).2 (hall c hc)

theorem handleJoin_of_valid (gs : GameServer) (conn : Nat) (u : String) (now : Time)
    (hv : isValidUsername u = true) :
    handleJoin gs conn u now =
      match mapGet gs.playerGames u with
      | some gameID =>
        match mapGet gs.games gameID with
        | some game =>
          match gs.objects.get? game with
          | none => none
          | some g =>
            if g.Status = "playing" then reconnectPlayer gs game u conn now
            else
              some (handleJoinWaiting { gs with playerGames := mapDelete gs.playerGames u }
                conn u now)
        | none =>
          some (handleJoinWaiting { gs with playerGames := mapDelete gs.playerGames u }
            conn u now)
      | none => some (handleJoinWaiting gs conn u now) := by
  have hsize : ¬(u.utf8ByteSize = 0 ∨ u.utf8ByteSize > 50) := by
    intro h
    unfold isValidUsername at hv
    rw [if_pos h] at hv
    exact absurd hv (by decide)
  have hfirst : ¬(u = "" ∨ u.utf8ByteSize > 50) := by
    rintro (h | h)
    · subst h
      exact hsize (Or.inl rfl)
    · exact hsize (Or.inr h)
  unfold handleJoin
  rw [if_neg hfirst, if_neg (by rw [hv]; decide)]

theorem handleJoin_of_invalid (gs : GameServer) (conn : Nat) (u : String) (now : Time)
    (hv : isValidUsername u = false) :
    ∃ msg, handleJoin gs conn u now = some (gs, [Effect.write conn (Message.error msg)]) := by
  unfold handleJoin
  by_cases hfirst : u = "" ∨ u.utf8ByteSize > 50
  · rw [if_pos hfirst]
    exact ⟨_, rfl⟩
  · rw [if_neg hfirst, if_pos hv]
    exact ⟨_, rfl⟩

/-- What `reconnectPlayer` leaves alone, and what it sends. -/
theorem reconnectPlayer_frame (gs gs' : GameServer) (ptr : GamePtr) (u : String) (conn : Nat)
    (now : Time) (eff : List Effect) (h : reconnectPlayer gs ptr u conn now = some (gs', eff)) :
    gs'.waitingPlayers = gs.waitingPlayers ∧ gs'.games = gs.games ∧
      gs'.playerGames = gs.playerGames ∧ gs'.objects.length = gs.objects.length ∧
      gs'.database = gs.database ∧ gs'.kafka = gs.kafka ∧
      (∀ q, q ≠ ptr → gs'.objects.get? q = gs.objects.get? q) ∧
      (eff = [] ∨ ∃ id n st, eff = [Effect.write conn (Message.reconnected id n st)]) := by
  unfold reconnectPlayer at h
  cases hobj : gs.objects.get? ptr with
  | none => rw [hobj] at h; exact Option.noConfusion h
  | some g =>
    rw [hobj] at h
    cases hp1 : g.Player1 with
    | none => simp [hp1] at h
    | some p1 =>
      by_cases h1 : p1.Username = u
      · simp only [hp1, h1, Option.bind_eq_bind, Option.some_bind, if_true, Option.pure_def,
          Option.some.injEq, Prod.mk.injEq] at h
        obtain ⟨rfl, rfl⟩ := h
        refine ⟨rfl, rfl, rfl, by simp, rfl, rfl, ?_, Or.inr ⟨_, _, _, rfl⟩⟩
        intro q hq
        simp [List.getElem?_set, Ne.symm hq]
      · cases hp2 : g.Player2 with
        | none => simp [hp1, hp2, h1] at h
        | some p2 =>
          by_cases h2 : p2.Username = u
          · simp only [hp1, hp2, h1, h2, Option.bind_eq_bind, Option.some_bind, if_true,
              if_false, Option.pure_def, Option.some.injEq, Prod.mk.injEq] at h
            obtain ⟨rfl, rfl⟩ := h
            refine ⟨rfl, rfl, rfl, by simp, rfl, rfl, ?_, Or.inr ⟨_, _, _, rfl⟩⟩
            intro q hq
            simp [List.getElem?_set, Ne.symm hq]
          · simp only [hp1, hp2, h1, h2, Option.bind_eq_bind, Option.some_bind, if_false,
              Option.pure_def, Option.some.injEq, Prod.mk.injEq] at h
            obtain ⟨rfl, rfl⟩ := h
            exact ⟨rfl, rfl, rfl, rfl, rfl, rfl, fun _ _ => rfl, Or.inl rfl⟩

theorem handleJoinWaiting_effects (gs : GameServer) (conn : Nat) (u : String) (now : Time) :
    (handleJoinWaiting gs conn u now).2 = [] ∨
      (handleJoinWaiting gs conn u now).2 =
        [Effect.write conn (Message.waiting "Waiting for opponent...")] := by
  unfold handleJoinWaiting
  split
  · exact Or.inl rfl
  · exact Or.inr rfl

/-- The outcomes of `handleJoin` for a name that passes validation. -/
theorem handleJoin_valid_cases (gs : GameServer) (conn : Nat) (u : String) (now : Time)
    (hv : isValidUsername u = true) :
    handleJoin gs conn u now = none ∨
    (∃ gameID ptr g, mapGet gs.playerGames u = some gameID ∧ mapGet gs.games gameID = some ptr ∧
      gs.objects.get? ptr = some g ∧ g.Status = "playing" ∧
      handleJoin gs conn u now = reconnectPlayer gs ptr u conn now) ∨
    (mapGet gs.playerGames u = none ∧
      handleJoin gs conn u now = some (handleJoinWaiting gs conn u now)) ∨
    (StaleEntry gs u ∧
      handleJoin gs conn u now =
        some (handleJoinWaiting { gs with playerGames := mapDelete gs.playerGames u } conn u now)) := by
  rw [handleJoin_of_valid gs conn u now hv]
  cases h1 : mapGet gs.playerGames u with
  | none => exact Or.inr (Or.inr (Or.inl ⟨rfl, rfl⟩))
  | some gameID =>
    dsimp only
    cases h2 : mapGet gs.games gameID with
    | none =>
      exact Or.inr (Or.inr (Or.inr ⟨⟨gameID, h1, Or.inl h2⟩, rfl⟩))
    | some ptr =>
      dsimp only
      cases h3 : gs.objects.get? ptr with
      | none => exact Or.inl rfl
      | some g =>
        dsimp only
        by_cases hst : g.Status = "playing"
        · rw [if_pos hst]
          exact Or.inr (Or.inl ⟨gameID, ptr, g, rfl, h2, h3, hst, rfl⟩)
        · rw [if_neg hst]
          exact Or.inr (Or.inr (Or.inr ⟨⟨gameID, h1, Or.inr ⟨ptr, g, h2, h3, hst⟩⟩, rfl⟩))

/-- C16. Username validation. `isValidUsername` returns true if and only if the
name has between 1 and 50 characters inclusive and every character is an ASCII
letter, an ASCII digit, a space, a hyphen or an underscore. For a name that
fails this, `handleJoin` answers with one error message and leaves the registry
as it was; for a name that passes, nothing `handleJoin` sends is an error. -/
theorem username_validation :
    (∀ u : String, isValidUsername u = true ↔ ValidName u) ∧
    (∀ (gs : GameServer) (conn : Nat) (u : String) (now : Time), ¬ValidName u →
      ∃ msg, handleJoin gs conn u now = some (gs, [Effect.write conn (Message.error msg)])) ∧
    (∀ (gs gs' : GameServer) (conn : Nat) (u : String) (now : Time) (eff : List Effect),
      ValidName u → handleJoin gs conn u now = some (gs', eff) →
      ∀ (c : Nat) (msg : String), Effect.write c (Message.error msg) ∉ eff) := by
  refine ⟨isValidUsername_iff, ?_, ?_⟩
  · intro gs conn u now hnot
    apply handleJoin_of_invalid
    cases hv : isValidUsername u with
    | false => rfl
    | true => exact absurd ((isValidUsername_iff u).1 hv) hnot
  · intro gs gs' conn u now eff hvalid hres c msg hmem
    have hv := (isValidUsername_iff u).2 hvalid
    rcases handleJoin_valid_cases gs conn u now hv with h | ⟨_, ptr, _, _, _, _, _, h⟩ |
      ⟨_, h⟩ | ⟨_, h⟩
    · rw [h] at hres
      exact Option.noConfusion hres
    · rw [h] at hres
      obtain ⟨_, _, _, _, _, _, _, he⟩ := reconnectPlayer_frame gs gs' ptr u conn now eff hres
      rcases he with rfl | ⟨_, _, _, rfl⟩
      · exact absurd hmem (List.not_mem_nil _)
      · simp at hmem
    · rw [h] at hres
      simp only [Option.some.injEq] at hres
      have he := handleJoinWaiting_effects gs conn u now
      rw [hres] at he
      rcases he with he | he
      · simp only at he; subst he
        exact absurd hmem (List.not_mem_nil _)
      · simp only at he; subst he
        simp at hmem
    · rw [h] at hres
      simp only [Option.some.injEq] at hres
      have he := handleJoinWaiting_effects
        { gs with playerGames := mapDelete gs.playerGames u } conn u now
      rw [hres] at he
      rcases he with he | he
      · simp only at he; subst he
        exact absurd hmem (List.not_mem_nil _)
      · simp only at he; subst he
        simp at hmem

theorem username_validation_witness :
    isValidUsername "Ann-Lee_7 x" = true ∧
    isValidUsername "" = false ∧
    isValidUsername "bad!name" = false ∧
    isValidUsername "aaaaaaaaaaaaaaaaaaaaaaaaaaaaaaaaaaaaaaaaaaaaaaaaaaa" = false ∧
    isValidUsername "aaaaaaaaaaaaaaaaaaaaaaaaaaaaaaaaaaaaaaaaaaaaaaaaaa" = true ∧
    (isValidUsername "Ann-Lee_7 x" = true ↔ ValidName "Ann-Lee_7 x") ∧
    (∃ msg, handleJoin sampleServer 9 "bad!name" 5 =
      some (sampleServer, [Effect.write 9 (Message.error msg)])) ∧
    handleJoin sampleServer 9 "carol" 5 =
      some ({ sampleServer with waitingPlayers := [⟨"carol", 0, some 9, false, true, 5⟩] },
        [Effect.write 9 (Message.waiting "Waiting for opponent...")]) ∧
    ∀ (c : Nat) (msg : String), Effect.write c (Message.error msg) ∉
      [Effect.write 9 (Message.waiting "Waiting for opponent...")] :=
  ⟨by decide, by decide, by decide, by decide, by decide,
    username_validation.1 "Ann-Lee_7 x",
    username_validation.2.1 sampleServer 9 "bad!name" 5
      (fun h => absurd ((username_validation.1 "bad!name").2 h) (by decide)),
    by decide,
    username_validation.2.2 sampleServer
      { sampleServer with waitingPlayers := [⟨"carol", 0, some 9, false, true, 5⟩] } 9 "carol" 5
      [Effect.write 9 (Message.waiting "Waiting for opponent...")]
      ((username_validation.1 "carol").1 (by decide)) (by decide)⟩

theorem handleJoinWaiting_frame (gs : GameServer) (conn : Nat) (u : String) (now : Time) :
    (handleJoinWaiting gs conn u now).1.games = gs.games ∧
    (handleJoinWaiting gs conn u now).1.playerGames = gs.playerGames ∧
    (handleJoinWaiting gs conn u now).1.objects = gs.objects ∧
    (((∃ wp ∈ gs.waitingPlayers, wp.Username = u) ∧ handleJoinWaiting gs conn u now = (gs, [])) ∨
      ((∀ wp ∈ gs.waitingPlayers, wp.Username ≠ u) ∧
        ∃ player : Player, player.Username = u ∧
          (handleJoinWaiting gs conn u now).1.waitingPlayers = gs.waitingPlayers ++ [player])) := by
  unfold handleJoinWaiting
  by_cases h : gs.waitingPlayers.any (fun wp => wp.Username = u) = true
  · rw [if_pos h]
    refine ⟨rfl, rfl, rfl, Or.inl ⟨?_, rfl⟩⟩
    rw [List.any_eq_true] at h
    obtain ⟨wp, hwp, he⟩ := h
    exact ⟨wp, hwp, by simpa using he⟩
  · rw [if_neg h]
    refine ⟨rfl, rfl, rfl, Or.inr ⟨?_, _, rfl, rfl⟩⟩
    intro wp hwp he
    apply h
    rw [List.any_eq_true]
    exact ⟨wp, hwp, by simpa using he⟩

theorem join_of_waiting (gs gs' : GameServer) (conn : Nat) (u : String) (now : Time)
    (eff : List Effect) (hwait : ∃ wp ∈ gs.waitingPlayers, wp.Username = u)
    (hres : handleJoin gs conn u now = some (gs', eff)) :
    gs'.waitingPlayers = gs.waitingPlayers ∧ gs'.games = gs.games ∧
      (gs'.playerGames = gs.playerGames ∨ gs'.playerGames = mapDelete gs.playerGames u) ∧
      (¬StaleEntry gs u → gs'.playerGames = gs.playerGames) ∧
      (isValidUsername u = true → StaleEntry gs u →
        gs'.playerGames = mapDelete gs.playerGames u) ∧
      (mapGet gs.playerGames u = none → gs' = gs ∧ (isValidUsername u = true → eff = [])) := by
  cases hv : isValidUsername u with
  | false =>
    obtain ⟨msg, h⟩ := handleJoin_of_invalid gs conn u now hv
    rw [h] at hres
    simp only [Option.some.injEq, Prod.mk.injEq] at hres
    obtain ⟨rfl, _⟩ := hres
    exact ⟨rfl, rfl, Or.inl rfl, fun _ => rfl, fun h => absurd h (by decide),
      fun _ => ⟨rfl, fun h => absurd h (by decide)⟩⟩
  | true =>
    rcases handleJoin_valid_cases gs conn u now hv with h | ⟨id, ptr, g, h1, h2, h3, hst, h⟩ |
      ⟨hnone, h⟩ | ⟨hstale, h⟩
    · rw [h] at hres
      exact Option.noConfusion hres
    · rw [h] at hres
      obtain ⟨hw, hg, hpg, _⟩ := reconnectPlayer_frame gs gs' ptr u conn now eff hres
      refine ⟨hw, hg, Or.inl hpg, fun _ => hpg, ?_, ?_⟩
      · rintro _ ⟨id', hid', hs⟩
        rw [h1] at hid'
        simp only [Option.some.injEq] at hid'
        subst hid'
        rcases hs with hs | ⟨ptr', g', hp', hg', hst'⟩
        · rw [h2] at hs
          exact Option.noConfusion hs
        · rw [h2] at hp'
          simp only [Option.some.injEq] at hp'
          subst hp'
          rw [h3] at hg'
          simp only [Option.some.injEq] at hg'
          subst hg'
          exact absurd hst hst'
      · intro hn
        rw [h1] at hn
        exact Option.noConfusion hn
    · rw [h] at hres
      obtain ⟨_, _, _, hq⟩ := handleJoinWaiting_frame gs conn u now
      rcases hq with ⟨_, he⟩ | ⟨hno, _⟩
      · rw [he] at hres
        simp only [Option.some.injEq, Prod.mk.injEq] at hres
        obtain ⟨rfl, rfl⟩ := hres
        exact ⟨rfl, rfl, Or.inl rfl, fun _ => rfl,
          fun _ ⟨id, hid, _⟩ => by rw [hnone] at hid; exact Option.noConfusion hid,
          fun _ => ⟨rfl, fun _ => rfl⟩⟩
      · obtain ⟨wp, hwp, he⟩ := hwait
        exact absurd he (hno wp hwp)
    · rw [h] at hres
      have hwait' : ∃ wp ∈ ({ gs with playerGames := mapDelete gs.playerGames u } :
          GameServer).waitingPlayers, wp.Username = u := hwait
      obtain ⟨_, _, _, hq⟩ := handleJoinWaiting_frame
        { gs with playerGames := mapDelete gs.playerGames u } conn u now
      rcases hq with ⟨_, he⟩ | ⟨hno, _⟩
      · rw [he] at hres
        simp only [Option.some.injEq, Prod.mk.injEq] at hres
        obtain ⟨rfl, rfl⟩ := hres
        refine ⟨rfl, rfl, Or.inr rfl, fun hn => absurd hstale hn, fun _ _ => rfl, ?_⟩
        intro hn
        obtain ⟨id, hid, _⟩ := hstale
        rw [hn] at hid
        exact Option.noConfusion hid
      · obtain ⟨wp, hwp, he⟩ := hwait'
        exact absurd he (hno wp hwp)

theorem join_of_playing (gs gs' : GameServer) (conn : Nat) (u : String) (now : Time)
    (eff : List Effect) (gameID : String) (ptr : GamePtr) (g : Game)
    (hv : isValidUsername u = true) (h1 : mapGet gs.playerGames u = some gameID)
    (h2 : mapGet gs.games gameID = some ptr) (h3 : gs.objects.get? ptr = some g)
    (hst : g.Status = "playing") :
    handleJoin gs conn u now = reconnectPlayer gs ptr u conn now ∧
      (handleJoin gs conn u now = some (gs', eff) →
        gs'.waitingPlayers = gs.waitingPlayers ∧ gs'.games = gs.games ∧
          gs'.playerGames = gs.playerGames ∧ gs'.objects.length = gs.objects.length) := by
  have h : handleJoin gs conn u now = reconnectPlayer gs ptr u conn now := by
    rw [handleJoin_of_valid gs conn u now hv, h1]
    dsimp only
    rw [h2]
    dsimp only
    rw [h3]
    dsimp only
    rw [if_pos hst]
  refine ⟨h, ?_⟩
  intro hres
  rw [h] at hres
  obtain ⟨hw, hg, hpg, hlen, _⟩ := reconnectPlayer_frame gs gs' ptr u conn now eff hres
  exact ⟨hw, hg, hpg, hlen⟩

theorem createGame_waiting (gs : GameServer) (p1 p2 : Player) (withBot : Bool) (env : CreateEnv) :
    (createGame gs p1 p2 withBot env).1.waitingPlayers = gs.waitingPlayers := rfl

theorem matchmakingSweep_waiting (gs : GameServer) (now : Time) (env : CreateEnv) :
    ∃ k, (matchmakingSweep gs now env).1.waitingPlayers = gs.waitingPlayers.drop k := by
  unfold matchmakingSweep
  cases hq : gs.waitingPlayers with
  | nil => exact ⟨0, by simp [hq]⟩
  | cons p1 rest =>
    cases rest with
    | nil =>
      dsimp only
      split
      · exact ⟨1, by rw [createGame_waiting]; rfl⟩
      · exact ⟨0, by simp [hq]⟩
    | cons p2 rest => exact ⟨2, by rw [createGame_waiting]; rfl⟩

theorem reachable_waiting_nodup (gs : GameServer) (h : JoinSweepReachable gs) :
    (gs.waitingPlayers.map fun wp => wp.Username).Nodup := by
  induction h with
  | init database kafka => simp [NewGameServer]
  | join gs gs' conn u now eff _ hres ih =>
    cases hv : isValidUsername u with
    | false =>
      obtain ⟨msg, h⟩ := handleJoin_of_invalid gs conn u now hv
      rw [h] at hres
      simp only [Option.some.injEq, Prod.mk.injEq] at hres
      obtain ⟨rfl, _⟩ := hres
      exact ih
    | true =>
      have step : ∀ gs0 : GameServer, gs0.waitingPlayers = gs.waitingPlayers →
          some (handleJoinWaiting gs0 conn u now) = some (gs', eff) →
          (gs'.waitingPlayers.map fun wp => wp.Username).Nodup := by
        intro gs0 hw0 hres0
        simp only [Option.some.injEq] at hres0
        obtain ⟨_, _, _, hq⟩ := handleJoinWaiting_frame gs0 conn u now
        rw [hres0] at hq
        rcases hq with ⟨_, he⟩ | ⟨hno, player, hname, he⟩
        · simp only [Prod.mk.injEq] at he
          rw [he.1, hw0]
          exact ih
        · simp only at he
          rw [he, hw0, List.map_append, List.map_cons, List.map_nil, hname]
          rw [List.nodup_append]
          refine ⟨ih, List.nodup_singleton _, ?_⟩
          intro a ha hb
          rw [List.mem_singleton] at hb
          subst hb
          obtain ⟨wp, hwp, he⟩ := List.mem_map.1 ha
          exact hno wp (hw0 ▸ hwp) he
      rcases handleJoin_valid_cases gs conn u now hv with h | ⟨_, ptr, _, _, _, _, _, h⟩ |
        ⟨_, h⟩ | ⟨_, h⟩
      · rw [h] at hres
        exact Option.noConfusion hres
      · rw [h] at hres
        obtain ⟨hw, _⟩ := reconnectPlayer_frame gs gs' ptr u conn now eff hres
        rw [hw]
        exact ih
      · rw [h] at hres
        exact step gs rfl hres
      · rw [h] at hres
        exact step { gs with playerGames := mapDelete gs.playerGames u } rfl hres
  | sweep gs gs' now env eff _ hres ih =>
    obtain ⟨k, hk⟩ := matchmakingSweep_waiting gs now env
    rw [hres] at hk
    simp only at hk
    rw [hk, List.map_drop]
    exact ih.sublist (List.drop_sublist _ _)

/-! ## Matchmaking -/

theorem mapGet_nil {α : Type} (k : String) : mapGet ([] : List (String × α)) k = none := rfl

theorem mapGet_cons {α : Type} (a : String × α) (m : List (String × α)) (k : String) :
    mapGet (a :: m) k = if a.1 = k then some a.2 else mapGet m k := by
  unfold mapGet
  by_cases h : a.1 = k
  · simp [List.find?_cons, h]
  · simp [List.find?_cons, h]

theorem mapDelete_cons {α : Type} (a : String × α) (m : List (String × α)) (k : String) :
    mapDelete (a :: m) k = if a.1 = k then mapDelete m k else a :: mapDelete m k := by
  unfold mapDelete
  by_cases h : a.1 = k
  · simp [List.filter_cons, h]
  · simp [List.filter_cons, h]

theorem mapGet_mapDelete {α : Type} (m : List (String × α)) (k k' : String) :
    mapGet (mapDelete m k) k' = if k' = k then none else mapGet m k' := by
  induction m with
  | nil =>
    have : mapDelete ([] : List (String × α)) k = [] := rfl
    rw [this, mapGet_nil]
    split <;> rfl
  | cons a m ih =>
    rw [mapDelete_cons, mapGet_cons]
    by_cases ha : a.1 = k
    · rw [if_pos ha, ih]
      by_cases hk : k' = k
      · rw [if_pos hk, if_pos hk]
      · rw [if_neg hk, if_neg hk, if_neg (fun h => hk (h.symm.trans ha))]
    · rw [if_neg ha, mapGet_cons, ih]
      by_cases hk : k' = k
      · rw [if_pos hk, if_pos hk, if_neg (fun h => ha (h.trans hk))]
      · rw [if_neg hk, if_neg hk]

theorem mapGet_append_singleton {α : Type} (m : List (String × α)) (k k' : String) (v : α) :
    mapGet (m ++ [(k, v)]) k' =
      match mapGet m k' with
      | some x => some x
      | none => if k = k' then some v else none := by
  induction m with
  | nil =>
    rw [List.nil_append, mapGet_cons, mapGet_nil]
  | cons a m ih =>
    rw [List.cons_append, mapGet_cons, mapGet_cons, ih]
    by_cases ha : a.1 = k'
    · rw [if_pos ha, if_pos ha]
    · rw [if_neg ha, if_neg ha]

theorem mapGet_mapInsert {α : Type} (m : List (String × α)) (k k' : String) (v : α) :
    mapGet (mapInsert m k v) k' = if k' = k then some v else mapGet m k' := by
  unfold mapInsert
  rw [mapGet_append_singleton, mapGet_mapDelete]
  by_cases h : k' = k
  · rw [if_pos h, if_pos h]
    dsimp only
    rw [if_pos h.symm]
  · have h' : ¬k = k' := fun e => h e.symm
    rw [if_neg h, if_neg h]
    cases mapGet m k' with
    | none =>
      dsimp only
      rw [if_neg h']
    | some x => rfl

theorem matchmakingSweep_pair (gs : GameServer) (now : Time) (env : CreateEnv)
    (w0 w1 : Player) (rest : List Player) (hq : gs.waitingPlayers = w0 :: w1 :: rest) :
    matchmakingSweep gs now env = createGame { gs with waitingPlayers := rest } w0 w1 false env := by
  unfold matchmakingSweep
  rw [hq]

theorem matchmakingSweep_single (gs : GameServer) (now : Time) (env : CreateEnv) (w : Player)
    (hq : gs.waitingPlayers = [w]) :
    matchmakingSweep gs now env =
      if now - w.LastSeen > 10 * Second then
        createGame { gs with waitingPlayers := [] } w
          { Username := "BOT", PlayerNum := 0, Conn := none, IsBot := true, Connected := true,
            LastSeen := 0 } true env
      else (gs, []) := by
  unfold matchmakingSweep
  rw [hq]

/-- What `createGame` registers. -/
theorem createGame_registers (gs : GameServer) (p1 p2 : Player) (withBot : Bool)
    (env : CreateEnv) :
    ∃ game : Game,
      (createGame gs p1 p2 withBot env).1.objects = gs.objects ++ [game] ∧
      (createGame gs p1 p2 withBot env).1.objects.get? gs.objects.length = some game ∧
      (createGame gs p1 p2 withBot env).1.games = mapInsert gs.games env.gameID gs.objects.length ∧
      mapGet (createGame gs p1 p2 withBot env).1.games env.gameID = some gs.objects.length ∧
      (createGame gs p1 p2 withBot env).1.waitingPlayers = gs.waitingPlayers ∧
      mapGet (createGame gs p1 p2 withBot env).1.playerGames p1.Username = some env.gameID ∧
      (withBot = false →
        mapGet (createGame gs p1 p2 withBot env).1.playerGames p2.Username = some env.gameID) ∧
      (withBot = true → (createGame gs p1 p2 withBot env).1.playerGames =
        mapInsert gs.playerGames p1.Username env.gameID) ∧
      game.ID = env.gameID ∧
      game.Player1 = some { p1 with PlayerNum := Player1 } ∧
      game.Player2 = some { p2 with PlayerNum := Player2 } ∧
      game.Status = "playing" ∧ game.CurrentTurn = Player1 ∧ game.Board = Board.empty ∧
      game.Winner = 0 ∧ game.MoveCount = 0 ∧ game.StartTime = env.tStart := by
  refine ⟨{ NewGame env.gameID env.tNewStart env.tNewActivity with
      Player1 := some { p1 with PlayerNum := Player1 }
      Player2 := some { p2 with PlayerNum := Player2 }
      Status := "playing"
      StartTime := env.tStart }, rfl, ?_, rfl, ?_, rfl, ?_, ?_, ?_, rfl, rfl, rfl, rfl, rfl, rfl,
    rfl, rfl, rfl⟩
  · simp [createGame]
  · simp [createGame, mapGet_mapInsert]
  · cases withBot with
    | true => simp [createGame, mapGet_mapInsert]
    | false =>
      simp only [createGame, Bool.not_false, if_true, mapGet_mapInsert]
      split <;> rfl
  · intro h
    subst h
    simp [createGame, mapGet_mapInsert]
  · intro h
    subst h
    simp [createGame]

/-- C18. FIFO pairing: when a matchmaking sweep runs with a waiting queue
`w0, w1, rest` it removes exactly `w0` and `w1` (the rest keeps its order) and
registers one new game, in which `w0` is SeatA (Player1), `w1` is SeatB
(Player2), the status is playing, the current turn is SeatA and the board is
empty; both usernames map to the new game's id in the username index. -/
theorem fifo_pairing (gs : GameServer) (now : Time) (env : CreateEnv) (w0 w1 : Player)
    (rest : List Player) (hq : gs.waitingPlayers = w0 :: w1 :: rest) :
    (matchmakingSweep gs now env).1.waitingPlayers = rest ∧
    ∃ game : Game,
      (matchmakingSweep gs now env).1.objects = gs.objects ++ [game] ∧
      (matchmakingSweep gs now env).1.games = mapInsert gs.games env.gameID gs.objects.length ∧
      mapGet (matchmakingSweep gs now env).1.games env.gameID = some gs.objects.length ∧
      (matchmakingSweep gs now env).1.objects.get? gs.objects.length = some game ∧
      game.ID = env.gameID ∧
      game.Player1 = some { w0 with PlayerNum := Player1 } ∧
      game.Player2 = some { w1 with PlayerNum := Player2 } ∧
      game.Status = "playing" ∧ game.CurrentTurn = Player1 ∧ game.Board = Board.empty ∧
      mapGet (matchmakingSweep gs now env).1.playerGames w0.Username = some env.gameID ∧
      mapGet (matchmakingSweep gs now env).1.playerGames w1.Username = some env.gameID := by
  rw [matchmakingSweep_pair gs now env w0 w1 rest hq]
  obtain ⟨game, h1, h2, h3, h4, h5, h6, h7, _, h9, h10, h11, h12, h13, h14, _⟩ :=
    createGame_registers { gs with waitingPlayers := rest } w0 w1 false env
  exact ⟨h5, game, h1, h3, h4, h2, h9, h10, h11, h12, h13, h14, h6, h7 rfl⟩

theorem fifo_pairing_witness :
    queueServer.waitingPlayers =
      samplePlayer "carol" 0 3 :: samplePlayer "dave" 0 4 :: [samplePlayer "erin" 0 5] ∧
    (matchmakingSweep queueServer 50 sampleCreateEnv).1.games = [("g1", 0), ("g2", 1)] ∧
    (matchmakingSweep queueServer 50 sampleCreateEnv).1.playerGames =
      [("alice", "g1"), ("bob", "g1"), ("carol", "g2"), ("dave", "g2")] ∧
    ((matchmakingSweep queueServer 50 sampleCreateEnv).1.waitingPlayers =
        [samplePlayer "erin" 0 5] ∧
      ∃ game : Game,
        (matchmakingSweep queueServer 50 sampleCreateEnv).1.objects =
          queueServer.objects ++ [game] ∧
        (matchmakingSweep queueServer 50 sampleCreateEnv).1.games =
          mapInsert queueServer.games sampleCreateEnv.gameID queueServer.objects.length ∧
        mapGet (matchmakingSweep queueServer 50 sampleCreateEnv).1.games sampleCreateEnv.gameID =
          some queueServer.objects.length ∧
        (matchmakingSweep queueServer 50 sampleCreateEnv).1.objects.get?
          queueServer.objects.length = some game ∧
        game.ID = sampleCreateEnv.gameID ∧
        game.Player1 = some { samplePlayer "carol" 0 3 with PlayerNum := Player1 } ∧
        game.Player2 = some { samplePlayer "dave" 0 4 with PlayerNum := Player2 } ∧
        game.Status = "playing" ∧ game.CurrentTurn = Player1 ∧ game.Board = Board.empty ∧
        mapGet (matchmakingSweep queueServer 50 sampleCreateEnv).1.playerGames
          (samplePlayer "carol" 0 3).Username = some sampleCreateEnv.gameID ∧
        mapGet (matchmakingSweep queueServer 50 sampleCreateEnv).1.playerGames
          (samplePlayer "dave" 0 4).Username = some sampleCreateEnv.gameID) :=
  ⟨by decide, by decide, by decide,
    fifo_pairing queueServer 50 sampleCreateEnv (samplePlayer "carol" 0 3)
      (samplePlayer "dave" 0 4) [samplePlayer "erin" 0 5] (by decide)⟩

/-- C19 (amended). Bot fallback: when a matchmaking sweep runs with exactly one
waiting player who was last seen more than 10 seconds before, it removes that
player from the queue and registers a game between that player (SeatA) and a
bot seat (SeatB, bot flag set), with status playing and current turn SeatA, and
maps the player's username to the game; when the player was last seen 10
seconds before or less, the sweep changes nothing and sends nothing. -/
theorem bot_fallback (gs : GameServer) (now : Time) (env : CreateEnv) (w : Player)
    (hq : gs.waitingPlayers = [w]) :
    (now - w.LastSeen > 10 * Second →
      (matchmakingSweep gs now env).1.waitingPlayers = [] ∧
      ∃ (game : Game) (bot : Player),
        (matchmakingSweep gs now env).1.objects = gs.objects ++ [game] ∧
        (matchmakingSweep gs now env).1.games =
          mapInsert gs.games env.gameID gs.objects.length ∧
        mapGet (matchmakingSweep gs now env).1.games env.gameID = some gs.objects.length ∧
        game.Player1 = some { w with PlayerNum := Player1 } ∧
        game.Player2 = some bot ∧ bot.IsBot = true ∧ bot.PlayerNum = Player2 ∧
        bot.Username = "BOT" ∧ bot.Connected = true ∧
        game.Status = "playing" ∧ game.CurrentTurn = Player1 ∧ game.Board = Board.empty ∧
        mapGet (matchmakingSweep gs now env).1.playerGames w.Username = some env.gameID ∧
        (matchmakingSweep gs now env).1.playerGames =
          mapInsert gs.playerGames w.Username env.gameID) ∧
    (now - w.LastSeen ≤ 10 * Second → matchmakingSweep gs now env = (gs, [])) := by
  rw [matchmakingSweep_single gs now env w hq]
  constructor
  · intro h
    rw [if_pos h]
    obtain ⟨game, h1, _, h3, h4, h5, h6, _, h8, _, h10, h11, h12, h13, h14, _⟩ :=
      createGame_registers { gs with waitingPlayers := [] } w
        { Username := "BOT", PlayerNum := 0, Conn := none, IsBot := true, Connected := true,
          LastSeen := 0 } true env
    exact ⟨h5, game, _, h1, h3, h4, h10, h11, rfl, rfl, rfl, rfl, h12, h13, h14, h6, h8 rfl⟩
  · intro h
    rw [if_neg (not_lt.2 h)]

theorem bot_fallback_witness :
    waitingServer.waitingPlayers = [samplePlayer "carol" 0 3] ∧
    (matchmakingSweep waitingServer (10 * Second + 1) sampleCreateEnv).1.playerGames =
      [("alice", "g1"), ("bob", "g1"), ("carol", "g2")] ∧
    (matchmakingSweep waitingServer (10 * Second + 1) sampleCreateEnv).1.waitingPlayers = [] ∧
    matchmakingSweep waitingServer (9 * Second) sampleCreateEnv = (waitingServer, []) ∧
    10 * Second + 1 - (samplePlayer "carol" 0 3).LastSeen > 10 * Second ∧
    ((matchmakingSweep waitingServer (10 * Second + 1) sampleCreateEnv).1.waitingPlayers = [] ∧
      ∃ (game : Game) (bot : Player),
        (matchmakingSweep waitingServer (10 * Second + 1) sampleCreateEnv).1.objects =
          waitingServer.objects ++ [game] ∧
        (matchmakingSweep waitingServer (10 * Second + 1) sampleCreateEnv).1.games =
          mapInsert waitingServer.games sampleCreateEnv.gameID waitingServer.objects.length ∧
        mapGet (matchmakingSweep waitingServer (10 * Second + 1) sampleCreateEnv).1.games
          sampleCreateEnv.gameID = some waitingServer.objects.length ∧
        game.Player1 = some { samplePlayer "carol" 0 3 with PlayerNum := Player1 } ∧
        game.Player2 = some bot ∧ bot.IsBot = true ∧ bot.PlayerNum = Player2 ∧
        bot.Username = "BOT" ∧ bot.Connected = true ∧
        game.Status = "playing" ∧ game.CurrentTurn = Player1 ∧ game.Board = Board.empty ∧
        mapGet (matchmakingSweep waitingServer (10 * Second + 1) sampleCreateEnv).1.playerGames
          (samplePlayer "carol" 0 3).Username = some sampleCreateEnv.gameID ∧
        (matchmakingSweep waitingServer (10 * Second + 1) sampleCreateEnv).1.playerGames =
          mapInsert waitingServer.playerGames (samplePlayer "carol" 0 3).Username
            sampleCreateEnv.gameID) :=
  ⟨by decide, by decide, by decide, by decide, by decide,
    (bot_fallback waitingServer (10 * Second + 1) sampleCreateEnv (samplePlayer "carol" 0 3)
      (by decide)).1 (by decide)⟩

/-- C19, as stated, fails at the boundary: a single waiting player last seen
exactly 10 seconds before the sweep (so waiting for at least 10 seconds) is not
paired; the sweep leaves the registry as it is. -/
theorem bot_fallback_boundary_counterexample :
    waitingServer.waitingPlayers = [samplePlayer "carol" 0 3] ∧
    10 * Second - (samplePlayer "carol" 0 3).LastSeen ≥ 10 * Second ∧
    matchmakingSweep waitingServer (10 * Second) sampleCreateEnv = (waitingServer, []) ∧
    (matchmakingSweep waitingServer (10 * Second) sampleCreateEnv).1.waitingPlayers ≠ [] := by
  decide

/-! ## Forfeiture in the cleanup sweep -/

theorem handleGameEnd_some (gs : GameServer) (g : Game) (t : Time) (p1 p2 : Player)
    (h1 : g.Player1 = some p1) (h2 : g.Player2 = some p2) :
    ∃ eff, handleGameEnd gs g t =
      some ({ gs with playerGames := withoutSeats gs.playerGames p1 p2 }, eff) := by
  unfold handleGameEnd withoutSeats
  rw [h1, h2]
  exact ⟨_, rfl⟩

theorem cleanupGame_cases (gs : GameServer) (gameID : String) (ptr : GamePtr) (now t : Time)
    (g : Game) (p1 p2 : Player) (hobj : gs.objects.get? ptr = some g)
    (h1 : g.Player1 = some p1) (h2 : g.Player2 = some p2) :
    ((g.Status ≠ "playing" ∨ (¬SeatExpired p1 now ∧ ¬SeatExpired p2 now)) ∧
      cleanupGame gs gameID ptr now t = some (gs, [])) ∨
    (∃ winner eff, g.Status = "playing" ∧
      ((SeatExpired p1 now ∧ winner = Player2) ∨
        (¬SeatExpired p1 now ∧ SeatExpired p2 now ∧ winner = Player1)) ∧
      cleanupGame gs gameID ptr now t =
        some ({ gs with
          objects := gs.objects.set ptr (forfeitedGame g winner now)
          games := mapDelete gs.games gameID
          playerGames := withoutSeats gs.playerGames p1 p2 }, eff)) := by
  have hexp : ∀ p : Player,
      ((!p.Connected) = true ∧ now - p.LastSeen > 30 * Second) ↔ SeatExpired p now := by
    intro p
    unfold SeatExpired
    cases p.Connected <;> simp
  cases g with
  | mk ID B P1 P2 CT St W ST ET MC LA =>
  simp only at h1 h2
  subst h1
  subst h2
  unfold cleanupGame
  rw [hobj]
  simp only [Option.bind_eq_bind, Option.some_bind, Option.pure_def, ne_eq]
  by_cases hst : St = "playing"
  · rw [if_neg (not_not.2 hst)]
    by_cases he1 : SeatExpired p1 now
    · right
      obtain ⟨eff, hend⟩ := handleGameEnd_some
        ⟨gs.objects.set ptr (forfeitedGame ⟨ID, B, some p1, some p2, CT, St, W, ST, ET, MC, LA⟩
          Player2 now), gs.games, gs.waitingPlayers, gs.playerGames, gs.database, gs.kafka⟩
        (forfeitedGame ⟨ID, B, some p1, some p2, CT, St, W, ST, ET, MC, LA⟩ Player2 now)
        t p1 p2 rfl rfl
      refine ⟨Player2, eff, hst, Or.inl ⟨he1, rfl⟩, ?_⟩
      unfold forfeitedGame at hend ⊢
      rw [if_pos ((hexp p1).2 he1), hend]
      rfl
    · rw [if_neg ((hexp p1).not.2 he1)]
      by_cases he2 : SeatExpired p2 now
      · right
        obtain ⟨eff, hend⟩ := handleGameEnd_some
          ⟨gs.objects.set ptr (forfeitedGame ⟨ID, B, some p1, some p2, CT, St, W, ST, ET, MC, LA⟩
            Player1 now), gs.games, gs.waitingPlayers, gs.playerGames, gs.database, gs.kafka⟩
          (forfeitedGame ⟨ID, B, some p1, some p2, CT, St, W, ST, ET, MC, LA⟩ Player1 now)
          t p1 p2 rfl rfl
        refine ⟨Player1, eff, hst, Or.inr ⟨he1, he2, rfl⟩, ?_⟩
        unfold forfeitedGame at hend ⊢
        rw [if_pos ((hexp p2).2 he2), hend]
        rfl
      · left
        rw [if_neg ((hexp p2).not.2 he2)]
        exact ⟨Or.inr ⟨he1, he2⟩, rfl⟩
  · left
    rw [if_pos hst]
    exact ⟨Or.inl hst, rfl⟩

theorem list_get?_set_self {α : Type} :
    ∀ (l : List α) (i : Nat) (a b : α), l.get? i = some b → (l.set i a).get? i = some a
  | [], _, _, _, h => by simp at h
  | x :: l, 0, a, b, _ => by simp
  | x :: l, i + 1, a, b, h => by
    simp only [List.get?_cons_succ] at h
    simp only [List.set_cons_succ, List.get?_cons_succ]
    exact list_get?_set_self l i a b h

theorem list_get?_set_ne {α : Type} :
    ∀ (l : List α) (i q : Nat) (a : α), q ≠ i → (l.set i a).get? q = l.get? q
  | [], _, _, _, _ => by simp
  | x :: l, 0, 0, _, h => absurd rfl h
  | x :: l, 0, q + 1, _, _ => by simp
  | x :: l, i + 1, 0, _, _ => by simp
  | x :: l, i + 1, q + 1, a, h => by
    simp only [List.set_cons_succ, List.get?_cons_succ]
    exact list_get?_set_ne l i q a (fun e => h (by rw [e]))

theorem mapGet_withoutSeats (pg : List (String × String)) (p1 p2 : Player) :
    (∀ k, mapGet pg k = none → mapGet (withoutSeats pg p1 p2) k = none) ∧
    mapGet (withoutSeats pg p1 p2) p1.Username = none ∧
    (p2.IsBot = false → mapGet (withoutSeats pg p1 p2) p2.Username = none) := by
  unfold withoutSeats
  cases hb : p2.IsBot with
  | true =>
    simp only [Bool.not_true, Bool.false_eq_true, if_false]
    refine ⟨?_, ?_, fun h => absurd h (by decide)⟩
    · intro k hk
      rw [mapGet_mapDelete]
      split
      · rfl
      · exact hk
    · rw [mapGet_mapDelete, if_pos rfl]
  | false =>
    simp only [Bool.not_false, if_true]
    refine ⟨?_, ?_, fun _ => ?_⟩
    · intro k hk
      rw [mapGet_mapDelete, mapGet_mapDelete]
      split
      · rfl
      · split
        · rfl
        · exact hk
    · rw [mapGet_mapDelete, mapGet_mapDelete]
      split
      · rfl
      · rw [if_pos rfl]
    · rw [mapGet_mapDelete, if_pos rfl]

/-- One entry of the cleanup loop: what it leaves alone and what it does to
the game it visits. -/
theorem cleanupGame_step (gs : GameServer) (gameID : String) (ptr : GamePtr) (now t : Time)
    (g : Game) (p1 p2 : Player) (hobj : gs.objects.get? ptr = some g)
    (h1 : g.Player1 = some p1) (h2 : g.Player2 = some p2) :
    ∃ gs1 eff, cleanupGame gs gameID ptr now t = some (gs1, eff) ∧
      gs1.waitingPlayers = gs.waitingPlayers ∧
      (∀ q, q ≠ ptr → gs1.objects.get? q = gs.objects.get? q) ∧
      (∀ k, mapGet gs.playerGames k = none → mapGet gs1.playerGames k = none) ∧
      (∀ k, k ≠ gameID → mapGet gs1.games k = mapGet gs.games k) ∧
      (∀ k, mapGet gs.games k = none → mapGet gs1.games k = none) ∧
      (NoForfeit g p1 p2 now → gs1 = gs ∧ eff = []) ∧
      (∀ w, Forfeit g p1 p2 now w →
        gs1.objects.get? ptr = some (forfeitedGame g w now) ∧ mapGet gs1.games gameID = none ∧
        mapGet gs1.playerGames p1.Username = none ∧
        (p2.IsBot = false → mapGet gs1.playerGames p2.Username = none)) := by
  rcases cleanupGame_cases gs gameID ptr now t g p1 p2 hobj h1 h2 with
    ⟨hno, hres⟩ | ⟨w0, eff, hst, hw0, hres⟩
  · refine ⟨gs, [], hres, rfl, fun _ _ => rfl, fun _ h => h, fun _ _ => rfl, fun _ h => h,
      fun _ => ⟨rfl, rfl⟩, ?_⟩
    rintro w ⟨hst, hw⟩
    exfalso
    rcases hno with hno | ⟨hn1, hn2⟩
    · exact hno hst
    · rcases hw with ⟨he, _⟩ | ⟨_, he, _⟩
      · exact hn1 he
      · exact hn2 he
  · obtain ⟨hmono, hp1, hp2⟩ := mapGet_withoutSeats gs.playerGames p1 p2
    refine ⟨_, eff, hres, rfl, ?_, hmono, ?_, ?_, ?_, ?_⟩
    · intro q hq
      exact list_get?_set_ne gs.objects ptr q _ hq
    · intro k hk
      show mapGet (mapDelete gs.games gameID) k = mapGet gs.games k
      rw [mapGet_mapDelete, if_neg hk]
    · intro k hk
      show mapGet (mapDelete gs.games gameID) k = none
      rw [mapGet_mapDelete]
      split
      · rfl
      · exact hk
    · rintro (hno | ⟨hn1, hn2⟩)
      · exact absurd hst hno
      · rcases hw0 with ⟨he, _⟩ | ⟨_, he, _⟩
        · exact absurd he hn1
        · exact absurd he hn2
    · rintro w ⟨_, hw⟩
      have hww : w = w0 := by
        rcases hw with ⟨he, e⟩ | ⟨hne, _, e⟩ <;> rcases hw0 with ⟨he0, e0⟩ | ⟨hne0, _, e0⟩
        · rw [e, e0]
        · exact absurd he hne0
        · exact absurd he0 hne
        · rw [e, e0]
      subst hww
      refine ⟨list_get?_set_self gs.objects ptr _ g hobj, ?_, hp1, hp2⟩
      show mapGet (mapDelete gs.games gameID) gameID = none
      rw [mapGet_mapDelete, if_pos rfl]

theorem cleanupEntries_spec (now t : String → Time) :
    ∀ (entries : List (String × GamePtr)) (gs : GameServer),
      (entries.map Prod.fst).Nodup → (entries.map Prod.snd).Nodup →
      (∀ e ∈ entries, ∃ g p1 p2,
        gs.objects.get? e.2 = some g ∧ g.Player1 = some p1 ∧ g.Player2 = some p2) →
      ∃ gs' eff, cleanupEntries now t entries gs = some (gs', eff) ∧
        gs'.waitingPlayers = gs.waitingPlayers ∧
        (∀ q, q ∉ entries.map Prod.snd → gs'.objects.get? q = gs.objects.get? q) ∧
        (∀ k, mapGet gs.playerGames k = none → mapGet gs'.playerGames k = none) ∧
        (∀ k, k ∉ entries.map Prod.fst → mapGet gs'.games k = mapGet gs.games k) ∧
        (∀ k, mapGet gs.games k = none → mapGet gs'.games k = none) ∧
        ∀ e ∈ entries, ∀ g p1 p2, gs.objects.get? e.2 = some g → g.Player1 = some p1 →
          g.Player2 = some p2 →
          (NoForfeit g p1 p2 (now e.1) →
            gs'.objects.get? e.2 = some g ∧ mapGet gs'.games e.1 = mapGet gs.games e.1) ∧
          (∀ w, Forfeit g p1 p2 (now e.1) w →
            gs'.objects.get? e.2 = some (forfeitedGame g w (now e.1)) ∧
            mapGet gs'.games e.1 = none ∧ mapGet gs'.playerGames p1.Username = none ∧
            (p2.IsBot = false → mapGet gs'.playerGames p2.Username = none))
  | [], gs, _, _, _ =>
    ⟨gs, [], rfl, rfl, fun _ _ => rfl, fun _ h => h, fun _ _ => rfl, fun _ h => h,
      fun e he => absurd he (List.not_mem_nil e)⟩
  | (gameID, ptr) :: rest, gs, hids, hptrs, hwf => by
    rw [List.map_cons, List.nodup_cons] at hids hptrs
    obtain ⟨g, p1, p2, hobj, h1, h2⟩ := hwf (gameID, ptr) (List.mem_cons_self _ _)
    obtain ⟨gs1, e1, hstep, hw1, hobj1, hpg1, hgm1, hgn1, hno1, hfo1⟩ :=
      cleanupGame_step gs gameID ptr (now gameID) (t gameID) g p1 p2 hobj h1 h2
    have hne : ∀ e ∈ rest, e.2 ≠ ptr := by
      intro e he h
      have := List.mem_map_of_mem Prod.snd he
      rw [h] at this
      exact hptrs.1 this
    have hnei : ∀ e ∈ rest, e.1 ≠ gameID := by
      intro e he h
      have := List.mem_map_of_mem Prod.fst he
      rw [h] at this
      exact hids.1 this
    have hwf1 : ∀ e ∈ rest, ∃ g p1 p2,
        gs1.objects.get? e.2 = some g ∧ g.Player1 = some p1 ∧ g.Player2 = some p2 := by
      intro e he
      rw [hobj1 e.2 (hne e he)]
      exact hwf e (List.mem_cons_of_mem _ he)
    obtain ⟨gs', e2, hrest, hw2, hobj2, hpg2, hgm2, hgn2, hall2⟩ :=
      cleanupEntries_spec now t rest gs1 hids.2 hptrs.2 hwf1
    refine ⟨gs', e1 ++ e2, ?_, hw2.trans hw1, ?_, fun k hk => hpg2 k (hpg1 k hk), ?_,
      fun k hk => hgn2 k (hgn1 k hk), ?_⟩
    · simp only [cleanupEntries, hstep, hrest, Option.bind_eq_bind, Option.some_bind,
        Option.pure_def]
    · intro q hq
      rw [List.map_cons, List.mem_cons, not_or] at hq
      rw [hobj2 q hq.2, hobj1 q hq.1]
    · intro k hk
      rw [List.map_cons, List.mem_cons, not_or] at hk
      rw [hgm2 k hk.2, hgm1 k hk.1]
    · intro e he g' q1 q2 hg' hq1 hq2
      rcases List.mem_cons.1 he with rfl | hmem
      · rw [hobj] at hg'
        simp only [Option.some.injEq] at hg'
        subst hg'
        rw [h1] at hq1
        rw [h2] at hq2
        simp only [Option.some.injEq] at hq1 hq2
        subst hq1
        subst hq2
        constructor
        · intro hno
          obtain ⟨hgs, _⟩ := hno1 hno
          subst hgs
          exact ⟨(hobj2 ptr hptrs.1).trans hobj, hgm2 gameID hids.1⟩
        · intro w hfo
          obtain ⟨a, b, c, d⟩ := hfo1 w hfo
          exact ⟨(hobj2 ptr hptrs.1).trans a, hgn2 gameID b, hpg2 _ c, fun hb => hpg2 _ (d hb)⟩
      · have hg1 : gs1.objects.get? e.2 = some g' := by
          rw [hobj1 e.2 (hne e hmem)]
          exact hg'
        obtain ⟨hA, hB⟩ := hall2 e hmem g' q1 q2 hg1 hq1 hq2
        constructor
        · intro hno
          obtain ⟨a, b⟩ := hA hno
          exact ⟨a, b.trans (hgm1 e.1 (hnei e hmem))⟩
        · exact hB

theorem mapGet_of_mem {α : Type} :
    ∀ (m : List (String × α)) (k : String) (v : α), (m.map Prod.fst).Nodup → (k, v) ∈ m →
      mapGet m k = some v
  | [], _, _, _, h => absurd h (List.not_mem_nil _)
  | a :: m, k, v, hnd, h => by
    rw [List.map_cons, List.nodup_cons] at hnd
    rw [mapGet_cons]
    rcases List.mem_cons.1 h with rfl | hmem
    · rw [if_pos rfl]
    · have hne : ¬a.1 = k := by
        intro e
        exact hnd.1 (e ▸ List.mem_map_of_mem Prod.fst hmem)
      rw [if_neg hne]
      exact mapGet_of_mem m k v hnd.2 hmem

/-- C20. Forfeiture. Take a registry whose games map has one entry for each
identifier, each entry pointing to its own game object with both seats set.
When a cleanup sweep runs, with `now id` the time it reads for game `id`: every
playing game in which a seat is marked disconnected and was last seen more than
30 seconds before becomes finished with the other seat as winner (SeatB when
SeatA has expired, else SeatA) and end time `now id`, its human usernames leave
the username index and it is removed from the games map; every game that is not
playing, and every playing game with no expired seat, is left exactly as it was
and stays in the games map. Where bot seats are marked connected, as
`matchmakingSweep` creates them, a playing game with no expired human seat is
such a game. The waiting queue is unchanged. -/
theorem forfeiture (gs : GameServer) (now t : String → Time)
    (hids : (gs.games.map Prod.fst).Nodup) (hptrs : (gs.games.map Prod.snd).Nodup)
    (hwf : ∀ e ∈ gs.games, ∃ g p1 p2,
      gs.objects.get? e.2 = some g ∧ g.Player1 = some p1 ∧ g.Player2 = some p2) :
    ∃ gs' eff, cleanupSweep gs now t = some (gs', eff) ∧
      gs'.waitingPlayers = gs.waitingPlayers ∧
      ∀ (gameID : String) (ptr : GamePtr) (g : Game) (p1 p2 : Player),
        (gameID, ptr) ∈ gs.games → gs.objects.get? ptr = some g →
        g.Player1 = some p1 → g.Player2 = some p2 →
        (∀ w, Forfeit g p1 p2 (now gameID) w →
          gs'.objects.get? ptr =
            some { g with Status := "finished", Winner := w, EndTime := now gameID } ∧
          mapGet gs'.games gameID = none ∧
          mapGet gs'.playerGames p1.Username = none ∧
          (p2.IsBot = false → mapGet gs'.playerGames p2.Username = none)) ∧
        (NoForfeit g p1 p2 (now gameID) →
          gs'.objects.get? ptr = some g ∧ mapGet gs'.games gameID = some ptr) ∧
        ((p1.IsBot = true → p1.Connected = true) → (p2.IsBot = true → p2.Connected = true) →
          ¬(p1.IsBot = false ∧ SeatExpired p1 (now gameID)) →
          ¬(p2.IsBot = false ∧ SeatExpired p2 (now gameID)) →
          gs'.objects.get? ptr = some g ∧ mapGet gs'.games gameID = some ptr) := by
  obtain ⟨gs', eff, hres, hw, _, _, _, _, hall⟩ :=
    cleanupEntries_spec now t gs.games gs hids hptrs hwf
  refine ⟨gs', eff, hres, hw, ?_⟩
  intro gameID ptr g p1 p2 hmem hobj h1 h2
  obtain ⟨hA, hB⟩ := hall (gameID, ptr) hmem g p1 p2 hobj h1 h2
  have hget := mapGet_of_mem gs.games gameID ptr hids hmem
  have hno : NoForfeit g p1 p2 (now gameID) →
      gs'.objects.get? ptr = some g ∧ mapGet gs'.games gameID = some ptr := by
    intro h
    obtain ⟨a, b⟩ := hA h
    exact ⟨a, b.trans hget⟩
  refine ⟨hB, hno, ?_⟩
  intro hb1 hb2 hn1 hn2
  apply hno
  right
  constructor
  · intro he
    cases hbot : p1.IsBot with
    | false => exact hn1 ⟨hbot, he⟩
    | true =>
      have := hb1 hbot
      rw [he.1] at this
      exact Bool.noConfusion this
  · intro he
    cases hbot : p2.IsBot with
    | false => exact hn2 ⟨hbot, he⟩
    | true =>
      have := hb2 hbot
      rw [he.1] at this
      exact Bool.noConfusion this

theorem forfeiture_witness :
    (cleanupServer.games.map Prod.fst).Nodup ∧ (cleanupServer.games.map Prod.snd).Nodup ∧
    (cleanupSweep cleanupServer (fun _ => 31 * Second) (fun _ => 0)).map (fun r => r.1) =
      some { cleanupServer with
        objects := [forfeitedGame droppedGame Player2 (31 * Second), otherGame,
          { fullBoardGame with ID := "g3" }]
        games := [("g2", 1), ("g3", 2)]
        playerGames := [("carol", "g2"), ("dave", "g2")] } ∧
    (cleanupSweep cleanupServer (fun _ => 30 * Second) (fun _ => 0)) =
      some (cleanupServer, []) ∧
    ∃ gs' eff, cleanupSweep cleanupServer (fun _ => 31 * Second) (fun _ => 0) = some (gs', eff) ∧
      gs'.waitingPlayers = cleanupServer.waitingPlayers ∧
      ∀ (gameID : String) (ptr : GamePtr) (g : Game) (p1 p2 : Player),
        (gameID, ptr) ∈ cleanupServer.games → cleanupServer.objects.get? ptr = some g →
        g.Player1 = some p1 → g.Player2 = some p2 →
        (∀ w, Forfeit g p1 p2 (31 * Second) w →
          gs'.objects.get? ptr =
            some { g with Status := "finished", Winner := w, EndTime := 31 * Second } ∧
          mapGet gs'.games gameID = none ∧
          mapGet gs'.playerGames p1.Username = none ∧
          (p2.IsBot = false → mapGet gs'.playerGames p2.Username = none)) ∧
        (NoForfeit g p1 p2 (31 * Second) →
          gs'.objects.get? ptr = some g ∧ mapGet gs'.games gameID = some ptr) ∧
        ((p1.IsBot = true → p1.Connected = true) → (p2.IsBot = true → p2.Connected = true) →
          ¬(p1.IsBot = false ∧ SeatExpired p1 (31 * Second)) →
          ¬(p2.IsBot = false ∧ SeatExpired p2 (31 * Second)) →
          gs'.objects.get? ptr = some g ∧ mapGet gs'.games gameID = some ptr) :=
  ⟨by decide, by decide, by decide, by decide,
    forfeiture cleanupServer (fun _ => 31 * Second) (fun _ => 0) (by decide) (by decide)
      (by
        intro e he
        simp only [cleanupServer, List.mem_cons, List.mem_singleton, List.not_mem_nil,
          or_false] at he
        rcases he with rfl | rfl | rfl <;> exact ⟨_, _, _, rfl, rfl, rfl⟩)⟩

/-! ## Reconnection and disconnection -/

theorem handleDisconnect_seat (gs : GameServer) (u : String) (now : Time)
    (gameID : String) (ptr : GamePtr) (g : Game) (p1 p2 : Player)
    (hidx : mapGet gs.playerGames u = some gameID) (hgame : mapGet gs.games gameID = some ptr)
    (hobj : gs.objects.get? ptr = some g) (h1 : g.Player1 = some p1) (h2 : g.Player2 = some p2) :
    handleDisconnect gs u now =
      some (if p1.Username = u then
          { gs with
            objects := gs.objects.set ptr
              { g with Player1 := some { p1 with Connected := false, LastSeen := now } } }
        else if p2.Username = u then
          { gs with
            objects := gs.objects.set ptr
              { g with Player2 := some { p2 with Connected := false, LastSeen := now } } }
        else gs, []) := by
  cases g with
  | mk ID B P1 P2 CT St W ST ET MC LA =>
  simp only at h1 h2
  subst h1
  subst h2
  unfold handleDisconnect
  rw [hidx]
  dsimp only
  rw [hgame]
  dsimp only
  rw [hobj]
  by_cases hu : p1.Username = u
  · simp only [Option.bind_eq_bind, Option.some_bind, if_pos hu, Option.pure_def]
  · by_cases hu2 : p2.Username = u
    · simp only [Option.bind_eq_bind, Option.some_bind, if_neg hu, if_pos hu2, Option.pure_def]
    · simp only [Option.bind_eq_bind, Option.some_bind, if_neg hu, if_neg hu2, Option.pure_def]

/-- Claim C22. When the username index maps `u` to a game of the games map in
which `u` holds a seat, `handleDisconnect` sets the connected flag of that
seat to false and its last-seen time to `now`, and changes nothing else: the
connection handle and the other fields of the seat, the other seat, status,
winner, board, turn and move count of the game, the other game objects, the
games map, the waiting queue and the username index stay, and nothing is
written. -/
theorem disconnect_frame (gs : GameServer) (u : String) (now : Time)
    (gameID : String) (ptr : GamePtr) (g : Game) (p1 p2 : Player)
    (hidx : mapGet gs.playerGames u = some gameID) (hgame : mapGet gs.games gameID = some ptr)
    (hobj : gs.objects.get? ptr = some g) (h1 : g.Player1 = some p1) (h2 : g.Player2 = some p2)
    (hseat : p1.Username = u ∨ p2.Username = u) :
    ∃ g' : Game,
      g' = (if p1.Username = u then
              { g with Player1 := some { p1 with Connected := false, LastSeen := now } }
            else
              { g with Player2 := some { p2 with Connected := false, LastSeen := now } }) ∧
      handleDisconnect gs u now = some ({ gs with objects := gs.objects.set ptr g' }, []) ∧
      g'.Status = g.Status ∧ g'.Winner = g.Winner ∧ getGameState g' = getGameState g ∧
      (gs.objects.set ptr g').length = gs.objects.length ∧
      (∀ q, q ≠ ptr → (gs.objects.set ptr g').get? q = gs.objects.get? q) := by
  refine ⟨_, rfl, ?_, by split <;> rfl, by split <;> rfl, by split <;> rfl, by simp,
    fun q hq => list_get?_set_ne _ _ _ _ hq⟩
  rw [handleDisconnect_seat gs u now gameID ptr g p1 p2 hidx hgame hobj h1 h2]
  by_cases hu : p1.Username = u
  · rw [if_pos hu, if_pos hu]
  · rw [if_neg hu, if_neg hu, if_pos (hseat.resolve_left hu)]

set_option maxRecDepth 100000 in
/-- Claim C22 on the sample registry: `alice` disconnects at time 50. -/
theorem disconnect_frame_witness :
    handleDisconnect sampleServer "alice" 50 =
      some ({ sampleServer with
          objects := [{ startedGame with
            Player1 := some { samplePlayer "alice" Player1 1 with
              Connected := false, LastSeen := 50 } }] }, []) := by
  obtain ⟨g', hg', hres, _⟩ :=
    disconnect_frame sampleServer "alice" 50 "g1" 0 startedGame
      (samplePlayer "alice" Player1 1) (samplePlayer "bob" Player2 2)
      (by decide) (by decide) (by decide) rfl rfl (Or.inl rfl)
  rw [hres, hg']
  decide

/-! ## Turn, status and winner along a game -/

/-- What holds before a call of `MakeMove` that returns no error. -/
theorem MakeMove_accepted (g : Game) (col p : Int) (tActivity tEnd : Time)
    (hacc : (MakeMove g col p tActivity tEnd).2 = none) :
    ∃ (hcol : ¬(col < 0 ∨ col ≥ Cols)) (row : Fin 6), g.Status = "playing" ∧
      g.CurrentTurn = p ∧ (p = Player1 ∨ p = Player2) ∧
      lowestEmptyRow g.Board (toCol col hcol) = some row := by
  rcases MakeMove_error_cases g col p tActivity tEnd with
    ⟨_, e⟩ | ⟨_, _, e⟩ | ⟨_, _, _, e⟩ | ⟨_, _, _, _, e⟩ | ⟨_, _, _, _, _, e⟩ |
    ⟨hcol, row, hst, hturn, hp, hrow, _⟩
  · rw [e] at hacc; exact Option.noConfusion hacc
  · rw [e] at hacc; exact Option.noConfusion hacc
  · rw [e] at hacc; exact Option.noConfusion hacc
  · rw [e] at hacc; exact Option.noConfusion hacc
  · rw [e] at hacc; exact Option.noConfusion hacc
  · exact ⟨hcol, row, hst, hturn, hp, hrow⟩

/-- Status, winner, turn and end time after an accepted move, by whether the
move finished the game. -/
theorem MakeMove_accepted_fields (g : Game) (col p : Int) (tActivity tEnd : Time)
    (hacc : (MakeMove g col p tActivity tEnd).2 = none) :
    g.Status = "playing" ∧ g.CurrentTurn = p ∧ (p = Player1 ∨ p = Player2) ∧
    (((MakeMove g col p tActivity tEnd).1.Status = "finished" ∧
        ((MakeMove g col p tActivity tEnd).1.Winner = p ∨
          (MakeMove g col p tActivity tEnd).1.Winner = 0) ∧
        (MakeMove g col p tActivity tEnd).1.CurrentTurn = p ∧
        (MakeMove g col p tActivity tEnd).1.EndTime = tEnd) ∨
      ((MakeMove g col p tActivity tEnd).1.Status = "playing" ∧
        (MakeMove g col p tActivity tEnd).1.Winner = g.Winner ∧
        (MakeMove g col p tActivity tEnd).1.CurrentTurn =
          (if p = Player1 then Player2 else Player1) ∧
        (MakeMove g col p tActivity tEnd).1.EndTime = g.EndTime)) := by
  obtain ⟨hcol, row, hst, hturn, hp, hrow⟩ := MakeMove_accepted g col p tActivity tEnd hacc
  obtain ⟨_, _, hstatus, hwinner, hcur, hend, _⟩ :=
    MakeMove_fields g col p tActivity tEnd hst hturn hcol hp row hrow _ _ rfl rfl
  refine ⟨hst, hturn, hp, ?_⟩
  rw [hstatus, hwinner, hcur, hend]
  cases CheckWin (g.Board.set row (toCol col hcol) p) row col p <;>
    cases IsBoardFull (g.Board.set row (toCol col hcol) p) <;> simp

/-- Claim C25, amended. After an accepted `MakeMove` by seat `p` the game is
playing or finished. When it is still playing, the current turn is the seat
other than `p`. When the move finished the game, by a win or by filling the
board, the current turn is still `p`: the turn is switched only after the two
finishing returns. -/
theorem turn_after_accepted_move (g : Game) (col p : Int) (tActivity tEnd : Time)
    (hacc : (MakeMove g col p tActivity tEnd).2 = none) :
    ((MakeMove g col p tActivity tEnd).1.Status = "playing" ∨
      (MakeMove g col p tActivity tEnd).1.Status = "finished") ∧
    ((MakeMove g col p tActivity tEnd).1.Status = "playing" →
      (MakeMove g col p tActivity tEnd).1.CurrentTurn =
        (if p = Player1 then Player2 else Player1) ∧
      (MakeMove g col p tActivity tEnd).1.CurrentTurn ≠ p ∧
      ((MakeMove g col p tActivity tEnd).1.CurrentTurn = Player1 ∨
        (MakeMove g col p tActivity tEnd).1.CurrentTurn = Player2)) ∧
    ((MakeMove g col p tActivity tEnd).1.Status = "finished" →
      (MakeMove g col p tActivity tEnd).1.CurrentTurn = p) := by
  obtain ⟨_, _, hp, h⟩ := MakeMove_accepted_fields g col p tActivity tEnd hacc
  have hne : (if p = Player1 then Player2 else Player1) ≠ p := by
    rcases hp with h | h <;> rw [h] <;> decide
  have hseat : (if p = Player1 then Player2 else Player1) = Player1 ∨
      (if p = Player1 then Player2 else Player1) = Player2 := by
    rcases hp with h | h <;> rw [h] <;> decide
  rcases h with ⟨hst, _, hcur, _⟩ | ⟨hst, _, hcur, _⟩
  · refine ⟨Or.inr hst, fun h => ?_, fun _ => hcur⟩
    rw [hst] at h
    exact absurd h (by decide)
  · refine ⟨Or.inl hst, fun _ => ?_, fun h => ?_⟩
    · rw [hcur]
      exact ⟨rfl, hne, hseat⟩
    · rw [hst] at h
      exact absurd h (by decide)

/-- Claim C25 on the started game: SeatA drops in column 3 and the turn
passes to SeatB. -/
theorem turn_after_accepted_move_witness :
    (MakeMove startedGame 3 Player1 10 11).2 = none ∧
    (MakeMove startedGame 3 Player1 10 11).1.Status = "playing" ∧
    (MakeMove startedGame 3 Player1 10 11).1.CurrentTurn = Player2 :=
  ⟨by decide, by decide,
    ((turn_after_accepted_move startedGame 3 Player1 10 11 (by decide)).2.1 (by decide)).1⟩

/-- Claim C25 as stated fails at a finishing move: SeatB drops the winning
piece in column 6 of `lastCellGame`, the call is accepted, and the current
turn after it is still SeatB. -/
theorem turn_kept_by_winning_move :
    (MakeMove lastCellGame 6 Player2 50 51).2 = none ∧
    (MakeMove lastCellGame 6 Player2 50 51).1.Status = "finished" ∧
    (MakeMove lastCellGame 6 Player2 50 51).1.Winner = Player2 ∧
    (MakeMove lastCellGame 6 Player2 50 51).1.CurrentTurn = Player2 ∧
    ¬((MakeMove lastCellGame 6 Player2 50 51).1.CurrentTurn ≠ Player2) := by
  decide

theorem newlyStarted_fields (g : Game) (h : NewlyStarted g) :
    g.Status = "playing" ∧ g.Winner = 0 := by
  obtain ⟨gs, p1, p2, withBot, env, hg⟩ := h
  obtain ⟨game, _, hget, _, _, _, _, _, _, _, _, _, hst, _, _, hw, _⟩ :=
    createGame_registers gs p1 p2 withBot env
  rw [hget] at hg
  cases hg
  exact ⟨hst, hw⟩

/-- The invariant of `GameReachable`. -/
theorem reachable_invariant (g : Game) (ended : Option Time) (h : GameReachable g ended) :
    (g.Status = "finished" ∧ ended = some g.EndTime ∧
      (g.Winner = Player1 ∨ g.Winner = Player2 ∨ g.Winner = 0)) ∨
    (g.Status = "playing" ∧ ended = none ∧ g.Winner = 0) := by
  induction h with
  | start g hs =>
    obtain ⟨hst, hw⟩ := newlyStarted_fields g hs
    exact Or.inr ⟨hst, rfl, hw⟩
  | move g ended col p tA tE _ hacc ih =>
    obtain ⟨hst, _, hp, hcases⟩ := MakeMove_accepted_fields g col p tA tE hacc
    rcases ih with ⟨hfin, _⟩ | ⟨_, hnone, hw⟩
    · rw [hst] at hfin
      exact absurd hfin (by decide)
    · rcases hcases with ⟨hst', hw', _, hend⟩ | ⟨hst', hw', _, _⟩
      · left
        refine ⟨hst', ?_, ?_⟩
        · rw [if_pos hst', hend]
        · rcases hw' with e | e
          · rw [e]
            rcases hp with e' | e'
            · exact Or.inl e'
            · exact Or.inr (Or.inl e')
          · exact Or.inr (Or.inr e)
      · right
        refine ⟨hst', ?_, ?_⟩
        · rw [if_neg (by rw [hst']; decide), hnone]
        · rw [hw', hw]
  | forfeit g ended p1 p2 now w _ _ _ hf _ =>
    left
    refine ⟨rfl, rfl, ?_⟩
    rcases hf.2 with ⟨_, e⟩ | ⟨_, _, e⟩
    · exact Or.inr (Or.inl e)
    · exact Or.inl e
  | seats g ended p1 p2 _ ih => exact ih

theorem reachable_runMoves :
    ∀ (ms : List MoveCall) (g : Game) (ended : Option Time), GameReachable g ended →
      allAccepted g ms = true → ∃ ended', GameReachable (runMoves g ms) ended'
  | [], g, ended, h, _ => ⟨ended, h⟩
  | m :: rest, g, ended, h, hall => by
    unfold allAccepted at hall
    unfold runMoves
    cases hres : MakeMove g m.col m.playerNum m.tActivity m.tEnd with
    | mk g' e =>
      rw [hres] at hall
      cases e with
      | some e => exact absurd hall (by simp)
      | none =>
        have hacc : (MakeMove g m.col m.playerNum m.tActivity m.tEnd).2 = none := by rw [hres]
        have hstep := GameReachable.move g ended m.col m.playerNum m.tActivity m.tEnd h hacc
        rw [hres] at hstep
        exact reachable_runMoves rest g' _ hstep hall

theorem startedGame_newlyStarted : NewlyStarted startedGame :=
  ⟨NewGameServer true true, samplePlayer "alice" 0 1, samplePlayer "bob" 0 2, false,
    ⟨"g1", 0, 0, 0, 0⟩, by decide⟩

/-- Claim C26, amended. In every game state reached from a newly started game
by accepted moves and cleanup forfeiture, the status is playing or finished.
When it is finished, the end time is the clock reading of the step that
finished the game and the winner is SeatA, SeatB or 0, the draw. While the
game is playing the winner is 0 as well: a draw leaves the field at the value
it has had since `NewGame`. -/
theorem finished_has_end_and_winner (g : Game) (ended : Option Time)
    (h : GameReachable g ended) :
    (g.Status = "finished" ∨ g.Status = "playing") ∧
    (g.Status = "finished" →
      ended = some g.EndTime ∧ (g.Winner = Player1 ∨ g.Winner = Player2 ∨ g.Winner = 0)) ∧
    (g.Status = "playing" → ended = none ∧ g.Winner = 0) := by
  rcases reachable_invariant g ended h with ⟨hst, he, hw⟩ | ⟨hst, he, hw⟩
  · refine ⟨Or.inl hst, fun _ => ⟨he, hw⟩, fun h => ?_⟩
    rw [hst] at h
    exact absurd h (by decide)
  · refine ⟨Or.inr hst, fun h => ?_, fun _ => ⟨he, hw⟩⟩
    rw [hst] at h
    exact absurd h (by decide)

/-- Claim C26 on the started game: `alice` is marked disconnected and the
sweep forfeits the game at 40 seconds. -/
theorem finished_has_end_and_winner_witness :
    GameReachable (forfeitedGame droppedGame Player2 (40 * Second)) (some (40 * Second)) ∧
    (forfeitedGame droppedGame Player2 (40 * Second)).Status = "finished" ∧
    some (40 * Second) = some (forfeitedGame droppedGame Player2 (40 * Second)).EndTime ∧
    ((forfeitedGame droppedGame Player2 (40 * Second)).Winner = Player1 ∨
      (forfeitedGame droppedGame Player2 (40 * Second)).Winner = Player2 ∨
      (forfeitedGame droppedGame Player2 (40 * Second)).Winner = 0) := by
  have hr : GameReachable (forfeitedGame droppedGame Player2 (40 * Second))
      (some (40 * Second)) :=
    GameReachable.forfeit droppedGame none
      { samplePlayer "alice" Player1 1 with Connected := false } (samplePlayer "bob" Player2 2)
      (40 * Second) Player2
      (GameReachable.seats startedGame none
        { samplePlayer "alice" Player1 1 with Connected := false } (samplePlayer "bob" Player2 2)
        (GameReachable.start startedGame startedGame_newlyStarted))
      rfl rfl ⟨rfl, Or.inl ⟨⟨rfl, by decide⟩, rfl⟩⟩
  have h := (finished_has_end_and_winner _ _ hr).2.1 rfl
  exact ⟨hr, rfl, h.1, h.2⟩

set_option maxRecDepth 100000 in
theorem drawMoves_play :
    allAccepted startedGame drawMoves = true ∧
    (runMoves startedGame drawMoves).Status = "finished" ∧
    (runMoves startedGame drawMoves).Winner = 0 ∧
    (runMoves startedGame drawMoves).MoveCount = 42 ∧
    (runMoves startedGame drawMoves).EndTime = 42 := by
  decide

/-- Claim C26 as stated fails at a draw: the 42 accepted moves of `drawMoves`
finish the started game with the winner field at 0, which is the value the
field has in `NewGame` and in the started game. -/
theorem draw_winner_is_initial_value :
    (∃ ended, GameReachable (runMoves startedGame drawMoves) ended) ∧
    (runMoves startedGame drawMoves).Status = "finished" ∧
    (runMoves startedGame drawMoves).Winner = (NewGame "g1" 0 0).Winner ∧
    (runMoves startedGame drawMoves).Winner = startedGame.Winner ∧
    startedGame.Status = "playing" ∧
    ¬((runMoves startedGame drawMoves).Winner ≠ startedGame.Winner) := by
  obtain ⟨hall, hst, hw, _, _⟩ := drawMoves_play
  refine ⟨reachable_runMoves drawMoves startedGame none
    (GameReachable.start startedGame startedGame_newlyStarted) hall, hst, ?_, ?_, rfl, ?_⟩
  · rw [hw]; rfl
  · rw [hw]; rfl
  · rw [hw]; exact fun h => h rfl

/-! ## Terminal scores of the search -/

theorem maxLoop_win (bot : Bot) (d : Nat) (rec : Game → Int → Int → Game × Int)
    (col : Fin 7) (rest : List (Fin 7)) (game : Game) (best alpha beta : Int) (row : Fin 6)
    (hrow : getLowestRow game col = some row)
    (hwin : CheckWin (game.setCell row col bot.PlayerNum).Board row col bot.PlayerNum = true) :
    (maxLoop bot d rec (col :: rest) game best alpha beta).2 = 10000 - (5 - (d : Int)) := by
  unfold maxLoop
  rw [hrow]
  dsimp only
  rw [if_pos hwin]

theorem minLoop_win (opponent : Int) (d : Nat) (rec : Game → Int → Int → Game × Int)
    (col : Fin 7) (rest : List (Fin 7)) (game : Game) (best alpha beta : Int) (row : Fin 6)
    (hrow : getLowestRow game col = some row)
    (hwin : CheckWin (game.setCell row col opponent).Board row col opponent = true) :
    (minLoop opponent d rec (col :: rest) game best alpha beta).2 = -10000 + (5 - (d : Int)) := by
  unfold minLoop
  rw [hrow]
  dsimp only
  rw [if_pos hwin]

/-- Claim C29. In `minimax` with remaining depth `d1` (and `d2`), when the
loop of the maximizing branch reaches a column whose drop completes four for
the bot it returns `10000 - (5 - d1)`, and when the loop of the minimizing
branch reaches a column whose drop completes four for the opponent it returns
`-10000 + (5 - d1)`, whatever the window and the best score so far. The same
holds for the call of `minimax` itself when the winning column is its first
legal column. Hence, for `1 ≤ d2 < d1 ≤ 5`, the bot win found at `d1` scores
strictly higher than the one found at `d2`, the opponent win found at `d2`
scores strictly higher than the one found at `d1`, every win score is positive
and every loss score is negative. -/
theorem depth_bias (bot : Bot) (opponent : Int) (d1 d2 : Nat)
    (rec1 rec2 : Game → Int → Int → Game × Int) (g1 g2 h1 h2 : Game)
    (c1 c2 k1 k2 : Fin 7) (r1 r2 s1 s2 : Fin 6) (l1 l2 m1 m2 : List (Fin 7))
    (best1 best2 a1 a2 b1 b2 : Int)
    (hd2 : 1 ≤ d2) (hd : d2 < d1) (hd1 : d1 ≤ 5)
    (hr1 : getLowestRow g1 c1 = some r1) (hr2 : getLowestRow g2 c2 = some r2)
    (hw1 : CheckWin (g1.setCell r1 c1 bot.PlayerNum).Board r1 c1 bot.PlayerNum = true)
    (hw2 : CheckWin (g2.setCell r2 c2 bot.PlayerNum).Board r2 c2 bot.PlayerNum = true)
    (hs1 : getLowestRow h1 k1 = some s1) (hs2 : getLowestRow h2 k2 = some s2)
    (hl1 : CheckWin (h1.setCell s1 k1 opponent).Board s1 k1 opponent = true)
    (hl2 : CheckWin (h2.setCell s2 k2 opponent).Board s2 k2 opponent = true) :
    (maxLoop bot d1 rec1 (c1 :: l1) g1 best1 a1 b1).2 = 10000 - (5 - (d1 : Int)) ∧
    (maxLoop bot d2 rec2 (c2 :: l2) g2 best2 a2 b2).2 = 10000 - (5 - (d2 : Int)) ∧
    (minLoop opponent d1 rec1 (k1 :: m1) h1 best1 a1 b1).2 = -10000 + (5 - (d1 : Int)) ∧
    (minLoop opponent d2 rec2 (k2 :: m2) h2 best2 a2 b2).2 = -10000 + (5 - (d2 : Int)) ∧
    (GetValidMoves g1.Board = c1 :: l1 →
      (minimax bot opponent d1 g1 true a1 b1).2 = 10000 - (5 - (d1 : Int))) ∧
    (GetValidMoves h1.Board = k1 :: m1 →
      (minimax bot opponent d1 h1 false a1 b1).2 = -10000 + (5 - (d1 : Int))) ∧
    (maxLoop bot d1 rec1 (c1 :: l1) g1 best1 a1 b1).2 >
      (maxLoop bot d2 rec2 (c2 :: l2) g2 best2 a2 b2).2 ∧
    (minLoop opponent d2 rec2 (k2 :: m2) h2 best2 a2 b2).2 >
      (minLoop opponent d1 rec1 (k1 :: m1) h1 best1 a1 b1).2 ∧
    (maxLoop bot d1 rec1 (c1 :: l1) g1 best1 a1 b1).2 > 0 ∧
    (maxLoop bot d2 rec2 (c2 :: l2) g2 best2 a2 b2).2 > 0 ∧
    (minLoop opponent d1 rec1 (k1 :: m1) h1 best1 a1 b1).2 < 0 ∧
    (minLoop opponent d2 rec2 (k2 :: m2) h2 best2 a2 b2).2 < 0 := by
  have e1 := maxLoop_win bot d1 rec1 c1 l1 g1 best1 a1 b1 r1 hr1 hw1
  have e2 := maxLoop_win bot d2 rec2 c2 l2 g2 best2 a2 b2 r2 hr2 hw2
  have e3 := minLoop_win opponent d1 rec1 k1 m1 h1 best1 a1 b1 s1 hs1 hl1
  have e4 := minLoop_win opponent d2 rec2 k2 m2 h2 best2 a2 b2 s2 hs2 hl2
  have hfull : ∀ (g : Game) (c : Fin 7) (l : List (Fin 7)) (r : Fin 6),
      GetValidMoves g.Board = c :: l → getLowestRow g c = some r →
      IsBoardFull g.Board = false ∧ ¬(GetValidMoves g.Board).length = 0 := by
    intro g c l r hv hrow
    constructor
    · cases hf : IsBoardFull g.Board with
      | false => rfl
      | true =>
        exfalso
        have hm : c ∈ GetValidMoves g.Board := by rw [hv]; exact List.mem_cons_self _ _
        have htop := (mem_GetValidMoves g.Board c).1 hm
        have := (IsBoardFull_iff_top g.Board).1 hf c
        exact this htop
    · rw [hv]
      simp
  refine ⟨e1, e2, e3, e4, ?_, ?_, ?_, ?_, ?_, ?_, ?_, ?_⟩
  · intro hv
    obtain ⟨hf, hlen⟩ := hfull g1 c1 l1 r1 hv hr1
    obtain ⟨n, rfl⟩ : ∃ n, d1 = n + 1 := ⟨d1 - 1, by omega⟩
    unfold minimax
    rw [hf]
    simp only [Bool.false_eq_true, if_false, if_neg hlen, if_true]
    rw [hv]
    exact maxLoop_win bot (n + 1) _ c1 l1 g1 MinInt32 a1 b1 r1 hr1 hw1
  · intro hv
    obtain ⟨hf, hlen⟩ := hfull h1 k1 m1 s1 hv hs1
    obtain ⟨n, rfl⟩ : ∃ n, d1 = n + 1 := ⟨d1 - 1, by omega⟩
    unfold minimax
    rw [hf]
    simp only [Bool.false_eq_true, if_false, if_neg hlen]
    rw [hv]
    exact minLoop_win opponent (n + 1) _ k1 m1 h1 MaxInt32 a1 b1 s1 hs1 hl1
  · rw [e1, e2]; omega
  · rw [e3, e4]; omega
  · rw [e1]; omega
  · rw [e2]; omega
  · rw [e3]; omega
  · rw [e4]; omega

/-- Claim C29 on two boards: the bot SeatB completes the bottom row of
`threatRows` in column 0, and the opponent SeatA completes its bottom row in
column 0, at the remaining depths 5 and 3. -/
theorem depth_bias_witness :
    (minimax (NewBot Player2) Player1 5 (gameWithBoard threatRows) true MinInt32 MaxInt32).2 =
      10000 ∧
    (maxLoop (NewBot Player2) 3 (fun g _ _ => (g, 0)) [0] (gameWithBoard threatRows)
      MaxInt32 MinInt32 MaxInt32).2 = 9998 ∧
    (minimax (NewBot Player2) Player1 5
      (gameWithBoard [[], [], [], [], [], [0, 1, 1, 1, 2, 2, 0]]) false MinInt32 MaxInt32).2 =
      -10000 ∧
    (minLoop Player1 3 (fun g _ _ => (g, 0)) [0]
      (gameWithBoard [[], [], [], [], [], [0, 1, 1, 1, 2, 2, 0]])
      MaxInt32 MinInt32 MaxInt32).2 = -9998 := by
  obtain ⟨_, e2, _, e4, e5, e6, _⟩ :=
    depth_bias (NewBot Player2) Player1 5 3 (fun g _ _ => (g, 0)) (fun g _ _ => (g, 0))
      (gameWithBoard threatRows) (gameWithBoard threatRows)
      (gameWithBoard [[], [], [], [], [], [0, 1, 1, 1, 2, 2, 0]])
      (gameWithBoard [[], [], [], [], [], [0, 1, 1, 1, 2, 2, 0]])
      0 0 0 0 5 5 5 5 [1, 2, 3, 4, 5, 6] [] [1, 2, 3, 4, 5, 6] []
      MinInt32 MaxInt32 MinInt32 MinInt32 MaxInt32 MaxInt32
      (by decide) (by decide) (by decide) (by decide) (by decide) (by decide) (by decide)
      (by decide) (by decide) (by decide) (by decide)
  refine ⟨?_, ?_, ?_, ?_⟩
  · rw [e5 (by decide)]; rfl
  · rw [e2]; rfl
  · rw [e6 (by decide)]; rfl
  · rw [e4]; rfl

/-! ## Accepted moves in the registry, and what a finished game frees -/

theorem withoutSeats_congr (pg : List (String × String)) (p1 p2 q1 q2 : Player)
    (h1 : q1.Username = p1.Username) (h2 : q2.Username = p2.Username)
    (hb : q2.IsBot = p2.IsBot) : withoutSeats pg q1 q2 = withoutSeats pg p1 p2 := by
  unfold withoutSeats
  rw [h1, h2, hb]

theorem afterWrite_fields (p : Player) (seatB ok : Bool) :
    (afterWrite p seatB ok).Username = p.Username ∧ (afterWrite p seatB ok).IsBot = p.IsBot ∧
    (afterWrite p seatB ok).PlayerNum = p.PlayerNum ∧ (afterWrite p seatB ok).Conn = p.Conn ∧
    (afterWrite p seatB ok).LastSeen = p.LastSeen ∧
    (afterWrite p seatB ok).Connected = (p.Connected && !(served p seatB && !ok)) := by
  unfold afterWrite
  cases served p seatB <;> cases ok <;> simp

theorem seatA_write (p1 : Player) (ok : Bool) (msg : Message) :
    (match p1.Conn with
      | some conn =>
        if p1.Connected then
          (if ok then p1 else { p1 with Connected := false }, [Effect.write conn msg])
        else (p1, [])
      | none => (p1, [])) = (afterWrite p1 false ok, writeTo p1 false msg) := by
  unfold afterWrite writeTo served
  cases p1.Conn <;> cases p1.Connected <;> cases ok <;> simp

theorem seatB_write (p2 : Player) (ok : Bool) (msg : Message) :
    (match p2.Conn with
      | some conn =>
        if p2.Connected ∧ !p2.IsBot then
          (if ok then p2 else { p2 with Connected := false }, [Effect.write conn msg])
        else (p2, [])
      | none => (p2, [])) = (afterWrite p2 true ok, writeTo p2 true msg) := by
  unfold afterWrite writeTo served
  cases p2.Conn <;> cases p2.Connected <;> cases p2.IsBot <;> cases ok <;> simp

theorem mem_writeTo (p : Player) (seatB : Bool) (msg : Message) (conn : Nat)
    (hc : p.Conn = some conn) (hs : served p seatB = true) :
    Effect.write conn msg ∈ writeTo p seatB msg := by
  unfold writeTo
  rw [hc]
  simp [hs]

theorem handleGameEnd_eq (gs : GameServer) (g : Game) (t : Time) (p1 p2 : Player)
    (h1 : g.Player1 = some p1) (h2 : g.Player2 = some p2) :
    handleGameEnd gs g t =
      some ({ gs with playerGames := withoutSeats gs.playerGames p1 p2 },
        ((handleGameEnd gs g t).map Prod.snd).getD []) := by
  obtain ⟨eff, he⟩ := handleGameEnd_some gs g t p1 p2 h1 h2
  rw [he]
  rfl

/-- The registry after a call of `handleMove` whose move is accepted. -/
theorem handleMove_accepted (gs : GameServer) (ptr : GamePtr) (g : Game) (col p : Int)
    (env : MoveEnv) (p1 p2 : Player) (hobj : gs.objects.get? ptr = some g)
    (hacc : (MakeMove g col p env.tActivity env.tEnd).2 = none)
    (h1 : g.Player1 = some p1) (h2 : g.Player2 = some p2) :
    ∃ eff : List Effect,
      handleMove gs (some ptr) col p env =
        some ({ gs with
            objects := gs.objects.set ptr
              { (MakeMove g col p env.tActivity env.tEnd).1 with
                Player1 := some (afterWrite p1 false env.write1Ok)
                Player2 := some (afterWrite p2 true env.write2Ok) }
            playerGames :=
              if (MakeMove g col p env.tActivity env.tEnd).1.Status = "finished" then
                withoutSeats gs.playerGames p1 p2
              else gs.playerGames }, eff) ∧
      (∀ e ∈ writeTo p1 false (Message.gameUpdate
          (getGameState (MakeMove g col p env.tActivity env.tEnd).1)
          (if (MakeMove g col p env.tActivity env.tEnd).1.Status = "finished" then
            if (MakeMove g col p env.tActivity env.tEnd).1.Winner = Player1 then some p1.Username
            else if (MakeMove g col p env.tActivity env.tEnd).1.Winner = Player2 then
              some p2.Username
            else some ""
          else none)), e ∈ eff) ∧
      (∀ e ∈ writeTo p2 true (Message.gameUpdate
          (getGameState (MakeMove g col p env.tActivity env.tEnd).1)
          (if (MakeMove g col p env.tActivity env.tEnd).1.Status = "finished" then
            if (MakeMove g col p env.tActivity env.tEnd).1.Winner = Player1 then some p1.Username
            else if (MakeMove g col p env.tActivity env.tEnd).1.Winner = Player2 then
              some p2.Username
            else some ""
          else none)), e ∈ eff) := by
  obtain ⟨hcol, row, hst, hturn, hp, hrow⟩ :=
    MakeMove_accepted g col p env.tActivity env.tEnd hacc
  have hpl : (MakeMove g col p env.tActivity env.tEnd).1.Player1 = g.Player1 ∧
      (MakeMove g col p env.tActivity env.tEnd).1.Player2 = g.Player2 := by
    obtain ⟨_, _, _, _, _, _, _, _, _, e1, e2, _⟩ :=
      MakeMove_fields g col p env.tActivity env.tEnd hst hturn hcol hp row hrow _ _ rfl rfl
    exact ⟨e1, e2⟩
  unfold handleMove
  dsimp only
  rw [hobj]
  dsimp only
  rw [if_neg (by simp [hst]), if_neg hcol]
  cases hres : MakeMove g col p env.tActivity env.tEnd with
  | mk g' e =>
    rw [hres] at hacc hpl
    dsimp only at hacc hpl
    subst hacc
    rw [h1, h2] at hpl
    obtain ⟨e1, e2⟩ := hpl
    cases g' with
    | mk ID B P1 P2 CT St W ST ET MC LA =>
    simp only at e1 e2
    subst e1
    subst e2
    simp only [Option.bind_eq_bind, Option.some_bind]
    rw [seatA_write, seatB_write]
    dsimp only
    have hf1 := afterWrite_fields p1 false env.write1Ok
    have hf2 := afterWrite_fields p2 true env.write2Ok
    by_cases hfin : St = "finished"
    · repeat rw [if_pos hfin]
      rw [handleGameEnd_eq _ _ _ (afterWrite p1 false env.write1Ok)
        (afterWrite p2 true env.write2Ok) rfl rfl]
      simp only [Option.some_bind, Option.pure_def]
      rw [withoutSeats_congr gs.playerGames p1 p2 _ _ hf1.1 hf2.1 hf2.2.1]
      refine ⟨_, rfl, ?_, ?_⟩
      · intro e he
        simp only [List.mem_append]
        exact Or.inl (Or.inl (Or.inr he))
      · intro e he
        simp only [List.mem_append]
        exact Or.inl (Or.inr he)
    · repeat rw [if_neg hfin]
      by_cases hbot : (afterWrite p2 true env.write2Ok).IsBot = true ∧ CT = Player2
      · rw [if_pos hbot]
        by_cases hpl : St = "playing"
        · rw [if_pos hpl]
          refine ⟨_, rfl, ?_, ?_⟩
          · intro e he
            simp only [List.mem_append]
            exact Or.inl (Or.inl (Or.inr he))
          · intro e he
            simp only [List.mem_append]
            exact Or.inl (Or.inr he)
        · rw [if_neg hpl]
          refine ⟨_, rfl, ?_, ?_⟩
          · intro e he
            simp only [List.mem_append]
            exact Or.inl (Or.inr he)
          · intro e he
            simp only [List.mem_append]
            exact Or.inr he
      · rw [if_neg hbot]
        refine ⟨_, rfl, ?_, ?_⟩
        · intro e he
          simp only [List.mem_append]
          exact Or.inl (Or.inr he)
        · intro e he
          simp only [List.mem_append]
          exact Or.inr he

theorem mapGet_withoutSeats_eq (pg : List (String × String)) (p1 p2 : Player) (k : String) :
    mapGet (withoutSeats pg p1 p2) k =
      if k = p1.Username ∨ (p2.IsBot = false ∧ k = p2.Username) then none else mapGet pg k := by
  unfold withoutSeats
  cases hb : p2.IsBot with
  | true =>
    simp only [Bool.not_true, Bool.false_eq_true, if_false]
    rw [mapGet_mapDelete]
    by_cases h1 : k = p1.Username
    · rw [if_pos h1, if_pos (Or.inl h1)]
    · rw [if_neg h1, if_neg (by rintro (h | ⟨h, _⟩); exact h1 h; exact absurd h (by decide))]
  | false =>
    simp only [Bool.not_false, if_true, true_and]
    rw [mapGet_mapDelete, mapGet_mapDelete]
    by_cases h2 : k = p2.Username
    · rw [if_pos h2, if_pos (Or.inr h2)]
    · rw [if_neg h2]
      by_cases h1 : k = p1.Username
      · rw [if_pos h1, if_pos (Or.inl h1)]
      · rw [if_neg h1, if_neg (by rintro (h | h); exact h1 h; exact h2 h)]

theorem playersFreed_of_index (gs gs' : GameServer) (p1 p2 : Player)
    (hpg : gs'.playerGames = withoutSeats gs.playerGames p1 p2)
    (hw : gs'.waitingPlayers = gs.waitingPlayers) : PlayersFreed gs gs' p1 p2 := by
  have hnone : ∀ u, u = p1.Username ∨ (u = p2.Username ∧ p2.IsBot = false) →
      mapGet gs'.playerGames u = none := by
    intro u hu
    rw [hpg, mapGet_withoutSeats_eq, if_pos]
    rcases hu with h | ⟨h, hb⟩
    · exact Or.inl h
    · exact Or.inr ⟨hb, h⟩
  refine ⟨hnone _ (Or.inl rfl), fun hb => hnone _ (Or.inr ⟨rfl, hb⟩), ?_, hw, ?_⟩
  · intro k h1 h2
    rw [hpg, mapGet_withoutSeats_eq, if_neg]
    rintro (h | ⟨hb, h⟩)
    · exact h1 h
    · exact h2 hb h
  · intro u conn now hu hv
    have hjoin : handleJoin gs' conn u now = some (handleJoinWaiting gs' conn u now) := by
      rw [handleJoin_of_valid gs' conn u now hv, hnone u hu]
    refine ⟨hjoin, fun hfree => ?_⟩
    rw [hjoin]
    unfold handleJoinWaiting
    have hany : ¬(gs'.waitingPlayers.any (fun wp => wp.Username = u) = true) := by
      rw [hw, List.any_eq_true]
      rintro ⟨wp, hwp, he⟩
      exact hfree wp hwp (by simpa using he)
    rw [if_neg hany, hw]

/-- Claim C23. Let `g` be the game object at `ptr`, with the seats `p1` and
`p2`. When `handleMove` accepts a move that finishes `g`, by a win or a draw,
and when the cleanup sweep forfeits `g`, the registry after the call has no
username-index entry for `p1` and none for `p2` when it is human, every entry
under another name is as before, the waiting queue is as before, and a join by
the valid name of a human seat is handled as the join of a new player: the
name is queued as waiting unless it waits already, and no `reconnected`
message is written. -/
theorem finished_game_frees_players (gs : GameServer) (ptr : GamePtr) (g : Game)
    (p1 p2 : Player) (hobj : gs.objects.get? ptr = some g)
    (h1 : g.Player1 = some p1) (h2 : g.Player2 = some p2) :
    (∀ (col p : Int) (env : MoveEnv), (MakeMove g col p env.tActivity env.tEnd).2 = none →
      (MakeMove g col p env.tActivity env.tEnd).1.Status = "finished" →
      ∃ gs' eff, handleMove gs (some ptr) col p env = some (gs', eff) ∧
        PlayersFreed gs gs' p1 p2) ∧
    (∀ (gameID : String) (now t : Time) (winner : Int), Forfeit g p1 p2 now winner →
      ∃ gs' eff, cleanupGame gs gameID ptr now t = some (gs', eff) ∧
        PlayersFreed gs gs' p1 p2) := by
  constructor
  · intro col p env hacc hfin
    obtain ⟨eff, hres, _⟩ := handleMove_accepted gs ptr g col p env p1 p2 hobj hacc h1 h2
    refine ⟨_, eff, hres, playersFreed_of_index _ _ p1 p2 ?_ rfl⟩
    dsimp only
    rw [if_pos hfin]
  · intro gameID now t winner hf
    rcases cleanupGame_cases gs gameID ptr now t g p1 p2 hobj h1 h2 with
      ⟨hno, _⟩ | ⟨w0, eff, _, _, hres⟩
    · exfalso
      rcases hno with hno | ⟨hn1, hn2⟩
      · exact hno hf.1
      · rcases hf.2 with ⟨he, _⟩ | ⟨_, he, _⟩
        · exact hn1 he
        · exact hn2 he
    · exact ⟨_, eff, hres, playersFreed_of_index _ _ p1 p2 rfl rfl⟩

set_option maxRecDepth 100000 in
/-- Claim C23 on the sample registries: SeatA wins with the seventh call of
the vertical-four scenario, after which `bob` has no entry and joins as a new
waiting player over connection 9; the sweep forfeits the dropped game of
`cleanupServer`, after which `alice` has no entry and `carol` still has hers. -/
theorem finished_game_frees_players_witness :
    (∃ gs' eff, handleMove sixMovesServer (some 0) 0 Player1 seventhEnv = some (gs', eff) ∧
      gs'.playerGames = [] ∧
      handleJoin gs' 9 "bob" 50 =
        some ({ gs' with
            waitingPlayers :=
              [{ Username := "bob", PlayerNum := 0, Conn := some 9, IsBot := false,
                 Connected := true, LastSeen := 50 }] },
          [Effect.write 9 (Message.waiting "Waiting for opponent...")])) ∧
    (∃ gs' eff, cleanupGame cleanupServer "g1" 0 (31 * Second) 0 = some (gs', eff) ∧
      mapGet gs'.playerGames "alice" = none ∧ mapGet gs'.playerGames "carol" = some "g2") := by
  have h := finished_game_frees_players sixMovesServer 0
    (runMoves startedGame ((verticalFour 1 2 1).take 6))
    (samplePlayer "alice" Player1 1) (samplePlayer "bob" Player2 2) (by decide) (by decide)
    (by decide)
  have h' := finished_game_frees_players cleanupServer 0 droppedGame
    { samplePlayer "alice" Player1 1 with Connected := false } (samplePlayer "bob" Player2 2)
    (by decide) (by decide) (by decide)
  constructor
  · obtain ⟨gs', eff, hres, hfree⟩ := h.1 0 Player1 seventhEnv (by decide) (by decide)
    refine ⟨gs', eff, hres, ?_, ?_⟩
    · have : (handleMove sixMovesServer (some 0) 0 Player1 seventhEnv).map
          (fun r => r.1.playerGames) = some [] := by decide
      rw [hres] at this
      simpa using this
    · exact (hfree.2.2.2.2 "bob" 9 50 (Or.inr ⟨rfl, rfl⟩) (by decide)).2 (by decide)
  · obtain ⟨gs', eff, hres, hfree⟩ := h'.2 "g1" (31 * Second) 0 Player2
      ⟨by decide, Or.inl ⟨⟨rfl, by decide⟩, rfl⟩⟩
    refine ⟨gs', eff, hres, hfree.1, ?_⟩
    rw [hfree.2.2.1 "carol" (by decide) (fun _ => by decide)]
    decide

/-! ## A failed write and the next cleanup sweep -/

set_option maxRecDepth 100000 in
/-- Claim C24, evaluated. In the sample registry `alice` and `bob` were last
seen at time 0. At 100 seconds `alice` drops in column 3 and the write of the
update to `bob` fails: the move is committed, the update was written to
`alice` first, the game stays playing and `bob` is marked disconnected, but
his last-seen time stays 0. The cleanup sweep one second later then finds him
disconnected with a last-seen time more than 30 seconds back and forfeits the
game to SeatA. After `handleDisconnect` at the same time, which does set the
last-seen time, the same sweep leaves the game playing. -/
theorem failed_write_forfeits_at_next_sweep :
    (handleMove sampleServer (some 0) 3 Player1 failedWriteEnv).map
        (fun r => r.1.objects.map fun g => (g.Status, g.Board.get 5 3, g.MoveCount)) =
      some [("playing", Player1, 1)] ∧
    (handleMove sampleServer (some 0) 3 Player1 failedWriteEnv).map
        (fun r => r.1.objects.map fun g => g.Player2) =
      some [some { samplePlayer "bob" Player2 2 with Connected := false, LastSeen := 0 }] ∧
    (handleMove sampleServer (some 0) 3 Player1 failedWriteEnv).map
        (fun r => r.2.drop 1) =
      some [Effect.write 1 (Message.gameUpdate
          (getGameState (MakeMove startedGame 3 Player1 (100 * Second) (100 * Second)).1) none),
        Effect.write 2 (Message.gameUpdate
          (getGameState (MakeMove startedGame 3 Player1 (100 * Second) (100 * Second)).1)
          none)] ∧
    ((handleMove sampleServer (some 0) 3 Player1 failedWriteEnv).bind fun r =>
        cleanupSweep r.1 (fun _ => 101 * Second) (fun _ => 101 * Second)).map
        (fun r => (r.1.objects.map fun g => (g.Status, g.Winner, g.EndTime), r.1.games,
          r.1.playerGames)) =
      some ([("finished", Player1, 101 * Second)], [], []) ∧
    ((handleDisconnect sampleServer "bob" (100 * Second)).bind fun r =>
        cleanupSweep r.1 (fun _ => 101 * Second) (fun _ => 101 * Second)).map
        (fun r => (r.1.objects.map fun g => (g.Status, g.Winner), r.1.games)) =
      some ([("playing", 0)], [("g1", 0)]) ∧
    ((handleDisconnect sampleServer "bob" (100 * Second)).bind fun r =>
        cleanupSweep r.1 (fun _ => 101 * Second) (fun _ => 101 * Second)).map
        (fun r => r.1.objects.map fun g => g.Player2) =
      some [some { samplePlayer "bob" Player2 2 with
        Connected := false, LastSeen := 100 * Second }] := by
  refine ⟨?_, ?_, ?_, ?_, ?_, ?_⟩ <;> decide

/-! ## The heuristic score of a line of cells -/

set_option maxRecDepth 1000000 in
theorem linesWithinBound_all :
    ∀ n ∈ [0, 1, 2, 3, 4, 5, 6, 7], linesWithinBound n 1 = true := by
  decide!

/-- The sum of `cellTerm` over the first `n` cells of a line. -/
def lineTerms (b : Board) (p dRow dCol r0 c0 : Int) : Nat → Int
  | 0 => 0
  | n + 1 =>
    lineTerms b p dRow dCol r0 c0 n + cellTerm b p dRow dCol (r0 + n * dRow) (c0 + n * dCol)
theorem lineCell_map (f : Int → Int) (L : List Int) (k : Int) :
    lineCell (L.map f) k = (lineCell L k).map f := by
  unfold lineCell
  split
  · simp [List.getElem?_map]
  · rfl

theorem cls_eq_one (p v : Int) : cls p v = 1 ↔ v = p := by
  unfold cls
  by_cases h : v = p
  · rw [if_pos h]
    simp [h]
  · rw [if_neg h]
    by_cases h0 : v = Empty
    · rw [if_pos h0]
      simp [h]
    · rw [if_neg h0]
      simp [h]

theorem cls_eq_zero (p v : Int) (hp : p ≠ Empty) : cls p v = Empty ↔ v = Empty := by
  unfold cls
  by_cases h : v = p
  · rw [if_pos h, h]
    exact ⟨fun e => absurd e (by decide), fun e => absurd e hp⟩
  · rw [if_neg h]
    by_cases h0 : v = Empty
    · rw [if_pos h0]
      exact ⟨fun _ => h0, fun _ => rfl⟩
    · rw [if_neg h0]
      exact ⟨fun e => absurd e (by decide), fun e => absurd e h0⟩

theorem lineScan_cls (L : List Int) (p step : Int) (hp : p ≠ Empty) :
    ∀ (n : Nat) (k count openEnds : Int),
      lineScan (L.map (cls p)) 1 step n k count openEnds =
        lineScan L p step n k count openEnds
  | 0, _, _, _ => rfl
  | n + 1, k, count, openEnds => by
    unfold lineScan
    rw [lineCell_map]
    cases h : lineCell L k with
    | none => exact lineScan_cls L p step hp n _ _ _
    | some v =>
      simp only [Option.map_some']
      by_cases h1 : v = p
      · rw [if_pos ((cls_eq_one p v).2 h1), if_pos h1]
        exact lineScan_cls L p step hp n _ _ _
      · rw [if_neg (fun e => h1 ((cls_eq_one p v).1 e)), if_neg h1]
        by_cases h0 : v = Empty
        · rw [if_pos ((cls_eq_zero p v hp).2 h0), if_pos h0]
        · rw [if_neg (fun e => h0 ((cls_eq_zero p v hp).1 e)), if_neg h0]

theorem lineScore_cls (L : List Int) (p : Int) (hp : p ≠ Empty) (k : Int) :
    lineScore (L.map (cls p)) 1 k = lineScore L p k := by
  unfold lineScore
  simp only [lineScan_cls L p _ hp]

theorem lineCell_cls (L : List Int) (p : Int) (k : Int) :
    lineCell (L.map (cls p)) k = some 1 ↔ lineCell L k = some p := by
  rw [lineCell_map]
  cases lineCell L k with
  | none => simp
  | some v => simp [cls_eq_one p v]

theorem lineSum_cls (L : List Int) (p : Int) (hp : p ≠ Empty) :
    ∀ n : Nat, lineSum (L.map (cls p)) 1 n = lineSum L p n
  | 0 => rfl
  | n + 1 => by
    unfold lineSum
    rw [lineSum_cls L p hp n, lineScore_cls L p hp]
    by_cases h : lineCell L n = some p
    · rw [if_pos h, if_pos ((lineCell_cls L p n).2 h)]
    · rw [if_neg h, if_neg (fun e => h ((lineCell_cls L p n).1 e))]

theorem lineHasFour_cls (L : List Int) (p : Int) (hp : p ≠ Empty) :
    ∀ n : Nat, lineHasFour (L.map (cls p)) 1 n = lineHasFour L p n
  | 0 => rfl
  | n + 1 => by
    unfold lineHasFour
    rw [lineHasFour_cls L p hp n]
    have h : ∀ k : Int, (lineCell (L.map (cls p)) k == some 1) = (lineCell L k == some p) := by
      intro k
      rw [Bool.eq_iff_iff]
      simp only [beq_iff_eq]
      exact lineCell_cls L p k
    rw [h, h, h, h]

theorem mem_allLines : ∀ (n : Nat) (L : List Int), L.length = n →
    (∀ x ∈ L, x = 0 ∨ x = 1 ∨ x = 2) → L ∈ allLines n
  | 0, L, hlen, _ => by
    rw [List.length_eq_zero.1 hlen]
    simp [allLines]
  | n + 1, [], hlen, _ => by simp at hlen
  | n + 1, x :: L, hlen, hx => by
    have hL : L ∈ allLines n :=
      mem_allLines n L (by simpa using hlen) (fun y hy => hx y (List.mem_cons_of_mem _ hy))
    unfold allLines
    rw [List.mem_flatMap]
    refine ⟨L, hL, ?_⟩
    rcases hx x (List.mem_cons_self _ _) with h | h | h <;> simp [h]

/-- A line of at most 7 cells without four in a row of `p` scores at most
`lineBound` for `p`. -/
theorem lineSum_le_bound (L : List Int) (p : Int) (hp : p ≠ Empty) (hlen : L.length ≤ 7)
    (hno : lineHasFour L p L.length = false) : lineSum L p L.length ≤ lineBound L.length := by
  have hmem : L.map (cls p) ∈ allLines L.length := by
    apply mem_allLines
    · simp
    · intro x hx
      rw [List.mem_map] at hx
      obtain ⟨v, _, rfl⟩ := hx
      unfold cls
      split
      · exact Or.inr (Or.inl rfl)
      · split
        · exact Or.inl rfl
        · exact Or.inr (Or.inr rfl)
  have hn : L.length ∈ [0, 1, 2, 3, 4, 5, 6, 7] := by
    simp only [List.mem_cons, List.mem_singleton]
    omega
  have hall := linesWithinBound_all L.length hn
  unfold linesWithinBound at hall
  rw [List.all_eq_true] at hall
  have h := hall _ hmem
  rw [lineHasFour_cls L p hp, lineSum_cls L p hp, hno] at h
  simpa using h

/-! ## Lines of the board -/

theorem cellAt_none_of_out (b : Board) (r c : Int)
    (h : ¬(0 ≤ r ∧ r < 6 ∧ 0 ≤ c ∧ c < 7)) : cellAt b r c = none := by
  cases hc : cellAt b r c with
  | none => rfl
  | some v => exact absurd (cellAt_in_grid hc) h

theorem cellAt_some_of_in (b : Board) (r c : Int)
    (h : 0 ≤ r ∧ r < 6 ∧ 0 ≤ c ∧ c < 7) : ∃ v, cellAt b r c = some v := by
  have hr : r = ((⟨r.toNat, by omega⟩ : Fin 6) : Int) := by simp; omega
  have hc : c = ((⟨c.toNat, by omega⟩ : Fin 7) : Int) := by simp; omega
  exact ⟨_, cellAt_of_get b ⟨r.toNat, by omega⟩ ⟨c.toNat, by omega⟩ r c _ hr hc rfl⟩

/-- The line `lineOf` shows the board along the line, when its `n` cells are
in the grid and the cells before and after them are not. -/
theorem lineCell_lineOf (b : Board) (r0 c0 dr dc : Int) (n : Nat)
    (hin : ∀ k : Nat, k < n →
      0 ≤ r0 + k * dr ∧ r0 + k * dr < 6 ∧ 0 ≤ c0 + k * dc ∧ c0 + k * dc < 7)
    (hout : ∀ j : Int, j < 0 ∨ (n : Int) ≤ j →
      ¬(0 ≤ r0 + j * dr ∧ r0 + j * dr < 6 ∧ 0 ≤ c0 + j * dc ∧ c0 + j * dc < 7))
    (j : Int) : lineCell (lineOf b r0 c0 dr dc n) j = cellAt b (r0 + j * dr) (c0 + j * dc) := by
  unfold lineCell lineOf
  by_cases h0 : 0 ≤ j
  · rw [if_pos h0]
    obtain ⟨k, rfl⟩ : ∃ k : Nat, j = k := ⟨j.toNat, by omega⟩
    simp only [Int.toNat_ofNat, List.get?_eq_getElem?, List.getElem?_map]
    by_cases hk : k < n
    · rw [List.getElem?_range hk]
      obtain ⟨v, hv⟩ := cellAt_some_of_in b _ _ (hin k hk)
      simp [hv]
    · rw [List.getElem?_eq_none (by simpa using hk)]
      rw [cellAt_none_of_out b _ _ (hout k (Or.inr (by omega)))]
      rfl
  · rw [if_neg h0, cellAt_none_of_out b _ _ (hout j (Or.inl (by omega)))]

theorem evalScan_line (b : Board) (p r0 c0 dr dc : Int) (L : List Int)
    (hL : ∀ j : Int, lineCell L j = cellAt b (r0 + j * dr) (c0 + j * dc)) :
    ∀ (n : Nat) (k count openEnds : Int),
      evalScan b p dr dc n (r0 + k * dr) (c0 + k * dc) count openEnds =
        lineScan L p 1 n k count openEnds
  | 0, _, _, _ => rfl
  | n + 1, k, count, openEnds => by
    unfold evalScan lineScan
    rw [hL k]
    have e1 : r0 + k * dr + dr = r0 + (k + 1) * dr := by ring
    have e2 : c0 + k * dc + dc = c0 + (k + 1) * dc := by ring
    rw [e1, e2]
    cases cellAt b (r0 + k * dr) (c0 + k * dc) with
    | none => exact evalScan_line b p r0 c0 dr dc L hL n _ _ _
    | some v =>
      dsimp only
      split
      · exact evalScan_line b p r0 c0 dr dc L hL n _ _ _
      · rfl

theorem evalScan_line_back (b : Board) (p r0 c0 dr dc : Int) (L : List Int)
    (hL : ∀ j : Int, lineCell L j = cellAt b (r0 + j * dr) (c0 + j * dc)) :
    ∀ (n : Nat) (k count openEnds : Int),
      evalScan b p (-dr) (-dc) n (r0 + k * dr) (c0 + k * dc) count openEnds =
        lineScan L p (-1) n k count openEnds
  | 0, _, _, _ => rfl
  | n + 1, k, count, openEnds => by
    unfold evalScan lineScan
    rw [hL k]
    have e1 : r0 + k * dr + -dr = r0 + (k + -1) * dr := by ring
    have e2 : c0 + k * dc + -dc = c0 + (k + -1) * dc := by ring
    rw [e1, e2]
    cases cellAt b (r0 + k * dr) (c0 + k * dc) with
    | none => exact evalScan_line_back b p r0 c0 dr dc L hL n _ _ _
    | some v =>
      dsimp only
      split
      · exact evalScan_line_back b p r0 c0 dr dc L hL n _ _ _
      · rfl

theorem dirScore_line (b : Board) (p r0 c0 dr dc : Int) (L : List Int)
    (hL : ∀ j : Int, lineCell L j = cellAt b (r0 + j * dr) (c0 + j * dc)) (k : Int) :
    dirScore b (r0 + k * dr) (c0 + k * dc) p dr dc = lineScore L p k := by
  unfold dirScore lineScore
  have e1 : r0 + k * dr + dr = r0 + (k + 1) * dr := by ring
  have e2 : c0 + k * dc + dc = c0 + (k + 1) * dc := by ring
  have e3 : r0 + k * dr - dr = r0 + (k - 1) * dr := by ring
  have e4 : c0 + k * dc - dc = c0 + (k - 1) * dc := by ring
  rw [e1, e2, e3, e4, evalScan_line b p r0 c0 dr dc L hL]
  simp only [evalScan_line_back b p r0 c0 dr dc L hL]

theorem lineTerms_eq_lineSum (b : Board) (p r0 c0 dr dc : Int) (L : List Int)
    (hL : ∀ j : Int, lineCell L j = cellAt b (r0 + j * dr) (c0 + j * dc)) :
    ∀ n : Nat, lineTerms b p dr dc r0 c0 n = lineSum L p n
  | 0 => rfl
  | n + 1 => by
    unfold lineTerms lineSum cellTerm
    rw [lineTerms_eq_lineSum b p r0 c0 dr dc L hL n, hL n,
      dirScore_line b p r0 c0 dr dc L hL n]

theorem lineHasFour_true (L : List Int) (p : Int) :
    ∀ n : Nat, lineHasFour L p n = true →
      ∃ k : Nat, k < n ∧ lineCell L k = some p ∧ lineCell L ((k : Int) + 1) = some p ∧
        lineCell L ((k : Int) + 2) = some p ∧ lineCell L ((k : Int) + 3) = some p
  | 0, h => by simp [lineHasFour] at h
  | n + 1, h => by
    unfold lineHasFour at h
    rw [Bool.or_eq_true] at h
    rcases h with h | h
    · obtain ⟨k, hk, hc⟩ := lineHasFour_true L p n h
      exact ⟨k, by omega, hc⟩
    · simp only [Bool.and_eq_true, beq_iff_eq] at h
      exact ⟨n, by omega, h.1.1.1, h.1.1.2, h.1.2, h.2⟩

theorem seat_ne_empty (p : Int) (hs : p = Player1 ∨ p = Player2) : p ≠ Empty := by
  rcases hs with h | h <;> rw [h] <;> decide

theorem noFour_line (b : Board) (p : Int) (hs : p = Player1 ∨ p = Player2) (hnf : NoFour b)
    (r0 c0 dr dc : Int) (hd : (dr, dc) ∈ directions) (L : List Int)
    (hL : ∀ j : Int, lineCell L j = cellAt b (r0 + j * dr) (c0 + j * dc)) (n : Nat) :
    lineHasFour L p n = false := by
  cases h : lineHasFour L p n with
  | false => rfl
  | true =>
    exfalso
    obtain ⟨k, _, h0, h1, h2, h3⟩ := lineHasFour_true L p n h
    rw [hL] at h0 h1 h2 h3
    obtain ⟨i, j, hi, hj, hv⟩ := (cellAt_eq_some_iff b _ _ _).1 h0
    have hne : b.get i j = Player1 ∨ b.get i j = Player2 := by rw [hv]; exact hs
    apply hnf i j hne (dr, dc) hd
    dsimp only
    rw [hv, ← hi, ← hj]
    have e1 : r0 + (k : Int) * dr + dr = r0 + ((k : Int) + 1) * dr := by ring
    have e2 : c0 + (k : Int) * dc + dc = c0 + ((k : Int) + 1) * dc := by ring
    have e3 : r0 + (k : Int) * dr + 2 * dr = r0 + ((k : Int) + 2) * dr := by ring
    have e4 : c0 + (k : Int) * dc + 2 * dc = c0 + ((k : Int) + 2) * dc := by ring
    have e5 : r0 + (k : Int) * dr + 3 * dr = r0 + ((k : Int) + 3) * dr := by ring
    have e6 : c0 + (k : Int) * dc + 3 * dc = c0 + ((k : Int) + 3) * dc := by ring
    rw [e1, e2, e3, e4, e5, e6]
    exact ⟨h1, h2, h3⟩

/-- On a board without four in a row, the cells of `p` on a line of `n ≤ 7`
cells add at most `lineBound n` to the score of `p` for the direction of the
line. -/
theorem lineTerms_le_bound (b : Board) (p : Int) (hs : p = Player1 ∨ p = Player2)
    (hnf : NoFour b)
    (r0 c0 dr dc : Int) (n : Nat) (hd : (dr, dc) ∈ directions) (hn : n ≤ 7)
    (hin : ∀ k : Nat, k < n →
      0 ≤ r0 + k * dr ∧ r0 + k * dr < 6 ∧ 0 ≤ c0 + k * dc ∧ c0 + k * dc < 7)
    (hout : ∀ j : Int, j < 0 ∨ (n : Int) ≤ j →
      ¬(0 ≤ r0 + j * dr ∧ r0 + j * dr < 6 ∧ 0 ≤ c0 + j * dc ∧ c0 + j * dc < 7)) :
    lineTerms b p dr dc r0 c0 n ≤ lineBound n := by
  have hL := lineCell_lineOf b r0 c0 dr dc n hin hout
  have hlen : (lineOf b r0 c0 dr dc n).length = n := by simp [lineOf]
  rw [lineTerms_eq_lineSum b p r0 c0 dr dc _ hL n]
  have h := lineSum_le_bound (lineOf b r0 c0 dr dc n) p (seat_ne_empty p hs) (by omega)
    (noFour_line b p hs hnf r0 c0 dr dc hd _ hL _)
  rw [hlen] at h
  exact h

theorem lineTerms_nonneg (b : Board) (p dr dc r0 c0 : Int) :
    ∀ n : Nat, 0 ≤ lineTerms b p dr dc r0 c0 n
  | 0 => le_refl _
  | n + 1 => by
    unfold lineTerms
    have h1 := lineTerms_nonneg b p dr dc r0 c0 n
    have h2 : 0 ≤ cellTerm b p dr dc (r0 + n * dr) (c0 + n * dc) := by
      unfold cellTerm dirScore scoreOf
      split
      · dsimp only
        split_ifs <;> decide
      · exact le_refl _
    omega

/-! ## The heuristic score of a board -/

theorem evaluatePosition_eq (b : Board) (row col p : Int) :
    evaluatePosition b row col p =
      dirScore b row col p 0 1 + dirScore b row col p 1 0 + dirScore b row col p 1 1 +
        dirScore b row col p 1 (-1) := by
  have key : ∀ (l : List (Int × Int)) (s : Int),
      List.foldl (fun score dir =>
        let (count, openEnds) :=
          evalScan b p dir.1 dir.2 3 (row + dir.1) (col + dir.2) 1 0
        let (count, openEnds) :=
          evalScan b p (-dir.1) (-dir.2) 3 (row - dir.1) (col - dir.2) count openEnds
        if count ≥ 4 then score + 1000
        else if count = 3 ∧ openEnds > 0 then score + 100
        else if count = 2 ∧ openEnds > 0 then score + 10
        else if count = 1 ∧ openEnds > 1 then score + 1
        else score) s l = s + (l.map fun d => dirScore b row col p d.1 d.2).sum := by
    intro l
    induction l with
    | nil => intro s; simp
    | cons d l ih =>
      intro s
      rw [List.foldl_cons, ih, List.map_cons, List.sum_cons, ← add_assoc]
      congr 1
      unfold dirScore scoreOf
      dsimp only
      split_ifs <;> first | rfl | omega
  unfold evaluatePosition
  rw [key]
  simp [directions]
  ring

theorem dirTotal_int (b : Board) (p dr dc : Int) :
    dirTotal b p dr dc =
      (([0, 1, 2, 3, 4, 5] : List Int).map fun r =>
        (([0, 1, 2, 3, 4, 5, 6] : List Int).map fun c => cellTerm b p dr dc r c).sum).sum :=
  rfl

theorem dirTotal_rows (b : Board) (p : Int) :
    dirTotal b p 0 1 =
      lineTerms b p 0 1 0 0 7 + lineTerms b p 0 1 1 0 7 + lineTerms b p 0 1 2 0 7 +
      lineTerms b p 0 1 3 0 7 + lineTerms b p 0 1 4 0 7 + lineTerms b p 0 1 5 0 7 := by
  rw [dirTotal_int]
  simp only [List.map, List.sum_cons, List.sum_nil, lineTerms]
  norm_num
  ring

theorem dirTotal_columns (b : Board) (p : Int) :
    dirTotal b p 1 0 =
      lineTerms b p 1 0 0 0 6 + lineTerms b p 1 0 0 1 6 + lineTerms b p 1 0 0 2 6 +
      lineTerms b p 1 0 0 3 6 + lineTerms b p 1 0 0 4 6 + lineTerms b p 1 0 0 5 6 +
      lineTerms b p 1 0 0 6 6 := by
  rw [dirTotal_int]
  simp only [List.map, List.sum_cons, List.sum_nil, lineTerms]
  norm_num
  ring

theorem dirTotal_diagonals (b : Board) (p : Int) :
    dirTotal b p 1 1 =
      lineTerms b p 1 1 0 0 6 + lineTerms b p 1 1 1 0 5 + lineTerms b p 1 1 2 0 4 +
      lineTerms b p 1 1 3 0 3 + lineTerms b p 1 1 4 0 2 + lineTerms b p 1 1 5 0 1 +
      lineTerms b p 1 1 0 1 6 + lineTerms b p 1 1 0 2 5 + lineTerms b p 1 1 0 3 4 +
      lineTerms b p 1 1 0 4 3 + lineTerms b p 1 1 0 5 2 + lineTerms b p 1 1 0 6 1 := by
  rw [dirTotal_int]
  simp only [List.map, List.sum_cons, List.sum_nil, lineTerms]
  norm_num
  ring

theorem dirTotal_antidiagonals (b : Board) (p : Int) :
    dirTotal b p 1 (-1) =
      lineTerms b p 1 (-1) 0 0 1 + lineTerms b p 1 (-1) 0 1 2 + lineTerms b p 1 (-1) 0 2 3 +
      lineTerms b p 1 (-1) 0 3 4 + lineTerms b p 1 (-1) 0 4 5 + lineTerms b p 1 (-1) 0 5 6 +
      lineTerms b p 1 (-1) 0 6 6 + lineTerms b p 1 (-1) 1 6 5 + lineTerms b p 1 (-1) 2 6 4 +
      lineTerms b p 1 (-1) 3 6 3 + lineTerms b p 1 (-1) 4 6 2 + lineTerms b p 1 (-1) 5 6 1 := by
  rw [dirTotal_int]
  simp only [List.map, List.sum_cons, List.sum_nil, lineTerms]
  norm_num
  ring

theorem dirTotal_rows_le (b : Board) (p : Int) (hp : p = Player1 ∨ p = Player2)
    (hnf : NoFour b) :
    0 ≤ dirTotal b p 0 1 ∧ dirTotal b p 0 1 ≤ 3600 := by
  have hd : ((0 : Int), (1 : Int)) ∈ directions := by simp [directions]
  have h7 : lineBound 7 = 600 := rfl
  have h0 := lineTerms_le_bound b p hp hnf 0 0 0 1 7 hd (by omega)
    (by intro k hk; omega) (by intro j hj; omega)
  have h1 := lineTerms_le_bound b p hp hnf 1 0 0 1 7 hd (by omega)
    (by intro k hk; omega) (by intro j hj; omega)
  have h2 := lineTerms_le_bound b p hp hnf 2 0 0 1 7 hd (by omega)
    (by intro k hk; omega) (by intro j hj; omega)
  have h3 := lineTerms_le_bound b p hp hnf 3 0 0 1 7 hd (by omega)
    (by intro k hk; omega) (by intro j hj; omega)
  have h4 := lineTerms_le_bound b p hp hnf 4 0 0 1 7 hd (by omega)
    (by intro k hk; omega) (by intro j hj; omega)
  have h5 := lineTerms_le_bound b p hp hnf 5 0 0 1 7 hd (by omega)
    (by intro k hk; omega) (by intro j hj; omega)
  have n0 := lineTerms_nonneg b p 0 1 0 0 7
  have n1 := lineTerms_nonneg b p 0 1 1 0 7
  have n2 := lineTerms_nonneg b p 0 1 2 0 7
  have n3 := lineTerms_nonneg b p 0 1 3 0 7
  have n4 := lineTerms_nonneg b p 0 1 4 0 7
  have n5 := lineTerms_nonneg b p 0 1 5 0 7
  rw [dirTotal_rows, h7] at *
  omega

theorem dirTotal_columns_le (b : Board) (p : Int) (hp : p = Player1 ∨ p = Player2)
    (hnf : NoFour b) :
    0 ≤ dirTotal b p 1 0 ∧ dirTotal b p 1 0 ≤ 2240 := by
  have hd : ((1 : Int), (0 : Int)) ∈ directions := by simp [directions]
  have h6 : lineBound 6 = 320 := rfl
  have h0 := lineTerms_le_bound b p hp hnf 0 0 1 0 6 hd (by omega)
    (by intro k hk; omega) (by intro j hj; omega)
  have h1 := lineTerms_le_bound b p hp hnf 0 1 1 0 6 hd (by omega)
    (by intro k hk; omega) (by intro j hj; omega)
  have h2 := lineTerms_le_bound b p hp hnf 0 2 1 0 6 hd (by omega)
    (by intro k hk; omega) (by intro j hj; omega)
  have h3 := lineTerms_le_bound b p hp hnf 0 3 1 0 6 hd (by omega)
    (by intro k hk; omega) (by intro j hj; omega)
  have h4 := lineTerms_le_bound b p hp hnf 0 4 1 0 6 hd (by omega)
    (by intro k hk; omega) (by intro j hj; omega)
  have h5 := lineTerms_le_bound b p hp hnf 0 5 1 0 6 hd (by omega)
    (by intro k hk; omega) (by intro j hj; omega)
  have h6' := lineTerms_le_bound b p hp hnf 0 6 1 0 6 hd (by omega)
    (by intro k hk; omega) (by intro j hj; omega)
  have n0 := lineTerms_nonneg b p 1 0 0 0 6
  have n1 := lineTerms_nonneg b p 1 0 0 1 6
  have n2 := lineTerms_nonneg b p 1 0 0 2 6
  have n3 := lineTerms_nonneg b p 1 0 0 3 6
  have n4 := lineTerms_nonneg b p 1 0 0 4 6
  have n5 := lineTerms_nonneg b p 1 0 0 5 6
  have n6 := lineTerms_nonneg b p 1 0 0 6 6
  rw [dirTotal_columns, h6] at *
  omega

theorem dirTotal_diagonals_le (b : Board) (p : Int) (hp : p = Player1 ∨ p = Player2)
    (hnf : NoFour b) :
    0 ≤ dirTotal b p 1 1 ∧ dirTotal b p 1 1 ≤ 1880 := by
  have hd : ((1 : Int), (1 : Int)) ∈ directions := by simp [directions]
  have b1 : lineBound 1 = 0 := rfl
  have b2 : lineBound 2 = 0 := rfl
  have b3 : lineBound 3 = 20 := rfl
  have b4 : lineBound 4 = 300 := rfl
  have b5 : lineBound 5 = 300 := rfl
  have b6 : lineBound 6 = 320 := rfl
  have h0 := lineTerms_le_bound b p hp hnf 0 0 1 1 6 hd (by omega)
    (by intro k hk; omega) (by intro j hj; omega)
  have h1 := lineTerms_le_bound b p hp hnf 1 0 1 1 5 hd (by omega)
    (by intro k hk; omega) (by intro j hj; omega)
  have h2 := lineTerms_le_bound b p hp hnf 2 0 1 1 4 hd (by omega)
    (by intro k hk; omega) (by intro j hj; omega)
  have h3 := lineTerms_le_bound b p hp hnf 3 0 1 1 3 hd (by omega)
    (by intro k hk; omega) (by intro j hj; omega)
  have h4 := lineTerms_le_bound b p hp hnf 4 0 1 1 2 hd (by omega)
    (by intro k hk; omega) (by intro j hj; omega)
  have h5 := lineTerms_le_bound b p hp hnf 5 0 1 1 1 hd (by omega)
    (by intro k hk; omega) (by intro j hj; omega)
  have g1 := lineTerms_le_bound b p hp hnf 0 1 1 1 6 hd (by omega)
    (by intro k hk; omega) (by intro j hj; omega)
  have g2 := lineTerms_le_bound b p hp hnf 0 2 1 1 5 hd (by omega)
    (by intro k hk; omega) (by intro j hj; omega)
  have g3 := lineTerms_le_bound b p hp hnf 0 3 1 1 4 hd (by omega)
    (by intro k hk; omega) (by intro j hj; omega)
  have g4 := lineTerms_le_bound b p hp hnf 0 4 1 1 3 hd (by omega)
    (by intro k hk; omega) (by intro j hj; omega)
  have g5 := lineTerms_le_bound b p hp hnf 0 5 1 1 2 hd (by omega)
    (by intro k hk; omega) (by intro j hj; omega)
  have g6 := lineTerms_le_bound b p hp hnf 0 6 1 1 1 hd (by omega)
    (by intro k hk; omega) (by intro j hj; omega)
  have n0 := lineTerms_nonneg b p 1 1 0 0 6
  have n1 := lineTerms_nonneg b p 1 1 1 0 5
  have n2 := lineTerms_nonneg b p 1 1 2 0 4
  have n3 := lineTerms_nonneg b p 1 1 3 0 3
  have n4 := lineTerms_nonneg b p 1 1 4 0 2
  have n5 := lineTerms_nonneg b p 1 1 5 0 1
  have m1 := lineTerms_nonneg b p 1 1 0 1 6
  have m2 := lineTerms_nonneg b p 1 1 0 2 5
  have m3 := lineTerms_nonneg b p 1 1 0 3 4
  have m4 := lineTerms_nonneg b p 1 1 0 4 3
  have m5 := lineTerms_nonneg b p 1 1 0 5 2
  have m6 := lineTerms_nonneg b p 1 1 0 6 1
  rw [dirTotal_diagonals, b1, b2, b3, b4, b5, b6] at *
  omega

theorem dirTotal_antidiagonals_le (b : Board) (p : Int) (hp : p = Player1 ∨ p = Player2)
    (hnf : NoFour b) :
    0 ≤ dirTotal b p 1 (-1) ∧ dirTotal b p 1 (-1) ≤ 1880 := by
  have hd : ((1 : Int), (-1 : Int)) ∈ directions := by simp [directions]
  have b1 : lineBound 1 = 0 := rfl
  have b2 : lineBound 2 = 0 := rfl
  have b3 : lineBound 3 = 20 := rfl
  have b4 : lineBound 4 = 300 := rfl
  have b5 : lineBound 5 = 300 := rfl
  have b6 : lineBound 6 = 320 := rfl
  have h0 := lineTerms_le_bound b p hp hnf 0 0 1 (-1) 1 hd (by omega)
    (by intro k hk; omega) (by intro j hj; omega)
  have h1 := lineTerms_le_bound b p hp hnf 0 1 1 (-1) 2 hd (by omega)
    (by intro k hk; omega) (by intro j hj; omega)
  have h2 := lineTerms_le_bound b p hp hnf 0 2 1 (-1) 3 hd (by omega)
    (by intro k hk; omega) (by intro j hj; omega)
  have h3 := lineTerms_le_bound b p hp hnf 0 3 1 (-1) 4 hd (by omega)
    (by intro k hk; omega) (by intro j hj; omega)
  have h4 := lineTerms_le_bound b p hp hnf 0 4 1 (-1) 5 hd (by omega)
    (by intro k hk; omega) (by intro j hj; omega)
  have h5 := lineTerms_le_bound b p hp hnf 0 5 1 (-1) 6 hd (by omega)
    (by intro k hk; omega) (by intro j hj; omega)
  have g0 := lineTerms_le_bound b p hp hnf 0 6 1 (-1) 6 hd (by omega)
    (by intro k hk; omega) (by intro j hj; omega)
  have g1 := lineTerms_le_bound b p hp hnf 1 6 1 (-1) 5 hd (by omega)
    (by intro k hk; omega) (by intro j hj; omega)
  have g2 := lineTerms_le_bound b p hp hnf 2 6 1 (-1) 4 hd (by omega)
    (by intro k hk; omega) (by intro j hj; omega)
  have g3 := lineTerms_le_bound b p hp hnf 3 6 1 (-1) 3 hd (by omega)
    (by intro k hk; omega) (by intro j hj; omega)
  have g4 := lineTerms_le_bound b p hp hnf 4 6 1 (-1) 2 hd (by omega)
    (by intro k hk; omega) (by intro j hj; omega)
  have g5 := lineTerms_le_bound b p hp hnf 5 6 1 (-1) 1 hd (by omega)
    (by intro k hk; omega) (by intro j hj; omega)
  have n0 := lineTerms_nonneg b p 1 (-1) 0 0 1
  have n1 := lineTerms_nonneg b p 1 (-1) 0 1 2
  have n2 := lineTerms_nonneg b p 1 (-1) 0 2 3
  have n3 := lineTerms_nonneg b p 1 (-1) 0 3 4
  have n4 := lineTerms_nonneg b p 1 (-1) 0 4 5
  have n5 := lineTerms_nonneg b p 1 (-1) 0 5 6
  have m0 := lineTerms_nonneg b p 1 (-1) 0 6 6
  have m1 := lineTerms_nonneg b p 1 (-1) 1 6 5
  have m2 := lineTerms_nonneg b p 1 (-1) 2 6 4
  have m3 := lineTerms_nonneg b p 1 (-1) 3 6 3
  have m4 := lineTerms_nonneg b p 1 (-1) 4 6 2
  have m5 := lineTerms_nonneg b p 1 (-1) 5 6 1
  rw [dirTotal_antidiagonals, b1, b2, b3, b4, b5, b6] at *
  omega

theorem cellTerm_cast (b : Board) (p dr dc : Int) (r : Fin 6) (c : Fin 7) :
    cellTerm b p dr dc (r : Int) (c : Int) =
      if b.get r c = p then dirScore b r c p dr dc else 0 := by
  unfold cellTerm
  rw [cellAt_cast]
  by_cases h : b.get r c = p
  · rw [if_pos h, if_pos (by rw [h])]
  · rw [if_neg h, if_neg (fun e => h (Option.some.inj e))]

theorem seatScore_eq (b : Board) (p : Int) :
    seatScore b p =
      dirTotal b p 0 1 + dirTotal b p 1 0 + dirTotal b p 1 1 + dirTotal b p 1 (-1) := by
  have hcell : ∀ (r : Fin 6) (c : Fin 7),
      (if b.get r c = p then evaluatePosition b r c p else 0) =
        cellTerm b p 0 1 r c + cellTerm b p 1 0 r c + cellTerm b p 1 1 r c +
          cellTerm b p 1 (-1) r c := by
    intro r c
    rw [cellTerm_cast, cellTerm_cast, cellTerm_cast, cellTerm_cast, evaluatePosition_eq]
    split <;> simp
  unfold seatScore dirTotal
  simp only [hcell, allRows, allCols, List.map, List.sum_cons, List.sum_nil]
  ring

/-- On a board without four in a row the cells of `p` score between 0 and
9600 in all. -/
theorem seatScore_bounds (b : Board) (p : Int) (hp : p = Player1 ∨ p = Player2)
    (hnf : NoFour b) :
    0 ≤ seatScore b p ∧ seatScore b p ≤ 9600 := by
  have h1 := dirTotal_rows_le b p hp hnf
  have h2 := dirTotal_columns_le b p hp hnf
  have h3 := dirTotal_diagonals_le b p hp hnf
  have h4 := dirTotal_antidiagonals_le b p hp hnf
  rw [seatScore_eq]
  omega

theorem foldl_add_sum {α : Type} (f : α → Int) :
    ∀ (l : List α) (s : Int), l.foldl (fun score a => score + f a) s = s + (l.map f).sum
  | [], s => by simp
  | a :: l, s => by
    rw [List.foldl_cons, foldl_add_sum f l, List.map_cons, List.sum_cons]
    ring

theorem cols_foldl_eq (b : Board) (P O : Int) (hne : P ≠ O) (row : Fin 6) :
    ∀ (l : List (Fin 7)) (s : Int),
      l.foldl (fun score col =>
        if b.get row col = P then score + evaluatePosition b row col P
        else if b.get row col = O then score - evaluatePosition b row col O
        else score) s =
      s + ((l.map fun c => if b.get row c = P then evaluatePosition b row c P else 0).sum -
        (l.map fun c => if b.get row c = O then evaluatePosition b row c O else 0).sum)
  | [], s => by simp
  | c :: l, s => by
    rw [List.foldl_cons, cols_foldl_eq b P O hne row l, List.map_cons, List.sum_cons,
      List.map_cons, List.sum_cons]
    by_cases h1 : b.get row c = P
    · have h2 : ¬b.get row c = O := by rw [h1]; exact hne
      rw [if_pos h1, if_pos h1, if_neg h2]
      ring
    · rw [if_neg h1, if_neg h1]
      split <;> ring

theorem rows_foldl_eq (f g : Fin 6 → Int) :
    ∀ (l : List (Fin 6)) (s : Int),
      l.foldl (fun score row => score + (f row - g row)) s =
        s + ((l.map f).sum - (l.map g).sum)
  | [], s => by simp
  | r :: l, s => by
    rw [List.foldl_cons, rows_foldl_eq f g l, List.map_cons, List.sum_cons, List.map_cons,
      List.sum_cons]
    ring

theorem centre_foldl_eq (b : Board) (P : Int) :
    ∀ (l : List (Fin 6)) (s : Int),
      l.foldl (fun score row => if b.get row 3 = P then score + 3 else score) s =
        s + (l.map fun r => if b.get r 3 = P then (3 : Int) else 0).sum
  | [], s => by simp
  | r :: l, s => by
    rw [List.foldl_cons, centre_foldl_eq b P l, List.map_cons, List.sum_cons]
    split <;> ring

theorem evaluateBoard_eq (bot : Bot) (b : Board)
    (hne : bot.PlayerNum ≠ (if bot.PlayerNum = Player1 then Player2 else Player1)) :
    evaluateBoard bot b =
      seatScore b bot.PlayerNum -
        seatScore b (if bot.PlayerNum = Player1 then Player2 else Player1) +
      (allRows.map fun r => if b.get r 3 = bot.PlayerNum then (3 : Int) else 0).sum := by
  unfold evaluateBoard seatScore
  dsimp only
  generalize (if bot.PlayerNum = Player1 then Player2 else Player1) = O at hne ⊢
  rw [centre_foldl_eq]
  simp only [cols_foldl_eq b bot.PlayerNum O hne]
  rw [rows_foldl_eq]
  ring

/-- The heuristic score of a board without four in a row, for a bot on one of
the two seats, stays within 9995 on both sides. -/
theorem evaluateBoard_bounds (bot : Bot) (b : Board)
    (hbot : bot.PlayerNum = Player1 ∨ bot.PlayerNum = Player2) (hnf : NoFour b) :
    -9995 ≤ evaluateBoard bot b ∧ evaluateBoard bot b ≤ 9995 := by
  have hne : bot.PlayerNum ≠ (if bot.PlayerNum = Player1 then Player2 else Player1) := by
    rcases hbot with h | h <;> rw [h] <;> decide
  have ho : (if bot.PlayerNum = Player1 then Player2 else Player1) = Player1 ∨
      (if bot.PlayerNum = Player1 then Player2 else Player1) = Player2 := by
    rcases hbot with h | h <;> rw [h] <;> decide
  have h1 := seatScore_bounds b _ hbot hnf
  have h2 := seatScore_bounds b _ ho hnf
  have hc : 0 ≤ (allRows.map fun r => if b.get r 3 = bot.PlayerNum then (3 : Int) else 0).sum ∧
      (allRows.map fun r => if b.get r 3 = bot.PlayerNum then (3 : Int) else 0).sum ≤ 18 := by
    simp only [allRows, List.map, List.sum_cons, List.sum_nil]
    constructor <;> split_ifs <;> omega
  rw [evaluateBoard_eq bot b hne]
  omega

/-! ## No four in a row during the search -/

theorem cellAt_set (b : Board) (row : Fin 6) (col : Fin 7) (x r c : Int) :
    cellAt (b.set row col x) r c =
      if r = (row : Int) ∧ c = (col : Int) then some x else cellAt b r c := by
  by_cases hin : 0 ≤ r ∧ r < 6 ∧ 0 ≤ c ∧ c < 7
  · have hr : r = ((⟨r.toNat, by omega⟩ : Fin 6) : Int) := by simp; omega
    have hc : c = ((⟨c.toNat, by omega⟩ : Fin 7) : Int) := by simp; omega
    generalize (⟨r.toNat, by omega⟩ : Fin 6) = i at hr
    generalize (⟨c.toNat, by omega⟩ : Fin 7) = j at hc
    subst hr
    subst hc
    rw [cellAt_cast, cellAt_cast, Board.get_set]
    by_cases h : i = row ∧ j = col
    · rw [if_pos h, if_pos (by rw [h.1, h.2]; exact ⟨rfl, rfl⟩)]
    · rw [if_neg h, if_neg]
      rintro ⟨h1, h2⟩
      exact h ⟨Fin.ext (by exact_mod_cast h1), Fin.ext (by exact_mod_cast h2)⟩
  · rw [cellAt_none_of_out _ _ _ hin, cellAt_none_of_out _ _ _ hin, if_neg]
    rintro ⟨h1, h2⟩
    apply hin
    have := row.isLt
    have := col.isLt
    omega

theorem window_run (b : Board) (r c row col d1 d2 x : Int) (i : Nat) (hi : i ≤ 3)
    (hr : r + i * d1 = row) (hc : c + i * d2 = col)
    (hw : ∀ j : Int, 0 ≤ j → j ≤ 3 → cellAt b (r + j * d1) (c + j * d2) = some x) :
    RunThrough b row col x d1 d2 i (3 - i) := by
  intro k hk1 hk2
  have hk3 : k ≤ 3 - (i : Int) := by
    have : ((3 - i : Nat) : Int) = 3 - (i : Int) := by omega
    omega
  have h := hw (k + i) (by omega) (by omega)
  have e1 : row + k * d1 = r + (k + i) * d1 := by rw [← hr]; ring
  have e2 : col + k * d2 = c + (k + i) * d2 := by rw [← hc]; ring
  rw [e1, e2]
  exact h

/-- A piece of seat `x` placed on an empty cell, where `CheckWin` then finds no
win, leaves the board without four in a row. -/
theorem NoFour_set (b : Board) (row : Fin 6) (col : Fin 7) (x : Int)
    (hx : x = Player1 ∨ x = Player2) (hnf : NoFour b)
    (hwin : CheckWin (b.set row col x) row col x = false) : NoFour (b.set row col x) := by
  intro r c hne d hd hwindow
  obtain ⟨h1, h2, h3⟩ := hwindow
  have hw : ∀ j : Int, 0 ≤ j → j ≤ 3 →
      cellAt (b.set row col x) ((r : Int) + j * d.1) ((c : Int) + j * d.2) =
        some ((b.set row col x).get r c) := by
    intro j hj0 hj3
    have hj : j = 0 ∨ j = 1 ∨ j = 2 ∨ j = 3 := by omega
    rcases hj with rfl | rfl | rfl | rfl
    · simpa using cellAt_cast (b.set row col x) r c
    · simpa using h1
    · exact h2
    · exact h3
  by_cases hex : ∃ i : Nat, i ≤ 3 ∧ (r : Int) + i * d.1 = row ∧ (c : Int) + i * d.2 = col
  · obtain ⟨i, hi, hr, hc⟩ := hex
    have hcell := cellAt_set_self b row col x
    have hv : (b.set row col x).get r c = x := by
      have h := hw i (by omega) (by omega)
      rw [hr, hc, hcell] at h
      exact (Option.some.inj h).symm
    rw [hv] at hw
    have hfour : HasFourThrough (b.set row col x) row col x :=
      ⟨d, hd, i, 3 - i, by omega, window_run _ r c row col d.1 d.2 x i hi hr hc hw⟩
    rw [(CheckWin_iff_hasFour hcell hx).2 hfour] at hwin
    exact absurd hwin (by decide)
  · have hold : ∀ j : Int, 0 ≤ j → j ≤ 3 →
        cellAt (b.set row col x) ((r : Int) + j * d.1) ((c : Int) + j * d.2) =
          cellAt b ((r : Int) + j * d.1) ((c : Int) + j * d.2) := by
      intro j hj0 hj3
      rw [cellAt_set, if_neg]
      rintro ⟨e1, e2⟩
      exact hex ⟨j.toNat, by omega, by rw [Int.toNat_of_nonneg hj0]; exact e1,
        by rw [Int.toNat_of_nonneg hj0]; exact e2⟩
    have hget : (b.set row col x).get r c = b.get r c := by
      have h := hold 0 (by omega) (by omega)
      simp only [zero_mul, add_zero, cellAt_cast] at h
      exact Option.some.inj h
    rw [hget] at hne hw
    apply hnf r c hne d hd
    refine ⟨?_, ?_, ?_⟩
    · have h := hw 1 (by omega) (by omega)
      rw [hold 1 (by omega) (by omega)] at h
      simpa using h
    · have h := hw 2 (by omega) (by omega)
      rw [hold 2 (by omega) (by omega)] at h
      exact h
    · have h := hw 3 (by omega) (by omega)
      rw [hold 3 (by omega) (by omega)] at h
      exact h

/-! ## Plain minimax -/

theorem max_cases (a b : Int) : (a > b ∧ max a b = a) ∨ (a ≤ b ∧ max a b = b) := by
  unfold max
  by_cases h : a > b
  · rw [if_pos h]; exact Or.inl ⟨h, rfl⟩
  · rw [if_neg h]; exact Or.inr ⟨by omega, rfl⟩

theorem min_cases (a b : Int) : (a < b ∧ min a b = a) ∨ (b ≤ a ∧ min a b = b) := by
  unfold min
  by_cases h : a < b
  · rw [if_pos h]; exact Or.inl ⟨h, rfl⟩
  · rw [if_neg h]; exact Or.inr ⟨by omega, rfl⟩

theorem maxLoopNoCut_window (bot : Bot) (depth : Nat) (rec : Game → Int → Int → Game × Int)
    (hrec : ∀ g a b a' b', rec g a b = rec g a' b') :
    ∀ (l : List (Fin 7)) (game : Game) (m a b a' b' : Int),
      maxLoopNoCut bot depth rec l game m a b = maxLoopNoCut bot depth rec l game m a' b'
  | [], _, _, _, _, _, _ => rfl
  | col :: rest, game, m, a, b, a', b' => by
    unfold maxLoopNoCut
    cases getLowestRow game col with
    | none => exact maxLoopNoCut_window bot depth rec hrec rest game m a b a' b'
    | some row =>
      dsimp only
      split
      · rfl
      · rw [hrec _ a b a' b']
        exact maxLoopNoCut_window bot depth rec hrec rest _ _ _ _ _ _

theorem minLoopNoCut_window (opponent : Int) (depth : Nat)
    (rec : Game → Int → Int → Game × Int)
    (hrec : ∀ g a b a' b', rec g a b = rec g a' b') :
    ∀ (l : List (Fin 7)) (game : Game) (m a b a' b' : Int),
      minLoopNoCut opponent depth rec l game m a b =
        minLoopNoCut opponent depth rec l game m a' b'
  | [], _, _, _, _, _, _ => rfl
  | col :: rest, game, m, a, b, a', b' => by
    unfold minLoopNoCut
    cases getLowestRow game col with
    | none => exact minLoopNoCut_window opponent depth rec hrec rest game m a b a' b'
    | some row =>
      dsimp only
      split
      · rfl
      · rw [hrec _ a b a' b']
        exact minLoopNoCut_window opponent depth rec hrec rest _ _ _ _ _ _

/-- Plain minimax does not read its window. -/
theorem minimaxNoCut_window (bot : Bot) (opponent : Int) :
    ∀ (d : Nat) (game : Game) (isMax : Bool) (a b a' b' : Int),
      minimaxNoCut bot opponent d game isMax a b = minimaxNoCut bot opponent d game isMax a' b'
  | 0, _, _, _, _, _, _ => rfl
  | d + 1, game, isMax, a, b, a', b' => by
    unfold minimaxNoCut
    split
    · rfl
    · dsimp only
      split
      · rfl
      · split
        · exact maxLoopNoCut_window bot (d + 1) _
            (fun g a b a' b' => minimaxNoCut_window bot opponent d g false a b a' b') _ _ _ _ _ _ _
        · exact minLoopNoCut_window opponent (d + 1) _
            (fun g a b a' b' => minimaxNoCut_window bot opponent d g true a b a' b') _ _ _ _ _ _ _

theorem maxLoopNoCut_game (bot : Bot) (depth : Nat) (rec : Game → Int → Int → Game × Int)
    (hrec : ∀ g a b, (rec g a b).1 = g) :
    ∀ (l : List (Fin 7)) (game : Game) (maxScore alpha beta : Int),
      (maxLoopNoCut bot depth rec l game maxScore alpha beta).1 = game
  | [], _, _, _, _ => rfl
  | col :: rest, game, maxScore, alpha, beta => by
    unfold maxLoopNoCut
    cases hrow : getLowestRow game col with
    | none =>
      dsimp only
      exact maxLoopNoCut_game bot depth rec hrec rest game maxScore alpha beta
    | some row =>
      dsimp only
      split
      · exact setCell_restore game row col bot.PlayerNum hrow
      · have h1 := hrec (game.setCell row col bot.PlayerNum) alpha beta
        cases hres : rec (game.setCell row col bot.PlayerNum) alpha beta with
        | mk g' score =>
          rw [hres] at h1
          dsimp only at h1
          subst h1
          dsimp only
          rw [setCell_restore game row col bot.PlayerNum hrow]
          exact maxLoopNoCut_game bot depth rec hrec rest game _ _ beta

theorem minLoopNoCut_game (opponent : Int) (depth : Nat) (rec : Game → Int → Int → Game × Int)
    (hrec : ∀ g a b, (rec g a b).1 = g) :
    ∀ (l : List (Fin 7)) (game : Game) (minScore alpha beta : Int),
      (minLoopNoCut opponent depth rec l game minScore alpha beta).1 = game
  | [], _, _, _, _ => rfl
  | col :: rest, game, minScore, alpha, beta => by
    unfold minLoopNoCut
    cases hrow : getLowestRow game col with
    | none =>
      dsimp only
      exact minLoopNoCut_game opponent depth rec hrec rest game minScore alpha beta
    | some row =>
      dsimp only
      split
      · exact setCell_restore game row col opponent hrow
      · have h1 := hrec (game.setCell row col opponent) alpha beta
        cases hres : rec (game.setCell row col opponent) alpha beta with
        | mk g' score =>
          rw [hres] at h1
          dsimp only at h1
          subst h1
          dsimp only
          rw [setCell_restore game row col opponent hrow]
          exact minLoopNoCut_game opponent depth rec hrec rest game _ alpha _

theorem minimaxNoCut_game (bot : Bot) (opponent : Int) :
    ∀ (depth : Nat) (game : Game) (isMaximizing : Bool) (alpha beta : Int),
      (minimaxNoCut bot opponent depth game isMaximizing alpha beta).1 = game
  | 0, _, _, _, _ => rfl
  | depth + 1, game, isMaximizing, alpha, beta => by
    unfold minimaxNoCut
    split
    · rfl
    · dsimp only
      split
      · rfl
      · split
        · exact maxLoopNoCut_game bot (depth + 1) _
            (fun g a b => minimaxNoCut_game bot opponent depth g false a b) _ game _ alpha beta
        · exact minLoopNoCut_game opponent (depth + 1) _
            (fun g a b => minimaxNoCut_game bot opponent depth g true a b) _ game _ alpha beta

/-! ## Pruning keeps the value: the maximizing loop -/

theorem NoFour_setCell (game : Game) (row : Fin 6) (col : Fin 7) (x : Int)
    (hx : x = Player1 ∨ x = Player2) (hnf : NoFour game.Board)
    (hwin : ¬CheckWin (game.setCell row col x).Board row col x = true) :
    NoFour (game.setCell row col x).Board := by
  unfold Game.setCell at hwin ⊢
  dsimp only at hwin ⊢
  exact NoFour_set game.Board row col x hx hnf (by simpa using hwin)

/-- The plain maximizing loop returns at least its running maximum and at
most the score of a win; it returns at least `-B` when it has a column to try. -/
theorem maxLoopNoCut_bounds (bot : Bot) (D : Nat) (recP : Game → Int → Int → Game × Int)
    (V : Game → Int) (B : Int) (hbot : bot.PlayerNum = Player1 ∨ bot.PlayerNum = Player2)
    (hgP : ∀ g a b, (recP g a b).1 = g) (hV : ∀ g a b, (recP g a b).2 = V g)
    (hB : ∀ g, NoFour g.Board → -B ≤ V g ∧ V g ≤ B)
    (hB0 : 0 ≤ B) (hW : B < 10000 - (5 - (D : Int))) :
    ∀ (l : List (Fin 7)) (game : Game) (m a b : Int), NoFour game.Board →
      m ≤ 10000 - (5 - (D : Int)) →
      m ≤ (maxLoopNoCut bot D recP l game m a b).2 ∧
      (maxLoopNoCut bot D recP l game m a b).2 ≤ 10000 - (5 - (D : Int)) ∧
      ((∃ c ∈ l, getLowestRow game c ≠ none) → -B ≤ (maxLoopNoCut bot D recP l game m a b).2)
  | [], game, m, a, b, _, hm => by
    unfold maxLoopNoCut
    exact ⟨le_refl _, hm, fun ⟨c, hc, _⟩ => absurd hc (List.not_mem_nil c)⟩
  | col :: rest, game, m, a, b, hnf, hm => by
    unfold maxLoopNoCut
    cases hrow : getLowestRow game col with
    | none =>
      dsimp only
      obtain ⟨h1, h2, h3⟩ := maxLoopNoCut_bounds bot D recP V B hbot hgP hV hB hB0 hW rest game
        m a b hnf hm
      refine ⟨h1, h2, ?_⟩
      rintro ⟨c, hc, hne⟩
      rcases List.mem_cons.1 hc with rfl | hc'
      · exact absurd hrow hne
      · exact h3 ⟨c, hc', hne⟩
    | some row =>
      dsimp only
      by_cases hwin : CheckWin (game.setCell row col bot.PlayerNum).Board row col
          bot.PlayerNum = true
      · rw [if_pos hwin]
        dsimp only
        exact ⟨hm, le_refl _, fun _ => by omega⟩
      · rw [if_neg hwin]
        have hnf1 := NoFour_setCell game row col bot.PlayerNum hbot hnf hwin
        have hg := hgP (game.setCell row col bot.PlayerNum) a b
        have hv := hV (game.setCell row col bot.PlayerNum) a b
        obtain ⟨hv1, hv2⟩ := hB _ hnf1
        cases hres : recP (game.setCell row col bot.PlayerNum) a b with
        | mk g' v =>
          rw [hres] at hg hv
          dsimp only at hg hv
          subst hg
          dsimp only
          rw [setCell_restore game row col bot.PlayerNum hrow]
          rw [← hv] at hv1 hv2
          have hm1 : max m v ≤ 10000 - (5 - (D : Int)) := by
            rcases max_cases m v with ⟨_, e⟩ | ⟨_, e⟩ <;> rw [e] <;> omega
          obtain ⟨h1, h2, _⟩ := maxLoopNoCut_bounds bot D recP V B hbot hgP hV hB hB0 hW rest
            game (max m v) (max a v) b hnf hm1
          have hmv : m ≤ max m v ∧ v ≤ max m v := by
            rcases max_cases m v with ⟨_, e⟩ | ⟨_, e⟩ <;> rw [e] <;> omega
          exact ⟨by omega, h2, fun _ => by omega⟩

/-- The maximizing loop of `minimax` against the plain loop: the invariant of
the two running states gives `WindowFits` for the two results. -/
theorem maxLoop_fits (bot : Bot) (D : Nat) (recA recP : Game → Int → Int → Game × Int)
    (V : Game → Int) (B alpha0 beta : Int)
    (hbot : bot.PlayerNum = Player1 ∨ bot.PlayerNum = Player2)
    (hgA : ∀ g a b, (recA g a b).1 = g)
    (hgP : ∀ g a b, (recP g a b).1 = g) (hV : ∀ g a b, (recP g a b).2 = V g)
    (hB : ∀ g, NoFour g.Board → -B ≤ V g ∧ V g ≤ B)
    (hfit : ∀ g, NoFour g.Board → ∀ a, alpha0 ≤ a → a < beta →
      WindowFits a beta (V g) (recA g a beta).2)
    (hB0 : 0 ≤ B) (hW : B < 10000 - (5 - (D : Int))) :
    ∀ (l : List (Fin 7)) (game : Game) (m m' a a' b' : Int), NoFour game.Board →
      alpha0 ≤ a → a < beta → m ≤ a → (m' ≤ alpha0 → a = alpha0) →
      (alpha0 < m' → a = m' ∧ m = m') → m' ≤ B →
      WindowFits alpha0 beta (maxLoopNoCut bot D recP l game m' a' b').2
        (maxLoop bot D recA l game m a beta).2
  | [], game, m, m', a, a', b', _, h0, h1, h2, h3, h4, _ => by
    unfold maxLoop maxLoopNoCut
    dsimp only
    refine ⟨fun h => ?_, fun h _ => (h4 h).2, fun h => ?_⟩
    · have := h3 h
      omega
    · exfalso
      by_cases hc : m' ≤ alpha0
      · have := h3 hc
        omega
      · have := (h4 (by omega)).1
        omega
  | col :: rest, game, m, m', a, a', b', hnf, h0, h1, h2, h3, h4, h5 => by
    unfold maxLoop maxLoopNoCut
    cases hrow : getLowestRow game col with
    | none =>
      dsimp only
      exact maxLoop_fits bot D recA recP V B alpha0 beta hbot hgA hgP hV hB hfit hB0 hW rest
        game m m' a a' b' hnf h0 h1 h2 h3 h4 h5
    | some row =>
      dsimp only
      by_cases hwin : CheckWin (game.setCell row col bot.PlayerNum).Board row col
          bot.PlayerNum = true
      · rw [if_pos hwin, if_pos hwin]
        dsimp only
        exact ⟨fun h => h, fun _ _ => rfl, fun h => h⟩
      · rw [if_neg hwin, if_neg hwin]
        have hnf1 := NoFour_setCell game row col bot.PlayerNum hbot hnf hwin
        have hgA1 := hgA (game.setCell row col bot.PlayerNum) a beta
        have hgP1 := hgP (game.setCell row col bot.PlayerNum) a' b'
        have hv := hV (game.setCell row col bot.PlayerNum) a' b'
        obtain ⟨hv1, hv2⟩ := hB _ hnf1
        obtain ⟨f1, f2, f3⟩ := hfit _ hnf1 a h0 h1
        cases hresA : recA (game.setCell row col bot.PlayerNum) a beta with
        | mk gA r =>
        cases hresP : recP (game.setCell row col bot.PlayerNum) a' b' with
        | mk gP v =>
          rw [hresA] at hgA1 f1 f2 f3
          rw [hresP] at hgP1 hv
          dsimp only at hgA1 hgP1 hv f1 f2 f3
          subst hgA1
          subst hgP1
          dsimp only
          rw [setCell_restore game row col bot.PlayerNum hrow]
          rw [← hv] at hv1 hv2 f1 f2 f3
          have hmr := max_cases m r
          have har := max_cases a r
          have hmv := max_cases m' v
          by_cases hcut : beta ≤ max a r
          · rw [if_pos hcut]
            dsimp only
            have hm1 : max m' v ≤ 10000 - (5 - (D : Int)) := by omega
            obtain ⟨g1, _, _⟩ := maxLoopNoCut_bounds bot D recP V B hbot hgP hV hB hB0 hW rest
              game (max m' v) (max a' v) b' hnf hm1
            have hrb : beta ≤ r := by omega
            have hvb : beta ≤ v := by
              by_contra hlt
              by_cases hva : v ≤ a
              · have := f1 hva
                omega
              · have := f2 (by omega) (by omega)
                omega
            refine ⟨fun h => ?_, fun _ h => ?_, fun _ => ?_⟩
            · omega
            · omega
            · omega
          · rw [if_neg hcut]
            apply maxLoop_fits bot D recA recP V B alpha0 beta hbot hgA hgP hV hB hfit hB0 hW
              rest game (max m r) (max m' v) (max a r) (max a' v) b' hnf
            · omega
            · omega
            · omega
            · intro hle
              have hva : v ≤ a := by omega
              have := f1 hva
              have := h3 (by omega)
              omega
            · intro hlt
              by_cases hva : v ≤ a
              · have := f1 hva
                by_cases hm0 : alpha0 < m'
                · have := h4 hm0
                  omega
                · have := h3 (by omega)
                  omega
              · have hvb : v < beta := by
                  by_contra hge
                  have := f3 (by omega)
                  omega
                have := f2 (by omega) hvb
                by_cases hm0 : alpha0 < m'
                · have := h4 hm0
                  omega
                · have := h3 (by omega)
                  omega
            · omega

/-! ## Pruning keeps the value: the minimizing loop -/

/-- The plain minimizing loop returns at most its running minimum and at
least the score of a loss; it returns at most `B` when it has a column to try. -/
theorem minLoopNoCut_bounds (opponent : Int) (D : Nat)
    (recP : Game → Int → Int → Game × Int) (V : Game → Int) (B : Int)
    (hopp : opponent = Player1 ∨ opponent = Player2)
    (hgP : ∀ g a b, (recP g a b).1 = g) (hV : ∀ g a b, (recP g a b).2 = V g)
    (hB : ∀ g, NoFour g.Board → -B ≤ V g ∧ V g ≤ B)
    (hB0 : 0 ≤ B) (hW : -10000 + (5 - (D : Int)) < -B) :
    ∀ (l : List (Fin 7)) (game : Game) (m a b : Int), NoFour game.Board →
      -10000 + (5 - (D : Int)) ≤ m →
      (minLoopNoCut opponent D recP l game m a b).2 ≤ m ∧
      -10000 + (5 - (D : Int)) ≤ (minLoopNoCut opponent D recP l game m a b).2 ∧
      ((∃ c ∈ l, getLowestRow game c ≠ none) →
        (minLoopNoCut opponent D recP l game m a b).2 ≤ B)
  | [], game, m, a, b, _, hm => by
    unfold minLoopNoCut
    exact ⟨le_refl _, hm, fun ⟨c, hc, _⟩ => absurd hc (List.not_mem_nil c)⟩
  | col :: rest, game, m, a, b, hnf, hm => by
    unfold minLoopNoCut
    cases hrow : getLowestRow game col with
    | none =>
      dsimp only
      obtain ⟨h1, h2, h3⟩ := minLoopNoCut_bounds opponent D recP V B hopp hgP hV hB hB0 hW
        rest game m a b hnf hm
      refine ⟨h1, h2, ?_⟩
      rintro ⟨c, hc, hne⟩
      rcases List.mem_cons.1 hc with rfl | hc'
      · exact absurd hrow hne
      · exact h3 ⟨c, hc', hne⟩
    | some row =>
      dsimp only
      by_cases hwin : CheckWin (game.setCell row col opponent).Board row col opponent = true
      · rw [if_pos hwin]
        dsimp only
        exact ⟨hm, le_refl _, fun _ => by omega⟩
      · rw [if_neg hwin]
        have hnf1 := NoFour_setCell game row col opponent hopp hnf hwin
        have hg := hgP (game.setCell row col opponent) a b
        have hv := hV (game.setCell row col opponent) a b
        obtain ⟨hv1, hv2⟩ := hB _ hnf1
        cases hres : recP (game.setCell row col opponent) a b with
        | mk g' v =>
          rw [hres] at hg hv
          dsimp only at hg hv
          subst hg
          dsimp only
          rw [setCell_restore game row col opponent hrow]
          rw [← hv] at hv1 hv2
          have hm1 : -10000 + (5 - (D : Int)) ≤ min m v := by
            rcases min_cases m v with ⟨_, e⟩ | ⟨_, e⟩ <;> rw [e] <;> omega
          obtain ⟨h1, h2, _⟩ := minLoopNoCut_bounds opponent D recP V B hopp hgP hV hB hB0 hW
            rest game (min m v) a (min b v) hnf hm1
          have hmv : min m v ≤ m ∧ min m v ≤ v := by
            rcases min_cases m v with ⟨_, e⟩ | ⟨_, e⟩ <;> rw [e] <;> omega
          exact ⟨by omega, h2, fun _ => by omega⟩

/-- The minimizing loop of `minimax` against the plain loop. -/
theorem minLoop_fits (opponent : Int) (D : Nat)
    (recA recP : Game → Int → Int → Game × Int)
    (V : Game → Int) (B alpha beta0 : Int)
    (hopp : opponent = Player1 ∨ opponent = Player2)
    (hgA : ∀ g a b, (recA g a b).1 = g)
    (hgP : ∀ g a b, (recP g a b).1 = g) (hV : ∀ g a b, (recP g a b).2 = V g)
    (hB : ∀ g, NoFour g.Board → -B ≤ V g ∧ V g ≤ B)
    (hfit : ∀ g, NoFour g.Board → ∀ b, alpha < b → b ≤ beta0 →
      WindowFits alpha b (V g) (recA g alpha b).2)
    (hB0 : 0 ≤ B) (hW : -10000 + (5 - (D : Int)) < -B) :
    ∀ (l : List (Fin 7)) (game : Game) (m m' b a' b' : Int), NoFour game.Board →
      alpha < b → b ≤ beta0 → b ≤ m → (beta0 ≤ m' → b = beta0) →
      (m' < beta0 → b = m' ∧ m = m') → -B ≤ m' →
      WindowFits alpha beta0 (minLoopNoCut opponent D recP l game m' a' b').2
        (minLoop opponent D recA l game m alpha b).2
  | [], game, m, m', b, a', b', _, h0, h1, h2, h3, h4, _ => by
    unfold minLoop minLoopNoCut
    dsimp only
    refine ⟨fun h => ?_, fun _ h => (h4 h).2, fun h => ?_⟩
    · exfalso
      by_cases hc : beta0 ≤ m'
      · omega
      · have := (h4 (by omega)).1
        omega
    · have := h3 h
      omega
  | col :: rest, game, m, m', b, a', b', hnf, h0, h1, h2, h3, h4, h5 => by
    unfold minLoop minLoopNoCut
    cases hrow : getLowestRow game col with
    | none =>
      dsimp only
      exact minLoop_fits opponent D recA recP V B alpha beta0 hopp hgA hgP hV hB hfit hB0 hW
        rest game m m' b a' b' hnf h0 h1 h2 h3 h4 h5
    | some row =>
      dsimp only
      by_cases hwin : CheckWin (game.setCell row col opponent).Board row col opponent = true
      · rw [if_pos hwin, if_pos hwin]
        dsimp only
        exact ⟨fun h => h, fun _ _ => rfl, fun h => h⟩
      · rw [if_neg hwin, if_neg hwin]
        have hnf1 := NoFour_setCell game row col opponent hopp hnf hwin
        have hgA1 := hgA (game.setCell row col opponent) alpha b
        have hgP1 := hgP (game.setCell row col opponent) a' b'
        have hv := hV (game.setCell row col opponent) a' b'
        obtain ⟨hv1, hv2⟩ := hB _ hnf1
        obtain ⟨f1, f2, f3⟩ := hfit _ hnf1 b h0 h1
        cases hresA : recA (game.setCell row col opponent) alpha b with
        | mk gA r =>
        cases hresP : recP (game.setCell row col opponent) a' b' with
        | mk gP v =>
          rw [hresA] at hgA1 f1 f2 f3
          rw [hresP] at hgP1 hv
          dsimp only at hgA1 hgP1 hv f1 f2 f3
          subst hgA1
          subst hgP1
          dsimp only
          rw [setCell_restore game row col opponent hrow]
          rw [← hv] at hv1 hv2 f1 f2 f3
          have hmr := min_cases m r
          have hbr := min_cases b r
          have hmv := min_cases m' v
          by_cases hcut : min b r ≤ alpha
          · rw [if_pos hcut]
            dsimp only
            have hm1 : -10000 + (5 - (D : Int)) ≤ min m' v := by omega
            obtain ⟨g1, _, _⟩ := minLoopNoCut_bounds opponent D recP V B hopp hgP hV hB hB0 hW
              rest game (min m' v) a' (min b' v) hnf hm1
            have hra : r ≤ alpha := by omega
            have hva : v ≤ alpha := by
              by_contra hlt
              by_cases hvb : b ≤ v
              · have := f3 hvb
                omega
              · have := f2 (by omega) (by omega)
                omega
            refine ⟨fun _ => ?_, fun h _ => ?_, fun h => ?_⟩
            · omega
            · omega
            · omega
          · rw [if_neg hcut]
            apply minLoop_fits opponent D recA recP V B alpha beta0 hopp hgA hgP hV hB hfit hB0
              hW rest game (min m r) (min m' v) (min b r) a' (min b' v) hnf
            · omega
            · omega
            · omega
            · intro hle
              have hvb : b ≤ v := by omega
              have := f3 hvb
              have := h3 (by omega)
              omega
            · intro hlt
              by_cases hvb : b ≤ v
              · have := f3 hvb
                by_cases hm0 : m' < beta0
                · have := h4 hm0
                  omega
                · have := h3 (by omega)
                  omega
              · have hva : alpha < v := by
                  by_contra hge
                  have := f1 (by omega)
                  omega
                have := f2 hva (by omega)
                by_cases hm0 : m' < beta0
                · have := h4 hm0
                  omega
                · have := h3 (by omega)
                  omega
            · omega

/-! ## Pruning keeps the value: `minimax` -/

theorem validMove_has_row (game : Game) (c : Fin 7) (hc : c ∈ GetValidMoves game.Board) :
    getLowestRow game c ≠ none := by
  intro h
  exact (lowestEmptyRow_eq_none game.Board c).1 h 0 ((mem_GetValidMoves game.Board c).1 hc)

theorem validMoves_have_row (game : Game) (h : ¬(GetValidMoves game.Board).length = 0) :
    ∃ c ∈ GetValidMoves game.Board, getLowestRow game c ≠ none := by
  cases hl : GetValidMoves game.Board with
  | nil => rw [hl] at h; exact absurd rfl h
  | cons c rest =>
    have hc : c ∈ GetValidMoves game.Board := by rw [hl]; exact List.mem_cons_self _ _
    exact ⟨c, List.mem_cons_self _ _, validMove_has_row game c hc⟩

/-- The value of plain minimax at depth `d` lies within `9995 + d` on both
sides, and the result of `minimax` in a window fits that value. -/
theorem minimax_fits (bot : Bot) (opponent : Int)
    (hbot : bot.PlayerNum = Player1 ∨ bot.PlayerNum = Player2)
    (hopp : opponent = Player1 ∨ opponent = Player2) :
    ∀ (d : Nat) (game : Game) (isMax : Bool) (a b : Int), NoFour game.Board →
      MinInt32 ≤ a → a < b → b ≤ MaxInt32 →
      (-(9995 + (d : Int)) ≤ (minimaxNoCut bot opponent d game isMax MinInt32 MaxInt32).2 ∧
        (minimaxNoCut bot opponent d game isMax MinInt32 MaxInt32).2 ≤ 9995 + (d : Int)) ∧
      WindowFits a b (minimaxNoCut bot opponent d game isMax MinInt32 MaxInt32).2
        (minimax bot opponent d game isMax a b).2
  | 0, game, isMax, a, b, hnf, _, _, _ => by
    have h := evaluateBoard_bounds bot game.Board hbot hnf
    unfold minimax minimaxNoCut
    dsimp only
    exact ⟨⟨by omega, by omega⟩, fun h => h, fun _ _ => rfl, fun h => h⟩
  | d + 1, game, isMax, a, b, hnf, ha, hab, hb => by
    have hmin : MinInt32 = -2147483648 := rfl
    have hmax : MaxInt32 = 2147483647 := rfl
    have ih := minimax_fits bot opponent hbot hopp d
    unfold minimax minimaxNoCut
    by_cases hfull : IsBoardFull game.Board = true
    · rw [if_pos hfull, if_pos hfull]
      dsimp only
      exact ⟨⟨by omega, by omega⟩, fun h => h, fun _ _ => rfl, fun h => h⟩
    rw [if_neg hfull, if_neg hfull]
    dsimp only
    by_cases hlen : (GetValidMoves game.Board).length = 0
    · rw [if_pos hlen, if_pos hlen]
      dsimp only
      exact ⟨⟨by omega, by omega⟩, fun h => h, fun _ _ => rfl, fun h => h⟩
    rw [if_neg hlen, if_neg hlen]
    have hrow := validMoves_have_row game hlen
    cases isMax with
    | true =>
      simp only [if_true]
      have hV : ∀ g a' b', (minimaxNoCut bot opponent d g false a' b').2 =
          (minimaxNoCut bot opponent d g false MinInt32 MaxInt32).2 := by
        intro g a' b'
        rw [minimaxNoCut_window bot opponent d g false a' b' MinInt32 MaxInt32]
      have hB : ∀ g : Game, NoFour g.Board →
          -(9995 + (d : Int)) ≤ (minimaxNoCut bot opponent d g false MinInt32 MaxInt32).2 ∧
          (minimaxNoCut bot opponent d g false MinInt32 MaxInt32).2 ≤ 9995 + (d : Int) :=
        fun g hg => (ih g false MinInt32 MaxInt32 hg (le_refl _) (by omega) (le_refl _)).1
      have hbounds := maxLoopNoCut_bounds bot (d + 1)
        (fun g a b => minimaxNoCut bot opponent d g false a b)
        (fun g => (minimaxNoCut bot opponent d g false MinInt32 MaxInt32).2) (9995 + (d : Int))
        hbot (fun g a b => minimaxNoCut_game bot opponent d g false a b) hV hB (by omega)
        (by push_cast; omega) (GetValidMoves game.Board) game MinInt32 MinInt32 MaxInt32 hnf
        (by push_cast; omega)
      have hfits := maxLoop_fits bot (d + 1)
        (fun g a b => minimax bot opponent d g false a b)
        (fun g a b => minimaxNoCut bot opponent d g false a b)
        (fun g => (minimaxNoCut bot opponent d g false MinInt32 MaxInt32).2) (9995 + (d : Int))
        a b hbot (fun g a b => minimax_game bot opponent d g false a b)
        (fun g a b => minimaxNoCut_game bot opponent d g false a b) hV hB
        (fun g hg a' ha' hb' => (ih g false a' b hg (by omega) hb' hb).2)
        (by omega) (by push_cast; omega) (GetValidMoves game.Board) game MinInt32 MinInt32 a
        MinInt32 MaxInt32 hnf (le_refl _) hab ha (fun _ => rfl) (fun h => by omega) (by omega)
      obtain ⟨_, h2, h3⟩ := hbounds
      have h4 := h3 hrow
      push_cast at h2 ⊢
      exact ⟨⟨by omega, by omega⟩, hfits⟩
    | false =>
      simp only [Bool.false_eq_true, if_false]
      have hV : ∀ g a' b', (minimaxNoCut bot opponent d g true a' b').2 =
          (minimaxNoCut bot opponent d g true MinInt32 MaxInt32).2 := by
        intro g a' b'
        rw [minimaxNoCut_window bot opponent d g true a' b' MinInt32 MaxInt32]
      have hB : ∀ g : Game, NoFour g.Board →
          -(9995 + (d : Int)) ≤ (minimaxNoCut bot opponent d g true MinInt32 MaxInt32).2 ∧
          (minimaxNoCut bot opponent d g true MinInt32 MaxInt32).2 ≤ 9995 + (d : Int) :=
        fun g hg => (ih g true MinInt32 MaxInt32 hg (le_refl _) (by omega) (le_refl _)).1
      have hbounds := minLoopNoCut_bounds opponent (d + 1)
        (fun g a b => minimaxNoCut bot opponent d g true a b)
        (fun g => (minimaxNoCut bot opponent d g true MinInt32 MaxInt32).2) (9995 + (d : Int))
        hopp (fun g a b => minimaxNoCut_game bot opponent d g true a b) hV hB (by omega)
        (by push_cast; omega) (GetValidMoves game.Board) game MaxInt32 MinInt32 MaxInt32 hnf
        (by push_cast; omega)
      have hfits := minLoop_fits opponent (d + 1)
        (fun g a b => minimax bot opponent d g true a b)
        (fun g a b => minimaxNoCut bot opponent d g true a b)
        (fun g => (minimaxNoCut bot opponent d g true MinInt32 MaxInt32).2) (9995 + (d : Int))
        a b hopp (fun g a b => minimax_game bot opponent d g true a b)
        (fun g a b => minimaxNoCut_game bot opponent d g true a b) hV hB
        (fun g hg b' ha' hb' => (ih g true a b' hg ha ha' (by omega)).2)
        (by omega) (by push_cast; omega) (GetValidMoves game.Board) game MaxInt32 MaxInt32 b
        MinInt32 MaxInt32 hnf hab (le_refl _) hb (fun _ => rfl) (fun h => by omega) (by omega)
      obtain ⟨_, h2, h3⟩ := hbounds
      have h4 := h3 hrow
      push_cast at h2 ⊢
      exact ⟨⟨by omega, by omega⟩, hfits⟩

/-- Claim C30. On a board without four in a row (with or without floating
pieces), for a bot and an opponent on the two seats, every depth up to 5 and
either side to move, `minimax` called with the full window returns what
`minimaxNoCut` returns: the same recursion with the two cutoff breaks removed.
The two calls also leave the same game behind. -/
theorem pruning_keeps_value (bot : Bot) (opponent : Int) (game : Game) (d : Nat)
    (isMax : Bool) (hbot : bot.PlayerNum = Player1 ∨ bot.PlayerNum = Player2)
    (hopp : opponent = Player1 ∨ opponent = Player2) (hnf : NoFour game.Board)
    (hd : d ≤ 5) :
    minimax bot opponent d game isMax MinInt32 MaxInt32 =
      minimaxNoCut bot opponent d game isMax MinInt32 MaxInt32 := by
  have hmin : MinInt32 = -2147483648 := rfl
  have hmax : MaxInt32 = 2147483647 := rfl
  obtain ⟨⟨h1, h2⟩, _, hfit, _⟩ := minimax_fits bot opponent hbot hopp d game isMax
    MinInt32 MaxInt32 hnf (le_refl _) (by omega) (le_refl _)
  apply Prod.ext
  · rw [minimax_game, minimaxNoCut_game]
  · exact hfit (by omega) (by omega)

set_option maxRecDepth 1000000 in
/-- Claim C30 on the board of `threatRows` for the bot on SeatB, at depth 2
with the opponent to move: both searches return 23. -/
theorem pruning_keeps_value_witness :
    NoFour (gameWithBoard threatRows).Board ∧
    minimax (NewBot Player2) Player1 2 (gameWithBoard threatRows) false MinInt32 MaxInt32 =
      minimaxNoCut (NewBot Player2) Player1 2 (gameWithBoard threatRows) false MinInt32
        MaxInt32 ∧
    (minimax (NewBot Player2) Player1 2 (gameWithBoard threatRows) false MinInt32
      MaxInt32).2 = 23 :=
  ⟨by decide,
    pruning_keeps_value (NewBot Player2) Player1 (gameWithBoard threatRows) 2 false
      (Or.inr rfl) (Or.inl rfl) (by decide) (by decide),
    by decide!⟩

/-! ## The search tier of `GetBestMove` -/

theorem GetBestMove_search (bot : Bot) (game : Game)
    (hlen : ¬(GetValidMoves game.Board).length = 0)
    (h1 : (GetValidMoves game.Board).find? (simWins game bot.PlayerNum) = none)
    (h2 : (GetValidMoves game.Board).find?
      (simWins game (if bot.PlayerNum = Player1 then Player2 else Player1)) = none) :
    (GetBestMove bot game).2 =
      (((searchLoop bot (if bot.PlayerNum = Player1 then Player2 else Player1)
        (GetValidMoves game.Board) game MinInt32
        ((GetValidMoves game.Board).get ⟨(GetValidMoves game.Board).length / 2,
          Nat.div_lt_self (by omega) (by omega)⟩) MinInt32 MaxInt32).2 : Fin 7) : Int) := by
  unfold GetBestMove
  dsimp only
  rw [dif_neg hlen, firstWinning_eq, h1]
  dsimp only
  rw [firstWinning_eq, h2]

theorem not_simWins_checkWin (game : Game) (x : Int) (c : Fin 7) (row : Fin 6)
    (hx : x = Player1 ∨ x = Player2) (hrow : getLowestRow game c = some row)
    (hs : simWins game x c = false) :
    ¬CheckWin (game.setCell row c x).Board row c x = true := by
  intro hwin
  have hd : DropWins game.Board c x := by
    refine ⟨row, hrow, ?_⟩
    exact (CheckWin_iff_hasFour (cellAt_set_self game.Board row c x) hx).1 hwin
  rw [(simWins_iff game x c hx).2 hd] at hs
  exact absurd hs (by decide)

theorem searchScore_of_row (bot : Bot) (game : Game) (col : Fin 7) (row : Fin 6)
    (hrow : getLowestRow game col = some row) :
    searchScore bot game col =
      (minimaxNoCut bot (if bot.PlayerNum = Player1 then Player2 else Player1) 5
        (game.setCell row col bot.PlayerNum) false MinInt32 MaxInt32).2 := by
  unfold searchScore
  rw [hrow]

/-- The loop 3 of `GetBestMove`, started with `alpha = bestScore`: it keeps
`bestMove` when no column of the list scores above `bestScore`, and else
returns the first column of the list with the highest score. -/
theorem searchLoop_first_best (bot : Bot)
    (hbot : bot.PlayerNum = Player1 ∨ bot.PlayerNum = Player2) :
    ∀ (l : List (Fin 7)) (game : Game) (bs : Int) (bm : Fin 7), NoFour game.Board →
      (∀ c ∈ l, getLowestRow game c ≠ none ∧ simWins game bot.PlayerNum c = false) →
      MinInt32 ≤ bs → bs ≤ 10000 →
      ((searchLoop bot (if bot.PlayerNum = Player1 then Player2 else Player1) l game bs bm bs
          MaxInt32).2 = bm ∧ ∀ c ∈ l, searchScore bot game c ≤ bs) ∨
      ∃ (l1 : List (Fin 7)) (c : Fin 7) (l2 : List (Fin 7)), l = l1 ++ c :: l2 ∧
        (searchLoop bot (if bot.PlayerNum = Player1 then Player2 else Player1) l game bs bm bs
          MaxInt32).2 = c ∧ bs < searchScore bot game c ∧
        (∀ c' ∈ l1, searchScore bot game c' < searchScore bot game c) ∧
        (∀ c' ∈ l2, searchScore bot game c' ≤ searchScore bot game c)
  | [], game, bs, bm, _, _, _, _ => by
    left
    unfold searchLoop
    exact ⟨rfl, fun c hc => absurd hc (List.not_mem_nil c)⟩
  | col :: rest, game, bs, bm, hnf, hl, hbs, hbs' => by
    have hmin : MinInt32 = -2147483648 := rfl
    have hmax : MaxInt32 = 2147483647 := rfl
    have hopp : (if bot.PlayerNum = Player1 then Player2 else Player1) = Player1 ∨
        (if bot.PlayerNum = Player1 then Player2 else Player1) = Player2 := by
      rcases hbot with h | h <;> rw [h] <;> decide
    obtain ⟨hrow0, hsim⟩ := hl col (List.mem_cons_self _ _)
    have hrest : ∀ c ∈ rest, getLowestRow game c ≠ none ∧ simWins game bot.PlayerNum c = false :=
      fun c hc => hl c (List.mem_cons_of_mem _ hc)
    unfold searchLoop
    cases hrow : getLowestRow game col with
    | none => exact absurd hrow hrow0
    | some row =>
      dsimp only
      have hwin := not_simWins_checkWin game bot.PlayerNum col row hbot hrow hsim
      have hnf1 := NoFour_setCell game row col bot.PlayerNum hbot hnf hwin
      obtain ⟨⟨hv1, hv2⟩, f1, f2, _⟩ := minimax_fits bot _ hbot hopp 5
        (game.setCell row col bot.PlayerNum) false bs MaxInt32 hnf1 hbs (by omega) (le_refl _)
      rw [← searchScore_of_row bot game col row hrow] at hv1 hv2 f1 f2
      have hg := minimax_game bot (if bot.PlayerNum = Player1 then Player2 else Player1) 5
        (game.setCell row col bot.PlayerNum) false bs MaxInt32
      cases hres : minimax bot (if bot.PlayerNum = Player1 then Player2 else Player1) 5
          (game.setCell row col bot.PlayerNum) false bs MaxInt32 with
      | mk g' r =>
        rw [hres] at hg f1 f2
        dsimp only at hg f1 f2
        subst hg
        dsimp only
        rw [setCell_restore game row col bot.PlayerNum hrow]
        by_cases hgt : r > bs
        · rw [if_pos hgt]
          dsimp only
          have hv : bs < searchScore bot game col := by
            by_contra hle
            have := f1 (by omega)
            omega
          have hr : r = searchScore bot game col := f2 hv (by push_cast at hv2; omega)
          have hmx : max bs r = r := by
            rcases max_cases bs r with ⟨_, e⟩ | ⟨_, e⟩
            · omega
            · exact e
          rw [hmx, hr]
          right
          rcases searchLoop_first_best bot hbot rest game (searchScore bot game col) col hnf
            hrest (by omega) (by push_cast at hv2; omega) with ⟨e, hall⟩ |
            ⟨l1, c, l2, hl12, e, hlt, ha, hb⟩
          · exact ⟨[], col, rest, rfl, e, hv, fun c' hc' => absurd hc' (List.not_mem_nil c'),
              hall⟩
          · refine ⟨col :: l1, c, l2, by rw [hl12]; rfl, e, by omega, ?_, hb⟩
            intro c' hc'
            rcases List.mem_cons.1 hc' with rfl | hc''
            · exact hlt
            · exact ha c' hc''
        · rw [if_neg hgt]
          dsimp only
          have hv : searchScore bot game col ≤ bs := by
            by_contra hlt
            have := f2 (by omega) (by push_cast at hv2; omega)
            omega
          have hmx : max bs bs = bs := by
            rcases max_cases bs bs with ⟨_, e⟩ | ⟨_, e⟩ <;> exact e
          rw [hmx]
          rcases searchLoop_first_best bot hbot rest game bs bm hnf hrest hbs hbs' with
            ⟨e, hall⟩ | ⟨l1, c, l2, hl12, e, hlt, ha, hb⟩
          · left
            refine ⟨e, ?_⟩
            intro c' hc'
            rcases List.mem_cons.1 hc' with rfl | hc''
            · exact hv
            · exact hall c' hc''
          · right
            refine ⟨col :: l1, c, l2, by rw [hl12]; rfl, e, hlt, ?_, hb⟩
            intro c' hc'
            rcases List.mem_cons.1 hc' with rfl | hc''
            · omega
            · exact ha c' hc''

theorem searchScore_facts (bot : Bot) (game : Game) (c : Fin 7)
    (hbot : bot.PlayerNum = Player1 ∨ bot.PlayerNum = Player2) (hnf : NoFour game.Board)
    (hc : c ∈ GetValidMoves game.Board) (hsim : simWins game bot.PlayerNum c = false) :
    MinInt32 < searchScore bot game c ∧ searchScore bot game c ≤ 10000 ∧
    ∃ row, getLowestRow game c = some row ∧
      (minimax bot (if bot.PlayerNum = Player1 then Player2 else Player1) 5
        (game.setCell row c bot.PlayerNum) false MinInt32 MaxInt32).2 =
        searchScore bot game c := by
  have hmin : MinInt32 = -2147483648 := rfl
  have hmax : MaxInt32 = 2147483647 := rfl
  have hopp : (if bot.PlayerNum = Player1 then Player2 else Player1) = Player1 ∨
      (if bot.PlayerNum = Player1 then Player2 else Player1) = Player2 := by
    rcases hbot with h | h <;> rw [h] <;> decide
  cases hrow : getLowestRow game c with
  | none => exact absurd hrow (validMove_has_row game c hc)
  | some row =>
    have hwin := not_simWins_checkWin game bot.PlayerNum c row hbot hrow hsim
    have hnf1 := NoFour_setCell game row c bot.PlayerNum hbot hnf hwin
    obtain ⟨⟨hv1, hv2⟩, _, f2, _⟩ := minimax_fits bot _ hbot hopp 5
      (game.setCell row c bot.PlayerNum) false MinInt32 MaxInt32 hnf1 (le_refl _) (by omega)
      (le_refl _)
    rw [← searchScore_of_row bot game c row hrow] at hv1 hv2 f2
    push_cast at hv1 hv2
    exact ⟨by omega, by omega, row, rfl, f2 (by omega) (by omega)⟩

/-! ## No four in a row while the game is playing -/

theorem NoFour_empty : NoFour Board.empty := by
  intro r c h
  rw [Board.get_empty] at h
  rcases h with h | h <;> exact absurd h (by decide)

/-- On a board without four in a row, no run of at least four cells of a seat
passes through any cell. -/
theorem NoFour_no_run (b : Board) (hnf : NoFour b) (row col p : Int)
    (hp : p = Player1 ∨ p = Player2) : ¬HasFourThrough b row col p := by
  rintro ⟨d, hd, lo, hi, hlen, hrun⟩
  have h0 := hrun (-(lo : Int)) (le_refl _) (by omega)
  obtain ⟨i, j, hr, hc, hv⟩ := (cellAt_eq_some_iff b _ _ _).1 h0
  have hstep : ∀ k : Int, 1 ≤ k → k ≤ 3 →
      cellAt b ((i : Int) + k * d.1) ((j : Int) + k * d.2) = some (b.get i j) := by
    intro k hk1 hk3
    have h := hrun (-(lo : Int) + k) (by omega) (by omega)
    rw [hv, ← hr, ← hc, ← h]
    congr 1 <;> ring
  apply hnf i j (by rw [hv]; exact hp) d hd
  refine ⟨?_, ?_, ?_⟩
  · simpa using hstep 1 (by omega) (by omega)
  · exact hstep 2 (by omega) (by omega)
  · exact hstep 3 (by omega) (by omega)

/-- A game object as `createGame` has just allocated it is playing, on the
empty board, SeatA to move, with the move counter at 0. -/
theorem newlyStarted_board (g : Game) (h : NewlyStarted g) :
    g.Status = "playing" ∧ g.Board = Board.empty ∧ g.CurrentTurn = Player1 ∧
    g.MoveCount = 0 := by
  obtain ⟨gs, p1, p2, withBot, env, hg⟩ := h
  obtain ⟨game, _, hget, _, _, _, _, _, _, _, _, _, hst, ht, hb, _, hm, _⟩ :=
    createGame_registers gs p1 p2 withBot env
  rw [hget] at hg
  cases hg
  exact ⟨hst, hb, ht, hm⟩

/-- What an accepted move leaves behind: the piece on the lowest empty cell
of the column, the status by the two tests, the turn and the counter. -/
theorem MakeMove_accepted_board (g : Game) (col p : Int) (tActivity tEnd : Time)
    (hacc : (MakeMove g col p tActivity tEnd).2 = none) :
    ∃ (r : Fin 6) (c : Fin 7), (c : Int) = col ∧ lowestEmptyRow g.Board c = some r ∧
      g.Status = "playing" ∧ g.CurrentTurn = p ∧ (p = Player1 ∨ p = Player2) ∧
      (MakeMove g col p tActivity tEnd).1.Board = g.Board.set r c p ∧
      (MakeMove g col p tActivity tEnd).1.Status =
        (if CheckWin (g.Board.set r c p) r c p || IsBoardFull (g.Board.set r c p)
          then "finished" else "playing") ∧
      (MakeMove g col p tActivity tEnd).1.CurrentTurn =
        (if CheckWin (g.Board.set r c p) r c p || IsBoardFull (g.Board.set r c p) then p
          else if p = Player1 then Player2 else Player1) ∧
      (MakeMove g col p tActivity tEnd).1.MoveCount = wrapInt64 (g.MoveCount + 1) := by
  obtain ⟨hcol, row, hst, hturn, hp, hrow⟩ := MakeMove_accepted g col p tActivity tEnd hacc
  obtain ⟨_, hb, hstatus, _, hcur, _, hmc, _⟩ :=
    MakeMove_fields g col p tActivity tEnd hst hturn hcol hp row hrow _ _ rfl rfl
  refine ⟨row, toCol col hcol, toCol_cast col hcol, hrow, hst, hturn, hp, hb, ?_, ?_, hmc⟩
  · rw [hstatus, toCol_cast col hcol]
  · rw [hcur, toCol_cast col hcol]

/-- While a reachable game is playing, its board has no four in a row. -/
theorem reachable_noFour (g : Game) (ended : Option Time) (h : GameReachable g ended) :
    g.Status = "playing" → NoFour g.Board := by
  induction h with
  | start g hs =>
    intro _
    rw [(newlyStarted_board g hs).2.1]
    exact NoFour_empty
  | move g ended col p tA tE _ hacc ih =>
    intro hplay
    obtain ⟨r, c, _, _, hst, _, hp, hb, hstatus, _⟩ :=
      MakeMove_accepted_board g col p tA tE hacc
    rw [hb]
    rw [hstatus] at hplay
    cases hwin : CheckWin (g.Board.set r c p) r c p with
    | true =>
      rw [hwin, Bool.true_or, if_pos rfl] at hplay
      exact absurd hplay (by decide)
    | false => exact NoFour_set g.Board r c p hp (ih hst) hwin
  | forfeit g ended p1 p2 now w _ _ _ _ _ =>
    intro hplay
    have hfin : (forfeitedGame g w now).Status = "finished" := rfl
    rw [hfin] at hplay
    exact absurd hplay (by decide)
  | seats g ended p1 p2 _ ih => exact ih

/-- Every sequence of `MakeMove` calls, accepted or rejected, leads from a
reachable game to a reachable game. -/
theorem reachable_runMoves_any :
    ∀ (calls : List MoveCall) (g : Game) (ended : Option Time), GameReachable g ended →
      ∃ ended', GameReachable (runMoves g calls) ended'
  | [], g, ended, h => ⟨ended, h⟩
  | m :: rest, g, ended, h => by
    unfold runMoves
    cases hres : (MakeMove g m.col m.playerNum m.tActivity m.tEnd).2 with
    | none =>
      exact reachable_runMoves_any rest _ _
        (GameReachable.move g ended m.col m.playerNum m.tActivity m.tEnd h hres)
    | some e =>
      rw [MakeMove_error_game g m.col m.playerNum m.tActivity m.tEnd (by rw [hres]; simp)]
      exact reachable_runMoves_any rest g ended h

/-- Claim C31. In every game state reached from a newly started game by
`MakeMove` calls (accepted, or rejected and then without effect), while the
status is playing the board has no four in a row: no run of at least four
cells of a seat passes through any cell, along a row, a column or a diagonal.
The test at the piece just placed is enough: after an accepted move from such
a state, `CheckWin` at the cell of the new piece is true exactly when the
board holds a run of at least four cells of some seat anywhere. -/
theorem no_undetected_win (g0 : Game) (calls : List MoveCall) (h0 : NewlyStarted g0)
    (hplay : (runMoves g0 calls).Status = "playing") :
    NoFour (runMoves g0 calls).Board ∧
    (∀ row col p : Int, p = Player1 ∨ p = Player2 →
      ¬HasFourThrough (runMoves g0 calls).Board row col p) ∧
    ∀ (col p : Int) (tActivity tEnd : Time),
      (MakeMove (runMoves g0 calls) col p tActivity tEnd).2 = none →
      ∃ (r : Fin 6) (c : Fin 7), (c : Int) = col ∧
        lowestEmptyRow (runMoves g0 calls).Board c = some r ∧
        (MakeMove (runMoves g0 calls) col p tActivity tEnd).1.Board =
          (runMoves g0 calls).Board.set r c p ∧
        (CheckWin (MakeMove (runMoves g0 calls) col p tActivity tEnd).1.Board r c p = true ↔
          ∃ row' col' q : Int, (q = Player1 ∨ q = Player2) ∧
            HasFourThrough (MakeMove (runMoves g0 calls) col p tActivity tEnd).1.Board
              row' col' q) := by
  obtain ⟨ended, hreach⟩ := reachable_runMoves_any calls g0 none (GameReachable.start g0 h0)
  have hnf := reachable_noFour _ ended hreach hplay
  refine ⟨hnf, fun row col p hp => NoFour_no_run _ hnf row col p hp, ?_⟩
  intro col p tA tE hacc
  obtain ⟨r, c, hc, hrow, _, _, hp, hb, _⟩ :=
    MakeMove_accepted_board (runMoves g0 calls) col p tA tE hacc
  refine ⟨r, c, hc, hrow, hb, ?_⟩
  rw [hb]
  constructor
  · intro hwin
    exact ⟨r, c, p, hp, (CheckWin_iff_hasFour (cellAt_set_self _ r c p) hp).1 hwin⟩
  · rintro ⟨row', col', q, hq, hfour⟩
    cases hwin : CheckWin ((runMoves g0 calls).Board.set r c p) r c p with
    | true => rfl
    | false =>
      exact absurd hfour
        (NoFour_no_run _ (NoFour_set _ r c p hp hnf hwin) row' col' q hq)

set_option maxRecDepth 100000 in
/-- Claim C31 on the started game after the first 41 calls of `drawMoves`: all
are accepted, the game is still playing with one empty cell, and its board
has no four in a row. -/
theorem no_undetected_win_witness :
    NewlyStarted startedGame ∧
    allAccepted startedGame (drawMoves.take 41) = true ∧
    (runMoves startedGame (drawMoves.take 41)).Status = "playing" ∧
    (runMoves startedGame (drawMoves.take 41)).MoveCount = 41 ∧
    NoFour (runMoves startedGame (drawMoves.take 41)).Board ∧
    (∀ row col p : Int, p = Player1 ∨ p = Player2 →
      ¬HasFourThrough (runMoves startedGame (drawMoves.take 41)).Board row col p) :=
  ⟨startedGame_newlyStarted, by decide, by decide, by decide,
    (no_undetected_win startedGame (drawMoves.take 41) startedGame_newlyStarted
      (by decide)).1,
    (no_undetected_win startedGame (drawMoves.take 41) startedGame_newlyStarted
      (by decide)).2.1⟩

/-! ## The move counter and the pieces on the board -/

theorem allCells_nodup : allCells.Nodup := by decide

theorem mem_allCells (r : Fin 6) (c : Fin 7) : (r, c) ∈ allCells := by
  revert r c
  decide

theorem countP_set_not_mem (q : Int → Bool) (b : Board) (r : Fin 6) (c : Fin 7) (x : Int) :
    ∀ l : List (Fin 6 × Fin 7), (r, c) ∉ l →
      l.countP (fun rc => q ((b.set r c x).get rc.1 rc.2)) =
        l.countP (fun rc => q (b.get rc.1 rc.2))
  | [], _ => rfl
  | a :: t, h => by
    rw [List.mem_cons, not_or] at h
    have ha : ¬(a.1 = r ∧ a.2 = c) := fun e => h.1 (Prod.ext e.1.symm e.2.symm)
    rw [List.countP_cons, List.countP_cons, countP_set_not_mem q b r c x t h.2,
      Board.get_set, if_neg ha]

/-- Writing `x` to the cell `(r, c)` changes the number of cells whose value
passes the test `q` by the cell written alone. -/
theorem countP_set_mem (q : Int → Bool) (b : Board) (r : Fin 6) (c : Fin 7) (x : Int) :
    ∀ l : List (Fin 6 × Fin 7), l.Nodup → (r, c) ∈ l →
      l.countP (fun rc => q ((b.set r c x).get rc.1 rc.2)) +
          (if q (b.get r c) = true then 1 else 0) =
        l.countP (fun rc => q (b.get rc.1 rc.2)) + (if q x = true then 1 else 0)
  | [], _, h => absurd h (List.not_mem_nil _)
  | a :: t, hnd, h => by
    rw [List.nodup_cons] at hnd
    rw [List.countP_cons, List.countP_cons]
    by_cases ha : a = (r, c)
    · subst ha
      have hself : (b.set r c x).get r c = x := by
        rw [Board.get_set, if_pos (And.intro rfl rfl)]
      dsimp only
      rw [countP_set_not_mem q b _ _ x t hnd.1, hself]
      omega
    · have hmem : (r, c) ∈ t := by
        rcases List.mem_cons.1 h with e | e
        · exact absurd e.symm ha
        · exact e
      have ha' : ¬(a.1 = r ∧ a.2 = c) := fun e => ha (Prod.ext e.1 e.2)
      have ih := countP_set_mem q b r c x t hnd.2 hmem
      rw [Board.get_set, if_neg ha']
      omega

/-- A piece placed on an empty cell adds one to the count of its value and
leaves the count of every other non-empty value as it was. -/
theorem pieceCount_set (b : Board) (r : Fin 6) (c : Fin 7) (x v : Int)
    (hempty : b.get r c = Empty) (hv : v ≠ Empty) :
    pieceCount (b.set r c x) v = pieceCount b v + (if x = v then 1 else 0) := by
  have h := countP_set_mem (fun y => decide (y = v)) b r c x allCells allCells_nodup
    (mem_allCells r c)
  simp only [decide_eq_true_eq] at h
  rw [hempty, if_neg (fun e => hv e.symm)] at h
  unfold pieceCount
  omega

theorem nonEmptyCount_set (b : Board) (r : Fin 6) (c : Fin 7) (x : Int)
    (hempty : b.get r c = Empty) (hx : x ≠ Empty) :
    nonEmptyCount (b.set r c x) = nonEmptyCount b + 1 := by
  have h := countP_set_mem (fun y => decide (y ≠ Empty)) b r c x allCells allCells_nodup
    (mem_allCells r c)
  simp only [decide_eq_true_eq] at h
  rw [hempty, if_neg (fun e => e rfl), if_pos hx] at h
  unfold nonEmptyCount
  omega

theorem nonEmptyCount_le (b : Board) : nonEmptyCount b ≤ 42 :=
  List.countP_le_length _

theorem wrapInt64_small (x : Int) (h0 : 0 ≤ x) (h1 : x ≤ 43) : wrapInt64 x = x := by
  unfold wrapInt64
  norm_num
  omega

/-- The invariant of `GameReachable` that ties the move counter, the pieces of
the two seats and the turn. -/
theorem reachable_counts (g : Game) (ended : Option Time) (h : GameReachable g ended) :
    g.MoveCount = (nonEmptyCount g.Board : Int) ∧
    nonEmptyCount g.Board = pieceCount g.Board Player1 + pieceCount g.Board Player2 ∧
    ((g.Status = "playing" ∧
        ((g.CurrentTurn = Player1 ∧
            pieceCount g.Board Player1 = pieceCount g.Board Player2) ∨
          (g.CurrentTurn = Player2 ∧
            pieceCount g.Board Player1 = pieceCount g.Board Player2 + 1))) ∨
      (g.Status = "finished" ∧
        (pieceCount g.Board Player1 = pieceCount g.Board Player2 ∨
          pieceCount g.Board Player1 = pieceCount g.Board Player2 + 1))) := by
  induction h with
  | start g hs =>
    obtain ⟨hst, hb, ht, hm⟩ := newlyStarted_board g hs
    rw [hb, hm]
    exact ⟨by decide, by decide, Or.inl ⟨hst, Or.inl ⟨ht, by decide⟩⟩⟩
  | move g ended col p tA tE _ hacc ih =>
    obtain ⟨r, c, _, hrow, hst, hturn, hp, hb, hstatus, hcur, hmc⟩ :=
      MakeMove_accepted_board g col p tA tE hacc
    obtain ⟨hm, hsum, hcases⟩ := ih
    have hempty := (lowestEmptyRow_some_spec hrow).1
    have hle := nonEmptyCount_le g.Board
    have hpe : p ≠ Empty := by rcases hp with e | e <;> rw [e] <;> decide
    have hn := nonEmptyCount_set g.Board r c p hempty hpe
    have h1 := pieceCount_set g.Board r c p Player1 hempty (by decide)
    have h2 := pieceCount_set g.Board r c p Player2 hempty (by decide)
    have hplaying : (g.CurrentTurn = Player1 ∧
          pieceCount g.Board Player1 = pieceCount g.Board Player2) ∨
        (g.CurrentTurn = Player2 ∧
          pieceCount g.Board Player1 = pieceCount g.Board Player2 + 1) := by
      rcases hcases with ⟨_, hc⟩ | ⟨hfin, _⟩
      · exact hc
      · rw [hst] at hfin
        exact absurd hfin (by decide)
    have h12 : Player1 ≠ Player2 := by decide
    have h21 : Player2 ≠ Player1 := by decide
    have hfin : ((MakeMove g col p tA tE).1.Status = "finished" ∧
          (MakeMove g col p tA tE).1.CurrentTurn = p) ∨
        ((MakeMove g col p tA tE).1.Status = "playing" ∧
          (MakeMove g col p tA tE).1.CurrentTurn =
            (if p = Player1 then Player2 else Player1)) := by
      rw [hstatus, hcur]
      cases CheckWin (g.Board.set r c p) r c p || IsBoardFull (g.Board.set r c p) with
      | true => exact Or.inl ⟨rfl, rfl⟩
      | false => exact Or.inr ⟨rfl, rfl⟩
    rw [hb, hmc, hm, wrapInt64_small _ (by omega) (by omega), hn]
    refine ⟨by push_cast; rfl, ?_, ?_⟩
    · rcases hp with e | e <;> subst e
      · rw [if_pos rfl] at h1
        rw [if_neg h12] at h2
        omega
      · rw [if_neg h21] at h1
        rw [if_pos rfl] at h2
        omega
    · rcases hplaying with ⟨ht, hc⟩ | ⟨ht, hc⟩
      · have hp1 : p = Player1 := by rw [← hturn, ht]
        subst hp1
        rw [if_pos rfl] at h1 hfin
        rw [if_neg h12] at h2
        rcases hfin with ⟨hs, _⟩ | ⟨hs, hc'⟩
        · exact Or.inr ⟨hs, Or.inr (by omega)⟩
        · exact Or.inl ⟨hs, Or.inr ⟨hc', by omega⟩⟩
      · have hp2 : p = Player2 := by rw [← hturn, ht]
        subst hp2
        rw [if_neg h21] at h1 hfin
        rw [if_pos rfl] at h2
        rcases hfin with ⟨hs, _⟩ | ⟨hs, hc'⟩
        · exact Or.inr ⟨hs, Or.inl (by omega)⟩
        · exact Or.inl ⟨hs, Or.inl ⟨hc', by omega⟩⟩
  | forfeit g ended p1 p2 now w _ _ _ hf ih =>
    obtain ⟨hm, hsum, hcases⟩ := ih
    refine ⟨hm, hsum, Or.inr ⟨rfl, ?_⟩⟩
    rcases hcases with ⟨_, ⟨_, hc⟩ | ⟨_, hc⟩⟩ | ⟨_, hc⟩
    · exact Or.inl hc
    · exact Or.inr hc
    · exact hc
  | seats g ended p1 p2 _ ih => exact ih

/-- Claim C32. In every game state reached from a newly started game by
`MakeMove` calls (accepted, or rejected and then without effect), the move
counter is the number of non-empty cells, which is at most 42 and is the
number of pieces of SeatA plus the number of pieces of SeatB; SeatA has as
many pieces as SeatB or exactly one more; while the status is playing, the
current turn is SeatA exactly when the two numbers are equal; and an accepted
`MakeMove` from that state increases the move counter by exactly 1. -/
theorem move_count_invariant (g0 : Game) (calls : List MoveCall) (h0 : NewlyStarted g0) :
    (runMoves g0 calls).MoveCount = (nonEmptyCount (runMoves g0 calls).Board : Int) ∧
    nonEmptyCount (runMoves g0 calls).Board ≤ 42 ∧
    nonEmptyCount (runMoves g0 calls).Board =
      pieceCount (runMoves g0 calls).Board Player1 +
        pieceCount (runMoves g0 calls).Board Player2 ∧
    (pieceCount (runMoves g0 calls).Board Player1 =
        pieceCount (runMoves g0 calls).Board Player2 ∨
      pieceCount (runMoves g0 calls).Board Player1 =
        pieceCount (runMoves g0 calls).Board Player2 + 1) ∧
    ((runMoves g0 calls).Status = "playing" →
      ((runMoves g0 calls).CurrentTurn = Player1 ↔
        pieceCount (runMoves g0 calls).Board Player1 =
          pieceCount (runMoves g0 calls).Board Player2)) ∧
    ∀ (col p : Int) (tActivity tEnd : Time),
      (MakeMove (runMoves g0 calls) col p tActivity tEnd).2 = none →
      (MakeMove (runMoves g0 calls) col p tActivity tEnd).1.MoveCount =
        (runMoves g0 calls).MoveCount + 1 := by
  obtain ⟨ended, hreach⟩ := reachable_runMoves_any calls g0 none (GameReachable.start g0 h0)
  obtain ⟨hm, hsum, hcases⟩ := reachable_counts _ ended hreach
  have hle := nonEmptyCount_le (runMoves g0 calls).Board
  refine ⟨hm, hle, hsum, ?_, ?_, ?_⟩
  · rcases hcases with ⟨_, ⟨_, hc⟩ | ⟨_, hc⟩⟩ | ⟨_, hc⟩
    · exact Or.inl hc
    · exact Or.inr hc
    · exact hc
  · intro hplay
    rcases hcases with ⟨_, ⟨ht, hc⟩ | ⟨ht, hc⟩⟩ | ⟨hfin, _⟩
    · exact ⟨fun _ => hc, fun _ => ht⟩
    · refine ⟨fun e => ?_, fun e => ?_⟩
      · rw [ht] at e
        exact absurd e (by decide)
      · omega
    · rw [hplay] at hfin
      exact absurd hfin (by decide)
  · intro col p tA tE hacc
    obtain ⟨_, _, _, _, _, _, _, _, _, _, hmc⟩ :=
      MakeMove_accepted_board (runMoves g0 calls) col p tA tE hacc
    rw [hmc, hm, wrapInt64_small _ (by omega) (by omega)]

/-- Claim C32 on the started game after the three accepted calls of
`threeDrops` and a rejected call for column 7: the counter is 3, SeatA has two
pieces and SeatB one, and SeatB is to move. -/
theorem move_count_invariant_witness :
    NewlyStarted startedGame ∧
    (MakeMove (runMoves startedGame threeDrops) 7 Player2 40 41).2 =
      some MoveError.invalidColumn ∧
    (runMoves startedGame dropsThenInvalid).MoveCount = 3 ∧
    pieceCount (runMoves startedGame dropsThenInvalid).Board Player1 = 2 ∧
    pieceCount (runMoves startedGame dropsThenInvalid).Board Player2 = 1 ∧
    (runMoves startedGame dropsThenInvalid).CurrentTurn = Player2 ∧
    (runMoves startedGame dropsThenInvalid).MoveCount =
      (nonEmptyCount (runMoves startedGame dropsThenInvalid).Board : Int) ∧
    (pieceCount (runMoves startedGame dropsThenInvalid).Board Player1 =
        pieceCount (runMoves startedGame dropsThenInvalid).Board Player2 ∨
      pieceCount (runMoves startedGame dropsThenInvalid).Board Player1 =
        pieceCount (runMoves startedGame dropsThenInvalid).Board Player2 + 1) :=
  ⟨startedGame_newlyStarted, by decide, by decide, by decide, by decide, by decide,
    (move_count_invariant startedGame dropsThenInvalid startedGame_newlyStarted).1,
    (move_count_invariant startedGame dropsThenInvalid startedGame_newlyStarted).2.2.2.1⟩

/-! ## The errors of `MakeMove` by the order of its checks -/

/-- Claim C4 as stated fails where an earlier check fires first. After the six
accepted drops of `columnZeroDrops` the game is playing, SeatA is to move and
column 0 has no empty cell. A call by SeatB for column 0 is rejected as
not-your-turn, not as column-full, and a call by SeatB for column 7 is rejected
as not-your-turn, not as invalid-column. -/
theorem column_error_hidden_by_turn_check :
    NewlyStarted startedGame ∧
    allAccepted startedGame columnZeroDrops = true ∧
    (runMoves startedGame columnZeroDrops).Status = "playing" ∧
    (runMoves startedGame columnZeroDrops).CurrentTurn = Player1 ∧
    (∀ r : Fin 6, (runMoves startedGame columnZeroDrops).Board.get r 0 ≠ Empty) ∧
    (MakeMove (runMoves startedGame columnZeroDrops) 0 Player2 70 71).2 =
      some MoveError.notYourTurn ∧
    (MakeMove (runMoves startedGame columnZeroDrops) 0 Player2 70 71).2 ≠
      some MoveError.columnFull ∧
    (MakeMove (runMoves startedGame columnZeroDrops) 7 Player2 70 71).2 =
      some MoveError.notYourTurn ∧
    (MakeMove (runMoves startedGame columnZeroDrops) 7 Player2 70 71).2 ≠
      some MoveError.invalidColumn :=
  ⟨startedGame_newlyStarted, by decide, by decide, by decide, by decide, by decide, by decide,
    by decide, by decide⟩

/-! ## A vertical four from every newly started game -/

/-- What `MakeMove` returns and the position it leaves depend on the position
of the game, the column and the seat alone, not on the clock readings or the
other fields of the game. -/
theorem MakeMove_samePosition (g g' : Game) (col p : Int) (tA tE tA' tE' : Time)
    (h : SamePosition g g') :
    (MakeMove g col p tA tE).2 = (MakeMove g' col p tA' tE').2 ∧
    SamePosition (MakeMove g col p tA tE).1 (MakeMove g' col p tA' tE').1 := by
  obtain ⟨hb, hs, ht, hw⟩ := h
  rcases MakeMove_error_cases g col p tA tE with
    ⟨hst, e⟩ | ⟨hst, hturn, e⟩ | ⟨hst, hturn, hcol, e⟩ | ⟨hst, hturn, hcol, hp, e⟩ |
    ⟨hcol, hst, hturn, hp, hrow, e⟩ | ⟨hcol, row, hst, hturn, hp, hrow, _⟩
  · have hst' : g'.Status ≠ "playing" := by rw [← hs]; exact hst
    have e' : MakeMove g' col p tA' tE' = (g', some .notPlaying) := by
      unfold MakeMove
      rw [if_pos hst']
    rw [e, e']
    exact ⟨rfl, hb, hs, ht, hw⟩
  · have hst' : g'.Status = "playing" := by rw [← hs]; exact hst
    have hturn' : g'.CurrentTurn ≠ p := by rw [← ht]; exact hturn
    have e' : MakeMove g' col p tA' tE' = (g', some .notYourTurn) := by
      unfold MakeMove
      rw [if_neg (by simp [hst']), if_pos hturn']
    rw [e, e']
    exact ⟨rfl, hb, hs, ht, hw⟩
  · have hst' : g'.Status = "playing" := by rw [← hs]; exact hst
    have hturn' : g'.CurrentTurn = p := by rw [← ht]; exact hturn
    have e' : MakeMove g' col p tA' tE' = (g', some .invalidColumn) := by
      unfold MakeMove
      rw [if_neg (by simp [hst']), if_neg (by simp [hturn']), dif_pos hcol]
    rw [e, e']
    exact ⟨rfl, hb, hs, ht, hw⟩
  · have hst' : g'.Status = "playing" := by rw [← hs]; exact hst
    have hturn' : g'.CurrentTurn = p := by rw [← ht]; exact hturn
    have e' : MakeMove g' col p tA' tE' = (g', some .invalidPlayer) := by
      unfold MakeMove
      rw [if_neg (by simp [hst']), if_neg (by simp [hturn']), dif_neg hcol, if_pos hp]
    rw [e, e']
    exact ⟨rfl, hb, hs, ht, hw⟩
  · have hst' : g'.Status = "playing" := by rw [← hs]; exact hst
    have hturn' : g'.CurrentTurn = p := by rw [← ht]; exact hturn
    have hp' : ¬(p ≠ Player1 ∧ p ≠ Player2) := by
      rcases hp with h | h <;> simp [h]
    have hrow' : lowestEmptyRow g'.Board (toCol col hcol) = none := by rw [← hb]; exact hrow
    have e' : MakeMove g' col p tA' tE' = (g', some .columnFull) := by
      unfold MakeMove
      rw [if_neg (by simp [hst']), if_neg (by simp [hturn']), dif_neg hcol, if_neg hp']
      simp only [hrow']
    rw [e, e']
    exact ⟨rfl, hb, hs, ht, hw⟩
  · have hst' : g'.Status = "playing" := by rw [← hs]; exact hst
    have hturn' : g'.CurrentTurn = p := by rw [← ht]; exact hturn
    have hrow' : lowestEmptyRow g'.Board (toCol col hcol) = some row := by
      rw [← hb]; exact hrow
    obtain ⟨a1, a2, a3, a4, a5, _⟩ :=
      MakeMove_fields g col p tA tE hst hturn hcol hp row hrow _ _ rfl rfl
    obtain ⟨b1, b2, b3, b4, b5, _⟩ :=
      MakeMove_fields g' col p tA' tE' hst' hturn' hcol hp row hrow' _ _ rfl rfl
    refine ⟨by rw [a1, b1], ?_, ?_, ?_, ?_⟩
    · rw [a2, b2, hb]
    · rw [a3, b3, hb]
    · rw [a5, b5, hb]
    · rw [a4, b4, hb, hw]

/-- Two sequences of calls with the same columns and seats, made on games
that show the same position, are accepted alike and end in the same position. -/
theorem runMoves_samePosition :
    ∀ (calls calls' : List MoveCall) (g g' : Game),
      calls.map columnAndSeat = calls'.map columnAndSeat → SamePosition g g' →
      allAccepted g calls = allAccepted g' calls' ∧
        SamePosition (runMoves g calls) (runMoves g' calls')
  | [], [], _, _, _, h => ⟨rfl, h⟩
  | [], _ :: _, _, _, hk, _ => by simp at hk
  | _ :: _, [], _, _, hk, _ => by simp at hk
  | m :: rest, m' :: rest', g, g', hk, h => by
    simp only [List.map_cons, List.cons.injEq, columnAndSeat, Prod.mk.injEq] at hk
    obtain ⟨⟨hc, hp⟩, hrest⟩ := hk
    obtain ⟨e2, hpos⟩ := MakeMove_samePosition g g' m.col m.playerNum m.tActivity m.tEnd
      m'.tActivity m'.tEnd h
    rw [hc, hp] at e2 hpos
    obtain ⟨ih1, ih2⟩ := runMoves_samePosition rest rest' _ _ hrest hpos
    unfold allAccepted runMoves
    rw [hc, hp]
    refine ⟨?_, ih2⟩
    cases hres : MakeMove g m'.col m'.playerNum m.tActivity m.tEnd with
    | mk g1 e1 =>
      cases hres' : MakeMove g' m'.col m'.playerNum m'.tActivity m'.tEnd with
      | mk g1' e1' =>
        rw [hres, hres'] at e2 ih1
        simp only at e2 ih1
        subst e2
        cases e1 with
        | none => exact ih1
        | some _ => rfl

theorem getGameState_status (g : Game) : (getGameState g).status = g.Status := rfl

theorem getGameState_winner (g : Game) : (getGameState g).winner = g.Winner := rfl

theorem newlyStarted_samePosition (g0 : Game) (h0 : NewlyStarted g0) :
    SamePosition g0 startedGame := by
  obtain ⟨hst, hb, ht, _⟩ := newlyStarted_board g0 h0
  obtain ⟨_, hw⟩ := newlyStarted_fields g0 h0
  exact ⟨hb, hst, ht, hw⟩

/-- Claim C12. Vertical four end to end. From every newly started game (SeatA
to move), whatever the clock reads, in every sequence of seven calls of
`MakeMove` in which SeatA drops in column 0 on each of its turns and SeatB
answers in columns `b1`, `b2`, `b3` other than 0, all seven calls are accepted
and the game state after the 7th reports status finished and winner SeatA. In
general, whenever an accepted drop lands right above three consecutive cells of
the same seat in its column, the game is finished with that seat as winner. -/
theorem vertical_four_end_to_end :
    (∀ (g0 : Game) (b1 b2 b3 : Fin 7) (calls : List MoveCall), NewlyStarted g0 →
      b1 ≠ 0 → b2 ≠ 0 → b3 ≠ 0 →
      calls.map columnAndSeat =
        [(0, Player1), (((b1 : Nat) : Int), Player2), (0, Player1),
         (((b2 : Nat) : Int), Player2), (0, Player1), (((b3 : Nat) : Int), Player2),
         (0, Player1)] →
      allAccepted g0 calls = true ∧
      (getGameState (runMoves g0 calls)).status = "finished" ∧
      (getGameState (runMoves g0 calls)).winner = Player1) ∧
    (∀ (g : Game) (col p : Int) (tActivity tEnd : Time) (c : Fin 7) (r : Fin 6),
      (MakeMove g col p tActivity tEnd).2 = none → ((c : Nat) : Int) = col →
      lowestEmptyRow g.Board c = some r → r.val + 3 ≤ 5 →
      (∀ k : Fin 6, r < k → k.val ≤ r.val + 3 → g.Board.get k c = p) →
      (MakeMove g col p tActivity tEnd).1.Status = "finished" ∧
        (MakeMove g col p tActivity tEnd).1.Winner = p) := by
  refine ⟨?_, fun g col p tActivity tEnd c r hacc hc hr hroom hthree =>
    vertical_four_finishes g col p tActivity tEnd hacc c hc r hr hroom hthree⟩
  intro g0 b1 b2 b3 calls h0 h1 h2 h3 hcalls
  have hk : calls.map columnAndSeat = (verticalFour b1 b2 b3).map columnAndSeat := by
    rw [hcalls]
    rfl
  obtain ⟨hacc, hpos⟩ := runMoves_samePosition calls (verticalFour b1 b2 b3) g0 startedGame hk
    (newlyStarted_samePosition g0 h0)
  obtain ⟨p1, p2, p3⟩ := verticalFour_play b1 b2 b3 h1 h2 h3
  obtain ⟨_, hs, _, hw⟩ := hpos
  rw [getGameState_status] at p2 ⊢
  rw [getGameState_winner] at p3 ⊢
  rw [hs, hw]
  exact ⟨hacc.trans p1, p2, p3⟩

set_option maxRecDepth 100000 in
/-- Claim C12 on the started game with SeatB answering in columns 1, 2 and 1,
and the broadcast of `handleMove` for the 7th move. -/
theorem vertical_four_end_to_end_witness :
    (runMoves startedGame (verticalFour 1 2 1)).Board.get 2 0 = Player1 ∧
    (handleMove sixMovesServer (some 0) 0 Player1 seventhEnv).map (fun res => res.2) =
      some [Effect.sendEvent
          { EventType := "move", GameID := "g1", Timestamp := 12, Player1 := "alice",
            Player2 := "bob", Player2IsBot := false,
            Move := some { PlayerNum := Player1, Column := 0, MoveNum := 7 }, Result := none },
        Effect.write 1 (Message.gameUpdate
          (getGameState (runMoves startedGame (verticalFour 1 2 1))) (some "alice")),
        Effect.write 2 (Message.gameUpdate
          (getGameState (runMoves startedGame (verticalFour 1 2 1))) (some "alice")),
        Effect.saveGame (runMoves startedGame (verticalFour 1 2 1)),
        Effect.updatePlayerStats "alice" true false,
        Effect.updatePlayerStats "bob" false false,
        Effect.sendEvent
          { EventType := "game_end", GameID := "g1", Timestamp := 13, Player1 := "alice",
            Player2 := "bob", Player2IsBot := false, Move := none,
            Result := some { Winner := Player1, TotalMoves := 7, DurationSecs := 0 } }] ∧
    (allAccepted startedGame (verticalFour 1 2 1) = true ∧
      (getGameState (runMoves startedGame (verticalFour 1 2 1))).status = "finished" ∧
      (getGameState (runMoves startedGame (verticalFour 1 2 1))).winner = Player1) ∧
    (MakeMove (runMoves startedGame ((verticalFour 1 2 1).take 6)) 0 Player1 7 7).1.Status =
      "finished" ∧
    (MakeMove (runMoves startedGame ((verticalFour 1 2 1).take 6)) 0 Player1 7 7).1.Winner =
      Player1 :=
  ⟨by decide, by decide,
    vertical_four_end_to_end.1 startedGame 1 2 1 (verticalFour 1 2 1) startedGame_newlyStarted
      (by decide) (by decide) (by decide) rfl,
    vertical_four_end_to_end.2 (runMoves startedGame ((verticalFour 1 2 1).take 6)) 0 Player1 7 7
      0 2 (by decide) (by decide) (by decide) (by decide) (by decide)⟩

/-! ## The waiting queue and the username index in every reachable registry -/

/-- The part of the registry that the queue invariant reads, from `gs` to
`gs'`: the waiting queue is the same and the username index has gained no
entry. -/
theorem queueSound_of_frame (gs gs' : GameServer) (hq : QueueSound gs)
    (hw : gs'.waitingPlayers = gs.waitingPlayers)
    (hidx : ∀ k, mapGet gs.playerGames k = none → mapGet gs'.playerGames k = none) :
    QueueSound gs' := by
  refine ⟨by rw [hw]; exact hq.1, ?_⟩
  intro wp hwp
  rw [hw] at hwp
  exact hidx _ (hq.2 wp hwp)

theorem handleGameEnd_none (gs : GameServer) (g : Game) (t : Time)
    (h : g.Player1 = none ∨ g.Player2 = none) : handleGameEnd gs g t = none := by
  unfold handleGameEnd
  cases h1 : g.Player1 with
  | none => rfl
  | some p1 =>
    rcases h with h | h
    · rw [h1] at h
      exact Option.noConfusion h
    · rw [h]
      rfl

/-- A call of `handleMove` that returns leaves the waiting queue as it was and
adds no entry to the username index. -/
theorem handleMove_frame (gs gs' : GameServer) (game : Option GamePtr) (col p : Int)
    (env : MoveEnv) (eff : List Effect)
    (h : handleMove gs game col p env = some (gs', eff)) :
    gs'.waitingPlayers = gs.waitingPlayers ∧
    ∀ k, mapGet gs.playerGames k = none → mapGet gs'.playerGames k = none := by
  cases game with
  | none =>
    have e : handleMove gs none col p env = some (gs, []) := rfl
    rw [e] at h
    simp only [Option.some.injEq, Prod.mk.injEq] at h
    obtain ⟨rfl, _⟩ := h
    exact ⟨rfl, fun _ hk => hk⟩
  | some ptr =>
    cases hobj : gs.objects.get? ptr with
    | none =>
      unfold handleMove at h
      dsimp only at h
      rw [hobj] at h
      exact Option.noConfusion h
    | some g =>
      cases hacc : (MakeMove g col p env.tActivity env.tEnd).2 with
      | some e =>
        rw [handleMove_rejected gs ptr g col p env hobj (by rw [hacc]; simp)] at h
        simp only [Option.some.injEq, Prod.mk.injEq] at h
        obtain ⟨rfl, _⟩ := h
        exact ⟨rfl, fun _ hk => hk⟩
      | none =>
        cases h1 : g.Player1 with
        | none =>
          exfalso
          obtain ⟨hcol, row, hst, hturn, hp, hrow⟩ :=
            MakeMove_accepted g col p env.tActivity env.tEnd hacc
          obtain ⟨_, _, _, _, _, _, _, _, _, e1, _, _⟩ :=
            MakeMove_fields g col p env.tActivity env.tEnd hst hturn hcol hp row hrow _ _
              rfl rfl
          unfold handleMove at h
          dsimp only at h
          rw [hobj] at h
          dsimp only at h
          rw [if_neg (by simp [hst]), if_neg hcol] at h
          cases hres : MakeMove g col p env.tActivity env.tEnd with
          | mk g' e =>
            rw [hres] at hacc e1 h
            dsimp only at hacc e1 h
            subst hacc
            rw [h1] at e1
            dsimp only at h
            rw [e1] at h
            exact Option.noConfusion h
        | some p1 =>
          cases h2 : g.Player2 with
          | none =>
            exfalso
            obtain ⟨hcol, row, hst, hturn, hp, hrow⟩ :=
              MakeMove_accepted g col p env.tActivity env.tEnd hacc
            obtain ⟨_, _, _, _, _, _, _, _, _, e1, e2, _⟩ :=
              MakeMove_fields g col p env.tActivity env.tEnd hst hturn hcol hp row hrow _ _
                rfl rfl
            unfold handleMove at h
            dsimp only at h
            rw [hobj] at h
            dsimp only at h
            rw [if_neg (by simp [hst]), if_neg hcol] at h
            cases hres : MakeMove g col p env.tActivity env.tEnd with
            | mk g' e =>
              rw [hres] at hacc e1 e2 h
              dsimp only at hacc e1 e2 h
              subst hacc
              rw [h1] at e1
              rw [h2] at e2
              dsimp only at h
              rw [e1, e2] at h
              exact Option.noConfusion h
          | some p2 =>
            obtain ⟨eff', hres, _⟩ := handleMove_accepted gs ptr g col p env p1 p2 hobj hacc h1 h2
            rw [hres] at h
            simp only [Option.some.injEq, Prod.mk.injEq] at h
            obtain ⟨rfl, _⟩ := h
            refine ⟨rfl, ?_⟩
            intro k hk
            dsimp only
            split
            · exact (mapGet_withoutSeats gs.playerGames p1 p2).1 k hk
            · exact hk

/-- One entry of the cleanup sweep, when it returns, leaves the waiting queue
as it was and adds no entry to the username index. -/
theorem cleanupGame_frame (gs gs' : GameServer) (gameID : String) (ptr : GamePtr)
    (now t : Time) (eff : List Effect)
    (h : cleanupGame gs gameID ptr now t = some (gs', eff)) :
    gs'.waitingPlayers = gs.waitingPlayers ∧
    ∀ k, mapGet gs.playerGames k = none → mapGet gs'.playerGames k = none := by
  cases hobj : gs.objects.get? ptr with
  | none =>
    unfold cleanupGame at h
    rw [hobj] at h
    exact Option.noConfusion h
  | some g =>
    by_cases hst : g.Status ≠ "playing"
    · unfold cleanupGame at h
      rw [hobj] at h
      simp only [Option.bind_eq_bind, Option.some_bind, if_pos hst, Option.pure_def,
        Option.some.injEq, Prod.mk.injEq] at h
      obtain ⟨rfl, _⟩ := h
      exact ⟨rfl, fun _ hk => hk⟩
    · cases h1 : g.Player1 with
      | none =>
        unfold cleanupGame at h
        rw [hobj] at h
        simp only [Option.bind_eq_bind, Option.some_bind, if_neg hst, h1, Option.none_bind] at h
        exact Option.noConfusion h
      | some p1 =>
        cases h2 : g.Player2 with
        | none =>
          exfalso
          unfold cleanupGame at h
          rw [hobj] at h
          simp only [Option.bind_eq_bind, Option.some_bind, if_neg hst, h1, h2,
            Option.none_bind] at h
          split at h
          · rw [handleGameEnd_none _ _ _ (Or.inr rfl)] at h
            exact Option.noConfusion h
          · exact Option.noConfusion h
        | some p2 =>
          rcases cleanupGame_cases gs gameID ptr now t g p1 p2 hobj h1 h2 with
            ⟨_, e⟩ | ⟨w, eff', _, _, e⟩
          · rw [e] at h
            simp only [Option.some.injEq, Prod.mk.injEq] at h
            obtain ⟨rfl, _⟩ := h
            exact ⟨rfl, fun _ hk => hk⟩
          · rw [e] at h
            simp only [Option.some.injEq, Prod.mk.injEq] at h
            obtain ⟨rfl, _⟩ := h
            exact ⟨rfl, fun k hk => (mapGet_withoutSeats gs.playerGames p1 p2).1 k hk⟩

theorem cleanupEntries_frame (now t : String → Time) :
    ∀ (l : List (String × GamePtr)) (gs gs' : GameServer) (eff : List Effect),
      cleanupEntries now t l gs = some (gs', eff) →
      gs'.waitingPlayers = gs.waitingPlayers ∧
      ∀ k, mapGet gs.playerGames k = none → mapGet gs'.playerGames k = none
  | [], gs, gs', eff, h => by
    unfold cleanupEntries at h
    simp only [Option.some.injEq, Prod.mk.injEq] at h
    obtain ⟨rfl, _⟩ := h
    exact ⟨rfl, fun _ hk => hk⟩
  | (gameID, ptr) :: rest, gs, gs', eff, h => by
    unfold cleanupEntries at h
    cases h1 : cleanupGame gs gameID ptr (now gameID) (t gameID) with
    | none =>
      rw [h1] at h
      exact Option.noConfusion h
    | some r1 =>
      obtain ⟨gs1, e1⟩ := r1
      rw [h1] at h
      simp only [Option.bind_eq_bind, Option.some_bind] at h
      cases h2 : cleanupEntries now t rest gs1 with
      | none =>
        rw [h2] at h
        exact Option.noConfusion h
      | some r2 =>
        obtain ⟨gs2, e2⟩ := r2
        rw [h2] at h
        simp only [Option.some_bind, Option.pure_def, Option.some.injEq, Prod.mk.injEq] at h
        obtain ⟨rfl, _⟩ := h
        obtain ⟨a1, a2⟩ := cleanupGame_frame gs gs1 gameID ptr _ _ e1 h1
        obtain ⟨b1, b2⟩ := cleanupEntries_frame now t rest gs1 gs2 e2 h2
        exact ⟨b1.trans a1, fun k hk => b2 k (a2 k hk)⟩

/-- A call of `handleDisconnect` that returns changes neither the waiting
queue nor the username index. -/
theorem handleDisconnect_frame (gs gs' : GameServer) (u : String) (now : Time)
    (eff : List Effect) (h : handleDisconnect gs u now = some (gs', eff)) :
    gs'.waitingPlayers = gs.waitingPlayers ∧ gs'.playerGames = gs.playerGames := by
  unfold handleDisconnect at h
  cases hidx : mapGet gs.playerGames u with
  | none =>
    rw [hidx] at h
    simp only [Option.some.injEq, Prod.mk.injEq] at h
    obtain ⟨rfl, _⟩ := h
    exact ⟨rfl, rfl⟩
  | some gameID =>
    rw [hidx] at h
    dsimp only at h
    cases hgame : mapGet gs.games gameID with
    | none =>
      rw [hgame] at h
      simp only [Option.some.injEq, Prod.mk.injEq] at h
      obtain ⟨rfl, _⟩ := h
      exact ⟨rfl, rfl⟩
    | some ptr =>
      rw [hgame] at h
      dsimp only at h
      cases hobj : gs.objects.get? ptr with
      | none =>
        rw [hobj] at h
        exact Option.noConfusion h
      | some g =>
        rw [hobj] at h
        cases hp1 : g.Player1 with
        | none => simp [hp1] at h
        | some p1 =>
          by_cases h1 : p1.Username = u
          · simp only [hp1, h1, Option.bind_eq_bind, Option.some_bind, if_true,
              Option.pure_def, Option.some.injEq, Prod.mk.injEq] at h
            obtain ⟨rfl, _⟩ := h
            exact ⟨rfl, rfl⟩
          · cases hp2 : g.Player2 with
            | none => simp [hp1, hp2, h1] at h
            | some p2 =>
              by_cases h2 : p2.Username = u
              · simp only [hp1, hp2, h1, h2, Option.bind_eq_bind, Option.some_bind, if_true,
                  if_false, Option.pure_def, Option.some.injEq, Prod.mk.injEq] at h
                obtain ⟨rfl, _⟩ := h
                exact ⟨rfl, rfl⟩
              · simp only [hp1, hp2, h1, h2, Option.bind_eq_bind, Option.some_bind,
                  if_false, Option.pure_def, Option.some.injEq, Prod.mk.injEq] at h
                obtain ⟨rfl, _⟩ := h
                exact ⟨rfl, rfl⟩

/-- A call of `handleReconnect` that returns changes neither the waiting
queue nor the username index. -/
theorem handleReconnect_frame (gs gs' : GameServer) (conn : Nat) (u : String) (now : Time)
    (eff : List Effect) (h : handleReconnect gs conn u now = some (gs', eff)) :
    gs'.waitingPlayers = gs.waitingPlayers ∧ gs'.playerGames = gs.playerGames := by
  unfold handleReconnect at h
  cases hidx : mapGet gs.playerGames u with
  | none =>
    rw [hidx] at h
    simp only [Option.some.injEq, Prod.mk.injEq] at h
    obtain ⟨rfl, _⟩ := h
    exact ⟨rfl, rfl⟩
  | some gameID =>
    rw [hidx] at h
    dsimp only at h
    cases hgame : mapGet gs.games gameID with
    | none =>
      rw [hgame] at h
      simp only [Option.some.injEq, Prod.mk.injEq] at h
      obtain ⟨rfl, _⟩ := h
      exact ⟨rfl, rfl⟩
    | some ptr =>
      rw [hgame] at h
      dsimp only at h
      obtain ⟨hw, _, hpg, _⟩ := reconnectPlayer_frame gs gs' ptr u conn now eff h
      exact ⟨hw, hpg⟩

theorem handleJoinWaiting_queueSound (gs : GameServer) (conn : Nat) (u : String) (now : Time)
    (hq : QueueSound gs) (hnone : mapGet gs.playerGames u = none) :
    QueueSound (handleJoinWaiting gs conn u now).1 := by
  obtain ⟨_, hpg, _, hcases⟩ := handleJoinWaiting_frame gs conn u now
  rcases hcases with ⟨_, he⟩ | ⟨hno, player, hname, he⟩
  · rw [he]
    exact hq
  · refine ⟨?_, ?_⟩
    · rw [he, List.map_append, List.map_cons, List.map_nil, hname, List.nodup_append]
      refine ⟨hq.1, List.nodup_singleton _, ?_⟩
      intro a ha hb
      rw [List.mem_singleton] at hb
      subst hb
      obtain ⟨wp, hwp, he'⟩ := List.mem_map.1 ha
      exact hno wp hwp he'
    · intro wp hwp
      rw [hpg]
      rw [he, List.mem_append, List.mem_singleton] at hwp
      rcases hwp with hwp | rfl
      · exact hq.2 wp hwp
      · rw [hname]
        exact hnone

/-- A join keeps the queue invariant. -/
theorem handleJoin_queueSound (gs gs' : GameServer) (conn : Nat) (u : String) (now : Time)
    (eff : List Effect) (hq : QueueSound gs)
    (h : handleJoin gs conn u now = some (gs', eff)) : QueueSound gs' := by
  cases hv : isValidUsername u with
  | false =>
    obtain ⟨msg, e⟩ := handleJoin_of_invalid gs conn u now hv
    rw [e] at h
    simp only [Option.some.injEq, Prod.mk.injEq] at h
    obtain ⟨rfl, _⟩ := h
    exact hq
  | true =>
    rcases handleJoin_valid_cases gs conn u now hv with e | ⟨_, ptr, _, _, _, _, _, e⟩ |
      ⟨hnone, e⟩ | ⟨_, e⟩
    · rw [e] at h
      exact Option.noConfusion h
    · rw [e] at h
      obtain ⟨hw, _, hpg, _⟩ := reconnectPlayer_frame gs gs' ptr u conn now eff h
      exact queueSound_of_frame gs gs' hq hw (fun k hk => by rw [hpg]; exact hk)
    · rw [e] at h
      simp only [Option.some.injEq] at h
      have := handleJoinWaiting_queueSound gs conn u now hq hnone
      rw [h] at this
      exact this
    · rw [e] at h
      simp only [Option.some.injEq] at h
      have hq0 : QueueSound { gs with playerGames := mapDelete gs.playerGames u } := by
        refine ⟨hq.1, ?_⟩
        intro wp hwp
        show mapGet (mapDelete gs.playerGames u) wp.Username = none
        rw [mapGet_mapDelete]
        split
        · rfl
        · exact hq.2 wp hwp
      have hnone0 : mapGet ({ gs with playerGames := mapDelete gs.playerGames u } :
          GameServer).playerGames u = none := by
        show mapGet (mapDelete gs.playerGames u) u = none
        rw [mapGet_mapDelete, if_pos rfl]
      have := handleJoinWaiting_queueSound _ conn u now hq0 hnone0
      rw [h] at this
      exact this

theorem createGame_playerGames (gs : GameServer) (p1 p2 : Player) (withBot : Bool)
    (env : CreateEnv) :
    (createGame gs p1 p2 withBot env).1.playerGames =
      if !withBot then
        mapInsert (mapInsert gs.playerGames p1.Username env.gameID) p2.Username env.gameID
      else mapInsert gs.playerGames p1.Username env.gameID := rfl

/-- A matchmaking sweep keeps the queue invariant: the seats it indexes are
the ones it takes from the queue. -/
theorem matchmakingSweep_queueSound (gs : GameServer) (now : Time) (env : CreateEnv)
    (hq : QueueSound gs) : QueueSound (matchmakingSweep gs now env).1 := by
  cases hw : gs.waitingPlayers with
  | nil =>
    have e : matchmakingSweep gs now env = (gs, []) := by
      unfold matchmakingSweep
      rw [hw]
    rw [e]
    exact hq
  | cons w0 rest =>
    cases rest with
    | nil =>
      rw [matchmakingSweep_single gs now env w0 hw]
      split
      · refine ⟨?_, ?_⟩
        · rw [createGame_waiting]
          exact List.nodup_nil
        · intro wp hwp
          rw [createGame_waiting] at hwp
          exact absurd hwp (List.not_mem_nil _)
      · exact hq
    | cons w1 rest =>
      rw [matchmakingSweep_pair gs now env w0 w1 rest hw]
      obtain ⟨hnd, hidx⟩ := hq
      rw [hw] at hnd hidx
      simp only [List.map_cons, List.nodup_cons, List.mem_cons, List.mem_map, not_or,
        not_exists, not_and] at hnd
      obtain ⟨⟨_, h0⟩, h1, hrest⟩ := hnd
      refine ⟨?_, ?_⟩
      · rw [createGame_waiting]
        exact hrest
      · intro wp hwp
        rw [createGame_waiting] at hwp
        have hwp' : wp ∈ rest := hwp
        rw [createGame_playerGames]
        show mapGet (mapInsert (mapInsert gs.playerGames w0.Username env.gameID) w1.Username
          env.gameID) wp.Username = none
        rw [mapGet_mapInsert, if_neg (fun e => h1 wp hwp' e), mapGet_mapInsert,
          if_neg (fun e => h0 wp hwp' e)]
        exact hidx wp (List.mem_cons_of_mem _ (List.mem_cons_of_mem _ hwp'))

/-- In every reachable registry no name is twice in the waiting queue and no
waiting name has an entry in the username index. -/
theorem reachable_queueSound (gs : GameServer) (h : RegistryReachable gs) : QueueSound gs := by
  induction h with
  | init database kafka =>
    exact ⟨List.nodup_nil, fun wp hwp => absurd hwp (List.not_mem_nil _)⟩
  | join gs gs' conn u now eff _ hres ih => exact handleJoin_queueSound gs gs' conn u now eff ih hres
  | sweep gs gs' now env eff _ hres ih =>
    have := matchmakingSweep_queueSound gs now env ih
    rw [hres] at this
    exact this
  | move gs gs' game col p env eff _ hres ih =>
    obtain ⟨hw, hidx⟩ := handleMove_frame gs gs' game col p env eff hres
    exact queueSound_of_frame gs gs' ih hw hidx
  | cleanup gs gs' now t eff _ hres ih =>
    obtain ⟨hw, hidx⟩ := cleanupEntries_frame now t gs.games gs gs' eff hres
    exact queueSound_of_frame gs gs' ih hw hidx
  | disconnect gs gs' u now eff _ hres ih =>
    obtain ⟨hw, hpg⟩ := handleDisconnect_frame gs gs' u now eff hres
    exact queueSound_of_frame gs gs' ih hw (fun k hk => by rw [hpg]; exact hk)
  | reconnect gs gs' conn u now eff _ hres ih =>
    obtain ⟨hw, hpg⟩ := handleReconnect_frame gs gs' conn u now eff hres
    exact queueSound_of_frame gs gs' ih hw (fun k hk => by rw [hpg]; exact hk)

theorem reachable_of_joinSweep (gs : GameServer) (h : JoinSweepReachable gs) :
    RegistryReachable gs := by
  induction h with
  | init database kafka => exact RegistryReachable.init database kafka
  | join gs gs' conn u now eff _ hres ih =>
    exact RegistryReachable.join gs gs' conn u now eff ih hres
  | sweep gs gs' now env eff _ hres ih =>
    exact RegistryReachable.sweep gs gs' now env eff ih hres

set_option maxRecDepth 100000 in
/-- The sample registry `waitingServer` is reached by the joins of `alice` and
`bob`, a matchmaking sweep that pairs them, and the join of `carol`. -/
theorem waitingServer_reachable : RegistryReachable waitingServer := by
  have s0 := RegistryReachable.init true true
  have s1 := RegistryReachable.join (NewGameServer true true)
    { NewGameServer true true with waitingPlayers := [samplePlayer "alice" 0 1] }
    1 "alice" 0 [Effect.write 1 (Message.waiting "Waiting for opponent...")] s0 (by decide)
  have s2 := RegistryReachable.join _
    { NewGameServer true true with
      waitingPlayers := [samplePlayer "alice" 0 1, samplePlayer "bob" 0 2] }
    2 "bob" 0 [Effect.write 2 (Message.waiting "Waiting for opponent...")] s1 (by decide)
  have s3 := RegistryReachable.sweep _ sampleServer 5 ⟨"g1", 0, 0, 0, 0⟩
    (matchmakingSweep { NewGameServer true true with
      waitingPlayers := [samplePlayer "alice" 0 1, samplePlayer "bob" 0 2] } 5
      ⟨"g1", 0, 0, 0, 0⟩).2 s2 (by decide)
  exact RegistryReachable.join sampleServer waitingServer 3 "carol" 0
    [Effect.write 3 (Message.waiting "Waiting for opponent...")] s3 (by decide)

/-- Claim C17. Duplicate joins are idempotent. In every registry state, a join
by a valid name that already maps to a Playing game is handled as
`reconnectPlayer` for that game: it adds no waiting seat and allocates no game,
and the games map and the username index stay as they were. In every registry
state reached from the empty registry (through joins, matchmaking sweeps,
moves, cleanup sweeps, disconnects and reconnects), a join by a name already
in the waiting queue returns the registry as it was, so the waiting queue, the
games map and the username index are unchanged, and a valid name is sent
nothing: a waiting name has no entry in the username index. In a registry
state of any kind such a join leaves the waiting queue and the games map
unchanged, and the username index too unless it holds a stale entry for the
name. No username is twice in the waiting queue, in every registry state
reached through joins and matchmaking sweeps and in every reachable state. -/
theorem duplicate_join_idempotent :
    (∀ (gs gs' : GameServer) (conn : Nat) (u : String) (now : Time) (eff : List Effect)
        (gameID : String) (ptr : GamePtr) (g : Game),
      ValidName u → mapGet gs.playerGames u = some gameID →
      mapGet gs.games gameID = some ptr → gs.objects.get? ptr = some g →
      g.Status = "playing" →
      handleJoin gs conn u now = reconnectPlayer gs ptr u conn now ∧
        (handleJoin gs conn u now = some (gs', eff) →
          gs'.waitingPlayers = gs.waitingPlayers ∧ gs'.games = gs.games ∧
            gs'.playerGames = gs.playerGames ∧ gs'.objects.length = gs.objects.length)) ∧
    (∀ (gs gs' : GameServer) (conn : Nat) (u : String) (now : Time) (eff : List Effect),
      RegistryReachable gs → (∃ wp ∈ gs.waitingPlayers, wp.Username = u) →
      handleJoin gs conn u now = some (gs', eff) →
      gs'.waitingPlayers = gs.waitingPlayers ∧ gs'.games = gs.games ∧
        gs'.playerGames = gs.playerGames ∧ gs' = gs ∧ (ValidName u → eff = [])) ∧
    (∀ (gs gs' : GameServer) (conn : Nat) (u : String) (now : Time) (eff : List Effect),
      (∃ wp ∈ gs.waitingPlayers, wp.Username = u) →
      handleJoin gs conn u now = some (gs', eff) →
      gs'.waitingPlayers = gs.waitingPlayers ∧ gs'.games = gs.games ∧
        (¬StaleEntry gs u → gs'.playerGames = gs.playerGames)) ∧
    (∀ gs : GameServer, JoinSweepReachable gs →
      (gs.waitingPlayers.map fun wp => wp.Username).Nodup) ∧
    (∀ gs : GameServer, RegistryReachable gs →
      (gs.waitingPlayers.map fun wp => wp.Username).Nodup ∧
        ∀ wp ∈ gs.waitingPlayers, mapGet gs.playerGames wp.Username = none) := by
  refine ⟨?_, ?_, ?_, reachable_waiting_nodup, reachable_queueSound⟩
  · intro gs gs' conn u now eff gameID ptr g hvalid h1 h2 h3 hst
    exact join_of_playing gs gs' conn u now eff gameID ptr g
      ((isValidUsername_iff u).2 hvalid) h1 h2 h3 hst
  · intro gs gs' conn u now eff hreach hwait hres
    obtain ⟨wp, hwp, hname⟩ := hwait
    have hnone : mapGet gs.playerGames u = none := by
      rw [← hname]
      exact (reachable_queueSound gs hreach).2 wp hwp
    obtain ⟨_, _, _, _, _, f⟩ := join_of_waiting gs gs' conn u now eff ⟨wp, hwp, hname⟩ hres
    obtain ⟨e, heff⟩ := f hnone
    subst e
    exact ⟨rfl, rfl, rfl, rfl, fun hvalid => heff ((isValidUsername_iff u).2 hvalid)⟩
  · intro gs gs' conn u now eff hwait hres
    obtain ⟨a, b, _, d, _, _⟩ := join_of_waiting gs gs' conn u now eff hwait hres
    exact ⟨a, b, d⟩

/-- Claim C17 on the reachable registry `waitingServer`: `carol` waits and
joins again, and the registry is returned as it was with nothing sent; `alice`
plays and joins again, and is reconnected to her game. -/
theorem duplicate_join_idempotent_witness :
    RegistryReachable waitingServer ∧
    (∃ wp ∈ waitingServer.waitingPlayers, wp.Username = "carol") ∧
    handleJoin waitingServer 9 "carol" 5 = some (waitingServer, []) ∧
    (waitingServer.waitingPlayers = waitingServer.waitingPlayers ∧
      waitingServer.games = waitingServer.games ∧
      waitingServer.playerGames = waitingServer.playerGames ∧
      waitingServer = waitingServer ∧ (ValidName "carol" → ([] : List Effect) = [])) ∧
    (handleJoin waitingServer 9 "alice" 5).map (fun r => r.1.waitingPlayers) =
      some waitingServer.waitingPlayers ∧
    (handleJoin waitingServer 9 "alice" 5).map (fun r => r.2) =
      some [Effect.write 9 (Message.reconnected "g1" Player1 (getGameState startedGame))] :=
  ⟨waitingServer_reachable, by decide, by decide,
    duplicate_join_idempotent.2.1 waitingServer waitingServer 9 "carol" 5 []
      waitingServer_reachable (by decide) (by decide),
    by decide, by decide⟩

/-! ## The search tier on the boards of play -/

/-- Claim C28. Let `g` be a game state reached from a newly started game
(accepted moves, seat changes) that is still playing, and let `game` carry the
board of `g`: the game object the move oracle is given. When the board has at
least one legal move and neither the bot nor the opponent wins with its next
drop, `GetBestMove` returns a legal column `c` whose search score is the
maximum over the legal columns and strictly above the score of every legal
column with a smaller index. The search score of a column is the value of
plain minimax at depth 5 after the bot's drop there, the opponent to move; it
is also what `minimax` returns there for the full window. Every legal column
scores above the sentinel `MinInt32`, so the first column tried always
replaces the default middle column, which is returned only when it is itself
the first best. -/
theorem search_tier_first_best (bot : Bot) (g : Game) (ended : Option Time) (game : Game)
    (hbot : bot.PlayerNum = Player1 ∨ bot.PlayerNum = Player2)
    (hreach : GameReachable g ended) (hplay : g.Status = "playing")
    (hboard : game.Board = g.Board) (hmoves : GetValidMoves game.Board ≠ [])
    (hnowin : ∀ c : Fin 7, ¬DropWins game.Board c bot.PlayerNum)
    (hnoloss : ∀ c : Fin 7,
      ¬DropWins game.Board c (if bot.PlayerNum = Player1 then Player2 else Player1)) :
    ∃ c ∈ GetValidMoves game.Board, (GetBestMove bot game).2 = ((c : Nat) : Int) ∧
      (∀ c' ∈ GetValidMoves game.Board, searchScore bot game c' ≤ searchScore bot game c) ∧
      (∀ c' ∈ GetValidMoves game.Board, c' < c →
        searchScore bot game c' < searchScore bot game c) ∧
      (∀ c' ∈ GetValidMoves game.Board, MinInt32 < searchScore bot game c' ∧
        ∃ row, getLowestRow game c' = some row ∧
          (minimax bot (if bot.PlayerNum = Player1 then Player2 else Player1) 5
            (game.setCell row c' bot.PlayerNum) false MinInt32 MaxInt32).2 =
            searchScore bot game c') := by
  have hnf : NoFour game.Board := by
    rw [hboard]
    exact reachable_noFour g ended hreach hplay
  have hmin : MinInt32 = -2147483648 := rfl
  have hopp : (if bot.PlayerNum = Player1 then Player2 else Player1) = Player1 ∨
      (if bot.PlayerNum = Player1 then Player2 else Player1) = Player2 := by
    rcases hbot with h | h <;> rw [h] <;> decide
  have hsim : ∀ c : Fin 7, simWins game bot.PlayerNum c = false := by
    intro c
    cases h : simWins game bot.PlayerNum c with
    | false => rfl
    | true => exact absurd ((simWins_iff game _ c hbot).1 h) (hnowin c)
  have hsim' : ∀ c : Fin 7,
      simWins game (if bot.PlayerNum = Player1 then Player2 else Player1) c = false := by
    intro c
    cases h : simWins game (if bot.PlayerNum = Player1 then Player2 else Player1) c with
    | false => rfl
    | true => exact absurd ((simWins_iff game _ c hopp).1 h) (hnoloss c)
  have hlen : ¬(GetValidMoves game.Board).length = 0 :=
    fun h => hmoves (List.length_eq_zero.1 h)
  have h1 : (GetValidMoves game.Board).find? (simWins game bot.PlayerNum) = none := by
    rw [List.find?_eq_none]
    intro c _
    rw [hsim c]
    decide
  have h2 : (GetValidMoves game.Board).find?
      (simWins game (if bot.PlayerNum = Player1 then Player2 else Player1)) = none := by
    rw [List.find?_eq_none]
    intro c _
    rw [hsim' c]
    decide
  have hfacts := fun c hc => searchScore_facts bot game c hbot hnf hc (hsim c)
  rw [GetBestMove_search bot game hlen h1 h2]
  rcases searchLoop_first_best bot hbot (GetValidMoves game.Board) game MinInt32
      ((GetValidMoves game.Board).get ⟨(GetValidMoves game.Board).length / 2,
        Nat.div_lt_self (by omega) (by omega)⟩) hnf
      (fun c hc => ⟨validMove_has_row game c hc, hsim c⟩) (le_refl _) (by omega) with
    ⟨_, hall⟩ | ⟨l1, c, l2, hl, e, _, ha, hb⟩
  · exfalso
    obtain ⟨c, hc, _⟩ := validMoves_have_row game hlen
    have := hall c hc
    have := (hfacts c hc).1
    omega
  · have hc : c ∈ GetValidMoves game.Board := by rw [hl]; simp
    have hsorted := GetValidMoves_sorted game.Board
    rw [hl, List.pairwise_append] at hsorted
    obtain ⟨_, hcl2, _⟩ := hsorted
    rw [List.pairwise_cons] at hcl2
    refine ⟨c, hc, by rw [e], ?_, ?_, fun c' hc' => ⟨(hfacts c' hc').1, (hfacts c' hc').2.2⟩⟩
    · intro c' hc'
      rw [hl, List.mem_append, List.mem_cons] at hc'
      rcases hc' with h | rfl | h
      · exact le_of_lt (ha c' h)
      · exact le_refl _
      · exact hb c' h
    · intro c' hc' hlt
      rw [hl, List.mem_append, List.mem_cons] at hc'
      rcases hc' with h | rfl | h
      · exact ha c' h
      · exact absurd hlt (lt_irrefl _)
      · exact absurd (hcl2.1 c' h) (not_lt_of_gt hlt)

set_option maxRecDepth 1000000 in
/-- Claim C28 on the started game after the first 37 calls of `drawMoves`, for
the bot on SeatB, whose turn it is: the legal columns are 0, 5 and 6, neither
seat wins with its next drop, the bot's drops score 0, 9997 and 0, and
`GetBestMove` returns column 5. -/
theorem search_tier_first_best_witness :
    allAccepted startedGame (drawMoves.take 37) = true ∧
    (runMoves startedGame (drawMoves.take 37)).Status = "playing" ∧
    (runMoves startedGame (drawMoves.take 37)).CurrentTurn = Player2 ∧
    GetValidMoves (runMoves startedGame (drawMoves.take 37)).Board = [0, 5, 6] ∧
    searchScore (NewBot Player2) (runMoves startedGame (drawMoves.take 37)) 0 = 0 ∧
    searchScore (NewBot Player2) (runMoves startedGame (drawMoves.take 37)) 5 = 9997 ∧
    searchScore (NewBot Player2) (runMoves startedGame (drawMoves.take 37)) 6 = 0 ∧
    (GetBestMove (NewBot Player2) (runMoves startedGame (drawMoves.take 37))).2 = 5 ∧
    ∃ c ∈ GetValidMoves (runMoves startedGame (drawMoves.take 37)).Board,
      (GetBestMove (NewBot Player2) (runMoves startedGame (drawMoves.take 37))).2 =
        ((c : Nat) : Int) ∧
      (∀ c' ∈ GetValidMoves (runMoves startedGame (drawMoves.take 37)).Board,
        searchScore (NewBot Player2) (runMoves startedGame (drawMoves.take 37)) c' ≤
          searchScore (NewBot Player2) (runMoves startedGame (drawMoves.take 37)) c) ∧
      (∀ c' ∈ GetValidMoves (runMoves startedGame (drawMoves.take 37)).Board, c' < c →
        searchScore (NewBot Player2) (runMoves startedGame (drawMoves.take 37)) c' <
          searchScore (NewBot Player2) (runMoves startedGame (drawMoves.take 37)) c) := by
  have hs1 : ∀ c : Fin 7,
      ¬simWins (runMoves startedGame (drawMoves.take 37)) Player2 c = true := by decide
  have hs2 : ∀ c : Fin 7,
      ¬simWins (runMoves startedGame (drawMoves.take 37)) Player1 c = true := by decide
  obtain ⟨ended, hreach⟩ := reachable_runMoves (drawMoves.take 37) startedGame none
    (GameReachable.start startedGame startedGame_newlyStarted) (by decide)
  obtain ⟨c, hc, e, h1, h2, _⟩ := search_tier_first_best (NewBot Player2)
    (runMoves startedGame (drawMoves.take 37)) ended
    (runMoves startedGame (drawMoves.take 37)) (Or.inr rfl) hreach (by decide) rfl
    (by decide)
    (fun c h => hs1 c
      ((simWins_iff (runMoves startedGame (drawMoves.take 37)) Player2 c (Or.inr rfl)).2 h))
    (fun c h => hs2 c
      ((simWins_iff (runMoves startedGame (drawMoves.take 37)) Player1 c (Or.inl rfl)).2 h))
  exact ⟨by decide, by decide, by decide, by decide, by decide!, by decide!, by decide!,
    by decide!, c, hc, e, h1, h2⟩

end FourInRow
